import Mathlib

/-!
Anti-Grain Geometry 2.4: `rasterizer_cells_aa`.

A shallow embedding of `include/agg_rasterizer_cells_aa.h` and the properties of its
cell decomposition (`render_hline`, `render_line`) and of its sort stage (`sort_cells`,
`qsort_cells`).

Conventions of the embedding.

* `int` values are modelled by `Int`, `unsigned` values by `Nat`; the theorems that need
  it carry the coordinate envelope under which no 32-bit operation overflows.
* `x >> poly_base_shift` on a two's complement `int` is the floor division by 256 and
  `x & poly_base_mask` is the non-negative remainder modulo 256.
* The C++ operators `/` and `%` truncate towards zero: `Int.tdiv` and `Int.tmod`.
* The arena (`m_cells`, a directory of blocks of 4096 cells, written through
  `m_cur_cell_ptr`) is modelled by the list of the cells it holds in insertion order:
  cell number `k` is slot `k & cell_block_mask` of block `k >> cell_block_shift`.
  A pointer to a cell is its number `k`.  The block counters `m_num_blocks`,
  `m_max_blocks` and `m_cur_block`, which decide saturation, are kept as they are.
* Loops and the recursion of `render_line` take a fuel argument and return `none`
  when it runs out; the public operations supply a fuel that is proved sufficient.
-/

namespace Agg

/-! ## Constants -/

/-- The enumerator `poly_base_shift`. -/
def poly_base_shift : Nat := 8
/-- The enumerator `poly_base_size = 1 << poly_base_shift`. -/
def poly_base_size : Int := 256
/-- The enumerator `poly_base_mask = poly_base_size - 1`. -/
def poly_base_mask : Int := 255
/-- The enumerator `cell_block_shift`. -/
def cell_block_shift : Nat := 12
/-- The enumerator `cell_block_size = 1 << cell_block_shift`. -/
def cell_block_size : Nat := 4096
/-- The enumerator `cell_block_mask = cell_block_size - 1`. -/
def cell_block_mask : Nat := 4095
/-- The enumerator `cell_block_pool`. -/
def cell_block_pool : Nat := 256
/-- The enumerator `cell_block_limit`. -/
def cell_block_limit : Nat := 1024
/-- The enumerator `dx_limit = 16384 << poly_base_shift` of `render_line`. -/
def dx_limit : Int := 4194304
/-- The enumerator `qsort_threshold`. -/
def qsort_threshold : Int := 9

/-- The expression `v >> poly_base_shift` on an `int`: the arithmetic shift. -/
def shr_base (v : Int) : Int := v / poly_base_size

/-- The expression `v & poly_base_mask` on an `int`: the low eight bits. -/
def and_mask (v : Int) : Int := v % poly_base_size

/-! ## Data model -/

/-- The template parameter `Cell`: the four fields the rasterizer reads and writes, and
the fields it never touches, gathered in `aux`. -/
structure Cell (α : Type) where
  x : Int
  y : Int
  cover : Int
  area : Int
  aux : α
deriving DecidableEq, Repr

/-- The struct `sorted_y`. -/
structure sorted_y where
  start : Nat
  num : Nat
deriving DecidableEq, Repr

/-- The data members of `rasterizer_cells_aa<Cell>`. -/
structure State (α : Type) where
  m_num_blocks : Nat
  m_max_blocks : Nat
  m_cur_block : Nat
  m_num_cells : Nat
  m_cells : List (Cell α)
  m_sorted_cells : List Nat
  m_sorted_y : List sorted_y
  m_cur_cell : Cell α
  m_seed_cell : Cell α
  m_cur_x : Int
  m_cur_y : Int
  m_min_x : Int
  m_min_y : Int
  m_max_x : Int
  m_max_y : Int
  m_sorted : Bool
deriving DecidableEq, Repr

variable {α : Type}

/-- The constructor `rasterizer_cells_aa()`; `init` is the cell that `Cell::initial()`
produces, which belongs to the embedder's cell type. -/
def fresh (init : Cell α) : State α :=
  { m_num_blocks := 0
    m_max_blocks := 0
    m_cur_block := 0
    m_num_cells := 0
    m_cells := []
    m_sorted_cells := []
    m_sorted_y := []
    m_cur_cell := init
    m_seed_cell := init
    m_cur_x := 0
    m_cur_y := 0
    m_min_x := 0x7FFFFFFF
    m_min_y := 0x7FFFFFFF
    m_max_x := -0x7FFFFFFF
    m_max_y := -0x7FFFFFFF
    m_sorted := false }

/-- The method `reset()`.  Setting `m_num_cells` and `m_cur_block` to zero makes the next
write go to the first slot of block 0: the arena holds no cell. -/
def reset (s : State α) : State α :=
  { s with
    m_num_cells := 0
    m_cur_block := 0
    m_cells := []
    m_cur_cell := s.m_seed_cell
    m_sorted := false
    m_min_x := 0x7FFFFFFF
    m_min_y := 0x7FFFFFFF
    m_max_x := -0x7FFFFFFF
    m_max_y := -0x7FFFFFFF }

/-- The method `seed_cell(seed)`. -/
def seed_cell (s : State α) (seed : Cell α) : State α :=
  { s with m_seed_cell := seed }

/-- The method `allocate_block()`: takes the next block of the directory, allocating
one (and growing the directory by `cell_block_pool`) when none is left. -/
def allocate_block (s : State α) : State α :=
  let s :=
    if s.m_cur_block ≥ s.m_num_blocks then
      let s :=
        if s.m_num_blocks ≥ s.m_max_blocks then
          { s with m_max_blocks := s.m_max_blocks + cell_block_pool }
        else s
      { s with m_num_blocks := s.m_num_blocks + 1 }
    else s
  { s with m_cur_block := s.m_cur_block + 1 }

/-- The tail of `add_cur_cell()`: `*m_cur_cell_ptr++ = m_cur_cell; ++m_num_cells;` and
the four updates of the bounding box. -/
def store_cur_cell (s : State α) : State α :=
  { s with
    m_cells := s.m_cells ++ [s.m_cur_cell]
    m_num_cells := s.m_num_cells + 1
    m_min_x := if s.m_cur_cell.x < s.m_min_x then s.m_cur_cell.x else s.m_min_x
    m_max_x := if s.m_cur_cell.x > s.m_max_x then s.m_cur_cell.x else s.m_max_x
    m_min_y := if s.m_cur_cell.y < s.m_min_y then s.m_cur_cell.y else s.m_min_y
    m_max_y := if s.m_cur_cell.y > s.m_max_y then s.m_cur_cell.y else s.m_max_y }

/-- The method `add_cur_cell()`.  The test `m_cur_cell.area | m_cur_cell.cover` is
non-zero exactly when one of the two fields is. -/
def add_cur_cell (s : State α) : State α :=
  if s.m_cur_cell.area ≠ 0 ∨ s.m_cur_cell.cover ≠ 0 then
    if s.m_num_cells &&& cell_block_mask = 0 then
      if s.m_num_blocks ≥ cell_block_limit then s
      else store_cur_cell (allocate_block s)
    else store_cur_cell s
  else s

/-- The method `set_cur_cell(x, y)`. -/
def set_cur_cell (s : State α) (x y : Int) : State α :=
  if s.m_cur_cell.x ≠ x ∨ s.m_cur_cell.y ≠ y then
    let s := add_cur_cell s
    { s with m_cur_cell := { s.m_cur_cell with x := x, y := y, cover := 0, area := 0 } }
  else s

/-- The statements `m_cur_cell.cover += dc; m_cur_cell.area += da;`. -/
def acc_add (s : State α) (dc da : Int) : State α :=
  { s with m_cur_cell :=
      { s.m_cur_cell with cover := s.m_cur_cell.cover + dc, area := s.m_cur_cell.area + da } }

/-- The statements `m_cur_cell.cover = c; m_cur_cell.area = a;`. -/
def acc_put (s : State α) (c a : Int) : State α :=
  { s with m_cur_cell := { s.m_cur_cell with cover := c, area := a } }

/-- The idiom `q = p / d; r = p % d; if(r < 0) { q--; r += d; }` of both DDA loops. -/
def div_mod_adjust (p d : Int) : Int × Int :=
  let q := Int.tdiv p d
  let r := Int.tmod p d
  if r < 0 then (q - 1, r + d) else (q, r)

/-- The loop `while (ex1 != ex2)` of `render_hline`; returns the state and `y1`. -/
def render_hline_loop (ey ex2 incr dx lift rem : Int) :
    Nat → State α → Int → Int → Int → Option (State α × Int)
  | 0, s, ex1, y1, _ => if ex1 = ex2 then some (s, y1) else none
  | fuel + 1, s, ex1, y1, mod =>
    if ex1 = ex2 then some (s, y1)
    else
      let delta := lift
      let mod := mod + rem
      let delta := if mod ≥ 0 then delta + 1 else delta
      let mod := if mod ≥ 0 then mod - dx else mod
      let s := acc_add s delta (poly_base_size * delta)
      let y1 := y1 + delta
      let ex1 := ex1 + incr
      let s := set_cur_cell s ex1 ey
      render_hline_loop ey ex2 incr dx lift rem fuel s ex1 y1 mod

/-- The method `render_hline(ey, x1, y1, x2, y2)`. -/
def render_hline (s : State α) (ey x1 y1 x2 y2 : Int) : Option (State α) :=
  let ex1 := shr_base x1
  let ex2 := shr_base x2
  let fx1 := and_mask x1
  let fx2 := and_mask x2
  if y1 = y2 then some (set_cur_cell s ex2 ey)
  else if ex1 = ex2 then
    let delta := y2 - y1
    some (acc_add s delta ((fx1 + fx2) * delta))
  else
    let dx := x2 - x1
    let p := if dx < 0 then fx1 * (y2 - y1) else (poly_base_size - fx1) * (y2 - y1)
    let first := if dx < 0 then 0 else poly_base_size
    let incr : Int := if dx < 0 then -1 else 1
    let dx := if dx < 0 then -dx else dx
    let delta := (div_mod_adjust p dx).1
    let mod := (div_mod_adjust p dx).2
    let s := acc_add s delta ((fx1 + first) * delta)
    let ex1 := ex1 + incr
    let s := set_cur_cell s ex1 ey
    let y1 := y1 + delta
    let r :=
      if ex1 ≠ ex2 then
        let p := poly_base_size * (y2 - y1 + delta)
        let lift := (div_mod_adjust p dx).1
        let rem := (div_mod_adjust p dx).2
        let mod := mod - dx
        render_hline_loop ey ex2 incr dx lift rem (ex2 - ex1).natAbs s ex1 y1 mod
      else some (s, y1)
    match r with
    | none => none
    | some r =>
      let delta := y2 - r.2
      some (acc_add r.1 delta ((fx2 + poly_base_size - first) * delta))

/-- The loop `while(ey1 != ey2)` of the vertical branch of `render_line`. -/
def render_line_vloop (ex ey2 incr delta area : Int) :
    Nat → State α → Int → Option (State α)
  | 0, s, ey1 => if ey1 = ey2 then some s else none
  | fuel + 1, s, ey1 =>
    if ey1 = ey2 then some s
    else
      let s := acc_put s delta area
      let ey1 := ey1 + incr
      let s := set_cur_cell s ex ey1
      render_line_vloop ex ey2 incr delta area fuel s ey1

/-- The loop `while(ey1 != ey2)` of the general branch of `render_line`; returns the
state, `ey1` and `x_from`. -/
def render_line_loop (ey2 incr dy lift rem first : Int) :
    Nat → State α → Int → Int → Int → Option (State α × Int × Int)
  | 0, s, ey1, x_from, _ => if ey1 = ey2 then some (s, ey1, x_from) else none
  | fuel + 1, s, ey1, x_from, mod =>
    if ey1 = ey2 then some (s, ey1, x_from)
    else
      let delta := lift
      let mod := mod + rem
      let delta := if mod ≥ 0 then delta + 1 else delta
      let mod := if mod ≥ 0 then mod - dy else mod
      let x_to := x_from + delta
      match render_hline s ey1 x_from (poly_base_size - first) x_to first with
      | none => none
      | some s =>
        let x_from := x_to
        let ey1 := ey1 + incr
        let s := set_cur_cell s (shr_base x_from) ey1
        render_line_loop ey2 incr dy lift rem first fuel s ey1 x_from mod

/-- The body of `render_line(x1, y1, x2, y2)` below the `dx_limit` block.  The `int` of
the source is an unbounded integer here: the products `p` are those of the source as long
as they fit 32 bits, which they do for `|x2 - x1| < 2^23`, so inside the numeric
envelope. -/
def render_line_body (s : State α) (x1 y1 x2 y2 : Int) : Option (State α) :=
  let dx := x2 - x1
  let dy := y2 - y1
  let ey1 := shr_base y1
  let ey2 := shr_base y2
  let fy1 := and_mask y1
  let fy2 := and_mask y2
  if ey1 = ey2 then render_hline s ey1 x1 fy1 x2 fy2
  else if dx = 0 then
    let ex := shr_base x1
    let two_fx := (x1 - ex * poly_base_size) * 2
    let first := if dy < 0 then 0 else poly_base_size
    let incr : Int := if dy < 0 then -1 else 1
    let delta := first - fy1
    let s := acc_add s delta (two_fx * delta)
    let ey1 := ey1 + incr
    let s := set_cur_cell s ex ey1
    let delta := first + first - poly_base_size
    let area := two_fx * delta
    match render_line_vloop ex ey2 incr delta area (ey2 - ey1).natAbs s ey1 with
    | none => none
    | some s =>
      let delta := fy2 - poly_base_size + first
      some (acc_add s delta (two_fx * delta))
  else
    let p := if dy < 0 then fy1 * dx else (poly_base_size - fy1) * dx
    let first := if dy < 0 then 0 else poly_base_size
    let incr : Int := if dy < 0 then -1 else 1
    let dy := if dy < 0 then -dy else dy
    let delta := (div_mod_adjust p dy).1
    let mod := (div_mod_adjust p dy).2
    let x_from := x1 + delta
    match render_hline s ey1 x1 fy1 x_from first with
    | none => none
    | some s =>
      let ey1 := ey1 + incr
      let s := set_cur_cell s (shr_base x_from) ey1
      let r :=
        if ey1 ≠ ey2 then
          let p := poly_base_size * dx
          let lift := (div_mod_adjust p dy).1
          let rem := (div_mod_adjust p dy).2
          let mod := mod - dy
          render_line_loop ey2 incr dy lift rem first (ey2 - ey1).natAbs s ey1 x_from mod
        else some (s, ey1, x_from)
      match r with
      | none => none
      | some r => render_hline r.1 r.2.1 r.2.2 (poly_base_size - first) x2 fy2

/-- The method `render_line(x1, y1, x2, y2)`.  After the two recursive calls of the
`dx_limit` block the source has no `return`: control falls through to the body.  The `int`
of the source is an unbounded integer here: `x2 - x1` and `x1 + x2` are those of the source
as long as they fit 32 bits, which they do inside the numeric envelope; outside it the
sum of the source can overflow and its bisection need not end, while this one does. -/
def render_line : Nat → State α → Int → Int → Int → Int → Option (State α)
  | 0, s, x1, y1, x2, y2 =>
    let dx := x2 - x1
    if dx ≥ dx_limit ∨ dx ≤ -dx_limit then none
    else render_line_body s x1 y1 x2 y2
  | fuel + 1, s, x1, y1, x2, y2 =>
    let dx := x2 - x1
    if dx ≥ dx_limit ∨ dx ≤ -dx_limit then
      let cx := (x1 + x2) / 2
      let cy := (y1 + y2) / 2
      match render_line fuel s x1 y1 cx cy with
      | none => none
      | some s =>
        match render_line fuel s cx cy x2 y2 with
        | none => none
        | some s => render_line_body s x1 y1 x2 y2
    else render_line_body s x1 y1 x2 y2

/-- The method `move_to(x, y)`. -/
def move_to [DecidableEq α] (s : State α) (x y : Int) : State α :=
  let s := if s.m_sorted then reset s else s
  let ex := shr_base x
  let ey := shr_base y
  let s :=
    if s.m_cur_cell.x ≠ ex ∨ s.m_cur_cell.y ≠ ey ∨ s.m_cur_cell ≠ s.m_seed_cell then
      let s := add_cur_cell s
      { s with m_cur_cell := { s.m_seed_cell with x := ex, y := ey, cover := 0, area := 0 } }
    else s
  { s with m_cur_x := x, m_cur_y := y }

/-- The method `line_to(x, y)`.  The recursion of `render_line` halves `|dx|`, so
`|dx|` levels are more than it can use. -/
def line_to (s : State α) (x y : Int) : Option (State α) :=
  match render_line (x - s.m_cur_x).natAbs s s.m_cur_x s.m_cur_y x y with
  | none => none
  | some s => some { s with m_cur_x := x, m_cur_y := y, m_sorted := false }

/-! ## The sort stage -/

/-- A read `*p` of a pointer slot; `lo` and `hi` bound the array the function was
given (`start` and `start + num`): a read outside it has no result. -/
def rd (a : List Nat) (lo hi p : Int) : Option Nat :=
  if lo ≤ p ∧ p < hi then a[p.toNat]? else none

/-- A write `*p = v` of a pointer slot, with the same bounds. -/
def wr (a : List Nat) (lo hi p : Int) (v : Nat) : Option (List Nat) :=
  if lo ≤ p ∧ p < hi ∧ p.toNat < a.length then some (a.set p.toNat v) else none

/-- The expression `(*p)->x`: reads the slot, then the cell it points to. -/
def rd_x (key : Nat → Option Int) (a : List Nat) (lo hi p : Int) : Option Int :=
  match rd a lo hi p with
  | none => none
  | some c => key c

/-- The function `swap_cells(a, b)`. -/
def swap_cells (m : List Nat) (lo hi a b : Int) : Option (List Nat) :=
  match rd m lo hi a, rd m lo hi b with
  | some va, some vb =>
    match wr m lo hi a vb with
    | some m => wr m lo hi b va
    | none => none
  | _, _ => none

/-- The loop `do i++; while( (*i)->x < x );` of `qsort_cells`. -/
def qsort_scan_up (key : Nat → Option Int) (a : List Nat) (lo hi x : Int) :
    Nat → Int → Option Int
  | 0, _ => none
  | fuel + 1, i =>
    let i := i + 1
    match rd_x key a lo hi i with
    | none => none
    | some k => if k < x then qsort_scan_up key a lo hi x fuel i else some i

/-- The loop `do j--; while( x < (*j)->x );` of `qsort_cells`. -/
def qsort_scan_down (key : Nat → Option Int) (a : List Nat) (lo hi x : Int) :
    Nat → Int → Option Int
  | 0, _ => none
  | fuel + 1, j =>
    let j := j - 1
    match rd_x key a lo hi j with
    | none => none
    | some k => if x < k then qsort_scan_down key a lo hi x fuel j else some j

/-- The inner `for(;;)` of `qsort_cells` (the partition); returns the array, `i` and
`j`. -/
def qsort_partition (key : Nat → Option Int) (lo hi base : Int) :
    Nat → List Nat → Int → Int → Option (List Nat × Int × Int)
  | 0, _, _, _ => none
  | fuel + 1, a, i, j =>
    match rd_x key a lo hi base with
    | none => none
    | some x =>
      match qsort_scan_up key a lo hi x (hi - lo).toNat i with
      | none => none
      | some i =>
        match qsort_scan_down key a lo hi x (hi - lo).toNat j with
        | none => none
        | some j =>
          if i > j then some (a, i, j)
          else
            match swap_cells a lo hi i j with
            | none => none
            | some a => qsort_partition key lo hi base fuel a i j

/-- The loop `for(; j[1]->x < (*j)->x; j--)` of the insertion sort. -/
def qsort_insert (key : Nat → Option Int) (lo hi base : Int) :
    Nat → List Nat → Int → Option (List Nat)
  | 0, _, _ => none
  | fuel + 1, a, j =>
    match rd_x key a lo hi (j + 1), rd_x key a lo hi j with
    | some k1, some k0 =>
      if k1 < k0 then
        match swap_cells a lo hi (j + 1) j with
        | none => none
        | some a => if j = base then some a else qsort_insert key lo hi base fuel a (j - 1)
      else some a
    | _, _ => none

/-- The loop `for(; i < limit; j = i, i++)` of the insertion sort. -/
def qsort_insertion (key : Nat → Option Int) (lo hi base limit : Int) :
    Nat → List Nat → Int → Int → Option (List Nat)
  | 0, a, _, i => if i < limit then none else some a
  | fuel + 1, a, j, i =>
    if i < limit then
      match qsort_insert key lo hi base (hi - lo).toNat a j with
      | none => none
      | some a => qsort_insertion key lo hi base limit fuel a i (i + 1)
    else some a

/-- The three conditional swaps of `qsort_cells` that bring the median of
`*i`, `*base`, `*j` to `base`. -/
def qsort_median (key : Nat → Option Int) (lo hi base i j : Int) (a : List Nat) :
    Option (List Nat) :=
  match rd_x key a lo hi j, rd_x key a lo hi i with
  | some kj, some ki =>
    match (if kj < ki then swap_cells a lo hi i j else some a) with
    | none => none
    | some a =>
      match rd_x key a lo hi base, rd_x key a lo hi i with
      | some kb, some ki =>
        match (if kb < ki then swap_cells a lo hi base i else some a) with
        | none => none
        | some a =>
          match rd_x key a lo hi j, rd_x key a lo hi base with
          | some kj, some kb => if kj < kb then swap_cells a lo hi base j else some a
          | _, _ => none
      | _, _ => none
  | _, _ => none

/-- The outer `for (;;)` of `qsort_cells`.  The array `stack[80]` holds 40 pairs; a
push beyond it has no result. -/
def qsort_loop (key : Nat → Option Int) (lo hi : Int) :
    Nat → List Nat → Int → Int → List (Int × Int) → Option (List Nat)
  | 0, _, _, _, _ => none
  | fuel + 1, a, base, limit, stack =>
    let len := limit - base
    if len > qsort_threshold then
      let pivot := base + Int.tdiv len 2
      match swap_cells a lo hi base pivot with
      | none => none
      | some a =>
        let i := base + 1
        let j := limit - 1
        match qsort_median key lo hi base i j a with
        | none => none
        | some a =>
          match qsort_partition key lo hi base (hi - lo).toNat a i j with
          | none => none
          | some (a, i, j) =>
            match swap_cells a lo hi base j with
            | none => none
            | some a =>
              if stack.length ≥ 40 then none
              else if j - base > limit - i then
                qsort_loop key lo hi fuel a i limit ((base, j) :: stack)
              else
                qsort_loop key lo hi fuel a base j ((i, limit) :: stack)
    else
      match qsort_insertion key lo hi base limit (hi - lo).toNat a base (base + 1) with
      | none => none
      | some a =>
        match stack with
        | (b, l) :: stack => qsort_loop key lo hi fuel a b l stack
        | [] => some a

/-- The function `qsort_cells(start, num)` on the slots `start .. start + num - 1` of
the pointer array `a`; `key p` is `p->x`. -/
def qsort_cells (key : Nat → Option Int) (a : List Nat) (start num : Nat) :
    Option (List Nat) :=
  qsort_loop key (start : Int) ((start : Int) + num) (2 * num + 1) a start
    ((start : Int) + num) []

/-- An `int` used as an index of a `pod_vector`: a negative one wraps to an `unsigned`
that is beyond every size. -/
def index_of (v : Int) : Option Nat :=
  if 0 ≤ v then some v.toNat else none

/-- The two histogram loops of `sort_cells` (full blocks, then the last block): for
each cell of the arena, `m_sorted_y[cell_ptr->y - m_min_y].start++`. -/
def sort_histogram (cells : List (Cell α)) (min_y : Int) :
    List Nat → List sorted_y → Option (List sorted_y)
  | [], sy => some sy
  | k :: ks, sy =>
    match cells[k]? with
    | none => none
    | some c =>
      match index_of (c.y - min_y) with
      | none => none
      | some r =>
        match sy[r]? with
        | none => none
        | some e => sort_histogram cells min_y ks (sy.set r { e with start := e.start + 1 })

/-- The loop of `sort_cells` that turns the histogram into starting indexes. -/
def sort_starts : Nat → Nat → Nat → List sorted_y → Option (List sorted_y)
  | 0, _, _, sy => some sy
  | n + 1, i, start, sy =>
    match sy[i]? with
    | none => none
    | some e =>
      let v := e.start
      sort_starts n (i + 1) (start + v) (sy.set i { e with start := start })

/-- The two scatter loops of `sort_cells`: for each cell of the arena,
`m_sorted_cells[cur_y.start + cur_y.num] = cell_ptr; ++cur_y.num;`. -/
def sort_scatter (cells : List (Cell α)) (min_y : Int) :
    List Nat → List sorted_y → List Nat → Option (List sorted_y × List Nat)
  | [], sy, sc => some (sy, sc)
  | k :: ks, sy, sc =>
    match cells[k]? with
    | none => none
    | some c =>
      match index_of (c.y - min_y) with
      | none => none
      | some r =>
        match sy[r]? with
        | none => none
        | some cur_y =>
          if cur_y.start + cur_y.num < sc.length then
            sort_scatter cells min_y ks (sy.set r { cur_y with num := cur_y.num + 1 })
              (sc.set (cur_y.start + cur_y.num) k)
          else none

/-- The last loop of `sort_cells`: `qsort_cells` on each row that has cells. -/
def sort_rows (key : Nat → Option Int) (sy : List sorted_y) :
    Nat → Nat → List Nat → Option (List Nat)
  | 0, _, sc => some sc
  | n + 1, i, sc =>
    match sy[i]? with
    | none => none
    | some cur_y =>
      if cur_y.num ≠ 0 then
        match qsort_cells key sc cur_y.start cur_y.num with
        | none => none
        | some sc => sort_rows key sy n (i + 1) sc
      else sort_rows key sy n (i + 1) sc

/-- The method `sort_cells()`.  `allocate` leaves the contents of `m_sorted_cells`
unspecified (zeros here: the scatter writes every slot); `m_sorted_y` is zeroed. -/
def sort_cells (s : State α) : Option (State α) :=
  if s.m_sorted then some s
  else
    let s := add_cur_cell s
    if s.m_num_cells = 0 then some s
    else
      let sc := List.replicate s.m_num_cells 0
      let sy := List.replicate (s.m_max_y - s.m_min_y + 1).toNat (⟨0, 0⟩ : sorted_y)
      match sort_histogram s.m_cells s.m_min_y (List.range s.m_num_cells) sy with
      | none => none
      | some sy =>
        match sort_starts sy.length 0 0 sy with
        | none => none
        | some sy =>
          match sort_scatter s.m_cells s.m_min_y (List.range s.m_num_cells) sy sc with
          | none => none
          | some (sy, sc) =>
            match sort_rows (fun p => (s.m_cells[p]?).map Cell.x) sy sy.length 0 sc with
            | none => none
            | some sc =>
              some { s with m_sorted_cells := sc, m_sorted_y := sy, m_sorted := true }

/-- The method `total_cells()`. -/
def total_cells (s : State α) : Nat := s.m_num_cells

/-- The index `y - m_min_y` of `scanline_num_cells` and `scanline_cells`, computed in
`unsigned` arithmetic. -/
def row_of (s : State α) (y : Nat) : Nat :=
  (((y : Int) - s.m_min_y) % 4294967296).toNat

/-- The method `scanline_num_cells(y)`. -/
def scanline_num_cells (s : State α) (y : Nat) : Option Nat :=
  (s.m_sorted_y[row_of s y]?).map sorted_y.num

/-- The method `scanline_cells(y)`: the position in `m_sorted_cells` of the first
pointer of row `y`. -/
def scanline_cells (s : State α) (y : Nat) : Option Nat :=
  (s.m_sorted_y[row_of s y]?).map sorted_y.start

/-- The cell that `scanline_cells(y)[i]` points to. -/
def scanline_cell (s : State α) (y : Nat) (i : Nat) : Option (Cell α) :=
  match scanline_cells s y with
  | none => none
  | some st =>
    match s.m_sorted_cells[st + i]? with
    | none => none
    | some p => s.m_cells[p]?

/-! ## Vocabulary of the properties -/

/-- The states that the rendering code can produce from `s`: it only assigns to
`m_cur_cell` and calls `add_cur_cell`. -/
inductive Prim : State α → State α → Prop
  | refl (s : State α) : Prim s s
  | acc {s t : State α} (c : Cell α) : Prim s t → Prim s { t with m_cur_cell := c }
  | add {s t : State α} : Prim s t → Prim s (add_cur_cell t)

/-- The states reachable from a freshly constructed instance through the public
mutating operations. -/
inductive Reachable [DecidableEq α] (init : Cell α) : State α → Prop
  | fresh : Reachable init (fresh init)
  | reset {s : State α} : Reachable init s → Reachable init (reset s)
  | seed_cell {s : State α} (c : Cell α) : Reachable init s → Reachable init (seed_cell s c)
  | move_to {s : State α} (x y : Int) : Reachable init s → Reachable init (move_to s x y)
  | line_to {s t : State α} (x y : Int) :
      Reachable init s → line_to s x y = some t → Reachable init t
  | sort_cells {s t : State α} :
      Reachable init s → sort_cells s = some t → Reachable init t

/-- The counters of the arena agree: the list of cells has `m_num_cells` entries, the
block in use is the one the count asks for, it is an allocated block, and no more than
`cell_block_limit` blocks are allocated. -/
def ArenaInv (s : State α) : Prop :=
  s.m_cells.length = s.m_num_cells ∧
  s.m_cur_block ≤ s.m_num_blocks ∧
  s.m_num_blocks ≤ cell_block_limit ∧
  s.m_num_cells ≤ cell_block_size * s.m_cur_block ∧
  cell_block_size * s.m_cur_block < s.m_num_cells + cell_block_size

/-- The bounding box is empty when there is no cell, it contains every committed
cell, and each bound is its initial value or the coordinate of a committed cell. -/
def BoxInv (s : State α) : Prop :=
  (s.m_num_cells = 0 →
    s.m_min_x = 0x7FFFFFFF ∧ s.m_min_y = 0x7FFFFFFF ∧
    s.m_max_x = -0x7FFFFFFF ∧ s.m_max_y = -0x7FFFFFFF) ∧
  (∀ c ∈ s.m_cells,
    s.m_min_x ≤ c.x ∧ c.x ≤ s.m_max_x ∧ s.m_min_y ≤ c.y ∧ c.y ≤ s.m_max_y) ∧
  (s.m_min_x = 0x7FFFFFFF ∨ ∃ c ∈ s.m_cells, c.x = s.m_min_x) ∧
  (s.m_max_x = -0x7FFFFFFF ∨ ∃ c ∈ s.m_cells, c.x = s.m_max_x) ∧
  (s.m_min_y = 0x7FFFFFFF ∨ ∃ c ∈ s.m_cells, c.y = s.m_min_y) ∧
  (s.m_max_y = -0x7FFFFFFF ∨ ∃ c ∈ s.m_cells, c.y = s.m_max_y)

/-- The floor of `a / b` for a divisor of either sign. -/
def fl (a b : Int) : Int := if 0 < b then a / b else (-a) / (-b)

/-- Where the segment from `(a1, b1)` to `(a2, b2)` crosses the line `a = A`: the
second coordinate, rounded down. -/
def cross (a1 b1 a2 b2 A : Int) : Int := b1 + fl ((A - a1) * (b2 - b1)) (a2 - a1)

/-- A contribution of a segment to one pixel: the pixel and the amounts added to
`cover` and `area`. -/
structure Piece where
  x : Int
  y : Int
  dc : Int
  da : Int
deriving DecidableEq, Repr

/-- The statements `set_cur_cell(p.x, p.y); m_cur_cell.cover += p.dc;
m_cur_cell.area += p.da;`. -/
def deposit (s : State α) (p : Piece) : State α :=
  acc_add (set_cur_cell s p.x p.y) p.dc p.da

/-- The contribution to the pixel of column `ex` of the run from `(x1, y1)` to
`(x2, y2)` on scanline `ey` (`y1`, `y2` relative to the scanline): the run enters the
column at `x1` or at the border it crosses first, and leaves it at `x2` or at the
other border. -/
def hcol (ey x1 y1 x2 y2 ex : Int) : Piece :=
  let lo := poly_base_size * ex
  let hi := lo + poly_base_size
  let X_in := if x2 - x1 < 0 then hi else lo
  let X_out := if x2 - x1 < 0 then lo else hi
  let y_in := if ex = shr_base x1 then y1 else cross x1 y1 x2 y2 X_in
  let y_out := if ex = shr_base x2 then y2 else cross x1 y1 x2 y2 X_out
  let fx_in := if ex = shr_base x1 then and_mask x1 else X_in - lo
  let fx_out := if ex = shr_base x2 then and_mask x2 else X_out - lo
  { x := ex, y := ey, dc := y_out - y_in, da := (fx_in + fx_out) * (y_out - y_in) }

/-- The contributions of the run from `(x1, y1)` to `(x2, y2)` on scanline `ey`, one
for each column from that of `x1` to that of `x2`. -/
def hline_pieces (ey x1 y1 x2 y2 : Int) : List Piece :=
  (List.range ((shr_base x2 - shr_base x1).natAbs + 1)).map fun (k : Nat) =>
    hcol ey x1 y1 x2 y2 (shr_base x1 + (if x2 - x1 < 0 then -1 else 1) * (k : Int))

/-- The contributions of the segment from `(x1, y1)` to `(x2, y2)` on scanline `r`:
those of the run between the points where the segment enters and leaves the scanline. -/
def row_pieces (x1 y1 x2 y2 r : Int) : List Piece :=
  let lo := poly_base_size * r
  let hi := lo + poly_base_size
  let Y_in := if y2 - y1 < 0 then hi else lo
  let Y_out := if y2 - y1 < 0 then lo else hi
  let ya := if r = shr_base y1 then y1 else Y_in
  let yb := if r = shr_base y2 then y2 else Y_out
  let xa := if r = shr_base y1 then x1 else cross y1 x1 y2 x2 Y_in
  let xb := if r = shr_base y2 then x2 else cross y1 x1 y2 x2 Y_out
  hline_pieces r xa (ya - lo) xb (yb - lo)

/-- The contributions of the segment from `(x1, y1)` to `(x2, y2)`, scanline after
scanline from that of `y1` to that of `y2`. -/
def line_pieces (x1 y1 x2 y2 : Int) : List Piece :=
  ((List.range ((shr_base y2 - shr_base y1).natAbs + 1)).map fun (k : Nat) =>
    row_pieces x1 y1 x2 y2 (shr_base y1 + (if y2 - y1 < 0 then -1 else 1) * (k : Int))).flatten

/-- The step `incr` of a DDA from `a1` to `a2`. -/
def hl_incr (a1 a2 : Int) : Int := if a2 - a1 < 0 then -1 else 1

/-- The value `first` of a DDA from `a1` to `a2`: the far border of a pixel, relative
to the pixel. -/
def hl_first (a1 a2 : Int) : Int := if a2 - a1 < 0 then 0 else poly_base_size

/-- The divisor of a DDA from `a1` to `a2`: `|a2 - a1|`. -/
def hl_dx (a1 a2 : Int) : Int := if a2 - a1 < 0 then -(a2 - a1) else a2 - a1

/-- The first numerator of a DDA from `(a1, b1)` to `(a2, b2)`: the distance from `a1`
to the first border, times `b2 - b1`. -/
def hl_p (a1 b1 a2 b2 : Int) : Int :=
  if a2 - a1 < 0 then and_mask a1 * (b2 - b1) else (poly_base_size - and_mask a1) * (b2 - b1)

/-- The second coordinate of a DDA from `(a1, b1)` to `(a2, b2)` at the `k`-th border
it crosses. -/
def hl_Y (a1 b1 a2 b2 : Int) (k : Nat) : Int :=
  b1 + (hl_p a1 b1 a2 b2 + poly_base_size * ((k : Int) - 1) * (b2 - b1)) / hl_dx a1 a2

/-- A piece as the cell it makes in an accumulator whose other fields are `aux`. -/
def Piece.toCell (p : Piece) (aux : α) : Cell α :=
  { x := p.x, y := p.y, cover := p.dc, area := p.da, aux := aux }

/-- The cell with `cover` and `area` negated. -/
def Cell.neg (c : Cell α) : Cell α :=
  { c with cover := -c.cover, area := -c.area }

/-- A cell that `add_cur_cell` commits: `area | cover` is not zero. -/
def Cell.nonzero (c : Cell α) : Bool := decide (c.area ≠ 0 ∨ c.cover ≠ 0)

/-- The cells that depositing the pieces `P` into the accumulator `c` offers to the
arena, the last accumulator included. -/
def cells_of (c : Cell α) : List Piece → List (Cell α)
  | [] => [c]
  | p :: P =>
    if c.x ≠ p.x ∨ c.y ≠ p.y then
      c :: cells_of { c with x := p.x, y := p.y, cover := p.dc, area := p.da } P
    else cells_of { c with cover := c.cover + p.dc, area := c.area + p.da } P

/-- No block is allocated beyond those the cell count asks for. -/
def NoSpare (s : State α) : Prop :=
  cell_block_size * s.m_num_blocks < s.m_num_cells + cell_block_size

/-- Two pieces lie in different pixels. -/
def PixNe (p q : Piece) : Prop := p.x ≠ q.x ∨ p.y ≠ q.y

/-- The piece with both amounts negated. -/
def Piece.neg (p : Piece) : Piece := { p with dc := -p.dc, da := -p.da }

/-- The sum of `cover` over a list of cells. -/
def cover_sum (cells : List (Cell α)) : Int := (cells.map Cell.cover).sum

/-! ## Vocabulary of the sort stage -/

/-- The key `p->x` of a pointer, 0 for a pointer that has none. -/
def KD (key : Nat → Option Int) (v : Nat) : Int := (key v).getD 0

/-- The pointer held by slot `p` of the pointer array. -/
def slot (a : List Nat) (p : Int) : Nat := a.getD p.toNat 0

/-- The key `(*p)->x` of the cell that slot `p` points to. -/
def kx (key : Nat → Option Int) (a : List Nat) (p : Int) : Int := KD key (slot a p)

/-- Every pointer of the array points to a cell. -/
def KeysOk (key : Nat → Option Int) (a : List Nat) : Prop := ∀ v ∈ a, ∃ k, key v = some k

/-- The array `b` is `a` with the slots in `[l, h)` permuted and the others unchanged. -/
def Frame (a b : List Nat) (l h : Int) : Prop :=
  b.length = a.length ∧ b.Perm a ∧ ∀ p : Int, 0 ≤ p → (p < l ∨ h ≤ p) → slot b p = slot a p

/-- The keys of the slots in `[l, h)` are in non-decreasing order. -/
def SortedOn (key : Nat → Option Int) (a : List Nat) (l h : Int) : Prop :=
  ∀ p q : Int, l ≤ p → p ≤ q → q < h → kx key a p ≤ kx key a q

/-- The positions `p` and `q` lie together in one of the ranges. -/
def InSome (pend : List (Int × Int)) (p q : Int) : Prop :=
  ∃ r ∈ pend, r.1 ≤ p ∧ q < r.2

/-- The keys at two positions of `[lo, hi)` that no pending range holds together are in
order: only the pending ranges remain to be sorted. -/
def Ordered (key : Nat → Option Int) (a : List Nat) (lo hi : Int)
    (pend : List (Int × Int)) : Prop :=
  ∀ p q : Int, lo ≤ p → p < q → q < hi → ¬ InSome pend p q → kx key a p ≤ kx key a q

/-- The ranges lie in `[lo, hi)`, and `cur` is disjoint from those of the stack. -/
def RangesOk (lo hi : Int) (cur : Int × Int) (stack : List (Int × Int)) : Prop :=
  (lo ≤ cur.1 ∧ cur.1 ≤ cur.2 ∧ cur.2 ≤ hi) ∧
  ∀ r ∈ stack, (lo ≤ r.1 ∧ r.1 ≤ r.2 ∧ r.2 ≤ hi) ∧ (r.2 ≤ cur.1 ∨ cur.2 ≤ r.1)

/-- The total length of the ranges. -/
def plen : List (Int × Int) → Int
  | [] => 0
  | r :: t => (r.2 - r.1) + plen t

/-- The range that has `k` ranges below it has at most `num / 2 ^ k` slots: the larger
part is pushed, the smaller one is sorted first. -/
def DepthOk (num : Int) : List (Int × Int) → Prop
  | [] => True
  | r :: st => (r.2 - r.1) * 2 ^ st.length ≤ num ∧ DepthOk num st

/-- Every range lies in `[lo, hi)` and is disjoint from those below it. -/
def StackOk (lo hi : Int) : List (Int × Int) → Prop
  | [] => True
  | r :: st => RangesOk lo hi r st ∧ StackOk lo hi st

/-- The row `cell.y - min_y` of the cell at index `k` of the arena. -/
def rowk (cells : List (Cell α)) (min_y : Int) (k : Nat) : Nat :=
  match cells[k]? with
  | some c => (c.y - min_y).toNat
  | none => 0

/-- The number of indices of `ks` whose cell lies on row `r`. -/
def cnt (row : Nat → Nat) (ks : List Nat) (r : Nat) : Nat :=
  ks.countP (fun k => decide (row k = r))

/-- The sum of `f` over the rows below `r`. -/
def psum (f : Nat → Nat) : Nat → Nat
  | 0 => 0
  | r + 1 => psum f r + f r

/-- The array `sy` has `R` entries, entry `r` with `start = f r` and `num = g r`. -/
def SyIs (sy : List sorted_y) (R : Nat) (f g : Nat → Nat) : Prop :=
  sy.length = R ∧ ∀ r, r < R → sy[r]? = some ⟨f r, g r⟩

/-- Every index of `ks` is that of a cell of the arena, on one of the `R` rows from
`min_y` on. -/
def RowsOk (cells : List (Cell α)) (min_y : Int) (R : Nat) (ks : List Nat) : Prop :=
  ∀ k ∈ ks, ∃ c, cells[k]? = some c ∧ min_y ≤ c.y ∧ (c.y - min_y).toNat < R

/-- The sorted view that `sort_cells` builds: `m_sorted_y` has one entry for each row from
`m_min_y` to `m_max_y`, the ranges `[start, start + num)` of the rows follow one another
from 0 to `m_num_cells`, `num` is the number of cells of the row, `m_sorted_cells` holds
every index of the arena once, and the pointers of the range of a row point to cells of
that row, in non-decreasing order of `x`. -/
def SortedView (s : State α) : Prop :=
  ∃ C : Nat → Nat,
    (∀ r, C r = cnt (rowk s.m_cells s.m_min_y) (List.range s.m_num_cells) r) ∧
    SyIs s.m_sorted_y (s.m_max_y - s.m_min_y + 1).toNat (psum C) C ∧
    psum C (s.m_max_y - s.m_min_y + 1).toNat = s.m_num_cells ∧
    s.m_sorted_cells.Perm (List.range s.m_num_cells) ∧
    (∀ r, r < (s.m_max_y - s.m_min_y + 1).toNat → ∀ j, j < C r →
      ∃ p c, s.m_sorted_cells[psum C r + j]? = some p ∧ s.m_cells[p]? = some c ∧
        c.y = s.m_min_y + r) ∧
    (∀ r, r < (s.m_max_y - s.m_min_y + 1).toNat → ∀ j j', j ≤ j' → j' < C r →
      ∃ p c p' c', s.m_sorted_cells[psum C r + j]? = some p ∧ s.m_cells[p]? = some c ∧
        s.m_sorted_cells[psum C r + j']? = some p' ∧ s.m_cells[p']? = some c' ∧
        c.x ≤ c'.x)

/-- The conversion to `unsigned` of an `int` passed as the row `y` of
`scanline_num_cells` and `scanline_cells`. -/
def to_unsigned (v : Int) : Nat := (v % 4294967296).toNat

/-- The cell that `Cell::initial()` makes in the scenarios: a cell with no coverage,
outside every pixel that is drawn. -/
def cell0 : Cell Unit := ⟨0x7FFFFFFF, 0x7FFFFFFF, 0, 0, ()⟩

/-- Scenario S2 after the path `move_to(128, 0); line_to(128, 256)`. -/
def s2_drawn : State Unit := (line_to (move_to (fresh cell0) 128 0) 128 256).getD (fresh cell0)

/-- Scenario S2 after `sort_cells()`. -/
def s2_sorted : State Unit := (sort_cells s2_drawn).getD s2_drawn

/-- The diagonal `move_to(0, 0); line_to(512, 512)` on a fresh instance. -/
def diag_drawn : State Unit := (line_to (move_to (fresh cell0) 0 0) 512 512).getD (fresh cell0)

/-- The diagonal after `sort_cells()`. -/
def diag_sorted : State Unit := (sort_cells diag_drawn).getD diag_drawn

/-- The `x` at which the segment from `(x1, y1)` to `(x2, y2)` enters the `k`-th scanline
it visits: `x1` for the first one, `x2` after the last one. -/
def row_x (x1 y1 x2 y2 : Int) (k : Nat) : Int :=
  if k = 0 then x1
  else if k ≤ (shr_base y2 - shr_base y1).natAbs then hl_Y y1 x1 y2 x2 k
  else x2

/-- The distance in `y` from `y1` to the border at which the segment enters the `k`-th
scanline it visits: 0 for the first one, `|y2 - y1|` after the last one. -/
def row_t (y1 y2 : Int) (k : Nat) : Int :=
  if k = 0 then 0
  else if k ≤ (shr_base y2 - shr_base y1).natAbs then
    (if y2 - y1 < 0 then and_mask y1 else poly_base_size - and_mask y1) +
      poly_base_size * ((k : Int) - 1)
  else hl_dx y1 y2

/-- The instance after `move_to(x, y)` on a fresh one whose initial cell has no
coverage: the accumulator is at the pixel of `(x, y)`. -/
def seg_start (init : Cell α) (x y : Int) : State α :=
  { fresh init with
    m_cur_cell := ⟨shr_base x, shr_base y, 0, 0, init.aux⟩, m_cur_x := x, m_cur_y := y }

/-- The statements `m_cur_x = x; m_cur_y = y; m_sorted = false;` that end `line_to`. -/
def moved (u : State α) (x y : Int) : State α :=
  { u with m_cur_x := x, m_cur_y := y, m_sorted := false }

/-- The numeric envelope of the specification: the 22-bit-plus-sign subpixel range. -/
@[reducible] def in_envelope (v : Int) : Prop := -4194304 < v ∧ v < 4194304

/-- The scanlines that a segment from `y1` to `y2` visits, in the order of the visit. -/
def visited_rows (y1 y2 : Int) : List Int :=
  (List.range ((shr_base y2 - shr_base y1).natAbs + 1)).map fun (k : Nat) =>
    shr_base y1 + (if y2 - y1 < 0 then -1 else 1) * (k : Int)

/-- The signed subpixel length of the part of the vertical extent from `y1` to `y2` that
lies on scanline `r`: positive when `y1 <= y2`, negative otherwise. -/
def row_overlap (y1 y2 r : Int) : Int :=
  if y1 ≤ y2 then min y2 (256 * r + 256) - max y1 (256 * r)
  else -(min y1 (256 * r + 256) - max y2 (256 * r))

/-- The cell of a vertical segment at `x` from `y1` to `y2` on scanline `r`. -/
def vertical_cell (aux : α) (x y1 y2 r : Int) : Cell α :=
  { x := shr_base x, y := r, cover := row_overlap y1 y2 r,
    area := 2 * and_mask x * row_overlap y1 y2 r, aux := aux }

/-- The cover that an instance holds: that of the committed cells plus that of the
accumulator. -/
def cover_mass (s : State α) : Int := cover_sum s.m_cells + s.m_cur_cell.cover

/-- The arena takes `k` more cells without reaching its ceiling. -/
def Room (s : State α) (k : Nat) : Prop :=
  NoSpare s ∧ s.m_num_cells + k ≤ cell_block_size * cell_block_limit

/-- A segment that stays on one scanline, or that is not vertical and goes up from one
scanline to the next. -/
def Thin (x1 y1 x2 y2 : Int) : Prop :=
  shr_base y1 = shr_base y2 ∨ (shr_base y2 = shr_base y1 + 1 ∧ x1 ≠ x2)

/-- The cover that `render_line(x1, y1, x2, y2)` deposits: `y2 - y1` for the body, and, for
a segment that the `dx_limit` block splits, what the two recursive calls deposit before
the body runs; `d` bounds the depth of the recursion. -/
def render_cover : Nat → Int → Int → Int → Int → Int
  | 0, _, y1, _, y2 => y2 - y1
  | d + 1, x1, y1, x2, y2 =>
    if x2 - x1 ≥ dx_limit ∨ x2 - x1 ≤ -dx_limit then
      render_cover d x1 y1 ((x1 + x2) / 2) ((y1 + y2) / 2) +
        render_cover d ((x1 + x2) / 2) ((y1 + y2) / 2) x2 y2 + (y2 - y1)
    else y2 - y1

/-- A bound on the number of cells that `render_line(x1, y1, x2, y2)` commits on a thin
segment: the columns crossed plus three for each body that runs. -/
def render_cost : Nat → Int → Int → Nat
  | 0, x1, x2 => (shr_base x2 - shr_base x1).natAbs + 3
  | d + 1, x1, x2 =>
    if x2 - x1 ≥ dx_limit ∨ x2 - x1 ≤ -dx_limit then
      render_cost d x1 ((x1 + x2) / 2) + render_cost d ((x1 + x2) / 2) x2 +
        ((shr_base x2 - shr_base x1).natAbs + 3)
    else (shr_base x2 - shr_base x1).natAbs + 3

/-- A seed cell that carries coverage: `cover = 5` at pixel `(0, 0)`. -/
def seed5 : Cell Unit := ⟨0, 0, 5, 0, ()⟩

/-- The outer `for (;;)` of `qsort_cells` once more, with the stack unbounded, returning
the largest value that `(top - stack) / 2` takes: the largest number of ranges held on the
stack at once (`d` is the largest so far). -/
def qsort_depth (key : Nat → Option Int) (lo hi : Int) :
    Nat → List Nat → Int → Int → List (Int × Int) → Nat → Option Nat
  | 0, _, _, _, _, _ => none
  | fuel + 1, a, base, limit, stack, d =>
    let len := limit - base
    if len > qsort_threshold then
      let pivot := base + Int.tdiv len 2
      match swap_cells a lo hi base pivot with
      | none => none
      | some a =>
        let i := base + 1
        let j := limit - 1
        match qsort_median key lo hi base i j a with
        | none => none
        | some a =>
          match qsort_partition key lo hi base (hi - lo).toNat a i j with
          | none => none
          | some (a, i, j) =>
            match swap_cells a lo hi base j with
            | none => none
            | some a =>
              if j - base > limit - i then
                qsort_depth key lo hi fuel a i limit ((base, j) :: stack)
                  (max d (stack.length + 1))
              else
                qsort_depth key lo hi fuel a base j ((i, limit) :: stack)
                  (max d (stack.length + 1))
    else
      match qsort_insertion key lo hi base limit (hi - lo).toNat a base (base + 1) with
      | none => none
      | some a =>
        match stack with
        | (b, l) :: stack => qsort_depth key lo hi fuel a b l stack d
        | [] => some d

/-- A pointer array of twelve slots, longer than `qsort_threshold`. -/
def twelve : List Nat := [5, 3, 9, 1, 3, 7, 2, 8, 2, 6, 4, 0]

/-- A key with repetitions: pointer `p` points to a cell with `x = p % 5`. -/
def key_mod5 (p : Nat) : Option Int := some ((p : Int) % 5)

/-! ## Scenarios of the seed and of a revisited pixel -/

/-- The initial cell of a cell type with one auxiliary field, here a number: 0. -/
def cellN : Cell Nat := ⟨0x7FFFFFFF, 0x7FFFFFFF, 0, 0, 0⟩

/-- A seed cell whose auxiliary field is 7. -/
def seed7 : Cell Nat := ⟨0x7FFFFFFF, 0x7FFFFFFF, 0, 0, 7⟩

/-- The path `move_to(0, 0); seed_cell(seed7); line_to(512, 512)` on a fresh instance. -/
def seeded_drawn : State Nat :=
  (line_to (seed_cell (move_to (fresh cellN) 0 0) seed7) 512 512).getD (fresh cellN)

/-- The same after `sort_cells()`. -/
def seeded_sorted : State Nat := (sort_cells seeded_drawn).getD seeded_drawn

/-- The instance after `move_to(0, 0); line_to(0, 128)` on a fresh one: up inside pixel
`(0, 0)`. -/
def rev1 : State Unit := (line_to (move_to (fresh cell0) 0 0) 0 128).getD (fresh cell0)

/-- Then `line_to(512, 128)`: away along `y = 128`. -/
def rev2 : State Unit := (line_to rev1 512 128).getD rev1

/-- Then `line_to(0, 128)`: back along `y = 128`. -/
def rev3 : State Unit := (line_to rev2 0 128).getD rev2

/-- Then `line_to(0, 256)`: up again inside pixel `(0, 0)`. -/
def rev4 : State Unit := (line_to rev3 0 256).getD rev3

/-- Then `sort_cells()`. -/
def rev_sorted : State Unit := (sort_cells rev4).getD rev4

/-! ## The calls of render_hline that render_line makes -/

/-- The arguments of one call `render_hline(ey, x1, y1, x2, y2)`. -/
structure HCall where
  ey : Int
  x1 : Int
  y1 : Int
  x2 : Int
  y2 : Int
deriving DecidableEq, Repr

/-- The loop `while(ey1 != ey2)` of the general branch of `render_line` with the cells
left out: each call of `render_hline` is recorded instead of made, with the value of
`mod` at the end of the iteration; returns both records, `ey1` and `x_from`. -/
def render_line_loop_calls (ey2 incr dy lift rem first : Int) :
    Nat → Int → Int → Int → Option (List HCall × List Int × Int × Int)
  | 0, ey1, x_from, _ => if ey1 = ey2 then some ([], [], ey1, x_from) else none
  | fuel + 1, ey1, x_from, mod =>
    if ey1 = ey2 then some ([], [], ey1, x_from)
    else
      let delta := lift
      let mod := mod + rem
      let delta := if mod ≥ 0 then delta + 1 else delta
      let mod := if mod ≥ 0 then mod - dy else mod
      let x_to := x_from + delta
      let c : HCall := ⟨ey1, x_from, poly_base_size - first, x_to, first⟩
      let x_from := x_to
      let ey1 := ey1 + incr
      match render_line_loop_calls ey2 incr dy lift rem first fuel ey1 x_from mod with
      | none => none
      | some r => some (c :: r.1, mod :: r.2.1, r.2.2.1, r.2.2.2)

/-- The general branch of `render_line(x1, y1, x2, y2)` with the cells left out: the
calls of `render_hline` in the order in which the branch makes them, and the values of
`mod` after the first division and at the end of each iteration of the loop. -/
def render_line_calls (x1 y1 x2 y2 : Int) : Option (List HCall × List Int) :=
  let dx := x2 - x1
  let dy := y2 - y1
  let ey1 := shr_base y1
  let ey2 := shr_base y2
  let fy1 := and_mask y1
  let fy2 := and_mask y2
  let p := if dy < 0 then fy1 * dx else (poly_base_size - fy1) * dx
  let first := if dy < 0 then 0 else poly_base_size
  let incr : Int := if dy < 0 then -1 else 1
  let dy := if dy < 0 then -dy else dy
  let delta := (div_mod_adjust p dy).1
  let mod := (div_mod_adjust p dy).2
  let x_from := x1 + delta
  let c : HCall := ⟨ey1, x1, fy1, x_from, first⟩
  let ey1 := ey1 + incr
  let r :=
    if ey1 ≠ ey2 then
      let p := poly_base_size * dx
      let lift := (div_mod_adjust p dy).1
      let rem := (div_mod_adjust p dy).2
      render_line_loop_calls ey2 incr dy lift rem first (ey2 - ey1).natAbs ey1 x_from
        (mod - dy)
    else some ([], [], ey1, x_from)
  match r with
  | none => none
  | some r =>
    some (c :: (r.1 ++ [⟨r.2.2.1, r.2.2.2, poly_base_size - first, x2, fy2⟩]), mod :: r.2.1)

/-- The calls of `render_hline` of a list made one after the other, with the statement
`set_cur_cell(x_from >> 8, ey1)` of `render_line` before each call but the first, for
the `x_from` and the `ey1` of that call. -/
def hline_run : State α → List HCall → Option (State α)
  | s, [] => some s
  | s, [c] => render_hline s c.ey c.x1 c.y1 c.x2 c.y2
  | s, c :: c' :: L =>
    match render_hline s c.ey c.x1 c.y1 c.x2 c.y2 with
    | none => none
    | some t => hline_run (set_cur_cell t (shr_base c'.x1) c'.ey) (c' :: L)

/-! ## Paths and instances that differ in their storage only -/

/-- One call of a path: `move_to(x, y)` or `line_to(x, y)`. -/
inductive PathOp where
  | move_to (x y : Int)
  | line_to (x y : Int)
deriving DecidableEq, Repr

/-- One call of a path made on an instance. -/
def apply_op [DecidableEq α] (s : State α) : PathOp → Option (State α)
  | PathOp.move_to x y => some (move_to s x y)
  | PathOp.line_to x y => line_to s x y

/-- The calls of a path made one after the other on an instance. -/
def run_path [DecidableEq α] : State α → List PathOp → Option (State α)
  | s, [] => some s
  | s, op :: ops =>
    match apply_op s op with
    | none => none
    | some t => run_path t ops

/-- The `x` of the point of a call. -/
def PathOp.x : PathOp → Int
  | PathOp.move_to x _ => x
  | PathOp.line_to x _ => x

/-- The `y` of the point of a call. -/
def PathOp.y : PathOp → Int
  | PathOp.move_to _ y => y
  | PathOp.line_to _ y => y

/-- Every point of a path lies inside the numeric envelope. -/
@[reducible] def path_in_envelope (ops : List PathOp) : Prop :=
  ∀ op ∈ ops, in_envelope op.x ∧ in_envelope op.y

/-- An instance with the bookkeeping of its storage left out: the number of allocated
blocks, the size of the directory and the two arrays that `sort_cells` fills. -/
def forget_blocks (s : State α) : State α :=
  { s with m_num_blocks := 0, m_max_blocks := 0, m_sorted_cells := [], m_sorted_y := [] }

/-- The allocated blocks are the blocks in use, or there are more of them and fewer than
`cell_block_limit`: `add_cur_cell` then refuses a cell exactly when `cell_block_limit`
blocks are in use. -/
def BlocksFit (s : State α) : Prop :=
  s.m_num_blocks = s.m_cur_block ∨
    (s.m_cur_block ≤ s.m_num_blocks ∧ s.m_num_blocks < cell_block_limit)

/-- Two instances that differ in the bookkeeping of their storage only. -/
def Alike (a b : State α) : Prop :=
  forget_blocks a = forget_blocks b ∧ BlocksFit a ∧ BlocksFit b

/-! ## The sums at a pixel and the scenario of a flush -/

/-- The sum of `cover` over the cells of a list that lie at pixel `(x, y)`. -/
def pixel_cover (cells : List (Cell α)) (x y : Int) : Int :=
  ((cells.filter fun c => decide (c.x = x ∧ c.y = y)).map Cell.cover).sum

/-- The sum of `area` over the cells of a list that lie at pixel `(x, y)`. -/
def pixel_area (cells : List (Cell α)) (x y : Int) : Int :=
  ((cells.filter fun c => decide (c.x = x ∧ c.y = y)).map Cell.area).sum

/-- The instance after `move_to(128, 0); line_to(128, 128)` on a fresh one: the
accumulator holds the segment, no cell is committed. -/
def flush_start : State Unit :=
  (line_to (move_to (fresh cell0) 128 0) 128 128).getD (fresh cell0)

/-- The instance `flush_start` after `sort_cells(); line_to(128, 384); sort_cells()`. -/
def flush_twice : State Unit :=
  (((sort_cells flush_start).bind fun t => line_to t 128 384).bind sort_cells).getD
    flush_start

/-- The instance `flush_start` after `line_to(128, 384); sort_cells()`. -/
def flush_once : State Unit :=
  ((line_to flush_start 128 384).bind sort_cells).getD flush_start

/-! ## The path that fills the arena -/

/-- One round of the path that fills the arena: a vertical segment over every scanline of
the numeric envelope, and the way back to its start. -/
def fill_round : List PathOp :=
  [PathOp.line_to 0 4194303, PathOp.move_to 0 (-4194303)]

/-- The path that fills the arena: `move_to(0, -4194303)` and 128 rounds, each of which
commits one cell on each of the 32768 scanlines of the numeric envelope. -/
def fill_path : List PathOp :=
  PathOp.move_to 0 (-4194303) :: (List.replicate 128 fill_round).flatten

/-- The instance after `fill_path` on a fresh one. -/
def full_arena : State Unit := (run_path (fresh cell0) fill_path).getD (fresh cell0)

/-! ## Integer division -/

theorem div_mod_adjust_eq (p d : Int) (hd : 0 < d) :
    div_mod_adjust p d = (p / d, p % d) := by
  unfold div_mod_adjust
  have h1 := Int.tdiv_add_tmod p d
  have h2 : Int.tmod p d < d := Int.tmod_lt_of_pos p hd
  have h3 : -d < Int.tmod p d := by
    obtain ⟨n, rfl⟩ := Int.eq_ofNat_of_zero_le (le_of_lt hd)
    cases p with
    | ofNat m =>
      have : (0 : Int) ≤ Int.tmod (Int.ofNat m) n := Int.tmod_nonneg _ (Int.ofNat_nonneg m)
      omega
    | negSucc m =>
      show -(n : Int) < -((m.succ % n : Nat) : Int)
      have : m.succ % n < n := Nat.mod_lt _ (by omega)
      omega
  dsimp only
  split
  · rename_i hneg
    have : p / d = Int.tdiv p d - 1 ∧ p % d = Int.tmod p d + d := by
      rw [Int.ediv_emod_unique hd]
      refine ⟨?_, by omega, by omega⟩
      rw [mul_sub]; linarith
    rw [this.1, this.2]
  · rename_i hneg
    have : p / d = Int.tdiv p d ∧ p % d = Int.tmod p d := by
      rw [Int.ediv_emod_unique hd]
      refine ⟨?_, by omega, by omega⟩
      linarith
    rw [this.1, this.2]

theorem ediv_add_step (n m d : Int) (hd : 0 < d) :
    (n + m) / d = n / d + m / d + (if n % d - d + m % d ≥ 0 then 1 else 0) ∧
    (n + m) % d - d = (if n % d - d + m % d ≥ 0 then n % d - d + m % d - d
      else n % d - d + m % d) := by
  have hn := Int.emod_add_ediv n d
  have hm := Int.emod_add_ediv m d
  have hn0 := Int.emod_nonneg n (by omega : d ≠ 0)
  have hm0 := Int.emod_nonneg m (by omega : d ≠ 0)
  have hn1 := Int.emod_lt_of_pos n hd
  have hm1 := Int.emod_lt_of_pos m hd
  split
  · rename_i h
    have : (n + m) / d = n / d + m / d + 1 ∧ (n + m) % d = n % d + m % d - d := by
      rw [Int.ediv_emod_unique hd]
      refine ⟨?_, by omega, by omega⟩
      rw [mul_add, mul_add]; linarith
    rw [this.1, this.2]; constructor <;> ring
  · rename_i h
    have : (n + m) / d = n / d + m / d ∧ (n + m) % d = n % d + m % d := by
      rw [Int.ediv_emod_unique hd]
      refine ⟨?_, by omega, by omega⟩
      rw [mul_add]; linarith
    rw [this.1, this.2]; constructor <;> ring

theorem fl_neg_neg (a b : Int) (hb : b ≠ 0) : fl (-a) (-b) = fl a b := by
  unfold fl
  by_cases h : 0 < b
  · have h2 : ¬ (0 < -b) := by omega
    simp [h, h2]
  · have h2 : 0 < -b := by omega
    simp [h, h2]

theorem fl_add_mul (a k b : Int) (hb : b ≠ 0) : fl (a + k * b) b = fl a b + k := by
  unfold fl
  by_cases h : 0 < b
  · simp only [h, if_true]
    exact Int.add_mul_ediv_right a k (by omega)
  · simp only [h, if_false]
    have : -(a + k * b) = -a + k * (-b) := by ring
    rw [this]
    exact Int.add_mul_ediv_right (-a) k (by omega)

theorem cross_symm (a1 b1 a2 b2 A : Int) (h : a1 ≠ a2) :
    cross a2 b2 a1 b1 A = cross a1 b1 a2 b2 A := by
  unfold cross
  have e : (A - a2) * (b1 - b2) = -((A - a1) * (b2 - b1) + (-(b2 - b1)) * (a2 - a1)) := by ring
  have e2 : a1 - a2 = -(a2 - a1) := by ring
  rw [e, e2, fl_neg_neg _ _ (by omega), fl_add_mul _ _ _ (by omega)]
  ring

theorem fl_zero (b : Int) : fl 0 b = 0 := by
  unfold fl; split <;> simp

/-! ## The rendering code only assigns the accumulator and commits it -/

theorem Prim.trans {s t u : State α} (h1 : Prim s t) (h2 : Prim t u) : Prim s u := by
  induction h2 with
  | refl => exact h1
  | acc c _ ih => exact Prim.acc c ih
  | add _ ih => exact Prim.add ih

theorem prim_acc_add (s : State α) (dc da : Int) : Prim s (acc_add s dc da) :=
  Prim.acc _ (Prim.refl s)

theorem prim_acc_put (s : State α) (c a : Int) : Prim s (acc_put s c a) :=
  Prim.acc _ (Prim.refl s)

theorem prim_set_cur_cell (s : State α) (x y : Int) : Prim s (set_cur_cell s x y) := by
  unfold set_cur_cell
  split
  · exact Prim.acc _ (Prim.add (Prim.refl s))
  · exact Prim.refl s

theorem render_hline_loop_prim (ey ex2 incr dx lift rem : Int) :
    ∀ (fuel : Nat) (s : State α) (ex1 y1 mod : Int),
      (∃ k : Nat, k ≤ fuel ∧ ex2 - ex1 = incr * k) →
      ∃ r, render_hline_loop ey ex2 incr dx lift rem fuel s ex1 y1 mod = some r ∧ Prim s r.1 := by
  intro fuel
  induction fuel with
  | zero =>
    intro s ex1 y1 mod ⟨k, hk, he⟩
    have hk0 : k = 0 := by omega
    subst hk0
    have : ex1 = ex2 := by simp at he; omega
    exact ⟨(s, y1), by simp [render_hline_loop, this], Prim.refl s⟩
  | succ n ih =>
    intro s ex1 y1 mod ⟨k, hk, he⟩
    by_cases h : ex1 = ex2
    · exact ⟨(s, y1), by simp [render_hline_loop, h], Prim.refl s⟩
    · rw [render_hline_loop, if_neg h]
      have hk1 : 1 ≤ k := by
        rcases Nat.eq_zero_or_pos k with h0 | h0
        · subst h0; simp at he; omega
        · exact h0
      obtain ⟨r, hr, hp⟩ := ih
        (set_cur_cell (acc_add s (if mod + rem ≥ 0 then lift + 1 else lift)
          (poly_base_size * (if mod + rem ≥ 0 then lift + 1 else lift))) (ex1 + incr) ey)
        (ex1 + incr) (y1 + (if mod + rem ≥ 0 then lift + 1 else lift))
        (if mod + rem ≥ 0 then mod + rem - dx else mod + rem)
        ⟨k - 1, by omega, by
          have : ((k - 1 : Nat) : Int) = (k : Int) - 1 := by omega
          rw [this]; linarith⟩
      exact ⟨r, hr, ((prim_acc_add s _ _).trans (prim_set_cur_cell _ _ _)).trans hp⟩

theorem render_hline_prim (s : State α) (ey x1 y1 x2 y2 : Int) :
    ∃ t, render_hline s ey x1 y1 x2 y2 = some t ∧ Prim s t := by
  unfold render_hline
  dsimp only
  by_cases hy : y1 = y2
  · rw [if_pos hy]
    exact ⟨_, rfl, prim_set_cur_cell _ _ _⟩
  rw [if_neg hy]
  by_cases hex : shr_base x1 = shr_base x2
  · rw [if_pos hex]
    exact ⟨_, rfl, prim_acc_add _ _ _⟩
  rw [if_neg hex]
  have key : ∀ (incr dxa p first : Int),
      (∃ k : Nat, k ≤ (shr_base x2 - (shr_base x1 + incr)).natAbs ∧
        shr_base x2 - (shr_base x1 + incr) = incr * k) →
      ∃ t, (match
          (if shr_base x1 + incr ≠ shr_base x2 then
            render_hline_loop ey (shr_base x2) incr dxa
              (div_mod_adjust (poly_base_size * (y2 - (y1 + (div_mod_adjust p dxa).1) +
                (div_mod_adjust p dxa).1)) dxa).1
              (div_mod_adjust (poly_base_size * (y2 - (y1 + (div_mod_adjust p dxa).1) +
                (div_mod_adjust p dxa).1)) dxa).2
              (shr_base x2 - (shr_base x1 + incr)).natAbs
              (set_cur_cell (acc_add s (div_mod_adjust p dxa).1
                ((and_mask x1 + first) * (div_mod_adjust p dxa).1)) (shr_base x1 + incr) ey)
              (shr_base x1 + incr) (y1 + (div_mod_adjust p dxa).1)
              ((div_mod_adjust p dxa).2 - dxa)
          else some (set_cur_cell (acc_add s (div_mod_adjust p dxa).1
                ((and_mask x1 + first) * (div_mod_adjust p dxa).1)) (shr_base x1 + incr) ey,
              y1 + (div_mod_adjust p dxa).1)) with
        | none => none
        | some r => some (acc_add r.1 (y2 - r.2)
            ((and_mask x2 + poly_base_size - first) * (y2 - r.2)))) = some t ∧ Prim s t := by
    intro incr dxa p first hk
    have base : Prim s (set_cur_cell (acc_add s (div_mod_adjust p dxa).1
        ((and_mask x1 + first) * (div_mod_adjust p dxa).1)) (shr_base x1 + incr) ey) :=
      (prim_acc_add s _ _).trans (prim_set_cur_cell _ _ _)
    by_cases hne : shr_base x1 + incr ≠ shr_base x2
    · rw [if_pos hne]
      obtain ⟨r, hr, hp⟩ := render_hline_loop_prim ey (shr_base x2) incr dxa
        (div_mod_adjust (poly_base_size * (y2 - (y1 + (div_mod_adjust p dxa).1) +
                (div_mod_adjust p dxa).1)) dxa).1
        (div_mod_adjust (poly_base_size * (y2 - (y1 + (div_mod_adjust p dxa).1) +
                (div_mod_adjust p dxa).1)) dxa).2
        (shr_base x2 - (shr_base x1 + incr)).natAbs
        (set_cur_cell (acc_add s (div_mod_adjust p dxa).1
                ((and_mask x1 + first) * (div_mod_adjust p dxa).1)) (shr_base x1 + incr) ey)
        (shr_base x1 + incr) (y1 + (div_mod_adjust p dxa).1)
        ((div_mod_adjust p dxa).2 - dxa) hk
      rw [hr]
      exact ⟨_, rfl, (base.trans hp).trans (prim_acc_add _ _ _)⟩
    · rw [if_neg hne]
      exact ⟨_, rfl, base.trans (prim_acc_add _ _ _)⟩
  apply key
  refine ⟨_, le_refl _, ?_⟩
  unfold shr_base poly_base_size at *
  split <;> omega

theorem render_line_vloop_prim (ex ey2 incr delta area : Int) :
    ∀ (fuel : Nat) (s : State α) (ey1 : Int),
      (∃ k : Nat, k ≤ fuel ∧ ey2 - ey1 = incr * k) →
      ∃ t, render_line_vloop ex ey2 incr delta area fuel s ey1 = some t ∧ Prim s t := by
  intro fuel
  induction fuel with
  | zero =>
    intro s ey1 ⟨k, hk, he⟩
    have hk0 : k = 0 := by omega
    subst hk0
    have : ey1 = ey2 := by simp at he; omega
    exact ⟨s, by simp [render_line_vloop, this], Prim.refl s⟩
  | succ n ih =>
    intro s ey1 ⟨k, hk, he⟩
    by_cases h : ey1 = ey2
    · exact ⟨s, by simp [render_line_vloop, h], Prim.refl s⟩
    · rw [render_line_vloop, if_neg h]
      have hk1 : 1 ≤ k := by
        rcases Nat.eq_zero_or_pos k with h0 | h0
        · subst h0; simp at he; omega
        · exact h0
      obtain ⟨t, ht, hp⟩ := ih (set_cur_cell (acc_put s delta area) ex (ey1 + incr)) (ey1 + incr)
        ⟨k - 1, by omega, by
          have : ((k - 1 : Nat) : Int) = (k : Int) - 1 := by omega
          rw [this]; linarith⟩
      exact ⟨t, ht, ((prim_acc_put s _ _).trans (prim_set_cur_cell _ _ _)).trans hp⟩

theorem render_line_loop_prim (ey2 incr dy lift rem first : Int) :
    ∀ (fuel : Nat) (s : State α) (ey1 x_from mod : Int),
      (∃ k : Nat, k ≤ fuel ∧ ey2 - ey1 = incr * k) →
      ∃ r, render_line_loop ey2 incr dy lift rem first fuel s ey1 x_from mod = some r ∧
        Prim s r.1 := by
  intro fuel
  induction fuel with
  | zero =>
    intro s ey1 x_from mod ⟨k, hk, he⟩
    have hk0 : k = 0 := by omega
    subst hk0
    have : ey1 = ey2 := by simp at he; omega
    exact ⟨(s, ey1, x_from), by simp [render_line_loop, this], Prim.refl s⟩
  | succ n ih =>
    intro s ey1 x_from mod ⟨k, hk, he⟩
    by_cases h : ey1 = ey2
    · exact ⟨(s, ey1, x_from), by simp [render_line_loop, h], Prim.refl s⟩
    · rw [render_line_loop, if_neg h]
      simp only []
      have hk1 : 1 ≤ k := by
        rcases Nat.eq_zero_or_pos k with h0 | h0
        · subst h0; simp at he; omega
        · exact h0
      obtain ⟨t, ht, hp⟩ := render_hline_prim s ey1 x_from (poly_base_size - first)
        (x_from + if mod + rem ≥ 0 then lift + 1 else lift) first
      rw [ht]
      simp only []
      obtain ⟨r, hr, hp2⟩ := ih
        (set_cur_cell t (shr_base (x_from + if mod + rem ≥ 0 then lift + 1 else lift))
          (ey1 + incr))
        (ey1 + incr) (x_from + if mod + rem ≥ 0 then lift + 1 else lift)
        (if mod + rem ≥ 0 then mod + rem - dy else mod + rem)
        ⟨k - 1, by omega, by
          have : ((k - 1 : Nat) : Int) = (k : Int) - 1 := by omega
          rw [this]; linarith⟩
      exact ⟨r, hr, (hp.trans (prim_set_cur_cell _ _ _)).trans hp2⟩

theorem render_line_body_prim (s : State α) (x1 y1 x2 y2 : Int) :
    ∃ t, render_line_body s x1 y1 x2 y2 = some t ∧ Prim s t := by
  unfold render_line_body
  dsimp only
  by_cases hey : shr_base y1 = shr_base y2
  · rw [if_pos hey]
    exact render_hline_prim _ _ _ _ _ _
  rw [if_neg hey]
  have hk : ∃ k : Nat, k ≤ (shr_base y2 - (shr_base y1 + if y2 - y1 < 0 then -1 else 1)).natAbs ∧
      shr_base y2 - (shr_base y1 + if y2 - y1 < 0 then -1 else 1) =
        (if y2 - y1 < 0 then -1 else 1) * k := by
    refine ⟨_, le_refl _, ?_⟩
    unfold shr_base poly_base_size at *
    split <;> omega
  by_cases hdx : x2 - x1 = 0
  · rw [if_pos hdx]
    obtain ⟨t, ht, hp⟩ := render_line_vloop_prim (shr_base x1) (shr_base y2)
      (if y2 - y1 < 0 then -1 else 1)
      ((if y2 - y1 < 0 then 0 else poly_base_size) + (if y2 - y1 < 0 then 0 else poly_base_size)
        - poly_base_size)
      ((x1 - shr_base x1 * poly_base_size) * 2 *
        ((if y2 - y1 < 0 then 0 else poly_base_size) +
          (if y2 - y1 < 0 then 0 else poly_base_size) - poly_base_size))
      (shr_base y2 - (shr_base y1 + if y2 - y1 < 0 then -1 else 1)).natAbs
      (set_cur_cell (acc_add s ((if y2 - y1 < 0 then 0 else poly_base_size) - and_mask y1)
        ((x1 - shr_base x1 * poly_base_size) * 2 *
          ((if y2 - y1 < 0 then 0 else poly_base_size) - and_mask y1)))
        (shr_base x1) (shr_base y1 + if y2 - y1 < 0 then -1 else 1))
      (shr_base y1 + if y2 - y1 < 0 then -1 else 1) hk
    rw [ht]
    exact ⟨_, rfl, (((prim_acc_add s _ _).trans (prim_set_cur_cell _ _ _)).trans hp).trans
      (prim_acc_add _ _ _)⟩
  rw [if_neg hdx]
  obtain ⟨t, ht, hp⟩ := render_hline_prim s (shr_base y1) x1 (and_mask y1)
    (x1 + (div_mod_adjust (if y2 - y1 < 0 then and_mask y1 * (x2 - x1)
      else (poly_base_size - and_mask y1) * (x2 - x1))
      (if y2 - y1 < 0 then -(y2 - y1) else y2 - y1)).1)
    (if y2 - y1 < 0 then 0 else poly_base_size)
  rw [ht]
  dsimp only
  have base : Prim s (set_cur_cell t (shr_base (x1 + (div_mod_adjust
      (if y2 - y1 < 0 then and_mask y1 * (x2 - x1)
        else (poly_base_size - and_mask y1) * (x2 - x1))
      (if y2 - y1 < 0 then -(y2 - y1) else y2 - y1)).1))
      (shr_base y1 + if y2 - y1 < 0 then -1 else 1)) := hp.trans (prim_set_cur_cell _ _ _)
  by_cases hne : shr_base y1 + (if y2 - y1 < 0 then -1 else 1) ≠ shr_base y2
  · rw [if_pos hne]
    obtain ⟨r, hr, hp2⟩ := render_line_loop_prim (shr_base y2) (if y2 - y1 < 0 then -1 else 1)
      (if y2 - y1 < 0 then -(y2 - y1) else y2 - y1)
      (div_mod_adjust (poly_base_size * (x2 - x1))
        (if y2 - y1 < 0 then -(y2 - y1) else y2 - y1)).1
      (div_mod_adjust (poly_base_size * (x2 - x1))
        (if y2 - y1 < 0 then -(y2 - y1) else y2 - y1)).2
      (if y2 - y1 < 0 then 0 else poly_base_size)
      (shr_base y2 - (shr_base y1 + if y2 - y1 < 0 then -1 else 1)).natAbs
      (set_cur_cell t (shr_base (x1 + (div_mod_adjust
        (if y2 - y1 < 0 then and_mask y1 * (x2 - x1)
          else (poly_base_size - and_mask y1) * (x2 - x1))
        (if y2 - y1 < 0 then -(y2 - y1) else y2 - y1)).1))
        (shr_base y1 + if y2 - y1 < 0 then -1 else 1))
      (shr_base y1 + if y2 - y1 < 0 then -1 else 1)
      (x1 + (div_mod_adjust (if y2 - y1 < 0 then and_mask y1 * (x2 - x1)
        else (poly_base_size - and_mask y1) * (x2 - x1))
        (if y2 - y1 < 0 then -(y2 - y1) else y2 - y1)).1)
      ((div_mod_adjust (if y2 - y1 < 0 then and_mask y1 * (x2 - x1)
        else (poly_base_size - and_mask y1) * (x2 - x1))
        (if y2 - y1 < 0 then -(y2 - y1) else y2 - y1)).2 -
        (if y2 - y1 < 0 then -(y2 - y1) else y2 - y1)) hk
    rw [hr]
    dsimp only
    obtain ⟨u, hu, hp3⟩ := render_hline_prim r.1 r.2.1 r.2.2
      (poly_base_size - if y2 - y1 < 0 then 0 else poly_base_size) x2 (and_mask y2)
    exact ⟨u, hu, (base.trans hp2).trans hp3⟩
  · rw [if_neg hne]
    dsimp only
    obtain ⟨u, hu, hp3⟩ := render_hline_prim (set_cur_cell t (shr_base (x1 + (div_mod_adjust
        (if y2 - y1 < 0 then and_mask y1 * (x2 - x1)
          else (poly_base_size - and_mask y1) * (x2 - x1))
        (if y2 - y1 < 0 then -(y2 - y1) else y2 - y1)).1))
        (shr_base y1 + if y2 - y1 < 0 then -1 else 1))
      (shr_base y1 + if y2 - y1 < 0 then -1 else 1)
      (x1 + (div_mod_adjust (if y2 - y1 < 0 then and_mask y1 * (x2 - x1)
        else (poly_base_size - and_mask y1) * (x2 - x1))
        (if y2 - y1 < 0 then -(y2 - y1) else y2 - y1)).1)
      (poly_base_size - if y2 - y1 < 0 then 0 else poly_base_size) x2 (and_mask y2)
    exact ⟨u, hu, base.trans hp3⟩

theorem render_line_prim :
    ∀ (fuel : Nat) (s : State α) (x1 y1 x2 y2 : Int),
      (x2 - x1).natAbs ≤ 4194303 * 2 ^ fuel →
      ∃ t, render_line fuel s x1 y1 x2 y2 = some t ∧ Prim s t := by
  intro fuel
  induction fuel with
  | zero =>
    intro s x1 y1 x2 y2 h
    rw [render_line]
    rw [if_neg (by unfold dx_limit; omega)]
    exact render_line_body_prim _ _ _ _ _
  | succ n ih =>
    intro s x1 y1 x2 y2 h
    rw [render_line]
    dsimp only
    by_cases hs : x2 - x1 ≥ dx_limit ∨ x2 - x1 ≤ -dx_limit
    · rw [if_pos hs]
      unfold dx_limit at hs
      have h2 : (4194303 : Nat) * 2 ^ (n + 1) = 2 * (4194303 * 2 ^ n) := by ring
      obtain ⟨t, ht, hp⟩ := ih s x1 y1 ((x1 + x2) / 2) ((y1 + y2) / 2) (by omega)
      rw [ht]
      dsimp only
      obtain ⟨u, hu, hp2⟩ := ih t ((x1 + x2) / 2) ((y1 + y2) / 2) x2 y2 (by omega)
      rw [hu]
      dsimp only
      obtain ⟨v, hv, hp3⟩ := render_line_body_prim u x1 y1 x2 y2
      exact ⟨v, hv, (hp.trans hp2).trans hp3⟩
    · rw [if_neg hs]
      exact render_line_body_prim _ _ _ _ _

theorem line_to_prim (s : State α) (x y : Int) :
    ∃ t, line_to s x y =
        some { t with m_cur_x := x, m_cur_y := y, m_sorted := false } ∧ Prim s t := by
  unfold line_to
  obtain ⟨t, ht, hp⟩ := render_line_prim (x - s.m_cur_x).natAbs s s.m_cur_x s.m_cur_y x y (by
    have := Nat.lt_two_pow (x - s.m_cur_x).natAbs
    have h2 : 0 < 2 ^ (x - s.m_cur_x).natAbs := by positivity
    nlinarith)
  rw [ht]
  exact ⟨t, rfl, hp⟩

/-! ## Invariants of the arena and of the bounding box -/

theorem and_mask_eq_mod (n : Nat) : n &&& cell_block_mask = n % 4096 := by
  have := Nat.and_pow_two_sub_one_eq_mod n 12
  simpa [cell_block_mask] using this

theorem arenaInv_fresh (init : Cell α) : ArenaInv (fresh init) := by
  simp [ArenaInv, fresh, cell_block_limit, cell_block_size]

theorem boxInv_fresh (init : Cell α) : BoxInv (fresh init) := by
  simp [BoxInv, fresh]

theorem arenaInv_reset {s : State α} (h : ArenaInv s) : ArenaInv (reset s) := by
  obtain ⟨h1, h2, h3, h4, h5⟩ := h
  refine ⟨rfl, ?_, h3, ?_, ?_⟩ <;> simp [reset, cell_block_size]

theorem boxInv_reset (s : State α) : BoxInv (reset s) := by
  simp [BoxInv, reset]

theorem arenaInv_add_cur_cell {s : State α} (h : ArenaInv s) : ArenaInv (add_cur_cell s) := by
  unfold ArenaInv at *
  unfold add_cur_cell store_cur_cell allocate_block
  simp only [and_mask_eq_mod, cell_block_limit, cell_block_size] at *
  split_ifs <;> (try simp) <;> omega

theorem boxInv_store_cur_cell {s : State α} (h : BoxInv s) : BoxInv (store_cur_cell s) := by
  obtain ⟨-, h2, h3, h4, h5, h6⟩ := h
  unfold store_cur_cell
  refine ⟨?_, ?_, ?_, ?_, ?_, ?_⟩
  · intro h0
    simp at h0
  · intro c hc
    simp only [List.mem_append, List.mem_singleton] at hc
    dsimp only
    rcases hc with hc | hc
    · have := h2 c hc
      refine ⟨?_, ?_, ?_, ?_⟩ <;> split <;> omega
    · subst hc
      refine ⟨?_, ?_, ?_, ?_⟩ <;> split <;> omega
  · dsimp only
    split
    · exact Or.inr ⟨_, by simp, rfl⟩
    · rcases h3 with h3 | ⟨c, hc, he⟩
      · exact Or.inl h3
      · exact Or.inr ⟨c, by simp [hc], he⟩
  · dsimp only
    split
    · exact Or.inr ⟨_, by simp, rfl⟩
    · rcases h4 with h4 | ⟨c, hc, he⟩
      · exact Or.inl h4
      · exact Or.inr ⟨c, by simp [hc], he⟩
  · dsimp only
    split
    · exact Or.inr ⟨_, by simp, rfl⟩
    · rcases h5 with h5 | ⟨c, hc, he⟩
      · exact Or.inl h5
      · exact Or.inr ⟨c, by simp [hc], he⟩
  · dsimp only
    split
    · exact Or.inr ⟨_, by simp, rfl⟩
    · rcases h6 with h6 | ⟨c, hc, he⟩
      · exact Or.inl h6
      · exact Or.inr ⟨c, by simp [hc], he⟩

theorem boxInv_allocate_block {s : State α} (h : BoxInv s) : BoxInv (allocate_block s) := by
  unfold allocate_block
  dsimp only
  split
  · split <;> exact h
  · exact h

theorem boxInv_add_cur_cell {s : State α} (h : BoxInv s) : BoxInv (add_cur_cell s) := by
  unfold add_cur_cell
  split
  · split
    · split
      · exact h
      · exact boxInv_store_cur_cell (boxInv_allocate_block h)
    · exact boxInv_store_cur_cell h
  · exact h

theorem inv_prim {s t : State α} (hp : Prim s t) (h : ArenaInv s ∧ BoxInv s) :
    ArenaInv t ∧ BoxInv t := by
  induction hp with
  | refl => exact h
  | acc c _ ih => exact ih
  | add _ ih => exact ⟨arenaInv_add_cur_cell ih.1, boxInv_add_cur_cell ih.2⟩

theorem sort_cells_cases {s t : State α} (h : sort_cells s = some t) :
    t = s ∨ t = add_cur_cell s ∨
      ∃ sc sy, t = { add_cur_cell s with
        m_sorted_cells := sc, m_sorted_y := sy, m_sorted := true } := by
  unfold sort_cells at h
  split at h
  · exact Or.inl (Option.some.inj h).symm
  · dsimp only at h
    split at h
    · exact Or.inr (Or.inl (Option.some.inj h).symm)
    · split at h
      · exact Option.noConfusion h
      · split at h
        · exact Option.noConfusion h
        · split at h
          · exact Option.noConfusion h
          · split at h
            · exact Option.noConfusion h
            · exact Or.inr (Or.inr ⟨_, _, (Option.some.inj h).symm⟩)

theorem inv_move_to [DecidableEq α] {s : State α} (x y : Int) (h : ArenaInv s ∧ BoxInv s) :
    ArenaInv (move_to s x y) ∧ BoxInv (move_to s x y) := by
  unfold move_to
  dsimp only
  have h1 : ArenaInv (if s.m_sorted = true then reset s else s) ∧
      BoxInv (if s.m_sorted = true then reset s else s) := by
    split
    · exact ⟨arenaInv_reset h.1, boxInv_reset s⟩
    · exact h
  generalize (if s.m_sorted = true then reset s else s) = u at h1
  split
  · exact ⟨arenaInv_add_cur_cell h1.1, boxInv_add_cur_cell h1.2⟩
  · exact h1

theorem inv_reachable [DecidableEq α] {init : Cell α} {s : State α}
    (h : Reachable init s) : ArenaInv s ∧ BoxInv s := by
  induction h with
  | fresh => exact ⟨arenaInv_fresh init, boxInv_fresh init⟩
  | reset _ ih => exact ⟨arenaInv_reset ih.1, boxInv_reset _⟩
  | seed_cell c _ ih => exact ih
  | move_to x y _ ih => exact inv_move_to x y ih
  | line_to x y _ hl ih =>
    obtain ⟨t, ht, hp⟩ := line_to_prim _ x y
    rw [ht] at hl
    rw [← Option.some.inj hl]
    have h := inv_prim hp ih
    exact h
  | sort_cells _ hs ih =>
    rcases sort_cells_cases hs with h | h | ⟨sc, sy, h⟩
    · rw [h]; exact ih
    · rw [h]; exact ⟨arenaInv_add_cur_cell ih.1, boxInv_add_cur_cell ih.2⟩
    · rw [h]; exact ⟨arenaInv_add_cur_cell ih.1, boxInv_add_cur_cell ih.2⟩

/-- C10: in every state reachable from a fresh instance through reset, seed_cell,
move_to, line_to and sort_cells, `total_cells()` is at most 1024 * 4096 and at most 1024
blocks are allocated; and when the ceiling is reached (there are 1024 * 4096 cells, or
1024 blocks are allocated and the next cell would start a new block) a cell that is
offered is dropped: `add_cur_cell` changes nothing, so neither `total_cells()` nor the
bounding box. -/
theorem C10_saturation_bound [DecidableEq α] (init : Cell α) (s : State α)
    (h : Reachable init s) :
    total_cells s ≤ 1024 * 4096 ∧ s.m_num_blocks ≤ 1024 ∧
    ∀ c : Cell α,
      (total_cells s = 1024 * 4096 ∨ (s.m_num_blocks = 1024 ∧ total_cells s % 4096 = 0)) →
      add_cur_cell { s with m_cur_cell := c } = { s with m_cur_cell := c } := by
  obtain ⟨⟨h1, h2, h3, h4, h5⟩, -⟩ := inv_reachable h
  unfold cell_block_limit cell_block_size at *
  unfold total_cells
  refine ⟨by omega, h3, ?_⟩
  intro c hc
  unfold add_cur_cell
  dsimp only
  rw [and_mask_eq_mod]
  have hm : s.m_num_cells % 4096 = 0 := by omega
  have hb : s.m_num_blocks ≥ cell_block_limit := by unfold cell_block_limit; omega
  rw [if_pos hm, if_pos hb]
  split <;> rfl

/-- C4: in every state reachable from a fresh instance through reset, seed_cell,
move_to, line_to and sort_cells whose committed cells have coordinates that an `int`
other than `INT_MIN` holds: when `total_cells() > 0`, every committed cell lies in
`[min_x, max_x] × [min_y, max_y]` and each of the four bounds is the coordinate of a
committed cell; when `total_cells() = 0`, the box is the empty interval
`min = 0x7FFFFFFF`, `max = -0x7FFFFFFF`. -/
theorem C4_bounding_box [DecidableEq α] (init : Cell α) (s : State α)
    (h : Reachable init s)
    (hr : ∀ c ∈ s.m_cells, -0x7FFFFFFF ≤ c.x ∧ c.x ≤ 0x7FFFFFFF ∧
      -0x7FFFFFFF ≤ c.y ∧ c.y ≤ 0x7FFFFFFF) :
    (0 < total_cells s →
      (∀ c ∈ s.m_cells,
        s.m_min_x ≤ c.x ∧ c.x ≤ s.m_max_x ∧ s.m_min_y ≤ c.y ∧ c.y ≤ s.m_max_y) ∧
      (∃ c ∈ s.m_cells, c.x = s.m_min_x) ∧ (∃ c ∈ s.m_cells, c.x = s.m_max_x) ∧
      (∃ c ∈ s.m_cells, c.y = s.m_min_y) ∧ (∃ c ∈ s.m_cells, c.y = s.m_max_y)) ∧
    (total_cells s = 0 →
      s.m_min_x = 0x7FFFFFFF ∧ s.m_min_y = 0x7FFFFFFF ∧
      s.m_max_x = -0x7FFFFFFF ∧ s.m_max_y = -0x7FFFFFFF) := by
  obtain ⟨⟨hlen, -⟩, h1, h2, h3, h4, h5, h6⟩ := inv_reachable h
  refine ⟨?_, h1⟩
  intro hpos
  unfold total_cells at hpos
  obtain ⟨c0, hc0⟩ : ∃ c, c ∈ s.m_cells := by
    cases hl : s.m_cells with
    | nil => rw [hl] at hlen; simp at hlen; omega
    | cons c l => exact ⟨c, by simp⟩
  have b0 := h2 c0 hc0
  have r0 := hr c0 hc0
  refine ⟨h2, ?_, ?_, ?_, ?_⟩
  · rcases h3 with h3 | h3
    · exact ⟨c0, hc0, by omega⟩
    · exact h3
  · rcases h4 with h4 | h4
    · exact ⟨c0, hc0, by omega⟩
    · exact h4
  · rcases h5 with h5 | h5
    · exact ⟨c0, hc0, by omega⟩
    · exact h5
  · rcases h6 with h6 | h6
    · exact ⟨c0, hc0, by omega⟩
    · exact h6

/-! ## The cells of a segment in closed form -/

theorem acc_add_zero (s : State α) : acc_add s 0 0 = s := by
  simp [acc_add]

theorem set_cur_cell_same (s : State α) (x y : Int)
    (hx : s.m_cur_cell.x = x) (hy : s.m_cur_cell.y = y) : set_cur_cell s x y = s := by
  unfold set_cur_cell
  rw [if_neg (by simp [hx, hy])]

theorem add_cur_cell_cur (s : State α) : (add_cur_cell s).m_cur_cell = s.m_cur_cell := by
  unfold add_cur_cell store_cur_cell allocate_block
  split_ifs <;> rfl

theorem set_cur_cell_x (s : State α) (x y : Int) : (set_cur_cell s x y).m_cur_cell.x = x := by
  unfold set_cur_cell
  split
  · rfl
  · rename_i h
    simp only [not_or, not_not] at h
    exact h.1

theorem set_cur_cell_y (s : State α) (x y : Int) : (set_cur_cell s x y).m_cur_cell.y = y := by
  unfold set_cur_cell
  split
  · rfl
  · rename_i h
    simp only [not_or, not_not] at h
    exact h.2

theorem acc_add_x (s : State α) (a b : Int) : (acc_add s a b).m_cur_cell.x = s.m_cur_cell.x := rfl
theorem acc_add_y (s : State α) (a b : Int) : (acc_add s a b).m_cur_cell.y = s.m_cur_cell.y := rfl

theorem add_cur_cell_quiet (s : State α) (hc : s.m_cur_cell.cover = 0)
    (ha : s.m_cur_cell.area = 0) : add_cur_cell s = s := by
  unfold add_cur_cell
  rw [if_neg (by simp [hc, ha])]

theorem set_cur_cell_quiet (s : State α) (x y : Int) (hc : s.m_cur_cell.cover = 0)
    (ha : s.m_cur_cell.area = 0) :
    set_cur_cell s x y =
      { s with m_cur_cell := { s.m_cur_cell with x := x, y := y, cover := 0, area := 0 } } := by
  unfold set_cur_cell
  split
  · rw [add_cur_cell_quiet s hc ha]
  · rename_i h
    simp only [not_or, not_not] at h
    obtain ⟨s1, s2, s3, s4, s5, s6, s7, ⟨cx, cy, cc, ca, cu⟩, s9⟩ := s
    simp only at h hc ha
    obtain ⟨h1, h2⟩ := h
    subst h1 h2 hc ha
    rfl

theorem set_cur_cell_set_cur_cell (s : State α) (x y x' y' : Int)
    (h : s.m_cur_cell.x ≠ x' ∨ s.m_cur_cell.y ≠ y') :
    set_cur_cell (set_cur_cell s x y) x' y' = set_cur_cell s x' y' := by
  by_cases hs : s.m_cur_cell.x ≠ x ∨ s.m_cur_cell.y ≠ y
  · have e1 : set_cur_cell s x y = { add_cur_cell s with m_cur_cell :=
        { (add_cur_cell s).m_cur_cell with x := x, y := y, cover := 0, area := 0 } } := by
      unfold set_cur_cell; rw [if_pos hs]
    have e2 : set_cur_cell s x' y' = { add_cur_cell s with m_cur_cell :=
        { (add_cur_cell s).m_cur_cell with x := x', y := y', cover := 0, area := 0 } } := by
      unfold set_cur_cell; rw [if_pos h]
    rw [e1, e2, set_cur_cell_quiet _ _ _ rfl rfl]
  · simp only [not_or, not_not] at hs
    rw [set_cur_cell_same s x y hs.1 hs.2]

theorem deposit_zero (s : State α) (x y : Int) :
    deposit s ⟨x, y, 0, 0⟩ = set_cur_cell s x y := by
  simp [deposit, acc_add_zero]

theorem deposit_at (s : State α) (p : Piece)
    (hx : s.m_cur_cell.x = p.x) (hy : s.m_cur_cell.y = p.y) :
    deposit s p = acc_add s p.dc p.da := by
  unfold deposit
  rw [set_cur_cell_same s _ _ hx hy]

theorem deposit_x (s : State α) (p : Piece) : (deposit s p).m_cur_cell.x = p.x := by
  unfold deposit; rw [acc_add_x, set_cur_cell_x]

theorem deposit_y (s : State α) (p : Piece) : (deposit s p).m_cur_cell.y = p.y := by
  unfold deposit; rw [acc_add_y, set_cur_cell_y]



theorem hl_dx_pos (x1 x2 : Int) (h : shr_base x1 ≠ shr_base x2) : 0 < hl_dx x1 x2 := by
  unfold hl_dx shr_base poly_base_size at *
  split <;> omega

theorem hl_ex2 (x1 x2 : Int) :
    shr_base x2 = shr_base x1 + hl_incr x1 x2 * ((shr_base x2 - shr_base x1).natAbs : Nat) := by
  unfold hl_incr shr_base poly_base_size
  split <;> omega

/-- the crossing at the border entered by column `ex1 + incr * k` -/
theorem cross_in (x1 y1 x2 y2 : Int) (k : Nat) (h : shr_base x1 ≠ shr_base x2) :
    cross x1 y1 x2 y2 (if x2 - x1 < 0
        then poly_base_size * (shr_base x1 + hl_incr x1 x2 * k) + poly_base_size
        else poly_base_size * (shr_base x1 + hl_incr x1 x2 * k)) = hl_Y x1 y1 x2 y2 k := by
  have hD := hl_dx_pos x1 x2 h
  unfold cross hl_Y fl hl_p hl_dx hl_incr at *
  have hx : x1 = poly_base_size * shr_base x1 + and_mask x1 := by
    unfold shr_base and_mask
    exact (Int.ediv_add_emod x1 poly_base_size).symm
  by_cases hd : x2 - x1 < 0
  · simp only [hd, if_true] at hD ⊢
    have h0 : ¬ (0 < x2 - x1) := by omega
    rw [if_neg h0]
    congr 2
    generalize shr_base x1 = e at *
    generalize and_mask x1 = f at *
    subst hx
    ring
  · simp only [hd, if_false] at hD ⊢
    rw [if_pos hD]
    congr 2
    generalize shr_base x1 = e at *
    generalize and_mask x1 = f at *
    subst hx
    ring

theorem hcol_first (ey x1 y1 x2 y2 : Int) (h : shr_base x1 ≠ shr_base x2) :
    hcol ey x1 y1 x2 y2 (shr_base x1) =
      ⟨shr_base x1, ey, hl_Y x1 y1 x2 y2 1 - y1,
        (and_mask x1 + hl_first x1 x2) * (hl_Y x1 y1 x2 y2 1 - y1)⟩ := by
  have hc := cross_in x1 y1 x2 y2 1 h
  unfold hcol
  simp only [if_neg h, if_true]
  unfold hl_incr hl_first at *
  by_cases hd : x2 - x1 < 0
  · simp only [hd, if_true] at hc ⊢
    have e : poly_base_size * (shr_base x1 + -1 * ((1 : Nat) : Int)) + poly_base_size
        = poly_base_size * shr_base x1 := by push_cast; ring
    rw [e] at hc
    rw [hc]
    simp
  · simp only [hd, if_false] at hc ⊢
    have e : poly_base_size * (shr_base x1 + 1 * ((1 : Nat) : Int))
        = poly_base_size * shr_base x1 + poly_base_size := by push_cast; ring
    rw [e] at hc
    rw [hc]
    simp

theorem hcol_last (ey x1 y1 x2 y2 : Int) (h : shr_base x1 ≠ shr_base x2) :
    hcol ey x1 y1 x2 y2 (shr_base x2) =
      ⟨shr_base x2, ey, y2 - hl_Y x1 y1 x2 y2 (shr_base x2 - shr_base x1).natAbs,
        (and_mask x2 + poly_base_size - hl_first x1 x2) *
          (y2 - hl_Y x1 y1 x2 y2 (shr_base x2 - shr_base x1).natAbs)⟩ := by
  have hc := cross_in x1 y1 x2 y2 (shr_base x2 - shr_base x1).natAbs h
  rw [← hl_ex2] at hc
  unfold hcol
  simp only [if_neg (Ne.symm h), if_true]
  unfold hl_first at *
  by_cases hd : x2 - x1 < 0
  · simp only [hd, if_true] at hc ⊢
    rw [hc]
    congr 1
    ring
  · simp only [hd, if_false] at hc ⊢
    rw [hc]
    congr 1
    ring

theorem hcol_mid (ey x1 y1 x2 y2 : Int) (k : Nat) (hk : 1 ≤ k)
    (hkn : k < (shr_base x2 - shr_base x1).natAbs) :
    hcol ey x1 y1 x2 y2 (shr_base x1 + hl_incr x1 x2 * k) =
      ⟨shr_base x1 + hl_incr x1 x2 * k, ey,
        hl_Y x1 y1 x2 y2 (k + 1) - hl_Y x1 y1 x2 y2 k,
        poly_base_size * (hl_Y x1 y1 x2 y2 (k + 1) - hl_Y x1 y1 x2 y2 k)⟩ := by
  have h : shr_base x1 ≠ shr_base x2 := by omega
  have hc1 := cross_in x1 y1 x2 y2 k h
  have hc2 := cross_in x1 y1 x2 y2 (k + 1) h
  have hex2 := hl_ex2 x1 x2
  have hi : hl_incr x1 x2 = 1 ∨ hl_incr x1 x2 = -1 := by
    unfold hl_incr; split <;> simp
  have n1 : shr_base x1 + hl_incr x1 x2 * k ≠ shr_base x1 := by
    rcases hi with hi | hi <;> rw [hi] <;> omega
  have n2 : shr_base x1 + hl_incr x1 x2 * k ≠ shr_base x2 := by
    rw [hex2]
    rcases hi with hi | hi <;> rw [hi] <;> omega
  unfold hcol
  simp only [if_neg n1, if_neg n2]
  by_cases hd : x2 - x1 < 0
  · simp only [hd, if_true] at hc1 hc2 ⊢
    have hi' : hl_incr x1 x2 = -1 := by unfold hl_incr; simp [hd]
    have e : poly_base_size * (shr_base x1 + hl_incr x1 x2 * ((k + 1 : Nat) : Int))
        + poly_base_size = poly_base_size * (shr_base x1 + hl_incr x1 x2 * k) := by
      rw [hi']; push_cast; ring
    rw [e] at hc2
    rw [hc1, hc2]
    congr 1
    ring
  · simp only [hd, if_false] at hc1 hc2 ⊢
    have hi' : hl_incr x1 x2 = 1 := by unfold hl_incr; simp [hd]
    have e : poly_base_size * (shr_base x1 + hl_incr x1 x2 * ((k + 1 : Nat) : Int))
        = poly_base_size * (shr_base x1 + hl_incr x1 x2 * k) + poly_base_size := by
      rw [hi']; push_cast; ring
    rw [e] at hc2
    rw [hc1, hc2]
    congr 1
    ring


theorem deposit_set_cur_cell (s : State α) (p : Piece) :
    deposit (set_cur_cell s p.x p.y) p = deposit s p := by
  unfold deposit
  rw [set_cur_cell_same (set_cur_cell s p.x p.y) p.x p.y (set_cur_cell_x _ _ _)
    (set_cur_cell_y _ _ _)]

theorem hcol_x (ey x1 y1 x2 y2 ex : Int) : (hcol ey x1 y1 x2 y2 ex).x = ex := rfl
theorem hcol_y (ey x1 y1 x2 y2 ex : Int) : (hcol ey x1 y1 x2 y2 ex).y = ey := rfl

theorem render_hline_loop_done (ey ex2 incr dx lift rem : Int) (fuel : Nat) (s : State α)
    (y1 mod : Int) :
    render_hline_loop ey ex2 incr dx lift rem fuel s ex2 y1 mod = some (s, y1) := by
  cases fuel <;> simp [render_hline_loop]

theorem render_hline_loop_closed (ey x1 y1 x2 y2 : Int) (h : shr_base x1 ≠ shr_base x2) :
    ∀ (j k : Nat) (s : State α),
      k + j = (shr_base x2 - shr_base x1).natAbs → 1 ≤ k →
      s.m_cur_cell.x = shr_base x1 + hl_incr x1 x2 * k → s.m_cur_cell.y = ey →
      ∃ G yn,
        render_hline_loop ey (shr_base x2) (hl_incr x1 x2) (hl_dx x1 x2)
          ((poly_base_size * (y2 - y1)) / hl_dx x1 x2)
          ((poly_base_size * (y2 - y1)) % hl_dx x1 x2)
          j s (shr_base x1 + hl_incr x1 x2 * k) (hl_Y x1 y1 x2 y2 k)
          ((hl_p x1 y1 x2 y2 + poly_base_size * ((k : Int) - 1) * (y2 - y1)) % hl_dx x1 x2
            - hl_dx x1 x2) = some (G, yn) ∧
        acc_add G (y2 - yn) ((and_mask x2 + poly_base_size - hl_first x1 x2) * (y2 - yn)) =
          ((List.range' k (j + 1)).map fun (i : Nat) =>
            hcol ey x1 y1 x2 y2 (shr_base x1 + hl_incr x1 x2 * (i : Int))).foldl deposit s := by
  have hD := hl_dx_pos x1 x2 h
  have hex2 := hl_ex2 x1 x2
  intro j
  induction j with
  | zero =>
    intro k s hkj hk hx hy
    have hkn : k = (shr_base x2 - shr_base x1).natAbs := by omega
    have he : shr_base x1 + hl_incr x1 x2 * (k : Int) = shr_base x2 := by rw [hkn]; exact hex2.symm
    refine ⟨s, hl_Y x1 y1 x2 y2 k, ?_, ?_⟩
    · rw [he]; exact render_hline_loop_done _ _ _ _ _ _ _ _ _ _
    · simp only [List.range', List.map, List.foldl, zero_add]
      rw [he, hcol_last ey x1 y1 x2 y2 h, deposit_at _ _ (by rw [hx, he]) (by rw [hy]), ← hkn]
  | succ j ih =>
    intro k s hkj hk hx hy
    have hkn : k < (shr_base x2 - shr_base x1).natAbs := by omega
    have hi : hl_incr x1 x2 = 1 ∨ hl_incr x1 x2 = -1 := by
      unfold hl_incr; split <;> simp
    have hne : shr_base x1 + hl_incr x1 x2 * (k : Int) ≠ shr_base x2 := by
      rw [hex2]
      rcases hi with hi | hi <;> rw [hi] <;> omega
    rw [render_hline_loop, if_neg hne]
    dsimp only
    obtain ⟨hq, hr⟩ := ediv_add_step
      (hl_p x1 y1 x2 y2 + poly_base_size * ((k : Int) - 1) * (y2 - y1))
      (poly_base_size * (y2 - y1)) (hl_dx x1 x2) hD
    have eN : hl_p x1 y1 x2 y2 + poly_base_size * ((k : Int) - 1) * (y2 - y1) +
        poly_base_size * (y2 - y1) =
        hl_p x1 y1 x2 y2 + poly_base_size * (((k + 1 : Nat) : Int) - 1) * (y2 - y1) := by
      push_cast; ring
    rw [eN] at hq hr
    have hdelta : hl_Y x1 y1 x2 y2 (k + 1) - hl_Y x1 y1 x2 y2 k =
        (if (hl_p x1 y1 x2 y2 + poly_base_size * ((k : Int) - 1) * (y2 - y1)) % hl_dx x1 x2
            - hl_dx x1 x2 + (poly_base_size * (y2 - y1)) % hl_dx x1 x2 ≥ 0
          then (poly_base_size * (y2 - y1)) / hl_dx x1 x2 + 1
          else (poly_base_size * (y2 - y1)) / hl_dx x1 x2) := by
      unfold hl_Y
      rw [hq]
      split <;> ring
    have hmod : (if (hl_p x1 y1 x2 y2 + poly_base_size * ((k : Int) - 1) * (y2 - y1)) %
            hl_dx x1 x2 - hl_dx x1 x2 + (poly_base_size * (y2 - y1)) % hl_dx x1 x2 ≥ 0
          then (hl_p x1 y1 x2 y2 + poly_base_size * ((k : Int) - 1) * (y2 - y1)) % hl_dx x1 x2
            - hl_dx x1 x2 + (poly_base_size * (y2 - y1)) % hl_dx x1 x2 - hl_dx x1 x2
          else (hl_p x1 y1 x2 y2 + poly_base_size * ((k : Int) - 1) * (y2 - y1)) % hl_dx x1 x2
            - hl_dx x1 x2 + (poly_base_size * (y2 - y1)) % hl_dx x1 x2) =
        (hl_p x1 y1 x2 y2 + poly_base_size * (((k + 1 : Nat) : Int) - 1) * (y2 - y1)) %
          hl_dx x1 x2 - hl_dx x1 x2 := hr.symm
    rw [hmod, ← hdelta]
    have ey1 : hl_Y x1 y1 x2 y2 k + (hl_Y x1 y1 x2 y2 (k + 1) - hl_Y x1 y1 x2 y2 k) =
        hl_Y x1 y1 x2 y2 (k + 1) := by ring
    have ex1 : shr_base x1 + hl_incr x1 x2 * (k : Int) + hl_incr x1 x2 =
        shr_base x1 + hl_incr x1 x2 * ((k + 1 : Nat) : Int) := by push_cast; ring
    rw [ey1, ex1]
    obtain ⟨G, yn, hG, hG2⟩ := ih (k + 1)
      (set_cur_cell (acc_add s (hl_Y x1 y1 x2 y2 (k + 1) - hl_Y x1 y1 x2 y2 k)
        (poly_base_size * (hl_Y x1 y1 x2 y2 (k + 1) - hl_Y x1 y1 x2 y2 k)))
        (shr_base x1 + hl_incr x1 x2 * ((k + 1 : Nat) : Int)) ey)
      (by omega) (by omega) (set_cur_cell_x _ _ _) (set_cur_cell_y _ _ _)
    refine ⟨G, yn, hG, ?_⟩
    rw [hG2]
    rw [List.range'_succ k (j + 1)]
    rw [List.range'_succ (k + 1) j]
    simp only [List.map, List.foldl]
    rw [hcol_mid ey x1 y1 x2 y2 k hk hkn]
    rw [deposit_at s _ (by rw [hx]) (by rw [hy])]
    dsimp only
    have := deposit_set_cur_cell (acc_add s (hl_Y x1 y1 x2 y2 (k + 1) - hl_Y x1 y1 x2 y2 k)
        (poly_base_size * (hl_Y x1 y1 x2 y2 (k + 1) - hl_Y x1 y1 x2 y2 k)))
      (hcol ey x1 y1 x2 y2 (shr_base x1 + hl_incr x1 x2 * ((k + 1 : Nat) : Int)))
    rw [hcol_x, hcol_y] at this
    rw [this]


theorem cross_flat (a1 b a2 A : Int) : cross a1 b a2 b A = b := by
  unfold cross
  simp [fl_zero]

theorem hcol_flat (ey x1 y x2 ex : Int) : hcol ey x1 y x2 y ex = ⟨ex, ey, 0, 0⟩ := by
  unfold hcol
  simp only [cross_flat]
  simp

theorem foldl_set_chain (s : State α) (ex1 ey incr : Int) (hi : incr ≠ 0)
    (hx : s.m_cur_cell.x = ex1) :
    ∀ n : Nat, ((List.range (n + 1)).map fun k : Nat =>
        (⟨ex1 + incr * k, ey, 0, 0⟩ : Piece)).foldl deposit s =
      set_cur_cell s (ex1 + incr * n) ey := by
  intro n
  induction n with
  | zero =>
    simp only [List.range_succ, List.range_zero, List.nil_append, List.map, List.foldl]
    rw [deposit_zero]
  | succ n ih =>
    rw [List.range_succ, List.map_append, List.foldl_append, ih]
    simp only [List.map, List.foldl]
    rw [deposit_zero]
    apply set_cur_cell_set_cur_cell
    left
    rw [hx]
    intro h
    have : incr * ((n + 1 : Nat) : Int) = 0 := by linarith
    rcases mul_eq_zero.mp this with h1 | h1
    · exact hi h1
    · have : ((n + 1 : Nat) : Int) ≠ 0 := by omega
      exact this h1

theorem render_hline_closed (s : State α) (ey x1 y1 x2 y2 : Int)
    (hx : s.m_cur_cell.x = shr_base x1) (hy : s.m_cur_cell.y = ey) :
    render_hline s ey x1 y1 x2 y2 = some ((hline_pieces ey x1 y1 x2 y2).foldl deposit s) := by
  have hex2 := hl_ex2 x1 x2
  by_cases hyy : y1 = y2
  · subst hyy
    unfold render_hline hline_pieces
    dsimp only
    rw [if_pos rfl]
    simp only [hcol_flat]
    rw [foldl_set_chain s (shr_base x1) ey (if x2 - x1 < 0 then -1 else 1)
      (by split <;> simp) hx]
    unfold hl_incr at hex2
    rw [← hex2]
  by_cases hex : shr_base x1 = shr_base x2
  · unfold render_hline hline_pieces
    dsimp only
    rw [if_neg hyy, if_pos hex]
    have hn : (shr_base x2 - shr_base x1).natAbs = 0 := by omega
    rw [hn]
    simp only [zero_add, List.range_succ, List.range_zero, List.nil_append, List.map,
      List.foldl]
    rw [deposit_at _ _ (by rw [hx]; simp [hcol_x]) (by rw [hy]; simp [hcol_y])]
    unfold hcol
    simp [hex]
  · have hD := hl_dx_pos x1 x2 hex
    have hn : 1 ≤ (shr_base x2 - shr_base x1).natAbs := by omega
    obtain ⟨G, yn, hG, hG2⟩ := render_hline_loop_closed ey x1 y1 x2 y2 hex
      ((shr_base x2 - shr_base x1).natAbs - 1) 1
      (set_cur_cell (acc_add s (hl_Y x1 y1 x2 y2 1 - y1)
        ((and_mask x1 + hl_first x1 x2) * (hl_Y x1 y1 x2 y2 1 - y1)))
        (shr_base x1 + hl_incr x1 x2 * ((1 : Nat) : Int)) ey)
      (by omega) (le_refl 1) (set_cur_cell_x _ _ _) (set_cur_cell_y _ _ _)
    have hY1 : hl_Y x1 y1 x2 y2 1 = y1 + hl_p x1 y1 x2 y2 / hl_dx x1 x2 := by
      unfold hl_Y; simp
    have hfuel : (shr_base x2 - (shr_base x1 + hl_incr x1 x2)).natAbs =
        (shr_base x2 - shr_base x1).natAbs - 1 := by
      unfold hl_incr shr_base poly_base_size at *
      split <;> omega
    unfold render_hline
    dsimp only
    rw [if_neg hyy, if_neg hex]
    change (match (if shr_base x1 + hl_incr x1 x2 ≠ shr_base x2 then
        render_hline_loop ey (shr_base x2) (hl_incr x1 x2) (hl_dx x1 x2)
          (div_mod_adjust (poly_base_size * (y2 - (y1 +
            (div_mod_adjust (hl_p x1 y1 x2 y2) (hl_dx x1 x2)).1) +
            (div_mod_adjust (hl_p x1 y1 x2 y2) (hl_dx x1 x2)).1)) (hl_dx x1 x2)).1
          (div_mod_adjust (poly_base_size * (y2 - (y1 +
            (div_mod_adjust (hl_p x1 y1 x2 y2) (hl_dx x1 x2)).1) +
            (div_mod_adjust (hl_p x1 y1 x2 y2) (hl_dx x1 x2)).1)) (hl_dx x1 x2)).2
          (shr_base x2 - (shr_base x1 + hl_incr x1 x2)).natAbs
          (set_cur_cell (acc_add s (div_mod_adjust (hl_p x1 y1 x2 y2) (hl_dx x1 x2)).1
            ((and_mask x1 + hl_first x1 x2) *
              (div_mod_adjust (hl_p x1 y1 x2 y2) (hl_dx x1 x2)).1))
            (shr_base x1 + hl_incr x1 x2) ey)
          (shr_base x1 + hl_incr x1 x2)
          (y1 + (div_mod_adjust (hl_p x1 y1 x2 y2) (hl_dx x1 x2)).1)
          ((div_mod_adjust (hl_p x1 y1 x2 y2) (hl_dx x1 x2)).2 - hl_dx x1 x2)
      else some (set_cur_cell (acc_add s (div_mod_adjust (hl_p x1 y1 x2 y2) (hl_dx x1 x2)).1
            ((and_mask x1 + hl_first x1 x2) *
              (div_mod_adjust (hl_p x1 y1 x2 y2) (hl_dx x1 x2)).1))
            (shr_base x1 + hl_incr x1 x2) ey,
          y1 + (div_mod_adjust (hl_p x1 y1 x2 y2) (hl_dx x1 x2)).1)) with
      | none => none
      | some r => some (acc_add r.1 (y2 - r.2)
          ((and_mask x2 + poly_base_size - hl_first x1 x2) * (y2 - r.2)))) = _
    have hloop : (if shr_base x1 + hl_incr x1 x2 ≠ shr_base x2 then
        render_hline_loop ey (shr_base x2) (hl_incr x1 x2) (hl_dx x1 x2)
          (div_mod_adjust (poly_base_size * (y2 - (y1 +
            (div_mod_adjust (hl_p x1 y1 x2 y2) (hl_dx x1 x2)).1) +
            (div_mod_adjust (hl_p x1 y1 x2 y2) (hl_dx x1 x2)).1)) (hl_dx x1 x2)).1
          (div_mod_adjust (poly_base_size * (y2 - (y1 +
            (div_mod_adjust (hl_p x1 y1 x2 y2) (hl_dx x1 x2)).1) +
            (div_mod_adjust (hl_p x1 y1 x2 y2) (hl_dx x1 x2)).1)) (hl_dx x1 x2)).2
          (shr_base x2 - (shr_base x1 + hl_incr x1 x2)).natAbs
          (set_cur_cell (acc_add s (div_mod_adjust (hl_p x1 y1 x2 y2) (hl_dx x1 x2)).1
            ((and_mask x1 + hl_first x1 x2) *
              (div_mod_adjust (hl_p x1 y1 x2 y2) (hl_dx x1 x2)).1))
            (shr_base x1 + hl_incr x1 x2) ey)
          (shr_base x1 + hl_incr x1 x2)
          (y1 + (div_mod_adjust (hl_p x1 y1 x2 y2) (hl_dx x1 x2)).1)
          ((div_mod_adjust (hl_p x1 y1 x2 y2) (hl_dx x1 x2)).2 - hl_dx x1 x2)
      else some (set_cur_cell (acc_add s (div_mod_adjust (hl_p x1 y1 x2 y2) (hl_dx x1 x2)).1
            ((and_mask x1 + hl_first x1 x2) *
              (div_mod_adjust (hl_p x1 y1 x2 y2) (hl_dx x1 x2)).1))
            (shr_base x1 + hl_incr x1 x2) ey,
          y1 + (div_mod_adjust (hl_p x1 y1 x2 y2) (hl_dx x1 x2)).1)) = some (G, yn) := by
      rw [← hG]
      rw [div_mod_adjust_eq _ _ hD, div_mod_adjust_eq _ _ hD]
      dsimp only
      have e1 : poly_base_size * (y2 - (y1 + hl_p x1 y1 x2 y2 / hl_dx x1 x2) +
          hl_p x1 y1 x2 y2 / hl_dx x1 x2) = poly_base_size * (y2 - y1) := by ring
      have e2 : hl_p x1 y1 x2 y2 + poly_base_size * (((1 : Nat) : Int) - 1) * (y2 - y1) =
          hl_p x1 y1 x2 y2 := by simp
      have e3 : shr_base x1 + hl_incr x1 x2 * ((1 : Nat) : Int) =
          shr_base x1 + hl_incr x1 x2 := by simp
      have e4 : hl_Y x1 y1 x2 y2 1 - y1 = hl_p x1 y1 x2 y2 / hl_dx x1 x2 := by
        rw [hY1]; ring
      rw [e1, e2, e3, e4, hfuel, ← hY1]
      by_cases hne : shr_base x1 + hl_incr x1 x2 ≠ shr_base x2
      · rw [if_pos hne]
      · rw [if_neg hne]
        simp only [not_not] at hne
        rw [hne]
        exact (render_hline_loop_done _ _ _ _ _ _ _ _ _ _).symm
    rw [hloop]
    dsimp only
    rw [hG2]
    have hlen : (shr_base x2 - shr_base x1).natAbs - 1 + 1 =
        (shr_base x2 - shr_base x1).natAbs := by omega
    rw [hlen]
    unfold hline_pieces
    rw [List.range_eq_range', List.range'_succ]
    simp only [List.map, List.foldl]
    congr 1
    have e0 : shr_base x1 + (if x2 - x1 < 0 then -1 else 1) * ((0 : Nat) : Int) =
        shr_base x1 := by simp
    have hl : ∀ i : Nat, shr_base x1 + (if x2 - x1 < 0 then -1 else 1) * (i : Int) =
        shr_base x1 + hl_incr x1 x2 * (i : Int) := fun i => rfl
    rw [e0, hcol_first ey x1 y1 x2 y2 hex, deposit_at s _ (by rw [hx]) (by rw [hy])]
    dsimp only
    obtain ⟨m, hm⟩ : ∃ m, (shr_base x2 - shr_base x1).natAbs = m + 1 := ⟨_, hlen.symm⟩
    rw [hm, List.range'_succ]
    simp only [List.map, List.foldl]
    have := deposit_set_cur_cell (acc_add s (hl_Y x1 y1 x2 y2 1 - y1)
        ((and_mask x1 + hl_first x1 x2) * (hl_Y x1 y1 x2 y2 1 - y1)))
      (hcol ey x1 y1 x2 y2 (shr_base x1 + hl_incr x1 x2 * ((1 : Nat) : Int)))
    rw [hcol_x, hcol_y] at this
    simp only [hl]
    rw [this]


theorem and_mask_eq (v : Int) : v - poly_base_size * shr_base v = and_mask v := by
  unfold shr_base and_mask
  have := Int.ediv_add_emod v poly_base_size
  linarith

theorem row_first (x1 y1 x2 y2 : Int) (h : shr_base y1 ≠ shr_base y2) :
    row_pieces x1 y1 x2 y2 (shr_base y1) =
      hline_pieces (shr_base y1) x1 (and_mask y1) (hl_Y y1 x1 y2 x2 1) (hl_first y1 y2) := by
  have hc := cross_in y1 x1 y2 x2 1 h
  unfold row_pieces
  simp only [if_neg h, if_true]
  rw [and_mask_eq]
  unfold hl_incr hl_first at *
  by_cases hd : y2 - y1 < 0
  · simp only [hd, if_true] at hc ⊢
    have e : poly_base_size * (shr_base y1 + -1 * ((1 : Nat) : Int)) + poly_base_size
        = poly_base_size * shr_base y1 := by push_cast; ring
    rw [e] at hc
    rw [hc]
    simp
  · simp only [hd, if_false] at hc ⊢
    have e : poly_base_size * (shr_base y1 + 1 * ((1 : Nat) : Int))
        = poly_base_size * shr_base y1 + poly_base_size := by push_cast; ring
    rw [e] at hc
    rw [hc]
    simp

theorem row_last (x1 y1 x2 y2 : Int) (h : shr_base y1 ≠ shr_base y2) :
    row_pieces x1 y1 x2 y2 (shr_base y2) =
      hline_pieces (shr_base y2) (hl_Y y1 x1 y2 x2 (shr_base y2 - shr_base y1).natAbs)
        (poly_base_size - hl_first y1 y2) x2 (and_mask y2) := by
  have hc := cross_in y1 x1 y2 x2 (shr_base y2 - shr_base y1).natAbs h
  rw [← hl_ex2] at hc
  unfold row_pieces
  simp only [if_neg (Ne.symm h), if_true]
  rw [and_mask_eq]
  unfold hl_first at *
  by_cases hd : y2 - y1 < 0
  · simp only [hd, if_true] at hc ⊢
    rw [hc]
    congr 1
    ring
  · simp only [hd, if_false] at hc ⊢
    rw [hc]
    congr 1
    ring

theorem row_mid (x1 y1 x2 y2 : Int) (k : Nat) (hk : 1 ≤ k)
    (hkn : k < (shr_base y2 - shr_base y1).natAbs) :
    row_pieces x1 y1 x2 y2 (shr_base y1 + hl_incr y1 y2 * k) =
      hline_pieces (shr_base y1 + hl_incr y1 y2 * k) (hl_Y y1 x1 y2 x2 k)
        (poly_base_size - hl_first y1 y2) (hl_Y y1 x1 y2 x2 (k + 1)) (hl_first y1 y2) := by
  have h : shr_base y1 ≠ shr_base y2 := by omega
  have hc1 := cross_in y1 x1 y2 x2 k h
  have hc2 := cross_in y1 x1 y2 x2 (k + 1) h
  have hex2 := hl_ex2 y1 y2
  have hi : hl_incr y1 y2 = 1 ∨ hl_incr y1 y2 = -1 := by
    unfold hl_incr; split <;> simp
  have n1 : shr_base y1 + hl_incr y1 y2 * k ≠ shr_base y1 := by
    rcases hi with hi | hi <;> rw [hi] <;> omega
  have n2 : shr_base y1 + hl_incr y1 y2 * k ≠ shr_base y2 := by
    rw [hex2]
    rcases hi with hi | hi <;> rw [hi] <;> omega
  unfold row_pieces
  simp only [if_neg n1, if_neg n2]
  unfold hl_first
  by_cases hd : y2 - y1 < 0
  · simp only [hd, if_true] at hc1 hc2 ⊢
    have hi' : hl_incr y1 y2 = -1 := by unfold hl_incr; simp [hd]
    have e : poly_base_size * (shr_base y1 + hl_incr y1 y2 * ((k + 1 : Nat) : Int))
        + poly_base_size = poly_base_size * (shr_base y1 + hl_incr y1 y2 * k) := by
      rw [hi']; push_cast; ring
    rw [e] at hc2
    rw [hc1, hc2]
    congr 1 <;> ring
  · simp only [hd, if_false] at hc1 hc2 ⊢
    have hi' : hl_incr y1 y2 = 1 := by unfold hl_incr; simp [hd]
    have e : poly_base_size * (shr_base y1 + hl_incr y1 y2 * ((k + 1 : Nat) : Int))
        = poly_base_size * (shr_base y1 + hl_incr y1 y2 * k) + poly_base_size := by
      rw [hi']; push_cast; ring
    rw [e] at hc2
    rw [hc1, hc2]
    congr 1 <;> ring

theorem hline_pieces_cons (ey x1 y1 x2 y2 : Int) :
    ∃ L, hline_pieces ey x1 y1 x2 y2 = hcol ey x1 y1 x2 y2 (shr_base x1) :: L := by
  unfold hline_pieces
  rw [List.range_eq_range', List.range'_succ, List.map_cons]
  exact ⟨(List.range' (0 + 1) (shr_base x2 - shr_base x1).natAbs).map fun (k : Nat) =>
      hcol ey x1 y1 x2 y2 (shr_base x1 + (if x2 - x1 < 0 then -1 else 1) * (k : Int)), by
    rw [show shr_base x1 + (if x2 - x1 < 0 then (-1 : Int) else 1) * ((0 : Nat) : Int) =
      shr_base x1 by simp]⟩

theorem foldl_deposit_set_head (t : State α) (p : Piece) (L : List Piece) :
    (p :: L).foldl deposit (set_cur_cell t p.x p.y) = (p :: L).foldl deposit t := by
  simp only [List.foldl]
  rw [deposit_set_cur_cell]

theorem render_line_loop_done (ey2 incr dy lift rem first : Int) (fuel : Nat) (s : State α)
    (x_from mod : Int) :
    render_line_loop ey2 incr dy lift rem first fuel s ey2 x_from mod =
      some (s, ey2, x_from) := by
  cases fuel <;> simp [render_line_loop]

theorem render_line_loop_closed (x1 y1 x2 y2 : Int) (h : shr_base y1 ≠ shr_base y2) :
    ∀ (j k : Nat) (s : State α),
      k + j = (shr_base y2 - shr_base y1).natAbs → 1 ≤ k →
      s.m_cur_cell.x = shr_base (hl_Y y1 x1 y2 x2 k) →
      s.m_cur_cell.y = shr_base y1 + hl_incr y1 y2 * k →
      ∃ G e xf,
        render_line_loop (shr_base y2) (hl_incr y1 y2) (hl_dx y1 y2)
          ((poly_base_size * (x2 - x1)) / hl_dx y1 y2)
          ((poly_base_size * (x2 - x1)) % hl_dx y1 y2) (hl_first y1 y2)
          j s (shr_base y1 + hl_incr y1 y2 * k) (hl_Y y1 x1 y2 x2 k)
          ((hl_p y1 x1 y2 x2 + poly_base_size * ((k : Int) - 1) * (x2 - x1)) % hl_dx y1 y2
            - hl_dx y1 y2) = some (G, e, xf) ∧
        render_hline G e xf (poly_base_size - hl_first y1 y2) x2 (and_mask y2) =
          some (((List.range' k (j + 1)).map fun (i : Nat) =>
            row_pieces x1 y1 x2 y2 (shr_base y1 + hl_incr y1 y2 * (i : Int))).flatten.foldl
              deposit s) := by
  have hD := hl_dx_pos y1 y2 h
  have hex2 := hl_ex2 y1 y2
  intro j
  induction j with
  | zero =>
    intro k s hkj hk hx hy
    have hkn : k = (shr_base y2 - shr_base y1).natAbs := by omega
    have he : shr_base y1 + hl_incr y1 y2 * (k : Int) = shr_base y2 := by rw [hkn]; exact hex2.symm
    refine ⟨s, shr_base y2, hl_Y y1 x1 y2 x2 k, ?_, ?_⟩
    · rw [he]; exact render_line_loop_done _ _ _ _ _ _ _ _ _ _
    · simp only [List.range', List.map, List.flatten, List.append_nil, zero_add]
      rw [he, row_last x1 y1 x2 y2 h, ← hkn]
      exact render_hline_closed s _ _ _ _ _ hx (by rw [hy, he])
  | succ j ih =>
    intro k s hkj hk hx hy
    have hkn : k < (shr_base y2 - shr_base y1).natAbs := by omega
    have hi : hl_incr y1 y2 = 1 ∨ hl_incr y1 y2 = -1 := by
      unfold hl_incr; split <;> simp
    have hne : shr_base y1 + hl_incr y1 y2 * (k : Int) ≠ shr_base y2 := by
      rw [hex2]
      rcases hi with hi | hi <;> rw [hi] <;> omega
    rw [render_line_loop, if_neg hne]
    dsimp only
    obtain ⟨hq, hr⟩ := ediv_add_step
      (hl_p y1 x1 y2 x2 + poly_base_size * ((k : Int) - 1) * (x2 - x1))
      (poly_base_size * (x2 - x1)) (hl_dx y1 y2) hD
    have eN : hl_p y1 x1 y2 x2 + poly_base_size * ((k : Int) - 1) * (x2 - x1) +
        poly_base_size * (x2 - x1) =
        hl_p y1 x1 y2 x2 + poly_base_size * (((k + 1 : Nat) : Int) - 1) * (x2 - x1) := by
      push_cast; ring
    rw [eN] at hq hr
    have hdelta : hl_Y y1 x1 y2 x2 (k + 1) - hl_Y y1 x1 y2 x2 k =
        (if (hl_p y1 x1 y2 x2 + poly_base_size * ((k : Int) - 1) * (x2 - x1)) % hl_dx y1 y2
            - hl_dx y1 y2 + (poly_base_size * (x2 - x1)) % hl_dx y1 y2 ≥ 0
          then (poly_base_size * (x2 - x1)) / hl_dx y1 y2 + 1
          else (poly_base_size * (x2 - x1)) / hl_dx y1 y2) := by
      unfold hl_Y
      rw [hq]
      split <;> ring
    rw [← hr, ← hdelta]
    have ex1 : hl_Y y1 x1 y2 x2 k + (hl_Y y1 x1 y2 x2 (k + 1) - hl_Y y1 x1 y2 x2 k) =
        hl_Y y1 x1 y2 x2 (k + 1) := by ring
    have ey1 : shr_base y1 + hl_incr y1 y2 * (k : Int) + hl_incr y1 y2 =
        shr_base y1 + hl_incr y1 y2 * ((k + 1 : Nat) : Int) := by push_cast; ring
    rw [ex1, ey1]
    rw [render_hline_closed s _ _ _ _ _ hx hy]
    dsimp only
    rw [← row_mid x1 y1 x2 y2 k hk hkn]
    obtain ⟨G, e, xf, hG, hG2⟩ := ih (k + 1)
      (set_cur_cell ((row_pieces x1 y1 x2 y2 (shr_base y1 + hl_incr y1 y2 * k)).foldl deposit s)
        (shr_base (hl_Y y1 x1 y2 x2 (k + 1)))
        (shr_base y1 + hl_incr y1 y2 * ((k + 1 : Nat) : Int)))
      (by omega) (by omega) (set_cur_cell_x _ _ _) (set_cur_cell_y _ _ _)
    refine ⟨G, e, xf, hG, ?_⟩
    rw [hG2]
    rw [List.range'_succ k (j + 1)]
    rw [List.range'_succ (k + 1) j]
    simp only [List.map, List.flatten, List.foldl_append]
    congr 1
    have hrow : ∃ L, row_pieces x1 y1 x2 y2
        (shr_base y1 + hl_incr y1 y2 * ((k + 1 : Nat) : Int)) =
        hcol (shr_base y1 + hl_incr y1 y2 * ((k + 1 : Nat) : Int)) (hl_Y y1 x1 y2 x2 (k + 1))
          (poly_base_size - hl_first y1 y2)
          (if k + 1 < (shr_base y2 - shr_base y1).natAbs then hl_Y y1 x1 y2 x2 (k + 1 + 1)
            else x2)
          (if k + 1 < (shr_base y2 - shr_base y1).natAbs then hl_first y1 y2 else and_mask y2)
          (shr_base (hl_Y y1 x1 y2 x2 (k + 1))) :: L := by
      by_cases hlt : k + 1 < (shr_base y2 - shr_base y1).natAbs
      · rw [row_mid x1 y1 x2 y2 (k + 1) (by omega) hlt, if_pos hlt, if_pos hlt]
        exact hline_pieces_cons _ _ _ _ _
      · have hk1 : k + 1 = (shr_base y2 - shr_base y1).natAbs := by omega
        have he : shr_base y1 + hl_incr y1 y2 * ((k + 1 : Nat) : Int) = shr_base y2 := by
          rw [hk1]; exact hex2.symm
        rw [if_neg hlt, if_neg hlt, he, row_last x1 y1 x2 y2 h, ← hk1]
        exact hline_pieces_cons _ _ _ _ _
    obtain ⟨L, hL⟩ := hrow
    rw [hL]
    congr 1
    have := foldl_deposit_set_head
      ((row_pieces x1 y1 x2 y2 (shr_base y1 + hl_incr y1 y2 * k)).foldl deposit s)
      (hcol (shr_base y1 + hl_incr y1 y2 * ((k + 1 : Nat) : Int)) (hl_Y y1 x1 y2 x2 (k + 1))
          (poly_base_size - hl_first y1 y2)
          (if k + 1 < (shr_base y2 - shr_base y1).natAbs then hl_Y y1 x1 y2 x2 (k + 1 + 1)
            else x2)
          (if k + 1 < (shr_base y2 - shr_base y1).natAbs then hl_first y1 y2 else and_mask y2)
          (shr_base (hl_Y y1 x1 y2 x2 (k + 1)))) L
    rw [hcol_x, hcol_y] at this
    exact this


theorem acc_put_eq_acc_add (s : State α) (c a : Int) (hc : s.m_cur_cell.cover = 0)
    (ha : s.m_cur_cell.area = 0) : acc_put s c a = acc_add s c a := by
  unfold acc_put acc_add
  rw [hc, ha]
  simp

theorem set_cur_cell_zero (s : State α) (x y : Int)
    (h : s.m_cur_cell.x ≠ x ∨ s.m_cur_cell.y ≠ y) :
    (set_cur_cell s x y).m_cur_cell.cover = 0 ∧ (set_cur_cell s x y).m_cur_cell.area = 0 := by
  unfold set_cur_cell
  rw [if_pos h]
  exact ⟨rfl, rfl⟩

theorem hl_Y_flat (a1 b a2 : Int) (k : Nat) : hl_Y a1 b a2 b k = b := by
  unfold hl_Y hl_p
  simp

theorem hline_pieces_single (ey x a b : Int) :
    hline_pieces ey x a x b =
      [⟨shr_base x, ey, b - a, (and_mask x + and_mask x) * (b - a)⟩] := by
  unfold hline_pieces
  have h1 : List.range 1 = [0] := rfl
  simp only [sub_self, Int.natAbs_zero, zero_add, h1, List.map_cons, List.map_nil]
  unfold hcol
  simp

theorem render_line_vloop_done (ex ey2 incr delta area : Int) (fuel : Nat) (s : State α) :
    render_line_vloop ex ey2 incr delta area fuel s ey2 = some s := by
  cases fuel <;> simp [render_line_vloop]

theorem render_line_vloop_closed (x y1 y2 : Int) (h : shr_base y1 ≠ shr_base y2) :
    ∀ (j k : Nat) (s : State α),
      k + j = (shr_base y2 - shr_base y1).natAbs → 1 ≤ k →
      s.m_cur_cell.x = shr_base x →
      s.m_cur_cell.y = shr_base y1 + hl_incr y1 y2 * k →
      s.m_cur_cell.cover = 0 → s.m_cur_cell.area = 0 →
      ∃ G,
        render_line_vloop (shr_base x) (shr_base y2) (hl_incr y1 y2)
          (hl_first y1 y2 + hl_first y1 y2 - poly_base_size)
          ((x - shr_base x * poly_base_size) * 2 *
            (hl_first y1 y2 + hl_first y1 y2 - poly_base_size))
          j s (shr_base y1 + hl_incr y1 y2 * k) = some G ∧
        acc_add G (and_mask y2 - poly_base_size + hl_first y1 y2)
            ((x - shr_base x * poly_base_size) * 2 *
              (and_mask y2 - poly_base_size + hl_first y1 y2)) =
          ((List.range' k (j + 1)).map fun (i : Nat) =>
            row_pieces x y1 x y2 (shr_base y1 + hl_incr y1 y2 * (i : Int))).flatten.foldl
              deposit s := by
  have hex2 := hl_ex2 y1 y2
  have hfx : (x - shr_base x * poly_base_size) * 2 = and_mask x + and_mask x := by
    rw [← and_mask_eq]; ring
  intro j
  induction j with
  | zero =>
    intro k s hkj hk hx hy hc ha
    have hkn : k = (shr_base y2 - shr_base y1).natAbs := by omega
    have he : shr_base y1 + hl_incr y1 y2 * (k : Int) = shr_base y2 := by rw [hkn]; exact hex2.symm
    refine ⟨s, ?_, ?_⟩
    · rw [he]; exact render_line_vloop_done _ _ _ _ _ _ _
    · simp only [List.range', List.map, List.flatten, List.append_nil, zero_add]
      rw [he, row_last x y1 x y2 h, hl_Y_flat, hline_pieces_single]
      simp only [List.foldl]
      rw [deposit_at s _ hx (by rw [hy, he])]
      dsimp only
      rw [hfx]
      congr 1 <;> ring
  | succ j ih =>
    intro k s hkj hk hx hy hc ha
    have hkn : k < (shr_base y2 - shr_base y1).natAbs := by omega
    have hi : hl_incr y1 y2 = 1 ∨ hl_incr y1 y2 = -1 := by
      unfold hl_incr; split <;> simp
    have hne : shr_base y1 + hl_incr y1 y2 * (k : Int) ≠ shr_base y2 := by
      rw [hex2]
      rcases hi with hi | hi <;> rw [hi] <;> omega
    rw [render_line_vloop, if_neg hne]
    dsimp only
    have ey1 : shr_base y1 + hl_incr y1 y2 * (k : Int) + hl_incr y1 y2 =
        shr_base y1 + hl_incr y1 y2 * ((k + 1 : Nat) : Int) := by push_cast; ring
    rw [ey1]
    have hny : (acc_put s (hl_first y1 y2 + hl_first y1 y2 - poly_base_size)
        ((x - shr_base x * poly_base_size) * 2 *
          (hl_first y1 y2 + hl_first y1 y2 - poly_base_size))).m_cur_cell.y ≠
        shr_base y1 + hl_incr y1 y2 * ((k + 1 : Nat) : Int) := by
      show s.m_cur_cell.y ≠ _
      rw [hy]
      rcases hi with hi | hi <;> rw [hi] <;> omega
    obtain ⟨z1, z2⟩ := set_cur_cell_zero
      (acc_put s (hl_first y1 y2 + hl_first y1 y2 - poly_base_size)
        ((x - shr_base x * poly_base_size) * 2 *
          (hl_first y1 y2 + hl_first y1 y2 - poly_base_size)))
      (shr_base x) (shr_base y1 + hl_incr y1 y2 * ((k + 1 : Nat) : Int)) (Or.inr hny)
    obtain ⟨G, hG, hG2⟩ := ih (k + 1) _ (by omega) (by omega) (set_cur_cell_x _ _ _)
      (set_cur_cell_y _ _ _) z1 z2
    refine ⟨G, hG, ?_⟩
    rw [hG2]
    rw [List.range'_succ k (j + 1)]
    rw [List.range'_succ (k + 1) j]
    simp only [List.map, List.flatten, List.foldl_append]
    congr 1
    rw [row_mid x y1 x y2 k hk hkn, hl_Y_flat, hl_Y_flat, hline_pieces_single]
    simp only [List.foldl]
    rw [deposit_at s _ hx hy]
    dsimp only
    rw [acc_put_eq_acc_add s _ _ hc ha]
    have hrow : ∃ a b, row_pieces x y1 x y2
        (shr_base y1 + hl_incr y1 y2 * ((k + 1 : Nat) : Int)) =
        [⟨shr_base x, shr_base y1 + hl_incr y1 y2 * ((k + 1 : Nat) : Int), a, b⟩] := by
      by_cases hlt : k + 1 < (shr_base y2 - shr_base y1).natAbs
      · rw [row_mid x y1 x y2 (k + 1) (by omega) hlt, hl_Y_flat, hl_Y_flat,
          hline_pieces_single]
        exact ⟨_, _, rfl⟩
      · have hk1 : k + 1 = (shr_base y2 - shr_base y1).natAbs := by omega
        have he : shr_base y1 + hl_incr y1 y2 * ((k + 1 : Nat) : Int) = shr_base y2 := by
          rw [hk1]; exact hex2.symm
        rw [he, row_last x y1 x y2 h, hl_Y_flat, hline_pieces_single]
        exact ⟨_, _, rfl⟩
    obtain ⟨a, b, hab⟩ := hrow
    rw [hab]
    have e1 : hl_first y1 y2 - (poly_base_size - hl_first y1 y2) =
        hl_first y1 y2 + hl_first y1 y2 - poly_base_size := by ring
    rw [e1, hfx]
    exact foldl_deposit_set_head _
      (⟨shr_base x, shr_base y1 + hl_incr y1 y2 * ((k + 1 : Nat) : Int), a, b⟩ : Piece) []

theorem render_line_body_closed (s : State α) (x1 y1 x2 y2 : Int)
    (hx : s.m_cur_cell.x = shr_base x1) (hy : s.m_cur_cell.y = shr_base y1) :
    render_line_body s x1 y1 x2 y2 = some ((line_pieces x1 y1 x2 y2).foldl deposit s) := by
  have hex2 := hl_ex2 y1 y2
  have hlp : line_pieces x1 y1 x2 y2 =
      ((List.range' 0 ((shr_base y2 - shr_base y1).natAbs + 1)).map fun (k : Nat) =>
        row_pieces x1 y1 x2 y2 (shr_base y1 + hl_incr y1 y2 * (k : Int))).flatten := by
    unfold line_pieces
    rw [List.range_eq_range']
    rfl
  by_cases hey : shr_base y1 = shr_base y2
  · unfold render_line_body
    dsimp only
    rw [if_pos hey, hlp]
    have hn : (shr_base y2 - shr_base y1).natAbs = 0 := by omega
    rw [hn]
    simp only [zero_add, List.range', List.map, List.flatten, List.append_nil]
    have e0 : shr_base y1 + hl_incr y1 y2 * ((0 : Nat) : Int) = shr_base y1 := by simp
    rw [e0]
    unfold row_pieces
    simp only [if_true, if_pos hey]
    rw [and_mask_eq, hey, and_mask_eq, ← hey]
    exact render_hline_closed s _ _ _ _ _ hx hy
  have hm : 1 ≤ (shr_base y2 - shr_base y1).natAbs := by omega
  have hlen : (shr_base y2 - shr_base y1).natAbs - 1 + 1 =
      (shr_base y2 - shr_base y1).natAbs := by omega
  have hfuel : (shr_base y2 - (shr_base y1 + hl_incr y1 y2)).natAbs =
      (shr_base y2 - shr_base y1).natAbs - 1 := by
    unfold hl_incr shr_base poly_base_size at *
    split <;> omega
  have e1 : shr_base y1 + hl_incr y1 y2 * ((1 : Nat) : Int) = shr_base y1 + hl_incr y1 y2 := by
    simp
  have e0 : shr_base y1 + hl_incr y1 y2 * ((0 : Nat) : Int) = shr_base y1 := by simp
  have hi : hl_incr y1 y2 = 1 ∨ hl_incr y1 y2 = -1 := by
    unfold hl_incr; split <;> simp
  rw [hlp, List.range'_succ]
  simp only [List.map, List.flatten, List.foldl_append]
  rw [e0, row_first x1 y1 x2 y2 hey]
  by_cases hdx : x2 - x1 = 0
  · have hxx : x2 = x1 := by omega
    subst hxx
    rw [hl_Y_flat, hline_pieces_single]
    simp only [List.foldl]
    rw [deposit_at s _ hx hy]
    dsimp only
    have hfx : (x2 - shr_base x2 * poly_base_size) * 2 = and_mask x2 + and_mask x2 := by
      rw [← and_mask_eq]; ring
    have hny : (acc_add s (hl_first y1 y2 - and_mask y1)
        ((x2 - shr_base x2 * poly_base_size) * 2 * (hl_first y1 y2 - and_mask y1))).m_cur_cell.y
        ≠ shr_base y1 + hl_incr y1 y2 * ((1 : Nat) : Int) := by
      show s.m_cur_cell.y ≠ _
      rw [hy]
      rcases hi with hi | hi <;> rw [hi] <;> omega
    obtain ⟨z1, z2⟩ := set_cur_cell_zero
      (acc_add s (hl_first y1 y2 - and_mask y1)
        ((x2 - shr_base x2 * poly_base_size) * 2 * (hl_first y1 y2 - and_mask y1)))
      (shr_base x2) (shr_base y1 + hl_incr y1 y2 * ((1 : Nat) : Int)) (Or.inr hny)
    obtain ⟨G, hG, hG2⟩ := render_line_vloop_closed x2 y1 y2 hey
      ((shr_base y2 - shr_base y1).natAbs - 1) 1 _ (by omega) (le_refl 1)
      (set_cur_cell_x _ _ _) (set_cur_cell_y _ _ _) z1 z2
    rw [e1] at hG
    unfold render_line_body
    dsimp only
    rw [if_neg hey, if_pos hdx]
    change (match render_line_vloop (shr_base x2) (shr_base y2) (hl_incr y1 y2)
        (hl_first y1 y2 + hl_first y1 y2 - poly_base_size)
        ((x2 - shr_base x2 * poly_base_size) * 2 *
          (hl_first y1 y2 + hl_first y1 y2 - poly_base_size))
        (shr_base y2 - (shr_base y1 + hl_incr y1 y2)).natAbs
        (set_cur_cell (acc_add s (hl_first y1 y2 - and_mask y1)
          ((x2 - shr_base x2 * poly_base_size) * 2 * (hl_first y1 y2 - and_mask y1)))
          (shr_base x2) (shr_base y1 + hl_incr y1 y2))
        (shr_base y1 + hl_incr y1 y2) with
      | none => none
      | some s => some (acc_add s (and_mask y2 - poly_base_size + hl_first y1 y2)
          ((x2 - shr_base x2 * poly_base_size) * 2 *
            (and_mask y2 - poly_base_size + hl_first y1 y2)))) = _
    rw [hfuel, hG]
    dsimp only
    rw [hG2, hlen, e1, hfx]
    congr 1
    obtain ⟨m, hmm⟩ : ∃ m, (shr_base y2 - shr_base y1).natAbs = m + 1 := ⟨_, hlen.symm⟩
    rw [hmm, List.range'_succ]
    simp only [List.map, List.flatten]
    have hrow : ∃ a b, row_pieces x2 y1 x2 y2
        (shr_base y1 + hl_incr y1 y2 * ((1 : Nat) : Int)) =
        [⟨shr_base x2, shr_base y1 + hl_incr y1 y2 * ((1 : Nat) : Int), a, b⟩] := by
      by_cases hlt : 1 < (shr_base y2 - shr_base y1).natAbs
      · rw [row_mid x2 y1 x2 y2 1 (le_refl 1) hlt, hl_Y_flat, hl_Y_flat,
          hline_pieces_single]
        exact ⟨_, _, rfl⟩
      · have hk1 : 1 = (shr_base y2 - shr_base y1).natAbs := by omega
        have he : shr_base y1 + hl_incr y1 y2 * ((1 : Nat) : Int) = shr_base y2 := by
          rw [hk1]; exact hex2.symm
        rw [he, row_last x2 y1 x2 y2 hey, hl_Y_flat, hline_pieces_single]
        exact ⟨_, _, rfl⟩
    obtain ⟨a, b, hab⟩ := hrow
    rw [hab, List.singleton_append, ← e1]
    exact foldl_deposit_set_head _
      (⟨shr_base x2, shr_base y1 + hl_incr y1 y2 * ((1 : Nat) : Int), a, b⟩ : Piece) _
  · have hD := hl_dx_pos y1 y2 hey
    have hY1 : hl_Y y1 x1 y2 x2 1 = x1 + hl_p y1 x1 y2 x2 / hl_dx y1 y2 := by
      unfold hl_Y; simp
    obtain ⟨G, e, xf, hG, hG2⟩ := render_line_loop_closed x1 y1 x2 y2 hey
      ((shr_base y2 - shr_base y1).natAbs - 1) 1
      (set_cur_cell ((hline_pieces (shr_base y1) x1 (and_mask y1) (hl_Y y1 x1 y2 x2 1)
        (hl_first y1 y2)).foldl deposit s)
        (shr_base (hl_Y y1 x1 y2 x2 1)) (shr_base y1 + hl_incr y1 y2 * ((1 : Nat) : Int)))
      (by omega) (le_refl 1) (set_cur_cell_x _ _ _) (set_cur_cell_y _ _ _)
    unfold render_line_body
    dsimp only
    rw [if_neg hey, if_neg hdx]
    change (match render_hline s (shr_base y1) x1 (and_mask y1)
        (x1 + (div_mod_adjust (hl_p y1 x1 y2 x2) (hl_dx y1 y2)).1) (hl_first y1 y2) with
      | none => none
      | some s =>
        match (if shr_base y1 + hl_incr y1 y2 ≠ shr_base y2 then
            render_line_loop (shr_base y2) (hl_incr y1 y2) (hl_dx y1 y2)
              (div_mod_adjust (poly_base_size * (x2 - x1)) (hl_dx y1 y2)).1
              (div_mod_adjust (poly_base_size * (x2 - x1)) (hl_dx y1 y2)).2
              (hl_first y1 y2) (shr_base y2 - (shr_base y1 + hl_incr y1 y2)).natAbs
              (set_cur_cell s
                (shr_base (x1 + (div_mod_adjust (hl_p y1 x1 y2 x2) (hl_dx y1 y2)).1))
                (shr_base y1 + hl_incr y1 y2))
              (shr_base y1 + hl_incr y1 y2)
              (x1 + (div_mod_adjust (hl_p y1 x1 y2 x2) (hl_dx y1 y2)).1)
              ((div_mod_adjust (hl_p y1 x1 y2 x2) (hl_dx y1 y2)).2 - hl_dx y1 y2)
          else some (set_cur_cell s
                (shr_base (x1 + (div_mod_adjust (hl_p y1 x1 y2 x2) (hl_dx y1 y2)).1))
                (shr_base y1 + hl_incr y1 y2), shr_base y1 + hl_incr y1 y2,
              x1 + (div_mod_adjust (hl_p y1 x1 y2 x2) (hl_dx y1 y2)).1)) with
        | none => none
        | some r => render_hline r.1 r.2.1 r.2.2 (poly_base_size - hl_first y1 y2) x2
            (and_mask y2)) = _
    rw [div_mod_adjust_eq _ _ hD, div_mod_adjust_eq _ _ hD]
    dsimp only
    rw [← hY1, render_hline_closed s _ _ _ _ _ hx hy]
    dsimp only
    have e2 : hl_p y1 x1 y2 x2 + poly_base_size * (((1 : Nat) : Int) - 1) * (x2 - x1) =
        hl_p y1 x1 y2 x2 := by simp
    rw [e2, e1] at hG
    have hloop : (if shr_base y1 + hl_incr y1 y2 ≠ shr_base y2 then
            render_line_loop (shr_base y2) (hl_incr y1 y2) (hl_dx y1 y2)
              (poly_base_size * (x2 - x1) / hl_dx y1 y2)
              (poly_base_size * (x2 - x1) % hl_dx y1 y2)
              (hl_first y1 y2) (shr_base y2 - (shr_base y1 + hl_incr y1 y2)).natAbs
              (set_cur_cell ((hline_pieces (shr_base y1) x1 (and_mask y1) (hl_Y y1 x1 y2 x2 1)
                (hl_first y1 y2)).foldl deposit s)
                (shr_base (hl_Y y1 x1 y2 x2 1))
                (shr_base y1 + hl_incr y1 y2))
              (shr_base y1 + hl_incr y1 y2)
              (hl_Y y1 x1 y2 x2 1)
              (hl_p y1 x1 y2 x2 % hl_dx y1 y2 - hl_dx y1 y2)
          else some (set_cur_cell ((hline_pieces (shr_base y1) x1 (and_mask y1)
                (hl_Y y1 x1 y2 x2 1) (hl_first y1 y2)).foldl deposit s)
                (shr_base (hl_Y y1 x1 y2 x2 1))
                (shr_base y1 + hl_incr y1 y2), shr_base y1 + hl_incr y1 y2,
              hl_Y y1 x1 y2 x2 1)) = some (G, e, xf) := by
      rw [← hG, hfuel]
      by_cases hne : shr_base y1 + hl_incr y1 y2 ≠ shr_base y2
      · rw [if_pos hne]
      · rw [if_neg hne]
        simp only [not_not] at hne
        rw [hne]
        exact (render_line_loop_done _ _ _ _ _ _ _ _ _ _).symm
    rw [hloop]
    dsimp only
    rw [hG2, hlen, e1]
    congr 1
    obtain ⟨m, hmm⟩ : ∃ m, (shr_base y2 - shr_base y1).natAbs = m + 1 := ⟨_, hlen.symm⟩
    rw [hmm, List.range'_succ]
    simp only [List.map, List.flatten, List.foldl_append]
    congr 1
    have hrow : ∃ a b c d L, row_pieces x1 y1 x2 y2
        (shr_base y1 + hl_incr y1 y2 * ((1 : Nat) : Int)) =
        hcol (shr_base y1 + hl_incr y1 y2 * ((1 : Nat) : Int)) (hl_Y y1 x1 y2 x2 1) a b c
          (shr_base (hl_Y y1 x1 y2 x2 1)) :: L ∧ d = a := by
      by_cases hlt : 1 < (shr_base y2 - shr_base y1).natAbs
      · rw [row_mid x1 y1 x2 y2 1 (le_refl 1) hlt]
        obtain ⟨L, hL⟩ := hline_pieces_cons (shr_base y1 + hl_incr y1 y2 * ((1 : Nat) : Int))
          (hl_Y y1 x1 y2 x2 1) (poly_base_size - hl_first y1 y2) (hl_Y y1 x1 y2 x2 (1 + 1))
          (hl_first y1 y2)
        exact ⟨_, _, _, _, L, hL, rfl⟩
      · have hk1 : 1 = (shr_base y2 - shr_base y1).natAbs := by omega
        have he : shr_base y1 + hl_incr y1 y2 * ((1 : Nat) : Int) = shr_base y2 := by
          rw [hk1]; exact hex2.symm
        rw [he, row_last x1 y1 x2 y2 hey, ← hk1]
        obtain ⟨L, hL⟩ := hline_pieces_cons (shr_base y2)
          (hl_Y y1 x1 y2 x2 1) (poly_base_size - hl_first y1 y2) x2 (and_mask y2)
        exact ⟨_, _, _, _, L, hL, rfl⟩
    obtain ⟨a, b, c, d, L, hL, -⟩ := hrow
    rw [hL, ← e1]
    have := foldl_deposit_set_head ((hline_pieces (shr_base y1) x1 (and_mask y1)
        (hl_Y y1 x1 y2 x2 1) (hl_first y1 y2)).foldl deposit s)
      (hcol (shr_base y1 + hl_incr y1 y2 * ((1 : Nat) : Int)) (hl_Y y1 x1 y2 x2 1) a b c
          (shr_base (hl_Y y1 x1 y2 x2 1))) L
    rw [hcol_x, hcol_y] at this
    exact this

/-! ## From the pieces of a segment to the cells of the arena -/

theorem allocate_block_fields (s : State α) :
    (allocate_block s).m_cells = s.m_cells ∧
    (allocate_block s).m_num_cells = s.m_num_cells ∧
    (allocate_block s).m_cur_cell = s.m_cur_cell ∧
    (allocate_block s).m_num_blocks ≤ s.m_num_blocks + 1 := by
  unfold allocate_block
  dsimp only
  split
  · split <;> simp
  · simp

theorem add_cur_cell_cells (s : State α) (hJ : NoSpare s)
    (hn : s.m_num_cells + 1 ≤ cell_block_size * cell_block_limit) :
    (add_cur_cell s).m_cells = s.m_cells ++ [s.m_cur_cell].filter Cell.nonzero ∧
    NoSpare (add_cur_cell s) ∧
    (add_cur_cell s).m_num_cells ≤ s.m_num_cells + 1 ∧
    (add_cur_cell s).m_cur_cell = s.m_cur_cell := by
  unfold NoSpare at *
  obtain ⟨a1, a2, a3, a4⟩ := allocate_block_fields s
  unfold add_cur_cell
  simp only [and_mask_eq_mod, cell_block_limit, cell_block_size] at *
  by_cases hz : s.m_cur_cell.area ≠ 0 ∨ s.m_cur_cell.cover ≠ 0
  · rw [if_pos hz]
    have hf : [s.m_cur_cell].filter Cell.nonzero = [s.m_cur_cell] := by
      simp only [List.filter, Cell.nonzero, decide_eq_true hz]
    rw [hf]
    by_cases hm : s.m_num_cells % 4096 = 0
    · rw [if_pos hm]
      have hb : ¬ (s.m_num_blocks ≥ 1024) := by omega
      rw [if_neg hb]
      refine ⟨?_, ?_, ?_, ?_⟩
      · show (allocate_block s).m_cells ++ [(allocate_block s).m_cur_cell] = _
        rw [a1, a3]
      · show 4096 * (allocate_block s).m_num_blocks < (allocate_block s).m_num_cells + 1 + 4096
        omega
      · show (allocate_block s).m_num_cells + 1 ≤ _
        omega
      · show (allocate_block s).m_cur_cell = _
        exact a3
    · rw [if_neg hm]
      refine ⟨rfl, ?_, le_refl _, rfl⟩
      show 4096 * s.m_num_blocks < s.m_num_cells + 1 + 4096
      omega
  · rw [if_neg hz]
    have hf : [s.m_cur_cell].filter Cell.nonzero = [] := by
      simp only [List.filter, Cell.nonzero, decide_eq_false hz]
    rw [hf]
    simp
    exact hJ

theorem deposit_cells (P : List Piece) :
    ∀ (s : State α), NoSpare s →
      s.m_num_cells + P.length + 1 ≤ cell_block_size * cell_block_limit →
      (add_cur_cell (P.foldl deposit s)).m_cells =
        s.m_cells ++ (cells_of s.m_cur_cell P).filter Cell.nonzero := by
  induction P with
  | nil =>
    intro s hJ hn
    simp only [List.foldl, cells_of]
    exact (add_cur_cell_cells s hJ (by simpa using hn)).1
  | cons p P ih =>
    intro s hJ hn
    simp only [List.foldl, cells_of, List.length_cons] at hn ⊢
    by_cases hd : s.m_cur_cell.x ≠ p.x ∨ s.m_cur_cell.y ≠ p.y
    · rw [if_pos hd]
      obtain ⟨h1, h2, h3, h4⟩ := add_cur_cell_cells s hJ (by omega)
      have e : deposit s p = acc_add { add_cur_cell s with m_cur_cell :=
          { (add_cur_cell s).m_cur_cell with x := p.x, y := p.y, cover := 0, area := 0 } }
          p.dc p.da := by
        unfold deposit set_cur_cell
        rw [if_pos hd]
      rw [e, ih _ (by exact h2) (by
        show (add_cur_cell s).m_num_cells + P.length + 1 ≤ _
        omega)]
      show (add_cur_cell s).m_cells ++ _ = _
      rw [h1, h4]
      simp only [acc_add, zero_add, List.filter_cons, List.filter_nil, List.append_assoc]
      split <;> simp
    · rw [if_neg hd]
      simp only [not_or, not_not] at hd
      rw [deposit_at s p hd.1 hd.2]
      rw [ih _ (by exact hJ) (by
        show s.m_num_cells + P.length + 1 ≤ _
        omega)]
      rfl

theorem cover_sum_filter (L : List (Cell α)) :
    cover_sum (L.filter Cell.nonzero) = cover_sum L := by
  induction L with
  | nil => rfl
  | cons c L ih =>
    unfold cover_sum at *
    simp only [List.filter_cons]
    split
    · simp [ih]
    · rename_i h
      simp only [Cell.nonzero, decide_eq_true_eq, not_or, not_not] at h
      simp [ih, h.2]

theorem cover_sum_cells_of (P : List Piece) :
    ∀ c : Cell α, cover_sum (cells_of c P) = c.cover + (P.map Piece.dc).sum := by
  induction P with
  | nil => intro c; simp [cells_of, cover_sum]
  | cons p P ih =>
    intro c
    simp only [cells_of]
    split
    · simp only [cover_sum, List.map_cons, List.sum_cons] at ih ⊢
      rw [ih]
    · rw [ih]
      simp only [List.map_cons, List.sum_cons]
      ring


theorem cells_of_chain (a : α) (P : List Piece) :
    ∀ p : Piece, List.Chain PixNe p P →
      cells_of (p.toCell a) P = (p :: P).map (fun q => q.toCell a) := by
  induction P with
  | nil => intro p _; rfl
  | cons q Q ih =>
    intro p h
    rw [List.chain_cons] at h
    simp only [cells_of]
    have h1 : (p.toCell a).x ≠ q.x ∨ (p.toCell a).y ≠ q.y := h.1
    rw [if_pos h1]
    have := ih q h.2
    simp only [List.map_cons] at this ⊢
    rw [← this]
    rfl

theorem hline_pieces_y (ey x1 y1 x2 y2 : Int) :
    ∀ p ∈ hline_pieces ey x1 y1 x2 y2, p.y = ey := by
  intro p hp
  unfold hline_pieces at hp
  rw [List.mem_map] at hp
  obtain ⟨k, -, rfl⟩ := hp
  rfl

theorem row_pieces_y (x1 y1 x2 y2 r : Int) :
    ∀ p ∈ row_pieces x1 y1 x2 y2 r, p.y = r := by
  unfold row_pieces
  exact hline_pieces_y _ _ _ _ _

theorem hline_pieces_chain (ey x1 y1 x2 y2 : Int) :
    List.Chain' PixNe (hline_pieces ey x1 y1 x2 y2) := by
  unfold hline_pieces
  rw [List.chain'_map, List.chain'_range_succ]
  intro m _
  left
  show shr_base x1 + _ * (m : Int) ≠ shr_base x1 + _ * ((m.succ : Nat) : Int)
  split <;> push_cast <;> omega

theorem hline_pieces_ne_nil (ey x1 y1 x2 y2 : Int) : hline_pieces ey x1 y1 x2 y2 ≠ [] := by
  obtain ⟨L, hL⟩ := hline_pieces_cons ey x1 y1 x2 y2
  rw [hL]; simp

theorem line_pieces_chain (x1 y1 x2 y2 : Int) :
    List.Chain' PixNe (line_pieces x1 y1 x2 y2) := by
  unfold line_pieces
  rw [List.chain'_flatten]
  · refine ⟨?_, ?_⟩
    · intro l hl
      rw [List.mem_map] at hl
      obtain ⟨k, -, rfl⟩ := hl
      unfold row_pieces
      exact hline_pieces_chain _ _ _ _ _
    · rw [List.chain'_map, List.chain'_range_succ]
      intro m _ p hp q hq
      right
      have h1 := row_pieces_y _ _ _ _ _ p (List.mem_of_mem_getLast? hp)
      have h2 := row_pieces_y _ _ _ _ _ q (List.mem_of_mem_head? hq)
      rw [h1, h2]
      split <;> push_cast <;> omega
  · intro h
    rw [List.mem_map] at h
    obtain ⟨k, -, hk⟩ := h
    unfold row_pieces at hk
    exact hline_pieces_ne_nil _ _ _ _ _ hk

theorem line_pieces_cons (x1 y1 x2 y2 : Int) :
    ∃ p L, line_pieces x1 y1 x2 y2 = p :: L ∧ p.x = shr_base x1 ∧ p.y = shr_base y1 := by
  unfold line_pieces
  rw [List.range_eq_range', List.range'_succ, List.map_cons, List.flatten_cons]
  have e0 : shr_base y1 + (if y2 - y1 < 0 then (-1 : Int) else 1) * ((0 : Nat) : Int) =
      shr_base y1 := by simp
  rw [e0]
  unfold row_pieces
  simp only [if_true]
  obtain ⟨L, hL⟩ := hline_pieces_cons (shr_base y1) x1 (y1 - poly_base_size * shr_base y1)
    (if shr_base y1 = shr_base y2 then x2
      else cross y1 x1 y2 x2 (if y2 - y1 < 0 then poly_base_size * shr_base y1
        else poly_base_size * shr_base y1 + poly_base_size))
    ((if shr_base y1 = shr_base y2 then y2
      else (if y2 - y1 < 0 then poly_base_size * shr_base y1
        else poly_base_size * shr_base y1 + poly_base_size)) - poly_base_size * shr_base y1)
  rw [hL]
  exact ⟨_, _, rfl, rfl, rfl⟩

/-! ## Reversing a segment -/

theorem hcol_reverse (ey x1 y1 x2 y2 ex : Int) (h : x1 ≠ x2 ∨ ex = shr_base x1) :
    hcol ey x2 y2 x1 y1 ex = (hcol ey x1 y1 x2 y2 ex).neg := by
  by_cases hx : x1 = x2
  · subst hx
    have he : ex = shr_base x1 := by
      rcases h with h | h
      · exact absurd rfl h
      · exact h
    subst he
    unfold hcol Piece.neg
    simp only [if_true]
    congr 1 <;> ring
  · unfold hcol Piece.neg
    dsimp only
    rw [cross_symm x1 y1 x2 y2 _ hx, cross_symm x1 y1 x2 y2 _ hx]
    by_cases hd : x2 - x1 < 0
    · have hd' : ¬ (x1 - x2 < 0) := by omega
      simp only [hd, hd', if_true, if_false]
      congr 1 <;> ring
    · have hd' : x1 - x2 < 0 := by omega
      simp only [hd, hd', if_true, if_false]
      congr 1 <;> ring

theorem reverse_map_range (β : Type) (f : Nat → β) (n : Nat) :
    ((List.range (n + 1)).map f).reverse = (List.range (n + 1)).map fun k => f (n - k) := by
  rw [← List.map_reverse, List.range_eq_range', List.reverse_range', List.map_map]
  rw [List.range_eq_range']
  apply List.map_congr_left
  intro k _
  simp

theorem hline_pieces_reverse (ey x1 y1 x2 y2 : Int) :
    hline_pieces ey x2 y2 x1 y1 = ((hline_pieces ey x1 y1 x2 y2).map Piece.neg).reverse := by
  unfold hline_pieces
  rw [List.map_map, reverse_map_range]
  have hn : (shr_base x1 - shr_base x2).natAbs = (shr_base x2 - shr_base x1).natAbs := by omega
  rw [hn]
  apply List.map_congr_left
  intro k hk
  rw [List.mem_range] at hk
  have hcol_eq : shr_base x2 + (if x1 - x2 < 0 then (-1 : Int) else 1) * (k : Int) =
      shr_base x1 + (if x2 - x1 < 0 then (-1 : Int) else 1) *
        (((shr_base x2 - shr_base x1).natAbs - k : Nat) : Int) := by
    unfold shr_base poly_base_size at *
    split <;> split <;> omega
  simp only [Function.comp]
  rw [hcol_eq]
  apply hcol_reverse
  by_cases hx : x1 = x2
  · right
    subst hx
    simp at hk ⊢
  · left; exact hx

theorem row_pieces_reverse (x1 y1 x2 y2 r : Int) (h : y1 ≠ y2 ∨ r = shr_base y1) :
    row_pieces x2 y2 x1 y1 r = ((row_pieces x1 y1 x2 y2 r).map Piece.neg).reverse := by
  by_cases hy : y1 = y2
  · subst hy
    have he : r = shr_base y1 := by
      rcases h with h | h
      · exact absurd rfl h
      · exact h
    subst he
    unfold row_pieces
    dsimp only
    rw [← hline_pieces_reverse]
    simp only [if_true]
  · unfold row_pieces
    dsimp only
    rw [← hline_pieces_reverse]
    rw [cross_symm y1 x1 y2 x2 _ hy, cross_symm y1 x1 y2 x2 _ hy]
    by_cases hd : y2 - y1 < 0
    · have hd' : ¬ (y1 - y2 < 0) := by omega
      simp only [hd, hd', if_true, if_false]
    · have hd' : y1 - y2 < 0 := by omega
      simp only [hd, hd', if_true, if_false]

theorem line_pieces_reverse (x1 y1 x2 y2 : Int) :
    line_pieces x2 y2 x1 y1 = ((line_pieces x1 y1 x2 y2).map Piece.neg).reverse := by
  unfold line_pieces
  rw [List.map_flatten, List.reverse_flatten, List.map_map, ← List.map_reverse,
    reverse_map_range, List.map_map]
  have hn : (shr_base y1 - shr_base y2).natAbs = (shr_base y2 - shr_base y1).natAbs := by omega
  rw [hn]
  congr 1
  apply List.map_congr_left
  intro k hk
  rw [List.mem_range] at hk
  have hrow_eq : shr_base y2 + (if y1 - y2 < 0 then (-1 : Int) else 1) * (k : Int) =
      shr_base y1 + (if y2 - y1 < 0 then (-1 : Int) else 1) *
        (((shr_base y2 - shr_base y1).natAbs - k : Nat) : Int) := by
    unfold shr_base poly_base_size at *
    split <;> split <;> omega
  simp only [Function.comp]
  rw [hrow_eq]
  apply row_pieces_reverse
  by_cases hy : y1 = y2
  · right
    subst hy
    simp at hk ⊢
  · left; exact hy

/-! ## The quicksort of a row -/

theorem rd_eq (a : List Nat) (lo hi p : Int) (h0 : 0 ≤ lo) (h1 : lo ≤ p) (h2 : p < hi)
    (h3 : hi ≤ a.length) : rd a lo hi p = some (slot a p) := by
  unfold rd slot
  rw [if_pos ⟨h1, h2⟩]
  have : p.toNat < a.length := by omega
  rw [List.getElem?_eq_getElem this, List.getD_eq_getElem _ _ this]

theorem slot_mem (a : List Nat) (p : Int) (h0 : 0 ≤ p) (h1 : p < a.length) : slot a p ∈ a := by
  unfold slot
  have : p.toNat < a.length := by omega
  rw [List.getD_eq_getElem _ _ this]
  exact List.getElem_mem _

theorem rd_x_eq (key : Nat → Option Int) (a : List Nat) (lo hi p : Int) (hk : KeysOk key a)
    (h0 : 0 ≤ lo) (h1 : lo ≤ p) (h2 : p < hi) (h3 : hi ≤ a.length) :
    rd_x key a lo hi p = some (kx key a p) := by
  unfold rd_x
  rw [rd_eq a lo hi p h0 h1 h2 h3]
  dsimp only
  obtain ⟨k, hk'⟩ := hk _ (slot_mem a p (by omega) (by omega))
  unfold kx KD
  rw [hk']; rfl

theorem wr_eq (a : List Nat) (lo hi p : Int) (v : Nat) (h0 : 0 ≤ lo) (h1 : lo ≤ p)
    (h2 : p < hi) (h3 : hi ≤ a.length) : wr a lo hi p v = some (a.set p.toNat v) := by
  unfold wr
  rw [if_pos ⟨h1, h2, by omega⟩]

theorem perm_cons_set (x : Nat) : ∀ (t : List Nat) (j : Nat) (hj : j < t.length),
    (t[j] :: t.set j x).Perm (x :: t) := by
  intro t
  induction t with
  | nil => intro j hj; simp at hj
  | cons y t ih =>
    intro j hj
    cases j with
    | zero =>
      simp only [List.set_cons_zero, List.getElem_cons_zero]
      exact List.Perm.swap _ _ _
    | succ k =>
      simp only [List.length_cons] at hj
      simp only [List.set_cons_succ, List.getElem_cons_succ]
      exact (List.Perm.swap _ _ _).trans
        (((ih k (by omega)).cons y).trans (List.Perm.swap _ _ _))

theorem perm_set_set_lt : ∀ (a : List Nat) (i j : Nat) (hi : i < a.length)
    (hj : j < a.length), i < j → ((a.set i a[j]).set j a[i]).Perm a := by
  intro a
  induction a with
  | nil => intro i j hi; simp at hi
  | cons x t ih =>
    intro i j hi hj hlt
    cases j with
    | zero => omega
    | succ j' =>
      simp only [List.length_cons] at hi hj
      cases i with
      | zero =>
        simp only [List.set_cons_zero, List.set_cons_succ, List.getElem_cons_zero,
          List.getElem_cons_succ]
        exact perm_cons_set x t j' (by omega)
      | succ i' =>
        simp only [List.set_cons_succ, List.getElem_cons_succ]
        exact List.Perm.cons x (ih i' j' (by omega) (by omega) (by omega))

theorem perm_set_set (a : List Nat) (i j : Nat) (hi : i < a.length) (hj : j < a.length) :
    ((a.set i (a.getD j 0)).set j (a.getD i 0)).Perm a := by
  rw [List.getD_eq_getElem _ _ hi, List.getD_eq_getElem _ _ hj]
  rcases Nat.lt_trichotomy i j with h | h | h
  · exact perm_set_set_lt a i j hi hj h
  · subst h
    rw [List.set_set]
    have : a.set i a[i] = a := by
      apply List.ext_getElem (by simp)
      intro n h1 h2
      rw [List.getElem_set]
      split
      · rename_i e; subst e; rfl
      · rfl
    rw [this]
  · have := perm_set_set_lt a j i hj hi h
    rw [List.set_comm _ _ _ (by omega)] at this
    exact this

theorem swap_cells_eq (a : List Nat) (lo hi i j : Int) (h0 : 0 ≤ lo) (h3 : hi ≤ a.length)
    (hi1 : lo ≤ i) (hi2 : i < hi) (hj1 : lo ≤ j) (hj2 : j < hi) :
    ∃ b, swap_cells a lo hi i j = some b ∧ b.length = a.length ∧ b.Perm a ∧
      slot b i = slot a j ∧ slot b j = slot a i ∧
      ∀ p : Int, 0 ≤ p → p ≠ i → p ≠ j → slot b p = slot a p := by
  unfold swap_cells
  rw [rd_eq a lo hi i h0 hi1 hi2 h3, rd_eq a lo hi j h0 hj1 hj2 h3]
  dsimp only
  rw [wr_eq a lo hi i _ h0 hi1 hi2 h3]
  dsimp only
  rw [wr_eq _ lo hi j _ h0 hj1 hj2 (by simpa using h3)]
  have hin : i.toNat < a.length := by omega
  have hjn : j.toNat < a.length := by omega
  refine ⟨_, rfl, by simp, ?_, ?_, ?_, ?_⟩
  · unfold slot
    exact perm_set_set a i.toNat j.toNat hin hjn
  · unfold slot
    rw [List.getD_eq_getElem _ _ (by simpa using hin), List.getElem_set]
    split
    · rename_i e
      rw [List.getD_eq_getElem _ _ hin, List.getD_eq_getElem _ _ hjn]
      congr 1
      exact e.symm
    · rw [List.getElem_set_self]
  · unfold slot
    rw [List.getD_eq_getElem _ _ (by simpa using hjn), List.getElem_set_self]
  · intro p hp hpi hpj
    unfold slot
    by_cases hpl : p.toNat < a.length
    · rw [List.getD_eq_getElem _ _ (by simpa using hpl), List.getD_eq_getElem _ _ hpl,
        List.getElem_set_ne (by omega), List.getElem_set_ne (by omega)]
    · rw [List.getD_eq_default _ _ (by simpa using hpl), List.getD_eq_default _ _ (by omega)]

theorem keysOk_perm {key : Nat → Option Int} {a b : List Nat} (h : KeysOk key a)
    (hp : b.Perm a) : KeysOk key b :=
  fun v hv => h v (hp.subset hv)

theorem frame_refl (a : List Nat) (l h : Int) : Frame a a l h :=
  ⟨rfl, List.Perm.refl a, fun _ _ _ => rfl⟩

theorem frame_trans {a b c : List Nat} {l h : Int} (h1 : Frame a b l h) (h2 : Frame b c l h) :
    Frame a c l h :=
  ⟨h2.1.trans h1.1, h2.2.1.trans h1.2.1, fun p hp hq => (h2.2.2 p hp hq).trans (h1.2.2 p hp hq)⟩

theorem frame_mono {a b : List Nat} {l h l' h' : Int} (h1 : Frame a b l h) (hl : l' ≤ l)
    (hh : h ≤ h') : Frame a b l' h' :=
  ⟨h1.1, h1.2.1, fun p hp hq => h1.2.2 p hp (by omega)⟩

theorem frame_swap {a b : List Nat} {l h i j : Int} (hlen : b.length = a.length)
    (hp : b.Perm a) (hi : l ≤ i ∧ i < h) (hj : l ≤ j ∧ j < h)
    (ho : ∀ p : Int, 0 ≤ p → p ≠ i → p ≠ j → slot b p = slot a p) : Frame a b l h :=
  ⟨hlen, hp, fun p hp0 hq => ho p hp0 (by omega) (by omega)⟩

theorem qsort_scan_up_spec (key : Nat → Option Int) (a : List Nat) (lo hi x : Int)
    (hk : KeysOk key a) (h0 : 0 ≤ lo) (h3 : hi ≤ a.length) :
    ∀ (fuel : Nat) (i s : Int), lo ≤ i + 1 → i < s → s < hi → x ≤ kx key a s →
      (s - i).toNat ≤ fuel →
      ∃ i', qsort_scan_up key a lo hi x fuel i = some i' ∧ i < i' ∧ i' ≤ s ∧
        x ≤ kx key a i' ∧ ∀ p, i < p → p < i' → kx key a p < x := by
  intro fuel
  induction fuel with
  | zero => intro i s _ h2 _ _ h5; omega
  | succ n ih =>
    intro i s h1 h2 h3' h4 h5
    rw [qsort_scan_up]
    rw [rd_x_eq key a lo hi (i + 1) hk h0 h1 (by omega) h3]
    dsimp only
    by_cases hlt : kx key a (i + 1) < x
    · rw [if_pos hlt]
      have hne : i + 1 ≠ s := by
        intro e; rw [e] at hlt; omega
      obtain ⟨i', e, g1, g2, g3, g4⟩ := ih (i + 1) s (by omega) (by omega) h3' h4 (by omega)
      refine ⟨i', e, by omega, g2, g3, ?_⟩
      intro p hp1 hp2
      by_cases hp : p = i + 1
      · rw [hp]; exact hlt
      · exact g4 p (by omega) hp2
    · rw [if_neg hlt]
      refine ⟨i + 1, rfl, by omega, by omega, by omega, ?_⟩
      intro p hp1 hp2
      omega

theorem qsort_scan_down_spec (key : Nat → Option Int) (a : List Nat) (lo hi x : Int)
    (hk : KeysOk key a) (h0 : 0 ≤ lo) (h3 : hi ≤ a.length) :
    ∀ (fuel : Nat) (j s : Int), j - 1 < hi → s < j → lo ≤ s → kx key a s ≤ x →
      (j - s).toNat ≤ fuel →
      ∃ j', qsort_scan_down key a lo hi x fuel j = some j' ∧ j' < j ∧ s ≤ j' ∧
        kx key a j' ≤ x ∧ ∀ p, j' < p → p < j → x < kx key a p := by
  intro fuel
  induction fuel with
  | zero => intro j s _ h2 _ _ h5; omega
  | succ n ih =>
    intro j s h1 h2 h3' h4 h5
    rw [qsort_scan_down]
    rw [rd_x_eq key a lo hi (j - 1) hk h0 (by omega) h1 h3]
    dsimp only
    by_cases hlt : x < kx key a (j - 1)
    · rw [if_pos hlt]
      have hne : j - 1 ≠ s := by
        intro e; rw [e] at hlt; omega
      obtain ⟨j', e, g1, g2, g3, g4⟩ := ih (j - 1) s (by omega) (by omega) h3' h4 (by omega)
      refine ⟨j', e, by omega, g2, g3, ?_⟩
      intro p hp1 hp2
      by_cases hp : p = j - 1
      · rw [hp]; exact hlt
      · exact g4 p hp1 (by omega)
    · rw [if_neg hlt]
      refine ⟨j - 1, rfl, by omega, by omega, by omega, ?_⟩
      intro p hp1 hp2
      omega

theorem qsort_partition_spec (key : Nat → Option Int) (lo hi base limit : Int)
    (h0 : 0 ≤ lo) (hb : lo ≤ base) (hl : limit ≤ hi) :
    ∀ (fuel : Nat) (a : List Nat) (i j : Int),
      KeysOk key a → hi ≤ a.length →
      base + 1 ≤ i → i ≤ j → j ≤ limit - 1 → (i < j ∨ (base + 1 < i ∧ j < limit - 1)) →
      (∀ p, base + 1 ≤ p → p ≤ i → kx key a p ≤ kx key a base) →
      (∀ p, j ≤ p → p ≤ limit - 1 → kx key a base ≤ kx key a p) →
      (limit - i).toNat ≤ fuel →
      ∃ b i' j', qsort_partition key lo hi base fuel a i j = some (b, i', j') ∧
        Frame a b (base + 1) limit ∧ base + 1 ≤ j' ∧ j' < i' ∧ i' ≤ limit - 1 ∧
        (∀ p, base + 1 ≤ p → p < i' → kx key b p ≤ kx key b base) ∧
        (∀ p, j' < p → p ≤ limit - 1 → kx key b base ≤ kx key b p) := by
  intro fuel
  induction fuel with
  | zero => intro a i j _ _ h1 h2 h3 _ _ _ h7; omega
  | succ n ih =>
    intro a i j hk h3 h1 h2 h4 hD hA hB hf
    rw [qsort_partition]
    rw [rd_x_eq key a lo hi base hk h0 hb (by omega) h3]
    dsimp only
    obtain ⟨i1, e1, a1, a2, a3, a4⟩ := qsort_scan_up_spec key a lo hi (kx key a base) hk h0 h3
      (hi - lo).toNat i (if i < j then j else j + 1) (by omega) (by split <;> omega)
      (by split <;> omega) (hB _ (by split <;> omega) (by split <;> omega))
      (by split <;> omega)
    rw [e1]
    dsimp only
    obtain ⟨j1, e2, b1, b2, b3, b4⟩ := qsort_scan_down_spec key a lo hi (kx key a base) hk h0
      h3 (hi - lo).toNat j (if i < j then i else i - 1) (by omega) (by split <;> omega)
      (by split <;> omega) (hA _ (by split <;> omega) (by split <;> omega))
      (by split <;> omega)
    rw [e2]
    dsimp only
    have hi1 : i1 ≤ limit - 1 := by
      have : (if i < j then j else j + 1) ≤ limit - 1 := by split <;> omega
      omega
    have hj1 : base + 1 ≤ j1 := by
      have : base + 1 ≤ (if i < j then i else i - 1) := by split <;> omega
      omega
    have hA' : ∀ p, base + 1 ≤ p → p < i1 → kx key a p ≤ kx key a base := by
      intro p hp1 hp2
      by_cases hp : p ≤ i
      · exact hA p hp1 hp
      · exact le_of_lt (a4 p (by omega) hp2)
    have hB' : ∀ p, j1 < p → p ≤ limit - 1 → kx key a base ≤ kx key a p := by
      intro p hp1 hp2
      by_cases hp : j ≤ p
      · exact hB p hp hp2
      · exact le_of_lt (b4 p hp1 (by omega))
    by_cases hgt : i1 > j1
    · rw [if_pos hgt]
      exact ⟨a, i1, j1, rfl, frame_refl _ _ _, hj1, hgt, hi1, hA', hB'⟩
    · rw [if_neg hgt]
      obtain ⟨b, es, s1, s2, s3, s4, s5⟩ := swap_cells_eq a lo hi i1 j1 h0 h3 (by omega)
        (by omega) (by omega) (by omega)
      rw [es]
      dsimp only
      have hbase : kx key b base = kx key a base := by
        unfold kx; rw [s5 base (by omega) (by omega) (by omega)]
      obtain ⟨c, i', j', ec, c1, c2, c3, c4, c5, c6⟩ := ih b i1 j1 (keysOk_perm hk s2)
        (by omega) (by omega) (by omega) (by omega) (Or.inr ⟨by omega, by omega⟩)
        (by
          intro p hp1 hp2
          rw [hbase]
          by_cases hp : p = i1
          · rw [hp]; unfold kx; rw [s3]; exact b3
          · unfold kx
            rw [s5 p (by omega) hp (by omega)]
            exact hA' p hp1 (by omega))
        (by
          intro p hp1 hp2
          rw [hbase]
          by_cases hp : p = j1
          · rw [hp]; unfold kx; rw [s4]; exact a3
          · unfold kx
            rw [s5 p (by omega) (by omega) hp]
            exact hB' p (by omega) hp2)
        (by omega)
      exact ⟨c, i', j', ec, frame_trans (frame_swap s1 s2 ⟨by omega, by omega⟩
        ⟨by omega, by omega⟩ s5) c1, c2, c3, c4, c5, c6⟩

theorem cond_swap (c : Prop) [Decidable c] (a : List Nat) (lo hi i j : Int) (h0 : 0 ≤ lo)
    (h3 : hi ≤ a.length) (hi1 : lo ≤ i) (hi2 : i < hi) (hj1 : lo ≤ j) (hj2 : j < hi) :
    ∃ b, (if c then swap_cells a lo hi i j else some a) = some b ∧ b.length = a.length ∧
      b.Perm a ∧ (∀ p : Int, 0 ≤ p → p ≠ i → p ≠ j → slot b p = slot a p) ∧
      (c → slot b i = slot a j ∧ slot b j = slot a i) ∧ (¬c → b = a) := by
  by_cases hc : c
  · rw [if_pos hc]
    obtain ⟨b, e, s1, s2, s3, s4, s5⟩ := swap_cells_eq a lo hi i j h0 h3 hi1 hi2 hj1 hj2
    exact ⟨b, e, s1, s2, s5, fun _ => ⟨s3, s4⟩, fun h => absurd hc h⟩
  · rw [if_neg hc]
    exact ⟨a, rfl, rfl, List.Perm.refl a, fun _ _ _ _ => rfl, fun h => absurd h hc, fun _ => rfl⟩

theorem qsort_median_spec (key : Nat → Option Int) (lo hi base limit : Int) (a : List Nat)
    (hk : KeysOk key a) (h0 : 0 ≤ lo) (h3 : hi ≤ a.length) (hb : lo ≤ base)
    (hl : limit ≤ hi) (hlen : base + 1 < limit - 1) :
    ∃ b, qsort_median key lo hi base (base + 1) (limit - 1) a = some b ∧
      Frame a b base limit ∧
      kx key b (base + 1) ≤ kx key b base ∧ kx key b base ≤ kx key b (limit - 1) := by
  unfold qsort_median
  rw [rd_x_eq key a lo hi (limit - 1) hk h0 (by omega) (by omega) h3,
    rd_x_eq key a lo hi (base + 1) hk h0 (by omega) (by omega) h3]
  dsimp only
  obtain ⟨b1, e1, l1, p1, o1, c1, n1⟩ := cond_swap (kx key a (limit - 1) < kx key a (base + 1))
    a lo hi (base + 1) (limit - 1) h0 h3 (by omega) (by omega) (by omega) (by omega)
  rw [e1]
  dsimp only
  have hk1 := keysOk_perm hk p1
  have f1 : kx key b1 (base + 1) ≤ kx key b1 (limit - 1) := by
    by_cases hc : kx key a (limit - 1) < kx key a (base + 1)
    · obtain ⟨u, v⟩ := c1 hc
      unfold kx at hc ⊢
      rw [u, v]; omega
    · rw [n1 hc]; omega
  rw [rd_x_eq key b1 lo hi base hk1 h0 hb (by omega) (by omega),
    rd_x_eq key b1 lo hi (base + 1) hk1 h0 (by omega) (by omega) (by omega)]
  dsimp only
  obtain ⟨b2, e2, l2, p2, o2, c2, n2⟩ := cond_swap (kx key b1 base < kx key b1 (base + 1))
    b1 lo hi base (base + 1) h0 (by omega) (by omega) (by omega) (by omega) (by omega)
  rw [e2]
  dsimp only
  have hk2 := keysOk_perm hk1 p2
  have f2 : kx key b2 (base + 1) ≤ kx key b2 base ∧ kx key b2 (base + 1) ≤ kx key b2 (limit - 1)
      := by
    have hj : slot b2 (limit - 1) = slot b1 (limit - 1) := o2 _ (by omega) (by omega) (by omega)
    by_cases hc : kx key b1 base < kx key b1 (base + 1)
    · obtain ⟨u, v⟩ := c2 hc
      unfold kx at hc f1 ⊢
      rw [u, v, hj]; omega
    · rw [n2 hc]; omega
  rw [rd_x_eq key b2 lo hi (limit - 1) hk2 h0 (by omega) (by omega) (by omega),
    rd_x_eq key b2 lo hi base hk2 h0 (by omega) (by omega) (by omega)]
  dsimp only
  obtain ⟨b3, e3, l3, p3, o3, c3, n3⟩ := cond_swap (kx key b2 (limit - 1) < kx key b2 base)
    b2 lo hi base (limit - 1) h0 (by omega) (by omega) (by omega) (by omega) (by omega)
  refine ⟨b3, e3, ⟨by omega, (p3.trans p2).trans p1, ?_⟩, ?_⟩
  · intro p hp hq
    rw [o3 p hp (by omega) (by omega), o2 p hp (by omega) (by omega),
      o1 p hp (by omega) (by omega)]
  · have hi' : slot b3 (base + 1) = slot b2 (base + 1) := o3 _ (by omega) (by omega) (by omega)
    by_cases hc : kx key b2 (limit - 1) < kx key b2 base
    · obtain ⟨u, v⟩ := c3 hc
      unfold kx at hc f2 ⊢
      rw [u, v, hi']; omega
    · rw [n3 hc]; omega

theorem qsort_insert_spec (key : Nat → Option Int) (lo hi base i : Int) (h0 : 0 ≤ lo)
    (hb : lo ≤ base) (hi2 : i < hi) :
    ∀ (fuel : Nat) (a : List Nat) (j : Int),
      KeysOk key a → hi ≤ a.length → base ≤ j → j + 1 ≤ i →
      (∀ p q, base ≤ p → p ≤ q → q ≤ i → p ≠ j + 1 → q ≠ j + 1 → kx key a p ≤ kx key a q) →
      (∀ q, j + 1 < q → q ≤ i → kx key a (j + 1) ≤ kx key a q) →
      (j - base + 1).toNat ≤ fuel →
      ∃ b, qsort_insert key lo hi base fuel a j = some b ∧ Frame a b base (i + 1) ∧
        SortedOn key b base (i + 1) := by
  intro fuel
  induction fuel with
  | zero => intro a j _ _ h1 _ _ _ h5; omega
  | succ n ih =>
    intro a j hk h3 h1 h2 hA hB hf
    rw [qsort_insert]
    rw [rd_x_eq key a lo hi (j + 1) hk h0 (by omega) (by omega) h3,
      rd_x_eq key a lo hi j hk h0 (by omega) (by omega) h3]
    dsimp only
    by_cases hlt : kx key a (j + 1) < kx key a j
    · rw [if_pos hlt]
      obtain ⟨b, es, s1, s2, s3, s4, s5⟩ := swap_cells_eq a lo hi (j + 1) j h0 h3 (by omega)
        (by omega) (by omega) (by omega)
      rw [es]
      dsimp only
      have hfr : Frame a b base (i + 1) :=
        frame_swap s1 s2 ⟨by omega, by omega⟩ ⟨by omega, by omega⟩ s5
      have kj1 : kx key b (j + 1) = kx key a j := by unfold kx; rw [s3]
      have kj : kx key b j = kx key a (j + 1) := by unfold kx; rw [s4]
      have ko : ∀ p, base ≤ p → p ≠ j + 1 → p ≠ j → kx key b p = kx key a p := by
        intro p hp h1 h2; unfold kx; rw [s5 p (by omega) h1 h2]
      have hA' : ∀ p q, base ≤ p → p ≤ q → q ≤ i → p ≠ j → q ≠ j →
          kx key b p ≤ kx key b q := by
        intro p q hp hpq hq hpj hqj
        by_cases hq1 : q = j + 1
        · by_cases hp1 : p = j + 1
          · rw [hp1, hq1]
          · rw [hq1, kj1, ko p hp hp1 hpj]
            exact hA p j hp (by omega) (by omega) hp1 (by omega)
        · by_cases hp1 : p = j + 1
          · rw [hp1, kj1, ko q (by omega) hq1 hqj]
            exact hA j q (by omega) (by omega) hq (by omega) hq1
          · rw [ko p hp hp1 hpj, ko q (by omega) hq1 hqj]
            exact hA p q hp hpq hq hp1 hq1
      have hB' : ∀ q, j < q → q ≤ i → kx key b j ≤ kx key b q := by
        intro q hq1 hq2
        rw [kj]
        by_cases hq : q = j + 1
        · rw [hq, kj1]; omega
        · rw [ko q (by omega) hq (by omega)]
          exact hB q (by omega) hq2
      by_cases hjb : j = base
      · rw [if_pos hjb]
        refine ⟨b, rfl, hfr, ?_⟩
        intro p q hp hpq hq
        by_cases hpj : p = j
        · by_cases hqj : q = j
          · rw [hpj, hqj]
          · rw [hpj]; exact hB' q (by omega) (by omega)
        · exact hA' p q hp hpq (by omega) hpj (by omega)
      · rw [if_neg hjb]
        obtain ⟨c, ec, c1, c2⟩ := ih b (j - 1) (keysOk_perm hk s2) (by omega) (by omega)
          (by omega)
          (by
            intro p q hp hpq hq hp1 hq1
            exact hA' p q hp hpq hq (by omega) (by omega))
          (by
            intro q hq1 hq2
            have : j - 1 + 1 = j := by ring
            rw [this]
            exact hB' q (by omega) hq2)
          (by omega)
        exact ⟨c, ec, frame_trans hfr c1, c2⟩
    · rw [if_neg hlt]
      refine ⟨a, rfl, frame_refl _ _ _, ?_⟩
      intro p q hp hpq hq
      by_cases hq1 : q = j + 1
      · by_cases hp1 : p = j + 1
        · rw [hp1, hq1]
        · rw [hq1]
          have := hA p j hp (by omega) (by omega) hp1 (by omega)
          omega
      · by_cases hp1 : p = j + 1
        · rw [hp1]; exact hB q (by omega) (by omega)
        · exact hA p q hp hpq (by omega) hp1 hq1

theorem qsort_insertion_spec (key : Nat → Option Int) (lo hi base limit : Int) (h0 : 0 ≤ lo)
    (hb : lo ≤ base) (hl : limit ≤ hi) :
    ∀ (fuel : Nat) (a : List Nat) (i : Int),
      KeysOk key a → hi ≤ a.length → base + 1 ≤ i →
      SortedOn key a base i → (limit - i).toNat ≤ fuel →
      ∃ b, qsort_insertion key lo hi base limit fuel a (i - 1) i = some b ∧
        Frame a b base limit ∧ SortedOn key b base limit := by
  intro fuel
  induction fuel with
  | zero =>
    intro a i hk h3 h1 hs hf
    rw [qsort_insertion, if_neg (by omega)]
    exact ⟨a, rfl, frame_refl _ _ _, fun p q hp hpq hq => hs p q hp hpq (by omega)⟩
  | succ n ih =>
    intro a i hk h3 h1 hs hf
    rw [qsort_insertion]
    by_cases hlt : i < limit
    · rw [if_pos hlt]
      obtain ⟨b, eb, b1, b2⟩ := qsort_insert_spec key lo hi base i h0 hb (by omega)
        (hi - lo).toNat a (i - 1) hk h3 (by omega) (by omega)
        (by
          intro p q hp hpq hq hp1 hq1
          exact hs p q hp hpq (by omega))
        (by intro q hq1 hq2; omega)
        (by omega)
      rw [eb]
      dsimp only
      obtain ⟨c, ec, c1, c2⟩ := ih b (i + 1) (keysOk_perm hk b1.2.1) (by rw [b1.1]; exact h3)
        (by omega) b2 (by omega)
      have e : i + 1 - 1 = i := by ring
      rw [e] at ec
      exact ⟨c, ec, frame_trans (frame_mono b1 (le_refl _) (by omega)) c1, c2⟩
    · rw [if_neg hlt]
      exact ⟨a, rfl, frame_refl _ _ _, fun p q hp hpq hq => hs p q hp hpq (by omega)⟩

theorem frame_slot (a b : List Nat) (l h : Int) (hf : Frame a b l h) (hl0 : 0 ≤ l)
    (hlh : l ≤ h) (hh : h ≤ a.length) :
    ∀ q, l ≤ q → q < h → ∃ q', l ≤ q' ∧ q' < h ∧ slot b q = slot a q' := by
  obtain ⟨hlen, hperm, hout⟩ := hf
  obtain ⟨L, rfl⟩ := Int.eq_ofNat_of_zero_le hl0
  obtain ⟨H, rfl⟩ := Int.eq_ofNat_of_zero_le (le_trans hl0 hlh)
  have hLH : L ≤ H := by omega
  have hHa : H ≤ a.length := by omega
  have e1 : b.take L = a.take L := by
    apply List.ext_getElem
    · simp [hlen]
    · intro n h1 h2
      rw [List.getElem_take, List.getElem_take]
      simp only [List.length_take] at h1 h2
      have := hout (n : Int) (by omega) (Or.inl (by omega))
      unfold slot at this
      simp only [Int.toNat_ofNat] at this
      rw [List.getD_eq_getElem b 0 (by omega), List.getD_eq_getElem a 0 (by omega)] at this
      exact this
  have e2 : b.drop H = a.drop H := by
    apply List.ext_getElem
    · simp [hlen]
    · intro n h1 h2
      rw [List.getElem_drop, List.getElem_drop]
      simp only [List.length_drop] at h1 h2
      have := hout ((H + n : Nat) : Int) (by omega) (Or.inr (by omega))
      unfold slot at this
      simp only [Int.toNat_ofNat] at this
      rw [List.getD_eq_getElem b 0 (by omega), List.getD_eq_getElem a 0 (by omega)] at this
      exact this
  have da : a = a.take L ++ ((a.drop L).take (H - L) ++ a.drop H) := by
    have h1 : a.drop H = (a.drop L).drop (H - L) := by
      rw [List.drop_drop]; congr 1; omega
    rw [h1, List.take_append_drop, List.take_append_drop]
  have db : b = b.take L ++ ((b.drop L).take (H - L) ++ b.drop H) := by
    have h1 : b.drop H = (b.drop L).drop (H - L) := by
      rw [List.drop_drop]; congr 1; omega
    rw [h1, List.take_append_drop, List.take_append_drop]
  have hmid : ((b.drop L).take (H - L)).Perm ((a.drop L).take (H - L)) := by
    have hp := hperm
    rw [da, db, e1, e2] at hp
    exact (List.perm_append_right_iff _).mp ((List.perm_append_left_iff _).mp hp)
  intro q hq1 hq2
  obtain ⟨Q, rfl⟩ := Int.eq_ofNat_of_zero_le (le_trans hl0 hq1)
  have hQ1 : L ≤ Q := by omega
  have hQ2 : Q < H := by omega
  have hmem : slot b (Q : Int) ∈ (b.drop L).take (H - L) := by
    unfold slot
    simp only [Int.toNat_ofNat]
    rw [List.getD_eq_getElem _ _ (by omega)]
    rw [List.mem_iff_getElem]
    refine ⟨Q - L, by simp; omega, ?_⟩
    rw [List.getElem_take, List.getElem_drop]
    congr 1
    omega
  have hmem2 := hmid.subset hmem
  rw [List.mem_iff_getElem] at hmem2
  obtain ⟨t, ht, het⟩ := hmem2
  simp only [List.length_take, List.length_drop] at ht
  refine ⟨((L + t : Nat) : Int), by omega, by omega, ?_⟩
  rw [← het]
  unfold slot
  simp only [Int.toNat_ofNat]
  rw [List.getD_eq_getElem _ _ (by omega), List.getElem_take, List.getElem_drop]

theorem ordered_frame (key : Nat → Option Int) (a b : List Nat) (lo hi : Int)
    (cur : Int × Int) (stack : List (Int × Int)) (h0 : 0 ≤ lo) (hh : hi ≤ a.length)
    (hr : RangesOk lo hi cur stack) (ho : Ordered key a lo hi (cur :: stack))
    (hf : Frame a b cur.1 cur.2) : Ordered key b lo hi (cur :: stack) := by
  obtain ⟨⟨c1, c2, c3⟩, hst⟩ := hr
  have tr := frame_slot a b cur.1 cur.2 hf (by omega) c2 (by omega)
  have hout : ∀ p, lo ≤ p → (p < cur.1 ∨ cur.2 ≤ p) → kx key b p = kx key a p := by
    intro p hp hq
    unfold kx
    rw [hf.2.2 p (by omega) hq]
  intro p q hp hpq hq hn
  have notin : ∀ p' q', p' < q' → (p' < cur.1 ∨ cur.2 ≤ q') →
      (cur.1 ≤ p' ∧ p' < cur.2 ∨ cur.1 ≤ q' ∧ q' < cur.2) →
      ¬ InSome (cur :: stack) p' q' := by
    intro p' q' hlt ho hi
    rintro ⟨r, hr, r1, r2⟩
    rw [List.mem_cons] at hr
    rcases hr with e | hr
    · subst e; omega
    · have := (hst r hr).2
      omega
  by_cases hpin : cur.1 ≤ p ∧ p < cur.2
  · by_cases hqin : cur.1 ≤ q ∧ q < cur.2
    · exfalso
      exact hn ⟨cur, List.mem_cons_self _ _, hpin.1, hqin.2⟩
    · obtain ⟨p', g1, g2, g3⟩ := tr p hpin.1 hpin.2
      have e : kx key b p = kx key a p' := by unfold kx; rw [g3]
      rw [e, hout q (by omega) (by omega)]
      exact ho p' q (by omega) (by omega) hq
        (notin p' q (by omega) (by omega) (Or.inl ⟨g1, g2⟩))
  · by_cases hqin : cur.1 ≤ q ∧ q < cur.2
    · obtain ⟨q', g1, g2, g3⟩ := tr q hqin.1 hqin.2
      have e : kx key b q = kx key a q' := by unfold kx; rw [g3]
      rw [e, hout p hp (by omega)]
      exact ho p q' hp (by omega) (by omega)
        (notin p q' (by omega) (by omega) (Or.inr ⟨g1, g2⟩))
    · rw [hout p hp (by omega), hout q (by omega) (by omega)]
      exact ho p q hp hpq hq hn

theorem plen_nonneg (lo hi : Int) : ∀ st, StackOk lo hi st → 0 ≤ plen st := by
  intro st
  induction st with
  | nil => intro _; simp [plen]
  | cons r t ih =>
    intro h
    have := ih h.2
    have := h.1.1
    simp only [plen]
    omega

theorem ordered_split (key : Nat → Option Int) (a : List Nat) (lo hi base limit i j x : Int)
    (stack pend : List (Int × Int))
    (ho : Ordered key a lo hi ((base, limit) :: stack))
    (hsub : ∀ r ∈ stack, r ∈ pend) (h1 : (base, j) ∈ pend) (h2 : (i, limit) ∈ pend)
    (hL : ∀ p, base ≤ p → p < j → kx key a p ≤ x) (hj : kx key a j = x)
    (hM : ∀ p, j < p → p < i → kx key a p = x)
    (hR : ∀ p, i ≤ p → p < limit → x ≤ kx key a p) :
    Ordered key a lo hi pend := by
  intro p q hp hpq hq hn
  by_cases hin : InSome ((base, limit) :: stack) p q
  · obtain ⟨r, hr, r1, r2⟩ := hin
    rw [List.mem_cons] at hr
    rcases hr with e | hr
    · subst e
      simp only at r1 r2
      have n1 : ¬ (base ≤ p ∧ q < j) := fun h => hn ⟨_, h1, h.1, h.2⟩
      have n2 : ¬ (i ≤ p ∧ q < limit) := fun h => hn ⟨_, h2, h.1, h.2⟩
      have hqx : x ≤ kx key a q := by
        by_cases c1 : q = j
        · rw [c1, hj]
        · by_cases c2 : q < i
          · rw [hM q (by omega) c2]
          · exact hR q (by omega) r2
      have hpx : kx key a p ≤ x := by
        by_cases c1 : p < j
        · exact hL p r1 c1
        · by_cases c2 : p = j
          · rw [c2, hj]
          · rw [hM p (by omega) (by omega)]
      omega
    · exact absurd ⟨r, hsub r hr, r1, r2⟩ hn
  · exact ho p q hp hpq hq hin

theorem ordered_pop (key : Nat → Option Int) (a : List Nat) (lo hi base limit : Int)
    (stack : List (Int × Int))
    (ho : Ordered key a lo hi ((base, limit) :: stack))
    (hs : SortedOn key a base limit) : Ordered key a lo hi stack := by
  intro p q hp hpq hq hn
  by_cases hin : InSome ((base, limit) :: stack) p q
  · obtain ⟨r, hr, r1, r2⟩ := hin
    rw [List.mem_cons] at hr
    rcases hr with e | hr
    · subst e
      exact hs p q r1 (by omega) r2
    · exact absurd ⟨r, hr, r1, r2⟩ hn
  · exact ho p q hp hpq hq hin

theorem two_pow_lt (d : Nat) (N : Int) (h : (2 : Int) ^ d ≤ N) (hN : N < 2 ^ 40) : d < 40 := by
  by_contra hd
  have : (2 : Int) ^ 40 ≤ 2 ^ d := pow_le_pow_right₀ (by norm_num) (by omega)
  omega

set_option maxHeartbeats 2000000 in
theorem qsort_loop_spec (key : Nat → Option Int) (lo hi : Int) (h0 : 0 ≤ lo)
    (hN : hi - lo < 2 ^ 40) :
    ∀ (fuel : Nat) (a : List Nat) (base limit : Int) (stack : List (Int × Int)),
      KeysOk key a → hi ≤ a.length → StackOk lo hi ((base, limit) :: stack) →
      Ordered key a lo hi ((base, limit) :: stack) →
      DepthOk (hi - lo) ((base, limit) :: stack) →
      2 * plen ((base, limit) :: stack) + stack.length + 1 ≤ fuel →
      ∃ b, qsort_loop key lo hi fuel a base limit stack = some b ∧ Frame a b lo hi ∧
        SortedOn key b lo hi := by
  intro fuel
  induction fuel with
  | zero =>
    intro a base limit stack _ _ hs _ _ hf
    have := plen_nonneg lo hi _ hs
    omega
  | succ n ih =>
    intro a base limit stack hk h3 hs ho hd hf
    obtain ⟨⟨⟨c1, c2, c3⟩, hdisj⟩, hst⟩ := hs
    simp only at c1 c2 c3
    have hpl := plen_nonneg lo hi _ hst
    have hpow : (0 : Int) < 2 ^ stack.length := by positivity
    simp only [plen] at hf
    obtain ⟨hd1, hd2⟩ := hd
    simp only at hd1
    rw [qsort_loop]
    dsimp only
    by_cases hlen : limit - base > qsort_threshold
    · rw [if_pos hlen]
      unfold qsort_threshold at hlen
      have hpiv : Int.tdiv (limit - base) 2 = (limit - base) / 2 :=
        Int.tdiv_eq_ediv (by omega) (by omega)
      rw [hpiv]
      obtain ⟨a1, e1, l1, p1, _, _, o1⟩ := swap_cells_eq a lo hi base
        (base + (limit - base) / 2) h0 h3 (by omega) (by omega) (by omega) (by omega)
      rw [e1]
      dsimp only
      have f1 : Frame a a1 base limit :=
        frame_swap l1 p1 ⟨by omega, by omega⟩ ⟨by omega, by omega⟩ o1
      have hk1 := keysOk_perm hk p1
      obtain ⟨a2, e2, f2, m1, m2⟩ := qsort_median_spec key lo hi base limit a1 hk1 h0
        (by omega) c1 c3 (by omega)
      rw [e2]
      dsimp only
      have hk2 := keysOk_perm hk1 f2.2.1
      have l2 := f2.1
      obtain ⟨a3, i, j, e3, f3, g1, g2, g3, gA, gB⟩ := qsort_partition_spec key lo hi base limit
        h0 c1 c3 (hi - lo).toNat a2 (base + 1) (limit - 1) hk2 (by omega) (le_refl _)
        (by omega) (le_refl _) (Or.inl (by omega))
        (by
          intro p hp1 hp2
          have : p = base + 1 := by omega
          rw [this]; exact m1)
        (by
          intro p hp1 hp2
          have : p = limit - 1 := by omega
          rw [this]; exact m2)
        (by omega)
      rw [e3]
      dsimp only
      have hk3 := keysOk_perm hk2 f3.2.1
      have l3 := f3.1
      obtain ⟨a4, e4, l4, p4, s1, s2, o4⟩ := swap_cells_eq a3 lo hi base j h0 (by omega)
        (by omega) (by omega) (by omega) (by omega)
      rw [e4]
      dsimp only
      have f4 : Frame a3 a4 base limit :=
        frame_swap l4 p4 ⟨by omega, by omega⟩ ⟨by omega, by omega⟩ o4
      have hk4 := keysOk_perm hk3 p4
      have fall : Frame a a4 base limit :=
        frame_trans (frame_trans (frame_trans f1 f2) (frame_mono f3 (by omega) (le_refl _))) f4
      have hdep : stack.length < 40 := by
        apply two_pow_lt stack.length (hi - lo) _ hN
        have : (2 : Int) ^ stack.length * 1 ≤ (limit - base) * 2 ^ stack.length := by nlinarith
        omega
      rw [if_neg (by omega)]
      have ho4 : Ordered key a4 lo hi ((base, limit) :: stack) :=
        ordered_frame key a a4 lo hi (base, limit) stack h0 h3 ⟨⟨c1, c2, c3⟩, hdisj⟩ ho fall
      -- the three regions
      have kj : kx key a4 j = kx key a3 base := by unfold kx; rw [s2]
      have kb : kx key a4 base = kx key a3 j := by unfold kx; rw [s1]
      have ko : ∀ p, 0 ≤ p → p ≠ base → p ≠ j → kx key a4 p = kx key a3 p := by
        intro p hp h1 h2; unfold kx; rw [o4 p hp h1 h2]
      have hL : ∀ p, base ≤ p → p < j → kx key a4 p ≤ kx key a3 base := by
        intro p hp1 hp2
        by_cases hpb : p = base
        · rw [hpb, kb]; exact gA j g1 g2
        · rw [ko p (by omega) hpb (by omega)]
          exact gA p (by omega) (by omega)
      have hM : ∀ p, j < p → p < i → kx key a4 p = kx key a3 base := by
        intro p hp1 hp2
        rw [ko p (by omega) (by omega) (by omega)]
        have u1 := gA p (by omega) hp2
        have u2 := gB p hp1 (by omega)
        omega
      have hR : ∀ p, i ≤ p → p < limit → kx key a3 base ≤ kx key a4 p := by
        intro p hp1 hp2
        rw [ko p (by omega) (by omega) (by omega)]
        exact gB p (by omega) (by omega)
      have hdisj' : ∀ r ∈ stack, (lo ≤ r.1 ∧ r.1 ≤ r.2 ∧ r.2 ≤ hi) ∧
          (r.2 ≤ base ∨ limit ≤ r.1) := hdisj
      by_cases hbig : j - base > limit - i
      · rw [if_pos hbig]
        obtain ⟨b, eb, fb, sb⟩ := ih a4 i limit ((base, j) :: stack) hk4 (by omega)
          ⟨⟨⟨by omega, by omega, by omega⟩, by
              intro r hr
              rw [List.mem_cons] at hr
              rcases hr with e | hr
              · subst e; exact ⟨⟨by omega, by omega, by omega⟩, Or.inl (by simp; omega)⟩
              · have := hdisj' r hr
                exact ⟨this.1, by simp only; omega⟩⟩,
            ⟨⟨⟨by omega, by omega, by omega⟩, by
              intro r hr
              have := hdisj' r hr
              exact ⟨this.1, by simp only; omega⟩⟩, hst⟩⟩
          (ordered_split key a4 lo hi base limit i j (kx key a3 base) stack _ ho4
            (fun r hr => by simp [hr]) (by simp) (by simp) hL kj hM hR)
          ⟨by
            simp only [List.length_cons]
            have : (limit - i) * 2 ^ (stack.length + 1) =
                (2 * (limit - i)) * 2 ^ stack.length := by ring
            rw [this]
            nlinarith, ⟨by simp only; nlinarith, hd2⟩⟩
          (by simp only [plen, List.length_cons]; push_cast; omega)
        exact ⟨b, eb, frame_trans (frame_mono fall c1 c3) fb, sb⟩
      · rw [if_neg hbig]
        obtain ⟨b, eb, fb, sb⟩ := ih a4 base j ((i, limit) :: stack) hk4 (by omega)
          ⟨⟨⟨by omega, by omega, by omega⟩, by
              intro r hr
              rw [List.mem_cons] at hr
              rcases hr with e | hr
              · subst e; exact ⟨⟨by omega, by omega, by omega⟩, Or.inr (by simp; omega)⟩
              · have := hdisj' r hr
                exact ⟨this.1, by simp only; omega⟩⟩,
            ⟨⟨⟨by omega, by omega, by omega⟩, by
              intro r hr
              have := hdisj' r hr
              exact ⟨this.1, by simp only; omega⟩⟩, hst⟩⟩
          (ordered_split key a4 lo hi base limit i j (kx key a3 base) stack _ ho4
            (fun r hr => by simp [hr]) (by simp) (by simp) hL kj hM hR)
          ⟨by
            simp only [List.length_cons]
            have : (j - base) * 2 ^ (stack.length + 1) =
                (2 * (j - base)) * 2 ^ stack.length := by ring
            rw [this]
            nlinarith, ⟨by simp only; nlinarith, hd2⟩⟩
          (by simp only [plen, List.length_cons]; push_cast; omega)
        exact ⟨b, eb, frame_trans (frame_mono fall c1 c3) fb, sb⟩
    · rw [if_neg hlen]
      have eb1 : base = base + 1 - 1 := by ring
      obtain ⟨a', e', f', s'⟩ := qsort_insertion_spec key lo hi base limit h0 c1 c3
        (hi - lo).toNat a (base + 1) hk h3 (le_refl _)
        (by
          intro p q hp hpq hq
          have : p = q := by omega
          rw [this])
        (by omega)
      rw [← eb1] at e'
      rw [e']
      dsimp only
      have ho' : Ordered key a' lo hi stack :=
        ordered_pop key a' lo hi base limit stack
          (ordered_frame key a a' lo hi (base, limit) stack h0 h3 ⟨⟨c1, c2, c3⟩, hdisj⟩ ho f')
          s'
      cases stack with
      | nil =>
        dsimp only
        refine ⟨a', rfl, frame_mono f' c1 c3, ?_⟩
        intro p q hp hpq hq
        by_cases e : p = q
        · rw [e]
        · exact ho' p q hp (by omega) hq (by rintro ⟨r, hr, _⟩; simp at hr)
      | cons r st =>
        obtain ⟨b, l⟩ := r
        dsimp only
        obtain ⟨b', eb, fb, sb⟩ := ih a' b l st (keysOk_perm hk f'.2.1) (by rw [f'.1]; exact h3)
          hst ho' hd2
          (by simp only [plen, List.length_cons] at hf ⊢; push_cast at hf; omega)
        exact ⟨b', eb, frame_trans (frame_mono f' c1 c3) fb, sb⟩

theorem qsort_cells_spec (key : Nat → Option Int) (a : List Nat) (start num : Nat)
    (hk : KeysOk key a) (hlen : start + num ≤ a.length) (hnum : num < 2 ^ 31) :
    ∃ b, qsort_cells key a start num = some b ∧
      Frame a b (start : Int) ((start : Int) + num) ∧
      SortedOn key b (start : Int) ((start : Int) + num) := by
  unfold qsort_cells
  apply qsort_loop_spec key (start : Int) ((start : Int) + num) (by omega)
    (by
      have : ((num : Nat) : Int) < 2 ^ 31 := by exact_mod_cast hnum
      have : (2 : Int) ^ 31 < 2 ^ 40 := by norm_num
      omega)
    (2 * num + 1) a start ((start : Int) + num) [] hk (by omega)
  · exact ⟨⟨⟨le_refl _, by simp, le_refl _⟩, by simp⟩, trivial⟩
  · intro p q hp hpq hq hn
    exact absurd ⟨_, List.mem_cons_self _ _, hp, hq⟩ hn
  · exact ⟨by simp, trivial⟩
  · simp only [plen, List.length_nil]
    push_cast
    omega

/-! ## The counting sort by row and the sorted view -/

theorem syIs_congr {sy : List sorted_y} {R : Nat} {f g f' g' : Nat → Nat}
    (h : SyIs sy R f g) (hf : ∀ r, r < R → f r = f' r) (hg : ∀ r, r < R → g r = g' r) :
    SyIs sy R f' g' := by
  refine ⟨h.1, ?_⟩
  intro r hr
  rw [h.2 r hr, hf r hr, hg r hr]

theorem syIs_set {sy : List sorted_y} {R : Nat} {f g : Nat → Nat} (h : SyIs sy R f g)
    (r0 : Nat) (e : sorted_y) :
    SyIs (sy.set r0 e) R (fun r => if r = r0 then e.start else f r)
      (fun r => if r = r0 then e.num else g r) := by
  refine ⟨by rw [List.length_set]; exact h.1, ?_⟩
  intro r hr
  by_cases c : r = r0
  · subst c
    rw [List.getElem?_set_self (by rw [h.1]; exact hr)]
    simp
  · rw [List.getElem?_set_ne (Ne.symm c), h.2 r hr]
    simp [c]

theorem rowsOk_cons {cells : List (Cell α)} {min_y : Int} {R : Nat} {k : Nat} {ks : List Nat}
    (h : RowsOk cells min_y R (k :: ks)) :
    (∃ c, cells[k]? = some c ∧ index_of (c.y - min_y) = some (rowk cells min_y k) ∧
      rowk cells min_y k < R) ∧ RowsOk cells min_y R ks := by
  obtain ⟨c, hc, h1, h2⟩ := h k (List.mem_cons_self _ _)
  refine ⟨⟨c, hc, ?_, ?_⟩, fun k' hk' => h k' (List.mem_cons_of_mem _ hk')⟩
  · unfold index_of rowk
    rw [hc, if_pos (by omega)]
  · unfold rowk
    rw [hc]; exact h2

theorem cnt_cons (row : Nat → Nat) (k : Nat) (ks : List Nat) (r : Nat) :
    cnt row (k :: ks) r = cnt row ks r + if row k = r then 1 else 0 := by
  unfold cnt
  rw [List.countP_cons]
  simp

theorem sort_histogram_spec (cells : List (Cell α)) (min_y : Int) (R : Nat) :
    ∀ (ks : List Nat) (sy : List sorted_y) (f g : Nat → Nat),
      RowsOk cells min_y R ks → SyIs sy R f g →
      ∃ sy', sort_histogram cells min_y ks sy = some sy' ∧
        SyIs sy' R (fun r => f r + cnt (rowk cells min_y) ks r) g := by
  intro ks
  induction ks with
  | nil =>
    intro sy f g _ h
    exact ⟨sy, rfl, syIs_congr h (fun r _ => by simp [cnt]) (fun _ _ => rfl)⟩
  | cons k ks ih =>
    intro sy f g hr h
    obtain ⟨⟨c, hc, hi, hlt⟩, hr'⟩ := rowsOk_cons hr
    rw [sort_histogram, hc]
    dsimp only
    rw [hi]
    dsimp only
    rw [h.2 _ hlt]
    dsimp only
    obtain ⟨sy', e', h'⟩ := ih _ _ _ hr' (syIs_set h (rowk cells min_y k) _)
    refine ⟨sy', e', syIs_congr h' ?_ ?_⟩
    · intro r _
      rw [cnt_cons]
      dsimp only
      by_cases c1 : r = rowk cells min_y k
      · rw [if_pos c1, if_pos c1.symm, c1]; omega
      · rw [if_neg c1, if_neg (Ne.symm c1)]; omega
    · intro r _
      dsimp only
      by_cases c1 : r = rowk cells min_y k
      · rw [if_pos c1, c1]
      · rw [if_neg c1]

theorem sort_starts_spec (R : Nat) (f g : Nat → Nat) :
    ∀ (n i start : Nat) (sy : List sorted_y), i + n = R → start = psum f i →
      SyIs sy R (fun r => if r < i then psum f r else f r) g →
      ∃ sy', sort_starts n i start sy = some sy' ∧ SyIs sy' R (psum f) g := by
  intro n
  induction n with
  | zero =>
    intro i start sy hi _ h
    exact ⟨sy, rfl, syIs_congr h (fun r hr => by
      show (if r < i then psum f r else f r) = psum f r
      rw [if_pos (by omega)])
      (fun _ _ => rfl)⟩
  | succ n ih =>
    intro i start sy hi hs h
    rw [sort_starts, h.2 i (by omega)]
    dsimp only
    rw [if_neg (by omega)]
    apply ih (i + 1) _ _ (by omega)
    · rw [hs]; rfl
    · refine syIs_congr (syIs_set h i _) ?_ ?_
      · intro r _
        dsimp only
        by_cases c1 : r = i
        · rw [if_pos c1, if_pos (by omega), hs, c1]
        · rw [if_neg c1]
          by_cases c2 : r < i
          · rw [if_pos c2, if_pos (by omega)]
          · rw [if_neg c2, if_neg (by omega)]
      · intro r _
        dsimp only
        by_cases c1 : r = i
        · rw [if_pos c1, c1]
        · rw [if_neg c1]

theorem psum_mono (f : Nat → Nat) (a : Nat) : ∀ b, a ≤ b → psum f a ≤ psum f b := by
  intro b
  induction b with
  | zero => intro h; rw [Nat.le_zero.mp h]
  | succ b ih =>
    intro h
    by_cases c : a = b + 1
    · rw [c]
    · have := ih (by omega)
      simp only [psum]; omega

theorem psum_step_le (f : Nat → Nat) (a b : Nat) (h : a < b) : psum f a + f a ≤ psum f b :=
  psum_mono f (a + 1) b h

theorem slot_inj (C : Nat → Nat) (r r0 i i0 : Nat) (hi : i < C r) (hi0 : i0 < C r0)
    (h : psum C r + i = psum C r0 + i0) : r = r0 ∧ i = i0 := by
  rcases Nat.lt_trichotomy r r0 with c | c | c
  · have := psum_step_le C r r0 c; omega
  · subst c; exact ⟨rfl, by omega⟩
  · have := psum_step_le C r0 r c; omega

theorem sort_scatter_spec (cells : List (Cell α)) (min_y : Int) (R n : Nat) (C : Nat → Nat)
    (hS : psum C R ≤ n) :
    ∀ (ks : List Nat) (sy : List sorted_y) (sc : List Nat) (m : Nat → Nat) (P : Nat → Prop),
      RowsOk cells min_y R ks → SyIs sy R (psum C) m → sc.length = n →
      (∀ r, r < R → m r + cnt (rowk cells min_y) ks r = C r) →
      (∀ r, r < R → ∀ i, i < m r →
        ∃ k, sc[psum C r + i]? = some k ∧ rowk cells min_y k = r ∧ P k) →
      (∀ k, P k → ∃ r, r < R ∧ ∃ i, i < m r ∧ sc[psum C r + i]? = some k) →
      ∃ sy' sc', sort_scatter cells min_y ks sy sc = some (sy', sc') ∧
        SyIs sy' R (psum C) C ∧ sc'.length = n ∧
        (∀ r, r < R → ∀ i, i < C r →
          ∃ k, sc'[psum C r + i]? = some k ∧ rowk cells min_y k = r ∧ (P k ∨ k ∈ ks)) ∧
        (∀ k, (P k ∨ k ∈ ks) → ∃ r, r < R ∧ ∃ i, i < C r ∧ sc'[psum C r + i]? = some k) := by
  intro ks
  induction ks with
  | nil =>
    intro sy sc m P _ h hl hm h2 h3
    have hmC : ∀ r, r < R → m r = C r := by
      intro r hr
      have := hm r hr
      simp only [cnt, List.countP_nil] at this
      omega
    refine ⟨sy, sc, rfl, syIs_congr h (fun _ _ => rfl) hmC, hl, ?_, ?_⟩
    · intro r hr i hi
      obtain ⟨k, e1, e2, e3⟩ := h2 r hr i (by rw [hmC r hr]; exact hi)
      exact ⟨k, e1, e2, Or.inl e3⟩
    · intro k hk
      rcases hk with hk | hk
      · obtain ⟨r, hr, i, hi, e⟩ := h3 k hk
        exact ⟨r, hr, i, by rw [← hmC r hr]; exact hi, e⟩
      · simp at hk
  | cons k ks ih =>
    intro sy sc m P hr h hl hm h2 h3
    obtain ⟨⟨c, hc, hi, hlt⟩, hr'⟩ := rowsOk_cons hr
    rw [sort_scatter, hc]
    dsimp only
    rw [hi]
    dsimp only
    rw [h.2 _ hlt]
    dsimp only
    have hm0 := hm _ hlt
    rw [cnt_cons, if_pos rfl] at hm0
    have hstep := psum_step_le C _ _ hlt
    have hmono := psum_mono C _ _ (Nat.le_of_lt hlt)
    have hp0 : psum C (rowk cells min_y k) + m (rowk cells min_y k) < sc.length := by
      rw [hl]
      have : psum C (rowk cells min_y k + 1) ≤ psum C R := psum_mono C _ _ hlt
      simp only [psum] at this
      omega
    rw [if_pos hp0]
    have hmle : ∀ r, r < R → m r ≤ C r := fun r hr => by have := hm r hr; omega
    obtain ⟨sy', sc', e', g1, g2, g3, g4⟩ := ih
      (sy.set (rowk cells min_y k) ⟨psum C (rowk cells min_y k), m (rowk cells min_y k) + 1⟩)
      (sc.set (psum C (rowk cells min_y k) + m (rowk cells min_y k)) k)
      (fun r => if r = rowk cells min_y k then m r + 1 else m r)
      (fun k' => P k' ∨ k' = k) hr'
      (by
        refine syIs_congr (syIs_set h (rowk cells min_y k) _) ?_ ?_
        · intro r _
          dsimp only
          by_cases c1 : r = rowk cells min_y k
          · rw [if_pos c1, c1]
          · rw [if_neg c1]
        · intro r _
          dsimp only
          by_cases c1 : r = rowk cells min_y k
          · rw [if_pos c1, if_pos c1, c1]
          · rw [if_neg c1, if_neg c1])
      (by rw [List.length_set]; exact hl)
      (by
        intro r hr1
        have := hm r hr1
        rw [cnt_cons] at this
        dsimp only
        by_cases c1 : r = rowk cells min_y k
        · rw [if_pos c1]; rw [if_pos c1.symm] at this; omega
        · rw [if_neg c1]; rw [if_neg (Ne.symm c1)] at this; omega)
      (by
        intro r hr1 i hi1
        dsimp only at hi1
        by_cases c1 : r = rowk cells min_y k ∧ i = m (rowk cells min_y k)
        · obtain ⟨c1, c2⟩ := c1
          refine ⟨k, ?_, c1.symm, Or.inr rfl⟩
          rw [c1, c2, List.getElem?_set_self hp0]
        · have hi2 : i < m r := by
            by_cases c2 : r = rowk cells min_y k
            · rw [if_pos c2] at hi1
              have : i ≠ m (rowk cells min_y k) := fun e => c1 ⟨c2, e⟩
              rw [c2] at hi1 ⊢; omega
            · rw [if_neg c2] at hi1; exact hi1
          obtain ⟨k', e1, e2, e3⟩ := h2 r hr1 i hi2
          refine ⟨k', ?_, e2, Or.inl e3⟩
          rw [List.getElem?_set_ne, e1]
          intro e
          have := slot_inj C _ _ _ _ (by omega) (lt_of_lt_of_le hi2 (hmle r hr1)) e
          exact c1 ⟨this.1.symm, this.2.symm⟩)
      (by
        intro k' hk'
        rcases hk' with hk' | hk'
        · obtain ⟨r, hr1, i, hi1, e⟩ := h3 k' hk'
          refine ⟨r, hr1, i, ?_, ?_⟩
          · dsimp only
            split
            · omega
            · exact hi1
          · rw [List.getElem?_set_ne, e]
            intro e2
            have := slot_inj C _ _ _ _ (by omega) (lt_of_lt_of_le hi1 (hmle r hr1)) e2
            rw [← this.1] at hi1
            omega
        · refine ⟨rowk cells min_y k, hlt, m (rowk cells min_y k), ?_, ?_⟩
          · dsimp only
            rw [if_pos rfl]; omega
          · rw [hk', List.getElem?_set_self hp0])
    refine ⟨sy', sc', e', g1, g2, ?_, ?_⟩
    · intro r hr1 i hi1
      obtain ⟨k', e1, e2, e3⟩ := g3 r hr1 i hi1
      refine ⟨k', e1, e2, ?_⟩
      rcases e3 with (e3 | e3) | e3
      · exact Or.inl e3
      · exact Or.inr (by rw [e3]; exact List.mem_cons_self _ _)
      · exact Or.inr (List.mem_cons_of_mem _ e3)
    · intro k' hk'
      apply g4
      rcases hk' with hk' | hk'
      · exact Or.inl (Or.inl hk')
      · rw [List.mem_cons] at hk'
        rcases hk' with hk' | hk'
        · exact Or.inl (Or.inr hk')
        · exact Or.inr hk'

theorem sort_rows_spec (key : Nat → Option Int) (R n : Nat) (C : Nat → Nat)
    (sy : List sorted_y) (hsy : SyIs sy R (psum C) C) (hS : psum C R ≤ n) (hn : n < 2 ^ 31)
    (row : Nat → Nat) :
    ∀ (m i : Nat) (sc : List Nat), i + m = R → sc.length = n → KeysOk key sc →
      (∀ r, r < R → ∀ p : Int, (psum C r : Int) ≤ p → p < (psum C r : Int) + C r →
        row (slot sc p) = r) →
      (∀ r, r < i → SortedOn key sc (psum C r : Int) ((psum C r : Int) + C r)) →
      ∃ sc', sort_rows key sy m i sc = some sc' ∧ sc'.Perm sc ∧
        (∀ r, r < R → ∀ p : Int, (psum C r : Int) ≤ p → p < (psum C r : Int) + C r →
          row (slot sc' p) = r) ∧
        (∀ r, r < R → SortedOn key sc' (psum C r : Int) ((psum C r : Int) + C r)) := by
  intro m
  induction m with
  | zero =>
    intro i sc hi hl hk h1 h2
    exact ⟨sc, rfl, List.Perm.refl _, h1, fun r hr => h2 r (by omega)⟩
  | succ m ih =>
    intro i sc hi hl hk h1 h2
    have hiR : i < R := by omega
    rw [sort_rows, hsy.2 i hiR]
    dsimp only
    have hle : psum C i + C i ≤ n := le_trans (psum_step_le C i R hiR) hS
    by_cases hz : C i = 0
    · rw [if_neg (by simpa using hz)]
      apply ih (i + 1) sc (by omega) hl hk h1
      intro r hr
      by_cases c : r = i
      · rw [c, hz]
        intro p q hp hpq hq
        simp only [Nat.cast_zero, add_zero] at hq
        omega
      · exact h2 r (by omega)
    · rw [if_pos (by simpa using hz)]
      obtain ⟨sc1, e1, f1, s1⟩ := qsort_cells_spec key sc (psum C i) (C i) hk (by omega)
        (by omega)
      rw [e1]
      dsimp only
      have hout : ∀ r, r < R → r ≠ i → ∀ p : Int, (psum C r : Int) ≤ p →
          p < (psum C r : Int) + C r → slot sc1 p = slot sc p := by
        intro r hr hne p hp1 hp2
        apply f1.2.2 p (by omega)
        rcases Nat.lt_or_gt_of_ne hne with c | c
        · have := psum_step_le C r i c
          left; omega
        · have := psum_step_le C i r c
          right; omega
      obtain ⟨sc', e', p', r', s'⟩ := ih (i + 1) sc1 (by omega) (by rw [f1.1]; exact hl)
        (keysOk_perm hk f1.2.1)
        (by
          intro r hr p hp1 hp2
          by_cases c : r = i
          · subst c
            obtain ⟨q', hq1, hq2, hq3⟩ := frame_slot sc sc1 _ _ f1 (by omega) (by omega)
              (by omega) p hp1 hp2
            rw [hq3]
            exact h1 r hr q' hq1 hq2
          · rw [hout r hr c p hp1 hp2]
            exact h1 r hr p hp1 hp2)
        (by
          intro r hr
          by_cases c : r = i
          · rw [c]; exact s1
          · intro p q hp hpq hq
            unfold kx
            rw [hout r (by omega) c p hp (by omega), hout r (by omega) c q (by omega) hq]
            exact h2 r (by omega) p q hp hpq hq)
      exact ⟨sc', e', p'.trans f1.2.1, r', s'⟩

theorem psum_add (f g : Nat → Nat) : ∀ R, psum (fun r => f r + g r) R = psum f R + psum g R := by
  intro R
  induction R with
  | zero => rfl
  | succ R ih => simp only [psum, ih]; omega

theorem psum_congr (f g : Nat → Nat) : ∀ R, (∀ r, r < R → f r = g r) → psum f R = psum g R := by
  intro R
  induction R with
  | zero => intro _; rfl
  | succ R ih =>
    intro h
    simp only [psum]
    rw [ih (fun r hr => h r (by omega)), h R (by omega)]

theorem psum_indicator (a : Nat) : ∀ R, psum (fun r => if a = r then 1 else 0) R =
    if a < R then 1 else 0 := by
  intro R
  induction R with
  | zero => rfl
  | succ R ih =>
    simp only [psum, ih]
    by_cases c1 : a < R
    · rw [if_pos c1, if_neg (by omega), if_pos (by omega)]
    · rw [if_neg c1]
      by_cases c2 : a = R
      · rw [if_pos c2, if_pos (by omega)]
      · rw [if_neg c2, if_neg (by omega)]

theorem psum_cnt (row : Nat → Nat) (R : Nat) : ∀ ks : List Nat, (∀ k ∈ ks, row k < R) →
    psum (cnt row ks) R = ks.length := by
  intro ks
  induction ks with
  | nil =>
    intro _
    have : ∀ R, psum (cnt row []) R = 0 := by
      intro R
      induction R with
      | zero => rfl
      | succ R ih => simp only [psum, ih, cnt, List.countP_nil]
    rw [this]; rfl
  | cons k ks ih =>
    intro h
    have e : cnt row (k :: ks) = fun r => cnt row ks r + (if row k = r then 1 else 0) := by
      funext r; exact cnt_cons row k ks r
    rw [e, psum_add, ih (fun k' hk' => h k' (List.mem_cons_of_mem _ hk')), psum_indicator,
      if_pos (h k (List.mem_cons_self _ _))]
    rfl

theorem rowsOk_range (s : State α) (ha : ArenaInv s) (hb : BoxInv s) :
    RowsOk s.m_cells s.m_min_y (s.m_max_y - s.m_min_y + 1).toNat (List.range s.m_num_cells) := by
  intro k hk
  rw [List.mem_range, ← ha.1] at hk
  refine ⟨s.m_cells[k], List.getElem?_eq_getElem hk, ?_⟩
  have := hb.2.1 _ (List.getElem_mem hk)
  omega

theorem rowk_eq (cells : List (Cell α)) (min_y : Int) (k : Nat) (c : Cell α)
    (h : cells[k]? = some c) : rowk cells min_y k = (c.y - min_y).toNat := by
  unfold rowk
  rw [h]

theorem rowk_lt {cells : List (Cell α)} {min_y : Int} {R : Nat} {ks : List Nat}
    (h : RowsOk cells min_y R ks) : ∀ k ∈ ks, rowk cells min_y k < R := by
  intro k hk
  obtain ⟨c, hc, _, h2⟩ := h k hk
  unfold rowk
  rw [hc]; exact h2

theorem sort_cells_spec (s : State α) (ha : ArenaInv s) (hb : BoxInv s)
    (hs : s.m_sorted = false) (hn : (add_cur_cell s).m_num_cells ≠ 0) :
    ∃ sc sy, sort_cells s = some { add_cur_cell s with
        m_sorted_cells := sc, m_sorted_y := sy, m_sorted := true } ∧
      SortedView { add_cur_cell s with
        m_sorted_cells := sc, m_sorted_y := sy, m_sorted := true } := by
  have ha1 := arenaInv_add_cur_cell ha
  have hb1 := boxInv_add_cur_cell hb
  unfold sort_cells
  rw [if_neg (by rw [hs]; simp)]
  dsimp only
  rw [if_neg hn]
  generalize add_cur_cell s = s1 at *
  have hR := rowsOk_range s1 ha1 hb1
  generalize hRd : (s1.m_max_y - s1.m_min_y + 1).toNat = R at *
  generalize hnd : s1.m_num_cells = n at *
  have hlen : s1.m_cells.length = n := by rw [← hnd]; exact ha1.1
  have hn31 : n < 2 ^ 31 := by
    have h3 := ha1.2.2.1
    have h4 := ha1.2.2.2.1
    have h2 := ha1.2.1
    unfold cell_block_limit at h3
    unfold cell_block_size at h4
    have : 4096 * s1.m_cur_block ≤ 4096 * 1024 := by omega
    norm_num
    omega
  obtain ⟨sy1, e1, g1⟩ := sort_histogram_spec s1.m_cells s1.m_min_y R (List.range n)
    (List.replicate R ⟨0, 0⟩) (fun _ => 0) (fun _ => 0) hR
    ⟨by simp, fun r hr => by rw [List.getElem?_replicate]; simp [hr]⟩
  rw [e1]
  dsimp only
  obtain ⟨sy2, e2, g2⟩ := sort_starts_spec R (cnt (rowk s1.m_cells s1.m_min_y) (List.range n))
    (fun _ => 0) R 0 0 sy1 (by omega) rfl
    (syIs_congr g1 (fun r _ => by simp) (fun _ _ => rfl))
  rw [g1.1, e2]
  dsimp only
  have hps : psum (cnt (rowk s1.m_cells s1.m_min_y) (List.range n)) R = n := by
    rw [psum_cnt _ _ _ (rowk_lt hR), List.length_range]
  obtain ⟨sy3, sc3, e3, g3, l3, r3, o3⟩ := sort_scatter_spec s1.m_cells s1.m_min_y R n
    (cnt (rowk s1.m_cells s1.m_min_y) (List.range n)) (le_of_eq hps) (List.range n) sy2
    (List.replicate n 0) (fun _ => 0) (fun _ => False) hR g2 (by simp)
    (fun r _ => by simp) (fun r _ i hi => absurd hi (Nat.not_lt_zero _)) (fun k hk => hk.elim)
  rw [e3]
  dsimp only
  have hperm : sc3.Perm (List.range n) := by
    apply List.Perm.symm
    apply List.Subperm.perm_of_length_le
    · apply List.subperm_of_subset (List.nodup_range n)
      intro k hk
      obtain ⟨r, _, i, _, e⟩ := o3 k (Or.inr hk)
      exact List.getElem?_mem e
    · rw [l3, List.length_range]
  have hkeys : ∀ sc : List Nat, sc.Perm (List.range n) →
      KeysOk (fun p => (s1.m_cells[p]?).map Cell.x) sc := by
    intro sc hp v hv
    have : v < s1.m_cells.length := by
      rw [hlen]; exact List.mem_range.mp (hp.subset hv)
    exact ⟨s1.m_cells[v].x, by simp [List.getElem?_eq_getElem this]⟩
  obtain ⟨sc4, e4, p4, r4, s4⟩ := sort_rows_spec (fun p => (s1.m_cells[p]?).map Cell.x) R n
    (cnt (rowk s1.m_cells s1.m_min_y) (List.range n)) sy3 g3 (le_of_eq hps) hn31
    (rowk s1.m_cells s1.m_min_y) R 0 sc3 (by omega) l3 (hkeys sc3 hperm)
    (by
      intro r hr p hp1 hp2
      obtain ⟨k, ek, rk, _⟩ := r3 r hr (p - (psum (cnt (rowk s1.m_cells s1.m_min_y)
        (List.range n)) r : Int)).toNat (by omega)
      have : p.toNat = psum (cnt (rowk s1.m_cells s1.m_min_y) (List.range n)) r +
          (p - (psum (cnt (rowk s1.m_cells s1.m_min_y) (List.range n)) r : Int)).toNat := by
        omega
      unfold slot
      rw [List.getD_eq_getElem?_getD, this, ek]
      exact rk)
    (fun r hr => by omega)
  rw [g3.1, e4]
  dsimp only
  refine ⟨sc4, sy3, rfl, cnt (rowk s1.m_cells s1.m_min_y) (List.range n), ?_, ?_, ?_, ?_, ?_, ?_⟩
  · intro r; simp only [hnd]
  · simp only [hRd]; exact g3
  · simp only [hRd, hnd]; exact hps
  · simp only [hnd]; exact p4.trans hperm
  all_goals
    have hcell : ∀ r, r < R → ∀ j, j < cnt (rowk s1.m_cells s1.m_min_y) (List.range n) r →
        ∃ p c, sc4[psum (cnt (rowk s1.m_cells s1.m_min_y) (List.range n)) r + j]? = some p ∧
          s1.m_cells[p]? = some c ∧ c.y = s1.m_min_y + r ∧
          kx (fun p => (s1.m_cells[p]?).map Cell.x) sc4
            ((psum (cnt (rowk s1.m_cells s1.m_min_y) (List.range n)) r : Int) + j) = c.x := by
      intro r hr j hj
      have hq : psum (cnt (rowk s1.m_cells s1.m_min_y) (List.range n)) r + j < sc4.length := by
        rw [p4.length_eq, l3]
        have := psum_step_le (cnt (rowk s1.m_cells s1.m_min_y) (List.range n)) r R hr
        omega
      have hsl : slot sc4 ((psum (cnt (rowk s1.m_cells s1.m_min_y) (List.range n)) r : Int) + j) =
          sc4[psum (cnt (rowk s1.m_cells s1.m_min_y) (List.range n)) r + j] := by
        unfold slot
        have : ((psum (cnt (rowk s1.m_cells s1.m_min_y) (List.range n)) r : Int) + j).toNat =
            psum (cnt (rowk s1.m_cells s1.m_min_y) (List.range n)) r + j := by omega
        rw [this, List.getD_eq_getElem _ _ hq]
      have hp : sc4[psum (cnt (rowk s1.m_cells s1.m_min_y) (List.range n)) r + j] <
          s1.m_cells.length := by
        rw [hlen]
        exact List.mem_range.mp ((p4.trans hperm).subset (List.getElem_mem hq))
      have hrow := r4 r hr ((psum (cnt (rowk s1.m_cells s1.m_min_y) (List.range n)) r : Int) + j)
        (by omega) (by omega)
      rw [hsl] at hrow
      rw [rowk_eq _ _ _ _ (List.getElem?_eq_getElem hp)] at hrow
      have hbox := hb1.2.1 _ (List.getElem_mem hp)
      refine ⟨_, _, List.getElem?_eq_getElem hq, List.getElem?_eq_getElem hp, by omega, ?_⟩
      unfold kx KD
      rw [hsl]
      dsimp only
      rw [List.getElem?_eq_getElem hp]
      rfl
  · intro r hr j hj
    simp only [hRd] at hr
    obtain ⟨p, c, e1, e2, e3, _⟩ := hcell r hr j hj
    exact ⟨p, c, e1, e2, e3⟩
  · intro r hr j j' hjj hj'
    simp only [hRd] at hr
    obtain ⟨p, c, e1, e2, _, e4⟩ := hcell r hr j (by omega)
    obtain ⟨p', c', e1', e2', _, e4'⟩ := hcell r hr j' hj'
    refine ⟨p, c, p', c', e1, e2, e1', e2', ?_⟩
    rw [← e4, ← e4']
    exact s4 r hr _ _ (by omega) (by omega) (by omega)

theorem allocate_block_sorted (s : State α) : (allocate_block s).m_sorted = s.m_sorted := by
  unfold allocate_block
  dsimp only
  split
  · split <;> rfl
  · rfl

theorem add_cur_cell_sorted (s : State α) : (add_cur_cell s).m_sorted = s.m_sorted := by
  unfold add_cur_cell
  split
  · split
    · split
      · rfl
      · exact allocate_block_sorted s
    · rfl
  · rfl

theorem prim_sorted {s t : State α} (h : Prim s t) : t.m_sorted = s.m_sorted := by
  induction h with
  | refl => rfl
  | acc c _ ih => exact ih
  | add _ ih => rw [add_cur_cell_sorted]; exact ih

theorem move_to_sorted [DecidableEq α] (s : State α) (x y : Int) :
    (move_to s x y).m_sorted = false := by
  unfold move_to
  dsimp only
  have h1 : (if s.m_sorted = true then reset s else s).m_sorted = false := by
    split
    · rfl
    · simpa using ‹¬ s.m_sorted = true›
  generalize (if s.m_sorted = true then reset s else s) = u at h1
  split
  · show (add_cur_cell u).m_sorted = false
    rw [add_cur_cell_sorted]; exact h1
  · exact h1

theorem sort_cells_total (s : State α) (ha : ArenaInv s) (hb : BoxInv s) :
    ∃ t, sort_cells s = some t := by
  by_cases h1 : s.m_sorted = true
  · exact ⟨s, by unfold sort_cells; rw [if_pos h1]⟩
  · by_cases h2 : (add_cur_cell s).m_num_cells = 0
    · exact ⟨add_cur_cell s, by unfold sort_cells; rw [if_neg h1]; dsimp only; rw [if_pos h2]⟩
    · obtain ⟨sc, sy, e, _⟩ := sort_cells_spec s ha hb (by simpa using h1) h2
      exact ⟨_, e⟩

theorem sort_cells_view {s t : State α} (ha : ArenaInv s) (hb : BoxInv s)
    (hv : s.m_sorted = true → SortedView s) (h : sort_cells s = some t)
    (ht : t.m_sorted = true) : SortedView t := by
  by_cases h1 : s.m_sorted = true
  · unfold sort_cells at h
    rw [if_pos h1] at h
    rw [← Option.some.inj h]
    exact hv h1
  · by_cases h2 : (add_cur_cell s).m_num_cells = 0
    · unfold sort_cells at h
      rw [if_neg h1] at h
      dsimp only at h
      rw [if_pos h2] at h
      rw [← Option.some.inj h, add_cur_cell_sorted] at ht
      exact absurd ht h1
    · obtain ⟨sc, sy, e, v⟩ := sort_cells_spec s ha hb (by simpa using h1) h2
      rw [e] at h
      rw [← Option.some.inj h]
      exact v

theorem sort_cells_sorted {s t : State α} (h : sort_cells s = some t)
    (hn : t.m_num_cells ≠ 0) : t.m_sorted = true := by
  unfold sort_cells at h
  split at h
  · rw [← Option.some.inj h]; assumption
  · dsimp only at h
    split at h
    · rw [← Option.some.inj h] at hn; contradiction
    · split at h
      · exact Option.noConfusion h
      · split at h
        · exact Option.noConfusion h
        · split at h
          · exact Option.noConfusion h
          · split at h
            · exact Option.noConfusion h
            · rw [← Option.some.inj h]

theorem view_reachable [DecidableEq α] {init : Cell α} {s : State α}
    (h : Reachable init s) : s.m_sorted = true → SortedView s := by
  induction h with
  | fresh => intro h; exact absurd h (by simp [fresh])
  | reset _ _ => intro h; exact absurd h (by simp [reset])
  | seed_cell c _ ih => exact ih
  | move_to x y _ _ => intro h; rw [move_to_sorted] at h; exact absurd h (by simp)
  | line_to x y _ hl _ =>
    intro h
    obtain ⟨t, ht, _⟩ := line_to_prim _ x y
    rw [ht] at hl
    rw [← Option.some.inj hl] at h
    exact absurd h (by simp)
  | sort_cells hr hs ih =>
    intro h
    exact sort_cells_view (inv_reachable hr).1 (inv_reachable hr).2 ih hs h

/-! ## The sorted view through the query methods -/

theorem row_of_to_unsigned (s : State α) (y : Int) (h1 : s.m_min_y ≤ y)
    (h2 : y - s.m_min_y < 4294967296) :
    row_of s (to_unsigned y) = (y - s.m_min_y).toNat := by
  unfold row_of to_unsigned
  omega

theorem box_fits (s : State α) (hb : BoxInv s)
    (hr : ∀ c ∈ s.m_cells, -0x7FFFFFFF ≤ c.y ∧ c.y ≤ 0x7FFFFFFF) :
    -0x7FFFFFFF ≤ s.m_min_y ∧ s.m_max_y ≤ 0x7FFFFFFF := by
  obtain ⟨-, -, -, -, h5, h6⟩ := hb
  constructor
  · rcases h5 with h5 | ⟨c, hc, e⟩
    · omega
    · have := hr c hc; omega
  · rcases h6 with h6 | ⟨c, hc, e⟩
    · omega
    · have := hr c hc; omega

theorem psum_eq_sum (f : Nat → Nat) : ∀ R, psum f R = ((List.range R).map f).sum := by
  intro R
  induction R with
  | zero => rfl
  | succ R ih => simp [psum, ih, List.range_succ]

theorem filterMap_getElem_range (cells : List α) :
    (List.range cells.length).filterMap (fun p => cells[p]?) = cells := by
  induction cells with
  | nil => rfl
  | cons c cells ih =>
    rw [List.length_cons, List.range_succ_eq_map, List.filterMap_cons]
    simp only [List.getElem?_cons_zero, List.filterMap_map]
    congr 1
    have e : ((fun p => (c :: cells)[p]?) ∘ Nat.succ) = fun p => cells[p]? := by
      funext p
      simp
    rw [e]
    exact ih

theorem sorted_after [DecidableEq α] {init : Cell α} {s t : State α}
    (h : Reachable init s) (hs : sort_cells s = some t) (hn : 0 < total_cells t) :
    SortedView t ∧ ArenaInv t ∧ BoxInv t := by
  have hi := inv_reachable (Reachable.sort_cells h hs)
  exact ⟨sort_cells_view (inv_reachable h).1 (inv_reachable h).2 (view_reachable h) hs
    (sort_cells_sorted hs (by unfold total_cells at hn; omega)), hi.1, hi.2⟩

theorem scanline_row (s : State α) (C : Nat → Nat)
    (hsy : SyIs s.m_sorted_y (s.m_max_y - s.m_min_y + 1).toNat (psum C) C)
    (hfit : s.m_max_y - s.m_min_y < 4294967296) (y : Int)
    (hy1 : s.m_min_y ≤ y) (hy2 : y ≤ s.m_max_y) :
    scanline_num_cells s (to_unsigned y) = some (C (y - s.m_min_y).toNat) ∧
    scanline_cells s (to_unsigned y) = some (psum C (y - s.m_min_y).toNat) := by
  unfold scanline_num_cells scanline_cells
  rw [row_of_to_unsigned s y hy1 (by omega), hsy.2 _ (by omega)]
  exact ⟨rfl, rfl⟩

/-- C2: on every reachable instance `sort_cells()` returns; when the instance then has at
least one committed cell (the cells having rows that an `int` other than `INT_MIN`
holds), for every `y` with `min_y <= y <= max_y`, `scanline_num_cells(y)` is defined, each
of the cells `scanline_cells(y)[i]` with `i < scanline_num_cells(y)` is a committed cell
with `cell.y = y`, and the `x` of these cells is non-decreasing in `i`. -/
theorem C2_row_grouping [DecidableEq α] (init : Cell α) (s : State α)
    (h : Reachable init s) :
    ∃ t, sort_cells s = some t ∧
      (0 < total_cells t → (∀ c ∈ t.m_cells, -0x7FFFFFFF ≤ c.y ∧ c.y ≤ 0x7FFFFFFF) →
        ∀ y : Int, t.m_min_y ≤ y → y ≤ t.m_max_y →
          ∃ num, scanline_num_cells t (to_unsigned y) = some num ∧
            (∀ i, i < num → ∃ c, scanline_cell t (to_unsigned y) i = some c ∧
              c ∈ t.m_cells ∧ c.y = y) ∧
            (∀ i j, i ≤ j → j < num → ∃ c c', scanline_cell t (to_unsigned y) i = some c ∧
              scanline_cell t (to_unsigned y) j = some c' ∧ c.x ≤ c'.x)) := by
  obtain ⟨t, hs⟩ := sort_cells_total s (inv_reachable h).1 (inv_reachable h).2
  refine ⟨t, hs, ?_⟩
  intro hn hr y hy1 hy2
  obtain ⟨⟨C, -, hsy, -, -, hrow, hord⟩, -, hb⟩ := sorted_after h hs hn
  have hf := box_fits t hb hr
  obtain ⟨e1, e2⟩ := scanline_row t C hsy (by omega) y hy1 hy2
  refine ⟨_, e1, ?_, ?_⟩
  · intro i hi
    obtain ⟨p, c, g1, g2, g3⟩ := hrow _ (by omega) i hi
    refine ⟨c, ?_, List.getElem?_mem g2, by omega⟩
    unfold scanline_cell
    rw [e2]
    dsimp only
    rw [g1]
    dsimp only
    rw [g2]
  · intro i j hij hj
    obtain ⟨p, c, p', c', g1, g2, g3, g4, g5⟩ := hord _ (by omega) i j hij hj
    refine ⟨c, c', ?_, ?_, g5⟩
    · unfold scanline_cell
      rw [e2]
      dsimp only
      rw [g1]
      dsimp only
      rw [g2]
    · unfold scanline_cell
      rw [e2]
      dsimp only
      rw [g3]
      dsimp only
      rw [g4]

theorem diag_drawn_eq : line_to (move_to (fresh cell0) 0 0) 512 512 = some diag_drawn := by
  decide

theorem diag_sorted_eq : sort_cells diag_drawn = some diag_sorted := by decide

theorem diag_reachable : Reachable cell0 diag_drawn :=
  Reachable.line_to 512 512 (Reachable.move_to 0 0 Reachable.fresh) diag_drawn_eq

/-- C2 on row 1 of the diagonal `move_to(0, 0); line_to(512, 512)`. -/
theorem C2_row_grouping_witness :
    ∃ num, scanline_num_cells diag_sorted (to_unsigned 1) = some num ∧
      (∀ i, i < num → ∃ c, scanline_cell diag_sorted (to_unsigned 1) i = some c ∧
        c ∈ diag_sorted.m_cells ∧ c.y = 1) ∧
      (∀ i j, i ≤ j → j < num → ∃ c c', scanline_cell diag_sorted (to_unsigned 1) i = some c ∧
        scanline_cell diag_sorted (to_unsigned 1) j = some c' ∧ c.x ≤ c'.x) := by
  obtain ⟨t, e, H⟩ := C2_row_grouping cell0 diag_drawn diag_reachable
  have ht : t = diag_sorted := Option.some.inj (e.symm.trans diag_sorted_eq)
  subst ht
  exact H (by decide) (by decide) 1 (by decide) (by decide)

/-- C3: on every reachable instance `sort_cells()` returns; when the instance then has
`total_cells() > 0` (the cells having rows that an `int` other than `INT_MIN` holds), the
range of row `min_y` starts at 0, the range of each further row up to `max_y` starts
where that of the row before ends, the range of row `max_y` ends at `total_cells()`, the values
`scanline_num_cells(y)` for `y` from `min_y` to `max_y` sum to `total_cells()`, the
pointer array holds every index of the arena exactly once, and the cells it points to are
the committed cells, each as often as it was committed. -/
theorem C3_sorted_view_complete [DecidableEq α] (init : Cell α) (s : State α)
    (h : Reachable init s) :
    ∃ t, sort_cells s = some t ∧
      (0 < total_cells t → (∀ c ∈ t.m_cells, -0x7FFFFFFF ≤ c.y ∧ c.y ≤ 0x7FFFFFFF) →
        scanline_cells t (to_unsigned t.m_min_y) = some 0 ∧
        (∀ y : Int, t.m_min_y ≤ y → y < t.m_max_y →
          ∃ st num, scanline_cells t (to_unsigned y) = some st ∧
            scanline_num_cells t (to_unsigned y) = some num ∧
            scanline_cells t (to_unsigned (y + 1)) = some (st + num)) ∧
        (∃ st num, scanline_cells t (to_unsigned t.m_max_y) = some st ∧
          scanline_num_cells t (to_unsigned t.m_max_y) = some num ∧
          st + num = total_cells t) ∧
        ((List.range (t.m_max_y - t.m_min_y + 1).toNat).map (fun k : Nat =>
          (scanline_num_cells t (to_unsigned (t.m_min_y + (k : Int)))).getD 0)).sum =
            total_cells t ∧
        t.m_sorted_cells.length = total_cells t ∧
        t.m_sorted_cells.Perm (List.range (total_cells t)) ∧
        (t.m_sorted_cells.filterMap (fun p => t.m_cells[p]?)).Perm t.m_cells) := by
  obtain ⟨t, hs⟩ := sort_cells_total s (inv_reachable h).1 (inv_reachable h).2
  refine ⟨t, hs, ?_⟩
  intro hn hr
  obtain ⟨⟨C, -, hsy, hsum, hperm, -, -⟩, ha, hb⟩ := sorted_after h hs hn
  have hf := box_fits t hb hr
  have hle : t.m_min_y ≤ t.m_max_y := by
    obtain ⟨c0, hc0⟩ : ∃ c, c ∈ t.m_cells := by
      cases hl : t.m_cells with
      | nil =>
        have := ha.1
        rw [hl] at this
        unfold total_cells at hn
        simp at this
        omega
      | cons c l => exact ⟨c, by simp⟩
    have := hb.2.1 c0 hc0
    omega
  have hrow := fun y h1 h2 => scanline_row t C hsy (by omega) y h1 h2
  refine ⟨?_, ?_, ?_, ?_, ?_, hperm, ?_⟩
  · rw [(hrow t.m_min_y (le_refl _) hle).2]
    simp [psum]
  · intro y h1 h2
    refine ⟨_, _, (hrow y h1 (by omega)).2, (hrow y h1 (by omega)).1, ?_⟩
    rw [(hrow (y + 1) (by omega) (by omega)).2]
    have : (y + 1 - t.m_min_y).toNat = (y - t.m_min_y).toNat + 1 := by omega
    rw [this]
    rfl
  · refine ⟨_, _, (hrow _ hle (le_refl _)).2, (hrow _ hle (le_refl _)).1, ?_⟩
    have : (t.m_max_y - t.m_min_y + 1).toNat = (t.m_max_y - t.m_min_y).toNat + 1 := by omega
    rw [this] at hsum
    exact hsum
  · show _ = t.m_num_cells
    rw [← hsum, psum_eq_sum]
    congr 1
    apply List.map_congr_left
    intro k hk
    rw [List.mem_range] at hk
    rw [(hrow (t.m_min_y + (k : Int)) (by omega) (by omega)).1]
    have : (t.m_min_y + (k : Int) - t.m_min_y).toNat = k := by omega
    rw [this]
    rfl
  · rw [hperm.length_eq, List.length_range]
    rfl
  · have := hperm.filterMap (fun p => t.m_cells[p]?)
    unfold total_cells at this
    rw [← ha.1, filterMap_getElem_range] at this
    exact this

/-- C3 on the diagonal `move_to(0, 0); line_to(512, 512)`. -/
theorem C3_sorted_view_complete_witness :
    scanline_cells diag_sorted (to_unsigned diag_sorted.m_min_y) = some 0 ∧
    (∀ y : Int, diag_sorted.m_min_y ≤ y → y < diag_sorted.m_max_y →
      ∃ st num, scanline_cells diag_sorted (to_unsigned y) = some st ∧
        scanline_num_cells diag_sorted (to_unsigned y) = some num ∧
        scanline_cells diag_sorted (to_unsigned (y + 1)) = some (st + num)) ∧
    (∃ st num, scanline_cells diag_sorted (to_unsigned diag_sorted.m_max_y) = some st ∧
      scanline_num_cells diag_sorted (to_unsigned diag_sorted.m_max_y) = some num ∧
      st + num = total_cells diag_sorted) ∧
    ((List.range (diag_sorted.m_max_y - diag_sorted.m_min_y + 1).toNat).map (fun k : Nat =>
      (scanline_num_cells diag_sorted
        (to_unsigned (diag_sorted.m_min_y + (k : Int)))).getD 0)).sum =
        total_cells diag_sorted ∧
    diag_sorted.m_sorted_cells.length = total_cells diag_sorted ∧
    diag_sorted.m_sorted_cells.Perm (List.range (total_cells diag_sorted)) ∧
    (diag_sorted.m_sorted_cells.filterMap (fun p => diag_sorted.m_cells[p]?)).Perm
      diag_sorted.m_cells := by
  obtain ⟨t, e, H⟩ := C3_sorted_view_complete cell0 diag_drawn diag_reachable
  have ht : t = diag_sorted := Option.some.inj (e.symm.trans diag_sorted_eq)
  subst ht
  exact H (by decide) (by decide)

/-- C4 on the diagonal `move_to(0, 0); line_to(512, 512)` after `sort_cells()`. -/
theorem C4_bounding_box_witness :
    (0 < total_cells diag_sorted →
      (∀ c ∈ diag_sorted.m_cells,
        diag_sorted.m_min_x ≤ c.x ∧ c.x ≤ diag_sorted.m_max_x ∧
        diag_sorted.m_min_y ≤ c.y ∧ c.y ≤ diag_sorted.m_max_y) ∧
      (∃ c ∈ diag_sorted.m_cells, c.x = diag_sorted.m_min_x) ∧
      (∃ c ∈ diag_sorted.m_cells, c.x = diag_sorted.m_max_x) ∧
      (∃ c ∈ diag_sorted.m_cells, c.y = diag_sorted.m_min_y) ∧
      (∃ c ∈ diag_sorted.m_cells, c.y = diag_sorted.m_max_y)) ∧
    (total_cells diag_sorted = 0 →
      diag_sorted.m_min_x = 0x7FFFFFFF ∧ diag_sorted.m_min_y = 0x7FFFFFFF ∧
      diag_sorted.m_max_x = -0x7FFFFFFF ∧ diag_sorted.m_max_y = -0x7FFFFFFF) :=
  C4_bounding_box cell0 diag_sorted (Reachable.sort_cells diag_reachable diag_sorted_eq)
    (by decide)

/-! ## The number of pieces of a segment and the sum of their cover -/

theorem hline_pieces_length (ey x1 y1 x2 y2 : Int) :
    (hline_pieces ey x1 y1 x2 y2).length = (shr_base x2 - shr_base x1).natAbs + 1 := by
  unfold hline_pieces
  rw [List.length_map, List.length_range]

theorem tele_up (e : Nat → Int) : ∀ n, (∀ k, k ≤ n → e k ≤ e (k + 1)) →
    ((List.range (n + 1)).map (fun k => (e (k + 1) - e k).natAbs + 1)).sum =
      (e (n + 1) - e 0).natAbs + (n + 1) := by
  intro n
  induction n with
  | zero =>
    intro _
    have h1 : List.range (0 + 1) = [0] := rfl
    rw [h1]
    simp
  | succ n ih =>
    intro h
    rw [List.range_succ, List.map_append, List.sum_append, ih (fun k hk => h k (by omega))]
    simp only [List.map_cons, List.map_nil, List.sum_cons, List.sum_nil]
    have h1 : e 0 ≤ e (n + 1) := by
      have : ∀ m, m ≤ n + 1 → e 0 ≤ e m := by
        intro m
        induction m with
        | zero => intro _; exact le_refl _
        | succ m ihm => intro hm; exact le_trans (ihm (by omega)) (h m (by omega))
      exact this (n + 1) (le_refl _)
    have h2 := h (n + 1) (le_refl _)
    omega

theorem tele_down (e : Nat → Int) (n : Nat) (h : ∀ k, k ≤ n → e (k + 1) ≤ e k) :
    ((List.range (n + 1)).map (fun k => (e (k + 1) - e k).natAbs + 1)).sum =
      (e (n + 1) - e 0).natAbs + (n + 1) := by
  have := tele_up (fun k => - e k) n (fun k hk => by have := h k hk; simp only; omega)
  have e1 : ∀ a b : Int, (-a - -b).natAbs = (a - b).natAbs := by intro a b; omega
  simp only [e1] at this
  exact this

theorem row_pieces_row_x (x1 y1 x2 y2 : Int) (k : Nat)
    (hk : k ≤ (shr_base y2 - shr_base y1).natAbs) :
    (row_pieces x1 y1 x2 y2 (shr_base y1 + hl_incr y1 y2 * k)).length =
      (shr_base (row_x x1 y1 x2 y2 (k + 1)) - shr_base (row_x x1 y1 x2 y2 k)).natAbs + 1 := by
  by_cases h : shr_base y1 = shr_base y2
  · have hk0 : k = 0 := by omega
    subst hk0
    have e0 : shr_base y1 + hl_incr y1 y2 * ((0 : Nat) : Int) = shr_base y1 := by simp
    rw [e0]
    unfold row_pieces
    simp only [if_pos h, if_true]
    rw [hline_pieces_length]
    unfold row_x
    rw [if_pos rfl, if_neg (by omega), if_neg (by omega)]
  · by_cases hk0 : k = 0
    · subst hk0
      have e0 : shr_base y1 + hl_incr y1 y2 * ((0 : Nat) : Int) = shr_base y1 := by simp
      rw [e0, row_first x1 y1 x2 y2 h, hline_pieces_length]
      unfold row_x
      rw [if_pos rfl, if_neg (by omega), if_pos (by omega)]
    · by_cases hkn : k = (shr_base y2 - shr_base y1).natAbs
      · have e0 : shr_base y1 + hl_incr y1 y2 * (k : Int) = shr_base y2 := by
          rw [hkn]; exact (hl_ex2 y1 y2).symm
        rw [e0, row_last x1 y1 x2 y2 h, hline_pieces_length]
        unfold row_x
        rw [if_neg (by omega), if_neg (by omega), if_neg hk0, if_pos hk, hkn]
      · rw [row_mid x1 y1 x2 y2 k (by omega) (by omega), hline_pieces_length]
        unfold row_x
        rw [if_neg (by omega), if_pos (by omega), if_neg hk0, if_pos hk]

theorem row_t_mono (y1 y2 : Int) (k : Nat) (_h : shr_base y1 ≠ shr_base y2)
    (hk : k ≤ (shr_base y2 - shr_base y1).natAbs) : row_t y1 y2 k ≤ row_t y1 y2 (k + 1) := by
  unfold row_t hl_dx and_mask shr_base poly_base_size at *
  split_ifs <;> first | omega | contradiction

theorem row_x_eq (x1 y1 x2 y2 : Int) (k : Nat) (h : shr_base y1 ≠ shr_base y2) :
    row_x x1 y1 x2 y2 k = x1 + (row_t y1 y2 k * (x2 - x1)) / hl_dx y1 y2 := by
  have hD := hl_dx_pos y1 y2 h
  unfold row_x row_t
  by_cases h0 : k = 0
  · rw [if_pos h0, if_pos h0]; simp
  · rw [if_neg h0, if_neg h0]
    by_cases h1 : k ≤ (shr_base y2 - shr_base y1).natAbs
    · rw [if_pos h1, if_pos h1]
      unfold hl_Y hl_p
      congr 2
      split <;> ring
    · rw [if_neg h1, if_neg h1, Int.mul_ediv_cancel_left _ (by omega)]
      ring

theorem row_x_up (x1 y1 x2 y2 : Int) (hx : x1 ≤ x2) (k : Nat)
    (hk : k ≤ (shr_base y2 - shr_base y1).natAbs) :
    row_x x1 y1 x2 y2 k ≤ row_x x1 y1 x2 y2 (k + 1) := by
  by_cases h : shr_base y1 = shr_base y2
  · have hk0 : k = 0 := by omega
    subst hk0
    unfold row_x
    rw [if_pos rfl, if_neg (by omega), if_neg (by omega)]
    exact hx
  · rw [row_x_eq _ _ _ _ _ h, row_x_eq _ _ _ _ _ h]
    have := Int.ediv_le_ediv (hl_dx_pos y1 y2 h)
      (mul_le_mul_of_nonneg_right (row_t_mono y1 y2 k h hk) (by omega : 0 ≤ x2 - x1))
    omega

theorem row_x_down (x1 y1 x2 y2 : Int) (hx : x2 ≤ x1) (k : Nat)
    (hk : k ≤ (shr_base y2 - shr_base y1).natAbs) :
    row_x x1 y1 x2 y2 (k + 1) ≤ row_x x1 y1 x2 y2 k := by
  by_cases h : shr_base y1 = shr_base y2
  · have hk0 : k = 0 := by omega
    subst hk0
    unfold row_x
    rw [if_pos rfl, if_neg (by omega), if_neg (by omega)]
    exact hx
  · rw [row_x_eq _ _ _ _ _ h, row_x_eq _ _ _ _ _ h]
    have := Int.ediv_le_ediv (hl_dx_pos y1 y2 h)
      (mul_le_mul_of_nonpos_right (row_t_mono y1 y2 k h hk) (by omega : x2 - x1 ≤ 0))
    omega

theorem shr_base_mono {a b : Int} (h : a ≤ b) : shr_base a ≤ shr_base b := by
  unfold shr_base poly_base_size
  omega

theorem line_pieces_length (x1 y1 x2 y2 : Int) :
    (line_pieces x1 y1 x2 y2).length =
      (shr_base x2 - shr_base x1).natAbs + (shr_base y2 - shr_base y1).natAbs + 1 := by
  unfold line_pieces
  rw [List.length_flatten, List.map_map]
  have e : (List.map (List.length ∘ fun (k : Nat) =>
        row_pieces x1 y1 x2 y2 (shr_base y1 + (if y2 - y1 < 0 then -1 else 1) * (k : Int)))
      (List.range ((shr_base y2 - shr_base y1).natAbs + 1))) =
      (List.range ((shr_base y2 - shr_base y1).natAbs + 1)).map (fun k =>
        (shr_base (row_x x1 y1 x2 y2 (k + 1)) - shr_base (row_x x1 y1 x2 y2 k)).natAbs + 1) := by
    apply List.map_congr_left
    intro k hk
    rw [List.mem_range] at hk
    exact row_pieces_row_x x1 y1 x2 y2 k (by omega)
  rw [e]
  have e0 : row_x x1 y1 x2 y2 0 = x1 := by unfold row_x; rw [if_pos rfl]
  have e1 : row_x x1 y1 x2 y2 ((shr_base y2 - shr_base y1).natAbs + 1) = x2 := by
    unfold row_x; rw [if_neg (by omega), if_neg (by omega)]
  by_cases hx : x1 ≤ x2
  · rw [tele_up (fun k => shr_base (row_x x1 y1 x2 y2 k)) _
      (fun k hk => shr_base_mono (row_x_up x1 y1 x2 y2 hx k hk))]
    rw [e0, e1]
    omega
  · rw [tele_down (fun k => shr_base (row_x x1 y1 x2 y2 k)) _
      (fun k hk => shr_base_mono (row_x_down x1 y1 x2 y2 (by omega) k hk))]
    rw [e0, e1]
    omega

theorem tele_sum (W : Nat → Int) : ∀ n,
    ((List.range (n + 1)).map (fun k => W (k + 1) - W k)).sum = W (n + 1) - W 0 := by
  intro n
  induction n with
  | zero =>
    have h1 : List.range (0 + 1) = [0] := rfl
    rw [h1]
    simp
  | succ n ih =>
    rw [List.range_succ, List.map_append, List.sum_append, ih]
    simp

theorem hline_dc_sum (ey x1 y1 x2 y2 : Int) :
    ((hline_pieces ey x1 y1 x2 y2).map Piece.dc).sum = y2 - y1 := by
  by_cases h : shr_base x1 = shr_base x2
  · unfold hline_pieces
    have h1 : List.range 1 = [0] := rfl
    have h0 : (shr_base x2 - shr_base x1).natAbs = 0 := by omega
    rw [h0, h1]
    simp only [zero_add, List.map_cons, List.map_nil, List.sum_cons, List.sum_nil]
    unfold hcol
    simp [h]
  · unfold hline_pieces
    rw [List.map_map]
    have e : (List.map (Piece.dc ∘ fun (k : Nat) =>
          hcol ey x1 y1 x2 y2 (shr_base x1 + (if x2 - x1 < 0 then -1 else 1) * (k : Int)))
        (List.range ((shr_base x2 - shr_base x1).natAbs + 1))) =
        (List.range ((shr_base x2 - shr_base x1).natAbs + 1)).map (fun k =>
          (fun (k : Nat) => if k = 0 then y1
            else if k ≤ (shr_base x2 - shr_base x1).natAbs then hl_Y x1 y1 x2 y2 k
            else y2) (k + 1) -
          (fun (k : Nat) => if k = 0 then y1
            else if k ≤ (shr_base x2 - shr_base x1).natAbs then hl_Y x1 y1 x2 y2 k
            else y2) k) := by
      apply List.map_congr_left
      intro k hk
      rw [List.mem_range] at hk
      have hinc : (if x2 - x1 < 0 then (-1 : Int) else 1) = hl_incr x1 x2 := rfl
      simp only [Function.comp, hinc]
      by_cases hk0 : k = 0
      · subst hk0
        have e0 : shr_base x1 + hl_incr x1 x2 * ((0 : Nat) : Int) = shr_base x1 := by simp
        rw [e0, hcol_first ey x1 y1 x2 y2 h]
        rw [if_pos rfl, if_neg (by omega), if_pos (by omega)]
      · by_cases hkn : k = (shr_base x2 - shr_base x1).natAbs
        · have e0 : shr_base x1 + hl_incr x1 x2 * (k : Int) = shr_base x2 := by
            rw [hkn]; exact (hl_ex2 x1 x2).symm
          rw [e0, hcol_last ey x1 y1 x2 y2 h]
          rw [if_neg (by omega), if_neg (by omega), if_neg hk0, if_pos (by omega), hkn]
        · rw [hcol_mid ey x1 y1 x2 y2 k (by omega) (by omega)]
          rw [if_neg (by omega), if_pos (by omega), if_neg hk0, if_pos (by omega)]
    rw [e]
    refine (tele_sum (fun (k : Nat) => if k = 0 then y1
      else if k ≤ (shr_base x2 - shr_base x1).natAbs then hl_Y x1 y1 x2 y2 k
      else y2) _).trans ?_
    simp

theorem row_dc_sum (x1 y1 x2 y2 : Int) (k : Nat)
    (hk : k ≤ (shr_base y2 - shr_base y1).natAbs) (h : shr_base y1 ≠ shr_base y2) :
    ((row_pieces x1 y1 x2 y2 (shr_base y1 + hl_incr y1 y2 * k)).map Piece.dc).sum =
      hl_incr y1 y2 * (row_t y1 y2 (k + 1) - row_t y1 y2 k) := by
  by_cases hk0 : k = 0
  · subst hk0
    have e0 : shr_base y1 + hl_incr y1 y2 * ((0 : Nat) : Int) = shr_base y1 := by simp
    rw [e0, row_first x1 y1 x2 y2 h, hline_dc_sum]
    unfold row_t hl_first hl_incr hl_dx and_mask shr_base poly_base_size at *
    split_ifs <;> first | omega | contradiction
  · by_cases hkn : k = (shr_base y2 - shr_base y1).natAbs
    · have e0 : shr_base y1 + hl_incr y1 y2 * (k : Int) = shr_base y2 := by
        rw [hkn]; exact (hl_ex2 y1 y2).symm
      rw [e0, row_last x1 y1 x2 y2 h, hline_dc_sum]
      unfold row_t hl_first hl_incr hl_dx and_mask shr_base poly_base_size at *
      split_ifs <;> first | omega | contradiction
    · rw [row_mid x1 y1 x2 y2 k (by omega) (by omega), hline_dc_sum]
      unfold row_t hl_first hl_incr hl_dx and_mask shr_base poly_base_size at *
      split_ifs <;> first | omega | contradiction

theorem line_dc_sum (x1 y1 x2 y2 : Int) :
    ((line_pieces x1 y1 x2 y2).map Piece.dc).sum = y2 - y1 := by
  by_cases h : shr_base y1 = shr_base y2
  · unfold line_pieces
    have h1 : List.range 1 = [0] := rfl
    have h0 : (shr_base y2 - shr_base y1).natAbs = 0 := by omega
    rw [h0, h1]
    simp only [zero_add, List.map_cons, List.map_nil, List.flatten_cons, List.flatten_nil,
      List.append_nil, Nat.cast_zero, mul_zero, add_zero]
    unfold row_pieces
    simp only [if_pos h, if_true]
    rw [hline_dc_sum]
    ring
  · unfold line_pieces
    rw [List.map_flatten, List.sum_flatten, List.map_map, List.map_map]
    have e : (List.map ((List.sum ∘ List.map Piece.dc) ∘ fun (k : Nat) =>
          row_pieces x1 y1 x2 y2 (shr_base y1 + (if y2 - y1 < 0 then -1 else 1) * (k : Int)))
        (List.range ((shr_base y2 - shr_base y1).natAbs + 1))) =
        (List.range ((shr_base y2 - shr_base y1).natAbs + 1)).map (fun k =>
          (fun (k : Nat) => hl_incr y1 y2 * row_t y1 y2 k) (k + 1) -
          (fun (k : Nat) => hl_incr y1 y2 * row_t y1 y2 k) k) := by
      apply List.map_congr_left
      intro k hk
      rw [List.mem_range] at hk
      have hinc : (if y2 - y1 < 0 then (-1 : Int) else 1) = hl_incr y1 y2 := rfl
      simp only [Function.comp, hinc]
      rw [row_dc_sum x1 y1 x2 y2 k (by omega) h]
      ring
    rw [e]
    refine (tele_sum (fun (k : Nat) => hl_incr y1 y2 * row_t y1 y2 k) _).trans ?_
    unfold row_t hl_incr hl_dx and_mask shr_base poly_base_size at *
    split_ifs <;> first | omega | contradiction

/-! ## A single segment on a fresh instance -/

theorem move_to_fresh [DecidableEq α] (init : Cell α) (hc : init.cover = 0)
    (ha : init.area = 0) (x y : Int) :
    move_to (fresh init) x y = seg_start init x y := by
  obtain ⟨ix, iy, ic, ia, iu⟩ := init
  simp only at hc ha
  subst hc ha
  unfold move_to seg_start
  simp only [fresh, Bool.false_eq_true, if_false]
  split
  · rw [add_cur_cell_quiet _ rfl rfl]
  · rename_i h
    simp only [ne_eq, not_or, not_not, not_true_eq_false, or_false] at h
    obtain ⟨h1, h2⟩ := h
    subst h1 h2
    rfl

theorem render_line_small (fuel : Nat) (s : State α) (x1 y1 x2 y2 : Int)
    (h : -dx_limit < x2 - x1 ∧ x2 - x1 < dx_limit) :
    render_line fuel s x1 y1 x2 y2 = render_line_body s x1 y1 x2 y2 := by
  cases fuel with
  | zero => rw [render_line]; rw [if_neg (by omega)]
  | succ n => rw [render_line]; dsimp only; rw [if_neg (by omega)]

theorem sort_cells_unsorted {s t : State α} (h : sort_cells s = some t)
    (hs : s.m_sorted = false) :
    t = add_cur_cell s ∨
      ∃ sc sy, t = { add_cur_cell s with
        m_sorted_cells := sc, m_sorted_y := sy, m_sorted := true } := by
  unfold sort_cells at h
  rw [if_neg (by rw [hs]; simp)] at h
  dsimp only at h
  split at h
  · exact Or.inl (Option.some.inj h).symm
  · split at h
    · exact Option.noConfusion h
    · split at h
      · exact Option.noConfusion h
      · split at h
        · exact Option.noConfusion h
        · split at h
          · exact Option.noConfusion h
          · exact Or.inr ⟨_, _, (Option.some.inj h).symm⟩

theorem line_to_small (s : State α) (x y : Int)
    (h : -dx_limit < x - s.m_cur_x ∧ x - s.m_cur_x < dx_limit)
    (hx : s.m_cur_cell.x = shr_base s.m_cur_x) (hy : s.m_cur_cell.y = shr_base s.m_cur_y) :
    line_to s x y =
      some (moved ((line_pieces s.m_cur_x s.m_cur_y x y).foldl deposit s) x y) := by
  unfold line_to
  rw [render_line_small _ _ _ _ _ _ h, render_line_body_closed _ _ _ _ _ hx hy]
  rfl

theorem add_cur_cell_moved (u : State α) (x y : Int) :
    add_cur_cell (moved u x y) = moved (add_cur_cell u) x y := by
  unfold add_cur_cell moved
  dsimp only
  split
  · split
    · split
      · rfl
      · unfold store_cur_cell allocate_block
        dsimp only
        split <;> [split; skip] <;> rfl
    · rfl
  · rfl

/-- The cells that `sort_cells()` finds committed after `move_to(x1, y1); line_to(x2, y2)`
on a fresh instance, for a segment that the `dx_limit` guard does not split and that
visits fewer pixels than the arena holds: the pieces of the segment that are not zero, in
the order in which the segment visits their pixels. -/
theorem segment_cells [DecidableEq α] (init : Cell α) (hc : init.cover = 0)
    (ha : init.area = 0) (x1 y1 x2 y2 : Int)
    (hdx : -dx_limit < x2 - x1 ∧ x2 - x1 < dx_limit)
    (hn : (shr_base x2 - shr_base x1).natAbs + (shr_base y2 - shr_base y1).natAbs + 2 ≤
      cell_block_size * cell_block_limit) :
    ∃ u t, line_to (move_to (fresh init) x1 y1) x2 y2 = some u ∧ sort_cells u = some t ∧
      t.m_cells = ((line_pieces x1 y1 x2 y2).map (fun p => p.toCell init.aux)).filter
        Cell.nonzero ∧
      total_cells t = t.m_cells.length := by
  have hl : line_to (seg_start init x1 y1) x2 y2 =
      some (moved ((line_pieces x1 y1 x2 y2).foldl deposit (seg_start init x1 y1)) x2 y2) :=
    line_to_small (seg_start init x1 y1) x2 y2 hdx rfl rfl
  have hreach : Reachable init
      (moved ((line_pieces x1 y1 x2 y2).foldl deposit (seg_start init x1 y1)) x2 y2) := by
    have h0 : Reachable init (move_to (fresh init) x1 y1) :=
      Reachable.move_to x1 y1 Reachable.fresh
    rw [move_to_fresh init hc ha] at h0
    exact Reachable.line_to x2 y2 h0 hl
  obtain ⟨hA, hB⟩ := inv_reachable hreach
  obtain ⟨t, ht⟩ := sort_cells_total _ hA hB
  have hcells : (add_cur_cell
      (moved ((line_pieces x1 y1 x2 y2).foldl deposit (seg_start init x1 y1)) x2 y2)).m_cells
      = ((line_pieces x1 y1 x2 y2).map (fun p => p.toCell init.aux)).filter Cell.nonzero := by
    rw [add_cur_cell_moved]
    show (add_cur_cell (List.foldl deposit _ (line_pieces x1 y1 x2 y2))).m_cells = _
    rw [deposit_cells _ _ (by unfold NoSpare seg_start fresh; simp [cell_block_size])
      (by rw [line_pieces_length]; simp only [seg_start, fresh]; omega)]
    obtain ⟨p, L, e, px, py⟩ := line_pieces_cons x1 y1 x2 y2
    have hch := line_pieces_chain x1 y1 x2 y2
    rw [e] at hch ⊢
    simp only [seg_start, fresh, List.nil_append]
    rw [← cells_of_chain init.aux L p hch]
    congr 1
    rw [cells_of, if_neg (by simp [px, py])]
    congr 1
    simp [Piece.toCell, px, py]
  have hAt := inv_reachable (Reachable.sort_cells hreach ht)
  rw [move_to_fresh init hc ha]
  refine ⟨_, t, hl, ht, ?_, hAt.1.1.symm⟩
  rcases sort_cells_unsorted ht rfl with e | ⟨sc, sy, e⟩
  · rw [e]; exact hcells
  · rw [e]; exact hcells

theorem envelope_fits (x1 y1 x2 y2 : Int)
    (he : in_envelope x1 ∧ in_envelope y1 ∧ in_envelope x2 ∧ in_envelope y2) :
    (shr_base x2 - shr_base x1).natAbs + (shr_base y2 - shr_base y1).natAbs + 2 ≤
      cell_block_size * cell_block_limit := by
  obtain ⟨⟨a1, a2⟩, ⟨b1, b2⟩, ⟨c1, c2⟩, ⟨d1, d2⟩⟩ := he
  unfold shr_base poly_base_size cell_block_size cell_block_limit
  omega

theorem cover_sum_toCell (a : α) (P : List Piece) :
    cover_sum (P.map (fun p => p.toCell a)) = (P.map Piece.dc).sum := by
  unfold cover_sum
  rw [List.map_map]
  rfl

/-- C5: for a segment with `|x2 - x1| < 2^22` and coordinates inside the numeric envelope,
`move_to(x1, y1); line_to(x2, y2)` on a fresh instance (whose initial cell has no
coverage) returns, `sort_cells()` returns, and the `cover` of the committed cells sums to
`y2 - y1`; and for `move_to(0, 0); line_to(512, 512)` the sum is 512 and every committed
cell is on row 0 or row 1. -/
theorem C5_segment_cover_sum [DecidableEq α] (init : Cell α) (hc : init.cover = 0)
    (ha : init.area = 0) (x1 y1 x2 y2 : Int) (hdx : (x2 - x1).natAbs < 4194304)
    (he : in_envelope x1 ∧ in_envelope y1 ∧ in_envelope x2 ∧ in_envelope y2) :
    (∃ u t, line_to (move_to (fresh init) x1 y1) x2 y2 = some u ∧ sort_cells u = some t ∧
      cover_sum t.m_cells = y2 - y1) ∧
    (line_to (move_to (fresh cell0) 0 0) 512 512 = some diag_drawn ∧
      sort_cells diag_drawn = some diag_sorted ∧ cover_sum diag_sorted.m_cells = 512 ∧
      ∀ c ∈ diag_sorted.m_cells, c.y = 0 ∨ c.y = 1) := by
  refine ⟨?_, by decide, by decide, by decide, by decide⟩
  obtain ⟨u, t, e1, e2, e3, -⟩ := segment_cells init hc ha x1 y1 x2 y2
    (by unfold dx_limit; omega) (envelope_fits x1 y1 x2 y2 he)
  refine ⟨u, t, e1, e2, ?_⟩
  rw [e3, cover_sum_filter, cover_sum_toCell, line_dc_sum]

/-- C5 on the segment from `(0, 0)` to `(512, 512)`. -/
theorem C5_segment_cover_sum_witness :
    (∃ u t, line_to (move_to (fresh cell0) 0 0) 512 512 = some u ∧ sort_cells u = some t ∧
      cover_sum t.m_cells = 512 - 0) ∧
    (line_to (move_to (fresh cell0) 0 0) 512 512 = some diag_drawn ∧
      sort_cells diag_drawn = some diag_sorted ∧ cover_sum diag_sorted.m_cells = 512 ∧
      ∀ c ∈ diag_sorted.m_cells, c.y = 0 ∨ c.y = 1) :=
  C5_segment_cover_sum cell0 rfl rfl 0 0 512 512 (by decide) (by decide)

theorem toCell_neg (a : α) (p : Piece) : (p.neg).toCell a = (p.toCell a).neg := rfl

theorem cell_neg_neg (c : Cell α) : c.neg.neg = c := by
  unfold Cell.neg
  simp

theorem nonzero_neg (c : Cell α) : c.neg.nonzero = c.nonzero := by
  unfold Cell.nonzero Cell.neg
  simp

theorem cells_reverse (a : α) (P : List Piece) :
    (((P.map Piece.neg).reverse.map (fun p => p.toCell a)).filter Cell.nonzero).map Cell.neg =
      ((P.map (fun p => p.toCell a)).filter Cell.nonzero).reverse := by
  induction P with
  | nil => rfl
  | cons p P ih =>
    simp only [List.map_cons, List.reverse_cons, List.map_append, List.filter_append,
      List.map_nil, List.filter_cons, List.filter_nil, toCell_neg, nonzero_neg]
    rw [ih]
    split <;> simp [cell_neg_neg]

/-- C6: for two points A and B inside the numeric envelope with `|xB - xA| < 2^22`, on
fresh instances (whose initial cell has no coverage), `move_to(A); line_to(B);
sort_cells()` and `move_to(B); line_to(A); sort_cells()` both return, and the cells
committed by the first are those committed by the second with `cover` and `area` negated,
in the opposite order: the same multiset. -/
theorem C6_reversibility [DecidableEq α] (init : Cell α) (hc : init.cover = 0)
    (ha : init.area = 0) (xa ya xb yb : Int) (hdx : (xb - xa).natAbs < 4194304)
    (he : in_envelope xa ∧ in_envelope ya ∧ in_envelope xb ∧ in_envelope yb) :
    ∃ u t u' t', line_to (move_to (fresh init) xa ya) xb yb = some u ∧
      sort_cells u = some t ∧
      line_to (move_to (fresh init) xb yb) xa ya = some u' ∧ sort_cells u' = some t' ∧
      t.m_cells = (t'.m_cells.map Cell.neg).reverse ∧
      t.m_cells.Perm (t'.m_cells.map Cell.neg) := by
  obtain ⟨u, t, e1, e2, e3, -⟩ := segment_cells init hc ha xa ya xb yb
    (by unfold dx_limit; omega) (envelope_fits xa ya xb yb he)
  obtain ⟨u', t', f1, f2, f3, -⟩ := segment_cells init hc ha xb yb xa ya
    (by unfold dx_limit; omega) (envelope_fits xb yb xa ya ⟨he.2.2.1, he.2.2.2, he.1, he.2.1⟩)
  have key : t.m_cells = (t'.m_cells.map Cell.neg).reverse := by
    rw [e3, f3, line_pieces_reverse xa ya xb yb, cells_reverse, List.reverse_reverse]
  refine ⟨u, t, u', t', e1, e2, f1, f2, key, ?_⟩
  rw [key]
  exact List.reverse_perm _

/-- C6 on the points `(0, 0)` and `(512, 512)`. -/
theorem C6_reversibility_witness :
    ∃ u t u' t', line_to (move_to (fresh cell0) 0 0) 512 512 = some u ∧
      sort_cells u = some t ∧
      line_to (move_to (fresh cell0) 512 512) 0 0 = some u' ∧ sort_cells u' = some t' ∧
      t.m_cells = (t'.m_cells.map Cell.neg).reverse ∧
      t.m_cells.Perm (t'.m_cells.map Cell.neg) :=
  C6_reversibility cell0 rfl rfl 0 0 512 512 (by decide) (by decide)

theorem flatten_singletons {β γ : Type} (f : β → γ) (L : List β) :
    (L.map (fun k => [f k])).flatten = L.map f := by
  induction L with
  | nil => rfl
  | cons b L ih => simp only [List.map_cons, List.flatten_cons, ih]; rfl

theorem row_pieces_vertical (x y1 y2 : Int) (k : Nat)
    (hk : k ≤ (shr_base y2 - shr_base y1).natAbs) :
    row_pieces x y1 x y2 (shr_base y1 + (if y2 - y1 < 0 then -1 else 1) * (k : Int)) =
      [⟨shr_base x, shr_base y1 + (if y2 - y1 < 0 then -1 else 1) * (k : Int),
        row_overlap y1 y2 (shr_base y1 + (if y2 - y1 < 0 then -1 else 1) * (k : Int)),
        2 * and_mask x * row_overlap y1 y2
          (shr_base y1 + (if y2 - y1 < 0 then -1 else 1) * (k : Int))⟩] := by
  generalize hr : shr_base y1 + (if y2 - y1 < 0 then -1 else 1) * (k : Int) = r
  unfold row_pieces
  simp only [cross_flat, ite_self]
  rw [hline_pieces_single]
  have e : (if r = shr_base y2 then y2
        else if y2 - y1 < 0 then poly_base_size * r
        else poly_base_size * r + poly_base_size) - poly_base_size * r -
      ((if r = shr_base y1 then y1
        else if y2 - y1 < 0 then poly_base_size * r + poly_base_size
        else poly_base_size * r) - poly_base_size * r) = row_overlap y1 y2 r := by
    unfold row_overlap
    unfold shr_base poly_base_size at *
    split_ifs at hr ⊢ <;> omega
  rw [e]
  congr 2
  ring

theorem line_pieces_vertical (x y1 y2 : Int) :
    line_pieces x y1 x y2 = (visited_rows y1 y2).map (fun r =>
      ⟨shr_base x, r, row_overlap y1 y2 r, 2 * and_mask x * row_overlap y1 y2 r⟩) := by
  unfold line_pieces visited_rows
  rw [List.map_map]
  have e : (List.range ((shr_base y2 - shr_base y1).natAbs + 1)).map (fun (k : Nat) =>
      row_pieces x y1 x y2 (shr_base y1 + (if y2 - y1 < 0 then -1 else 1) * (k : Int))) =
      (List.range ((shr_base y2 - shr_base y1).natAbs + 1)).map (fun (k : Nat) =>
        [((fun r => (⟨shr_base x, r, row_overlap y1 y2 r,
            2 * and_mask x * row_overlap y1 y2 r⟩ : Piece)) ∘
          fun (k : Nat) => shr_base y1 + (if y2 - y1 < 0 then -1 else 1) * (k : Int)) k]) := by
    apply List.map_congr_left
    intro k hk
    rw [List.mem_range] at hk
    exact row_pieces_vertical x y1 y2 k (by omega)
  rw [e, flatten_singletons]

theorem s2_drawn_eq : line_to (move_to (fresh cell0) 128 0) 128 256 = some s2_drawn := by
  decide

theorem s2_sorted_eq : sort_cells s2_drawn = some s2_sorted := by decide

/-- C7: for a vertical segment at `x` from `y1` to `y2` inside the numeric envelope (the
property needs no `y1 != y2`: for `y1 = y2` no row has an overlap),
`move_to(x, y1); line_to(x, y2)` on a fresh instance (whose initial cell has no coverage)
returns, `sort_cells()` returns, and the committed cells are, in the order of the visit,
one cell for each visited scanline `r` whose overlap with the segment is not zero: the
cell at pixel `(x >> 8, r)` whose `cover` is the signed length of the overlap and whose
`area` is `2 * (x & 255) * cover`; and for `move_to(128, 0); line_to(128, 256)` this is
the single cell `(0, 0, 256, 65536)`, with bounding box `(0, 0)-(0, 0)`. -/
theorem C7_vertical_cells [DecidableEq α] (init : Cell α) (hc : init.cover = 0)
    (ha : init.area = 0) (x y1 y2 : Int)
    (he : in_envelope x ∧ in_envelope y1 ∧ in_envelope y2) :
    (∃ u t, line_to (move_to (fresh init) x y1) x y2 = some u ∧ sort_cells u = some t ∧
      t.m_cells = ((visited_rows y1 y2).filter
        (fun r => decide (row_overlap y1 y2 r ≠ 0))).map (vertical_cell init.aux x y1 y2) ∧
      total_cells t = t.m_cells.length) ∧
    (line_to (move_to (fresh cell0) 128 0) 128 256 = some s2_drawn ∧
      sort_cells s2_drawn = some s2_sorted ∧
      s2_sorted.m_cells = [⟨0, 0, 256, 65536, ()⟩] ∧ total_cells s2_sorted = 1 ∧
      s2_sorted.m_min_x = 0 ∧ s2_sorted.m_min_y = 0 ∧
      s2_sorted.m_max_x = 0 ∧ s2_sorted.m_max_y = 0) := by
  refine ⟨?_, s2_drawn_eq, s2_sorted_eq, by decide, by decide, by decide, by decide,
    by decide, by decide⟩
  obtain ⟨u, t, e1, e2, e3, e4⟩ := segment_cells init hc ha x y1 x y2
    (by unfold dx_limit; omega) (envelope_fits x y1 x y2 ⟨he.1, he.2.1, he.1, he.2.2⟩)
  refine ⟨u, t, e1, e2, ?_, e4⟩
  rw [e3, line_pieces_vertical, List.map_map, List.filter_map]
  have hf : ((fun (p : Piece) => p.toCell init.aux) ∘ fun r =>
      (⟨shr_base x, r, row_overlap y1 y2 r, 2 * and_mask x * row_overlap y1 y2 r⟩ : Piece)) =
      vertical_cell init.aux x y1 y2 := rfl
  rw [hf]
  congr 1
  apply List.filter_congr
  intro r _
  simp only [Function.comp, Cell.nonzero, vertical_cell]
  by_cases h0 : row_overlap y1 y2 r = 0
  · simp [h0]
  · simp [h0]

/-- C7 on the vertical segment at `x = 128` from `y = 0` to `y = 256`. -/
theorem C7_vertical_cells_witness :
    (∃ u t, line_to (move_to (fresh cell0) 128 0) 128 256 = some u ∧ sort_cells u = some t ∧
      t.m_cells = ((visited_rows 0 256).filter
        (fun r => decide (row_overlap 0 256 r ≠ 0))).map (vertical_cell cell0.aux 128 0 256) ∧
      total_cells t = t.m_cells.length) ∧
    (line_to (move_to (fresh cell0) 128 0) 128 256 = some s2_drawn ∧
      sort_cells s2_drawn = some s2_sorted ∧
      s2_sorted.m_cells = [⟨0, 0, 256, 65536, ()⟩] ∧ total_cells s2_sorted = 1 ∧
      s2_sorted.m_min_x = 0 ∧ s2_sorted.m_min_y = 0 ∧
      s2_sorted.m_max_x = 0 ∧ s2_sorted.m_max_y = 0) :=
  C7_vertical_cells cell0 rfl rfl 128 0 256 (by decide)

theorem render_line_body_flat (s : State α) (x1 y x2 : Int) :
    render_line_body s x1 y x2 y = some (set_cur_cell s (shr_base x2) (shr_base y)) := by
  unfold render_line_body render_hline
  simp

theorem render_line_flat (y : Int) :
    ∀ (fuel : Nat) (s : State α) (x1 x2 : Int),
      s.m_cur_cell.cover = 0 → s.m_cur_cell.area = 0 →
      (x2 - x1).natAbs ≤ 4194303 * 2 ^ fuel →
      ∃ c : Cell α, c.cover = 0 ∧ c.area = 0 ∧
        render_line fuel s x1 y x2 y = some { s with m_cur_cell := c } := by
  have body : ∀ (s : State α) (x1 x2 : Int), s.m_cur_cell.cover = 0 → s.m_cur_cell.area = 0 →
      ∃ c : Cell α, c.cover = 0 ∧ c.area = 0 ∧
        render_line_body s x1 y x2 y = some { s with m_cur_cell := c } := by
    intro s x1 x2 hc ha
    rw [render_line_body_flat, set_cur_cell_quiet s _ _ hc ha]
    exact ⟨_, rfl, rfl, rfl⟩
  intro fuel
  induction fuel with
  | zero =>
    intro s x1 x2 hc ha h
    rw [render_line]
    rw [if_neg (by unfold dx_limit; omega)]
    exact body s x1 x2 hc ha
  | succ n ih =>
    intro s x1 x2 hc ha h
    rw [render_line]
    dsimp only
    by_cases hs : x2 - x1 ≥ dx_limit ∨ x2 - x1 ≤ -dx_limit
    · rw [if_pos hs]
      unfold dx_limit at hs
      have h2 : (4194303 : Nat) * 2 ^ (n + 1) = 2 * (4194303 * 2 ^ n) := by ring
      have hy : (y + y) / 2 = y := by omega
      rw [hy]
      obtain ⟨c1, a1, b1, e1⟩ := ih s x1 ((x1 + x2) / 2) hc ha (by omega)
      rw [e1]
      dsimp only
      obtain ⟨c2, a2, b2, e2⟩ := ih { s with m_cur_cell := c1 } ((x1 + x2) / 2) x2 a1 b1
        (by omega)
      rw [e2]
      dsimp only
      obtain ⟨c3, a3, b3, e3⟩ := body { s with m_cur_cell := c2 } x1 x2 a2 b2
      exact ⟨c3, a3, b3, e3⟩
    · rw [if_neg hs]
      exact body s x1 x2 hc ha

/-- C8: for every `x1`, `x2` and `y` inside the numeric envelope, split by the `dx_limit`
guard or not (`|x2 - x1|` goes up to `2^23 - 2` there), `move_to(x1, y); line_to(x2, y)`
on a fresh instance (whose initial cell has no coverage) returns and leaves `cover` and
`area` of the accumulator at 0, then `sort_cells()` returns and `total_cells()` is 0.
The envelope is the domain on which the unbounded integers of `render_line` are the `int`
of the source: outside it `(x1 + x2) >> 1` can overflow. -/
theorem C8_horizontal_invariance [DecidableEq α] (init : Cell α) (hc : init.cover = 0)
    (ha : init.area = 0) (x1 x2 y : Int)
    (_he : in_envelope x1 ∧ in_envelope x2 ∧ in_envelope y) :
    ∃ u, line_to (move_to (fresh init) x1 y) x2 y = some u ∧
      u.m_cur_cell.cover = 0 ∧ u.m_cur_cell.area = 0 ∧
      ∃ t, sort_cells u = some t ∧ total_cells t = 0 ∧ t.m_cells = [] := by
  rw [move_to_fresh init hc ha]
  obtain ⟨c, a1, b1, e1⟩ := render_line_flat y (x2 - x1).natAbs (seg_start init x1 y) x1 x2
    rfl rfl (by
      have := Nat.lt_two_pow (x2 - x1).natAbs
      have h2 : 0 < 2 ^ (x2 - x1).natAbs := by positivity
      nlinarith)
  refine ⟨moved { seg_start init x1 y with m_cur_cell := c } x2 y, ?_, a1, b1, ?_⟩
  · unfold line_to
    show (match render_line (x2 - x1).natAbs (seg_start init x1 y) x1 y x2 y with
      | none => none
      | some s => some { s with m_cur_x := x2, m_cur_y := y, m_sorted := false }) = _
    rw [e1]
    rfl
  · refine ⟨moved { seg_start init x1 y with m_cur_cell := c } x2 y, ?_, rfl, rfl⟩
    unfold sort_cells
    rw [if_neg (by simp [moved])]
    dsimp only
    rw [add_cur_cell_quiet _ a1 b1]
    have hn0 : (moved { seg_start init x1 y with m_cur_cell := c } x2 y).m_num_cells = 0 := rfl
    rw [if_pos hn0]

/-- C8 on a segment inside the numeric envelope that the `dx_limit` guard splits: from
`(-2097152, 0)` to `(2097152, 0)`. -/
theorem C8_horizontal_invariance_witness :
    ∃ u, line_to (move_to (fresh cell0) (-2097152) 0) 2097152 0 = some u ∧
      u.m_cur_cell.cover = 0 ∧ u.m_cur_cell.area = 0 ∧
      ∃ t, sort_cells u = some t ∧ total_cells t = 0 ∧ t.m_cells = [] :=
  C8_horizontal_invariance cell0 rfl rfl (-2097152) 2097152 0 (by decide)

/-! ## The cover deposited by segments that the dx_limit block splits -/

theorem room_mono {s : State α} {k j : Nat} (h : Room s k) (hj : j ≤ k) : Room s j :=
  ⟨h.1, by have := h.2; omega⟩

theorem acc_add_room {s : State α} {k : Nat} (h : Room s k) (dc da : Int) :
    Room (acc_add s dc da) k := h

theorem acc_add_mass (s : State α) (dc da : Int) :
    cover_mass (acc_add s dc da) = cover_mass s + dc := by
  unfold cover_mass acc_add
  simp only
  ring

theorem cover_sum_append (L M : List (Cell α)) :
    cover_sum (L ++ M) = cover_sum L + cover_sum M := by
  unfold cover_sum
  rw [List.map_append, List.sum_append]

theorem add_cur_cell_room {s : State α} {k : Nat} (h : Room s (k + 1)) :
    Room (add_cur_cell s) k ∧ cover_sum (add_cur_cell s).m_cells = cover_mass s ∧
      (add_cur_cell s).m_cur_cell = s.m_cur_cell := by
  obtain ⟨h1, h2, h3, h4⟩ := add_cur_cell_cells s h.1 (by have := h.2; omega)
  refine ⟨⟨h2, by have := h.2; omega⟩, ?_, h4⟩
  rw [h1, cover_sum_append, cover_sum_filter]
  unfold cover_mass cover_sum
  simp

theorem set_cur_cell_room {s : State α} {k : Nat} (h : Room s (k + 1)) (x y : Int) :
    Room (set_cur_cell s x y) k ∧ cover_mass (set_cur_cell s x y) = cover_mass s := by
  unfold set_cur_cell
  split
  · obtain ⟨h1, h2, h3⟩ := add_cur_cell_room h
    refine ⟨h1, ?_⟩
    show cover_sum (add_cur_cell s).m_cells + 0 = _
    rw [h2]
    ring
  · exact ⟨room_mono h (by omega), rfl⟩

theorem render_hline_loop_mass (ey ex2 incr dx lift rem : Int) :
    ∀ (fuel : Nat) (s : State α) (ex1 y1 mod : Int) (m : Nat),
      (∃ k : Nat, k ≤ fuel ∧ ex2 - ex1 = incr * k) → Room s (fuel + m) →
      ∃ r, render_hline_loop ey ex2 incr dx lift rem fuel s ex1 y1 mod = some r ∧
        cover_mass r.1 - r.2 = cover_mass s - y1 ∧ Room r.1 m := by
  intro fuel
  induction fuel with
  | zero =>
    intro s ex1 y1 mod m ⟨k, hk, he⟩ hr
    have hk0 : k = 0 := by omega
    subst hk0
    have : ex1 = ex2 := by simp at he; omega
    exact ⟨(s, y1), by simp [render_hline_loop, this], rfl, room_mono hr (by omega)⟩
  | succ n ih =>
    intro s ex1 y1 mod m ⟨k, hk, he⟩ hr
    by_cases h : ex1 = ex2
    · exact ⟨(s, y1), by simp [render_hline_loop, h], rfl, room_mono hr (by omega)⟩
    · rw [render_hline_loop, if_neg h]
      have hk1 : 1 ≤ k := by
        rcases Nat.eq_zero_or_pos k with h0 | h0
        · subst h0; simp at he; omega
        · exact h0
      have hr1 : Room (acc_add s (if mod + rem ≥ 0 then lift + 1 else lift)
          (poly_base_size * (if mod + rem ≥ 0 then lift + 1 else lift))) ((n + m) + 1) :=
        acc_add_room (room_mono hr (by omega)) _ _
      obtain ⟨hr2, hm2⟩ := set_cur_cell_room hr1 (ex1 + incr) ey
      obtain ⟨r, hr, hp, hq⟩ := ih
        (set_cur_cell (acc_add s (if mod + rem ≥ 0 then lift + 1 else lift)
          (poly_base_size * (if mod + rem ≥ 0 then lift + 1 else lift))) (ex1 + incr) ey)
        (ex1 + incr) (y1 + (if mod + rem ≥ 0 then lift + 1 else lift))
        (if mod + rem ≥ 0 then mod + rem - dx else mod + rem) m
        ⟨k - 1, by omega, by
          have : ((k - 1 : Nat) : Int) = (k : Int) - 1 := by omega
          rw [this]; linarith⟩ hr2
      refine ⟨r, hr, ?_, hq⟩
      rw [hp, hm2, acc_add_mass]
      ring

theorem render_hline_mass (s : State α) (ey x1 y1 x2 y2 : Int) (m : Nat)
    (hr : Room s ((shr_base x2 - shr_base x1).natAbs + 1 + m)) :
    ∃ t, render_hline s ey x1 y1 x2 y2 = some t ∧
      cover_mass t = cover_mass s + (y2 - y1) ∧ Room t m := by
  unfold render_hline
  dsimp only
  by_cases hy : y1 = y2
  · rw [if_pos hy]
    obtain ⟨h1, h2⟩ := set_cur_cell_room (room_mono hr (by omega) : Room s (m + 1))
      (shr_base x2) ey
    exact ⟨_, rfl, by rw [h2, hy]; ring, h1⟩
  rw [if_neg hy]
  by_cases hex : shr_base x1 = shr_base x2
  · rw [if_pos hex]
    exact ⟨_, rfl, acc_add_mass _ _ _, room_mono hr (by omega)⟩
  rw [if_neg hex]
  have key : ∀ (incr dxa p first : Int),
      (∃ k : Nat, k ≤ (shr_base x2 - (shr_base x1 + incr)).natAbs ∧
        shr_base x2 - (shr_base x1 + incr) = incr * k) →
      (shr_base x2 - (shr_base x1 + incr)).natAbs + 1 ≤ (shr_base x2 - shr_base x1).natAbs →
      ∃ t, (match
          (if shr_base x1 + incr ≠ shr_base x2 then
            render_hline_loop ey (shr_base x2) incr dxa
              (div_mod_adjust (poly_base_size * (y2 - (y1 + (div_mod_adjust p dxa).1) +
                (div_mod_adjust p dxa).1)) dxa).1
              (div_mod_adjust (poly_base_size * (y2 - (y1 + (div_mod_adjust p dxa).1) +
                (div_mod_adjust p dxa).1)) dxa).2
              (shr_base x2 - (shr_base x1 + incr)).natAbs
              (set_cur_cell (acc_add s (div_mod_adjust p dxa).1
                ((and_mask x1 + first) * (div_mod_adjust p dxa).1)) (shr_base x1 + incr) ey)
              (shr_base x1 + incr) (y1 + (div_mod_adjust p dxa).1)
              ((div_mod_adjust p dxa).2 - dxa)
          else some (set_cur_cell (acc_add s (div_mod_adjust p dxa).1
                ((and_mask x1 + first) * (div_mod_adjust p dxa).1)) (shr_base x1 + incr) ey,
              y1 + (div_mod_adjust p dxa).1)) with
        | none => none
        | some r => some (acc_add r.1 (y2 - r.2)
            ((and_mask x2 + poly_base_size - first) * (y2 - r.2)))) = some t ∧
        cover_mass t = cover_mass s + (y2 - y1) ∧ Room t m := by
    intro incr dxa p first hk hlen
    have hr1 : Room (acc_add s (div_mod_adjust p dxa).1
        ((and_mask x1 + first) * (div_mod_adjust p dxa).1))
        (((shr_base x2 - (shr_base x1 + incr)).natAbs + m) + 1) :=
      acc_add_room (room_mono hr (by omega)) _ _
    obtain ⟨hr2, hm2⟩ := set_cur_cell_room hr1 (shr_base x1 + incr) ey
    by_cases hne : shr_base x1 + incr ≠ shr_base x2
    · rw [if_pos hne]
      obtain ⟨r, hr, hp, hq⟩ := render_hline_loop_mass ey (shr_base x2) incr dxa
        (div_mod_adjust (poly_base_size * (y2 - (y1 + (div_mod_adjust p dxa).1) +
                (div_mod_adjust p dxa).1)) dxa).1
        (div_mod_adjust (poly_base_size * (y2 - (y1 + (div_mod_adjust p dxa).1) +
                (div_mod_adjust p dxa).1)) dxa).2
        (shr_base x2 - (shr_base x1 + incr)).natAbs
        (set_cur_cell (acc_add s (div_mod_adjust p dxa).1
                ((and_mask x1 + first) * (div_mod_adjust p dxa).1)) (shr_base x1 + incr) ey)
        (shr_base x1 + incr) (y1 + (div_mod_adjust p dxa).1)
        ((div_mod_adjust p dxa).2 - dxa) m hk hr2
      rw [hr]
      refine ⟨_, rfl, ?_, acc_add_room hq _ _⟩
      rw [acc_add_mass]
      rw [hm2, acc_add_mass] at hp
      linarith
    · rw [if_neg hne]
      refine ⟨_, rfl, ?_, acc_add_room (room_mono hr2 (by omega)) _ _⟩
      rw [acc_add_mass, hm2, acc_add_mass]
      ring
  apply key
  · refine ⟨_, le_refl _, ?_⟩
    unfold shr_base poly_base_size at *
    split <;> omega
  · unfold shr_base poly_base_size at *
    split <;> omega

theorem render_line_body_row (s : State α) (x1 y1 x2 y2 : Int)
    (h : shr_base y1 = shr_base y2) :
    render_line_body s x1 y1 x2 y2 =
      render_hline s (shr_base y1) x1 (and_mask y1) x2 (and_mask y2) := by
  unfold render_line_body
  dsimp only
  rw [if_pos h]

theorem render_line_body_two_rows (s : State α) (x1 y1 x2 y2 : Int)
    (h : shr_base y2 = shr_base y1 + 1) (hx : x1 ≠ x2) :
    render_line_body s x1 y1 x2 y2 =
      match render_hline s (shr_base y1) x1 (and_mask y1)
        (x1 + ((poly_base_size - and_mask y1) * (x2 - x1)) / (y2 - y1)) poly_base_size with
      | none => none
      | some t =>
        render_hline
          (set_cur_cell t
            (shr_base (x1 + ((poly_base_size - and_mask y1) * (x2 - x1)) / (y2 - y1)))
            (shr_base y1 + 1))
          (shr_base y1 + 1) (x1 + ((poly_base_size - and_mask y1) * (x2 - x1)) / (y2 - y1)) 0
          x2 (and_mask y2) := by
  have hdy : 0 < y2 - y1 := by
    unfold shr_base poly_base_size at h
    omega
  unfold render_line_body
  dsimp only
  rw [if_neg (by omega), if_neg (by omega)]
  simp only [if_neg (by omega : ¬ y2 - y1 < 0)]
  rw [div_mod_adjust_eq _ _ hdy]
  dsimp only
  cases hh : render_hline s (shr_base y1) x1 (and_mask y1)
      (x1 + ((poly_base_size - and_mask y1) * (x2 - x1)) / (y2 - y1)) poly_base_size with
  | none => rfl
  | some t =>
    dsimp only
    rw [if_neg (by rw [h]; simp)]
    dsimp only
    rw [sub_self]

theorem between_up (x1 x2 N D : Int) (hN : 0 ≤ N) (hND : N ≤ D) (hD : 0 < D) :
    (x1 ≤ x2 → x1 ≤ x1 + (N * (x2 - x1)) / D ∧ x1 + (N * (x2 - x1)) / D ≤ x2) ∧
    (x2 ≤ x1 → x2 ≤ x1 + (N * (x2 - x1)) / D ∧ x1 + (N * (x2 - x1)) / D ≤ x1) := by
  constructor
  · intro h
    have h1 : 0 ≤ (N * (x2 - x1)) / D :=
      Int.ediv_nonneg (mul_nonneg hN (by omega)) (le_of_lt hD)
    have h2 : (N * (x2 - x1)) / D ≤ (D * (x2 - x1)) / D :=
      Int.ediv_le_ediv hD (mul_le_mul_of_nonneg_right hND (by omega))
    rw [Int.mul_ediv_cancel_left _ (by omega)] at h2
    omega
  · intro h
    have h1 : (N * (x2 - x1)) / D ≤ (0 * (x2 - x1)) / D :=
      Int.ediv_le_ediv hD (mul_le_mul_of_nonpos_right hN (by omega))
    have h2 : (D * (x2 - x1)) / D ≤ (N * (x2 - x1)) / D :=
      Int.ediv_le_ediv hD (mul_le_mul_of_nonpos_right hND (by omega))
    rw [Int.mul_ediv_cancel_left _ (by omega)] at h2
    simp only [zero_mul, Int.zero_ediv] at h1
    omega

theorem render_line_body_mass (s : State α) (x1 y1 x2 y2 : Int) (m : Nat)
    (ht : Thin x1 y1 x2 y2)
    (hr : Room s ((shr_base x2 - shr_base x1).natAbs + 3 + m)) :
    ∃ t, render_line_body s x1 y1 x2 y2 = some t ∧
      cover_mass t = cover_mass s + (y2 - y1) ∧ Room t m := by
  rcases ht with h | ⟨h, hx⟩
  · rw [render_line_body_row s x1 y1 x2 y2 h]
    obtain ⟨t, e, hm, hq⟩ := render_hline_mass s (shr_base y1) x1 (and_mask y1) x2
      (and_mask y2) m (room_mono hr (by omega))
    refine ⟨t, e, ?_, hq⟩
    rw [hm]
    unfold shr_base and_mask poly_base_size at *
    omega
  · rw [render_line_body_two_rows s x1 y1 x2 y2 h hx]
    have hb := between_up x1 x2 (poly_base_size - and_mask y1) (y2 - y1)
      (by unfold and_mask poly_base_size; omega)
      (by unfold shr_base and_mask poly_base_size at *; omega)
      (by unfold shr_base poly_base_size at *; omega)
    generalize x1 + ((poly_base_size - and_mask y1) * (x2 - x1)) / (y2 - y1) = xf at *
    have hcost : (shr_base xf - shr_base x1).natAbs + (shr_base x2 - shr_base xf).natAbs =
        (shr_base x2 - shr_base x1).natAbs := by
      rcases le_total x1 x2 with c | c
      · have := hb.1 c
        have a1 := shr_base_mono this.1
        have a2 := shr_base_mono this.2
        omega
      · have := hb.2 c
        have a1 := shr_base_mono this.1
        have a2 := shr_base_mono this.2
        omega
    obtain ⟨t1, e1, hm1, hq1⟩ := render_hline_mass s (shr_base y1) x1 (and_mask y1) xf
      poly_base_size ((shr_base x2 - shr_base xf).natAbs + 1 + m + 1)
      (room_mono hr (by omega))
    rw [e1]
    dsimp only
    obtain ⟨hq2, hm2⟩ := set_cur_cell_room hq1 (shr_base xf) (shr_base y1 + 1)
    obtain ⟨t3, e3, hm3, hq3⟩ := render_hline_mass
      (set_cur_cell t1 (shr_base xf) (shr_base y1 + 1)) (shr_base y1 + 1) xf 0 x2
      (and_mask y2) m hq2
    refine ⟨t3, e3, ?_, hq3⟩
    rw [hm3, hm2, hm1]
    unfold shr_base and_mask poly_base_size at *
    omega

theorem thin_halves (x1 y1 x2 y2 : Int) (ht : Thin x1 y1 x2 y2)
    (hs : x2 - x1 ≥ dx_limit ∨ x2 - x1 ≤ -dx_limit) :
    Thin x1 y1 ((x1 + x2) / 2) ((y1 + y2) / 2) ∧
      Thin ((x1 + x2) / 2) ((y1 + y2) / 2) x2 y2 := by
  unfold Thin dx_limit shr_base poly_base_size at *
  constructor <;> omega

theorem render_line_mass :
    ∀ (d fuel : Nat) (s : State α) (x1 y1 x2 y2 : Int) (m : Nat),
      d ≤ fuel → (x2 - x1).natAbs ≤ 4194303 * 2 ^ d → Thin x1 y1 x2 y2 →
      Room s (render_cost d x1 x2 + m) →
      ∃ t, render_line fuel s x1 y1 x2 y2 = some t ∧
        cover_mass t = cover_mass s + render_cover d x1 y1 x2 y2 ∧ Room t m := by
  intro d
  induction d with
  | zero =>
    intro fuel s x1 y1 x2 y2 m _ h ht hr
    rw [render_line_small fuel s x1 y1 x2 y2 (by unfold dx_limit; omega)]
    exact render_line_body_mass s x1 y1 x2 y2 m ht hr
  | succ d ih =>
    intro fuel s x1 y1 x2 y2 m hf h ht hr
    by_cases hs : x2 - x1 ≥ dx_limit ∨ x2 - x1 ≤ -dx_limit
    · obtain ⟨f, rfl⟩ : ∃ f, fuel = f + 1 := ⟨fuel - 1, by omega⟩
      rw [render_line]
      dsimp only
      rw [if_pos hs]
      simp only [render_cost, render_cover, if_pos hs] at hr ⊢
      obtain ⟨t1, t2⟩ := thin_halves x1 y1 x2 y2 ht hs
      have h2 : (4194303 : Nat) * 2 ^ (d + 1) = 2 * (4194303 * 2 ^ d) := by ring
      unfold dx_limit at hs
      obtain ⟨u1, e1, m1, r1⟩ := ih f s x1 y1 ((x1 + x2) / 2) ((y1 + y2) / 2)
        (render_cost d ((x1 + x2) / 2) x2 + ((shr_base x2 - shr_base x1).natAbs + 3) + m)
        (by omega) (by omega) t1 (room_mono hr (by omega))
      rw [e1]
      dsimp only
      obtain ⟨u2, e2, m2, r2⟩ := ih f u1 ((x1 + x2) / 2) ((y1 + y2) / 2) x2 y2
        (((shr_base x2 - shr_base x1).natAbs + 3) + m)
        (by omega) (by omega) t2 (room_mono r1 (by omega))
      rw [e2]
      dsimp only
      obtain ⟨u3, e3, m3, r3⟩ := render_line_body_mass u2 x1 y1 x2 y2 m ht r2
      refine ⟨u3, e3, ?_, r3⟩
      rw [m3, m2, m1]
      ring
    · rw [render_line_small fuel s x1 y1 x2 y2 (by omega)]
      simp only [render_cost, render_cover, if_neg hs] at hr ⊢
      exact render_line_body_mass s x1 y1 x2 y2 m ht hr

theorem line_to_mass (d : Nat) (s : State α) (x y : Int) (m : Nat)
    (hd : d ≤ (x - s.m_cur_x).natAbs) (h : (x - s.m_cur_x).natAbs ≤ 4194303 * 2 ^ d)
    (ht : Thin s.m_cur_x s.m_cur_y x y) (hr : Room s (render_cost d s.m_cur_x x + m)) :
    ∃ t, line_to s x y = some t ∧
      cover_mass t = cover_mass s + render_cover d s.m_cur_x s.m_cur_y x y ∧ Room t m ∧
      t.m_cur_x = x ∧ t.m_cur_y = y ∧ t.m_sorted = false := by
  obtain ⟨t, e, hm, hq⟩ := render_line_mass d (x - s.m_cur_x).natAbs s s.m_cur_x s.m_cur_y x y
    m hd h ht hr
  unfold line_to
  rw [e]
  exact ⟨_, rfl, hm, hq, rfl, rfl, rfl⟩

theorem sort_cells_mass {u t : State α} (h : sort_cells u = some t)
    (hs : u.m_sorted = false) (hr : Room u 1) :
    cover_sum t.m_cells = cover_mass u ∧ total_cells t ≤ u.m_num_cells + 1 := by
  obtain ⟨-, h2, -⟩ := add_cur_cell_room (room_mono hr (le_refl _) : Room u (0 + 1))
  obtain ⟨-, -, h3, -⟩ := add_cur_cell_cells u hr.1 hr.2
  rcases sort_cells_unsorted h hs with e | ⟨sc, sy, e⟩
  · rw [e]; exact ⟨h2, h3⟩
  · rw [e]; exact ⟨h2, h3⟩

theorem seg_start_room (init : Cell α) (x y : Int) (k : Nat)
    (hk : k ≤ cell_block_size * cell_block_limit) : Room (seg_start init x y) k := by
  unfold Room NoSpare seg_start fresh
  simp only [cell_block_size] at *
  omega

/-- C1, on the code: the closed path `move_to(-2097152, 0); line_to(2097152, 1);
line_to(0, 1); line_to(-2097152, 0)`, whose coordinates lie inside the numeric envelope,
is drawn on a fresh instance and sorted, fewer than 4,194,304 cells are committed and none
is dropped, and the `cover` of the committed cells sums to 1, not to 0: the first segment
has `dx = 2^22`, so `render_line` renders its two halves and then, for want of a `return`
after the two recursive calls, the whole segment again. -/
theorem C1_closed_path_cover_sum :
    ∃ u1 u2 u3 t : State Unit,
      line_to (move_to (fresh cell0) (-2097152) 0) 2097152 1 = some u1 ∧
      line_to u1 0 1 = some u2 ∧ line_to u2 (-2097152) 0 = some u3 ∧
      sort_cells u3 = some t ∧ total_cells t < 4194304 ∧ cover_sum t.m_cells = 1 := by
  have h0 : move_to (fresh cell0) (-2097152) 0 = seg_start cell0 (-2097152) 0 :=
    move_to_fresh cell0 rfl rfl _ _
  have r0 : Room (seg_start cell0 (-2097152) 0) (32777 + (8195 + (8195 + 4145137))) :=
    seg_start_room _ _ _ _ (by decide)
  obtain ⟨u1, e1, m1, r1, a1, b1, -⟩ := line_to_mass 1 (seg_start cell0 (-2097152) 0)
    2097152 1 (8195 + (8195 + 4145137)) (by decide) (by decide) (by unfold Thin; decide) r0
  have hm0 : cover_mass (seg_start cell0 (-2097152) 0) = 0 := by decide
  have hc1 : render_cover 1 (seg_start cell0 (-2097152) 0).m_cur_x
      (seg_start cell0 (-2097152) 0).m_cur_y 2097152 1 = 2 := by decide
  rw [hm0, hc1] at m1
  obtain ⟨u2, e2, m2, r2, a2, b2, -⟩ := line_to_mass 0 u1 0 1 (8195 + 4145137)
    (by omega) (by rw [a1]; decide) (by rw [a1, b1]; unfold Thin; decide)
    (by rw [a1]; exact r1)
  rw [a1, b1] at m2
  obtain ⟨u3, e3, m3, r3, a3, b3, c3⟩ := line_to_mass 0 u2 (-2097152) 0 4145137
    (by omega) (by rw [a2]; decide) (by rw [a2, b2]; unfold Thin; decide)
    (by rw [a2]; exact r2)
  rw [a2, b2] at m3
  have hreach : Reachable cell0 u3 :=
    Reachable.line_to _ _ (Reachable.line_to _ _ (Reachable.line_to _ _
      (Reachable.move_to (-2097152) 0 Reachable.fresh) (by rw [h0]; exact e1)) e2) e3
  obtain ⟨t, et⟩ := sort_cells_total u3 (inv_reachable hreach).1 (inv_reachable hreach).2
  obtain ⟨hmass, hcount⟩ := sort_cells_mass et c3 (room_mono r3 (by omega))
  refine ⟨u1, u2, u3, t, by rw [h0]; exact e1, e2, e3, et, ?_, ?_⟩
  · have := r3.2
    unfold cell_block_size cell_block_limit at this
    omega
  · rw [hmass, m3, m2, m1]
    decide

/-- C9, on the code: in scenario S5, `move_to(0, 0); line_to(8388608, 256)` on a
fresh instance then `sort_cells()`, fewer than 4,194,304 cells are committed and none is
dropped, and the `cover` of the committed cells sums to 768, three times `y2 - y1 = 256`:
`render_line` renders the two halves of the segment, each of which it renders as two
quarters and then whole, and then, for want of a `return` after the two recursive calls,
the whole segment again. -/
theorem C9_split_cover_sum :
    ∃ u t : State Unit,
      line_to (move_to (fresh cell0) 0 0) 8388608 256 = some u ∧
      sort_cells u = some t ∧ total_cells t < 4194304 ∧ cover_sum t.m_cells = 768 := by
  have h0 : move_to (fresh cell0) 0 0 = seg_start cell0 0 0 :=
    move_to_fresh cell0 rfl rfl _ _
  have r0 : Room (seg_start cell0 0 0) (render_cost 2 0 8388608 + 4000000) :=
    seg_start_room _ _ _ _ (by decide)
  obtain ⟨u, e1, m1, r1, -, -, c1⟩ := line_to_mass 2 (seg_start cell0 0 0)
    8388608 256 4000000 (by decide) (by decide) (by unfold Thin; decide) r0
  have hm0 : cover_mass (seg_start cell0 0 0) = 0 := by decide
  have hc1 : render_cover 2 (seg_start cell0 0 0).m_cur_x
      (seg_start cell0 0 0).m_cur_y 8388608 256 = 768 := by decide
  rw [hm0, hc1] at m1
  have hreach : Reachable cell0 u :=
    Reachable.line_to _ _ (Reachable.move_to 0 0 Reachable.fresh) (by rw [h0]; exact e1)
  obtain ⟨t, et⟩ := sort_cells_total u (inv_reachable hreach).1 (inv_reachable hreach).2
  obtain ⟨hmass, hcount⟩ := sort_cells_mass et c1 (room_mono r1 (by omega))
  refine ⟨u, t, by rw [h0]; exact e1, et, ?_, ?_⟩
  · have := r1.2
    unfold cell_block_size cell_block_limit at this
    omega
  · rw [hmass, m1]
    decide

/-! ## The sorted flag -/

theorem reset_fields (s : State α) :
    (reset s).m_num_cells = 0 ∧ (reset s).m_cur_cell = s.m_seed_cell ∧
    (reset s).m_seed_cell = s.m_seed_cell ∧ (reset s).m_sorted = false ∧
    (reset s).m_min_x = 0x7FFFFFFF ∧ (reset s).m_min_y = 0x7FFFFFFF ∧
    (reset s).m_max_x = -0x7FFFFFFF ∧ (reset s).m_max_y = -0x7FFFFFFF :=
  ⟨rfl, rfl, rfl, rfl, rfl, rfl, rfl, rfl⟩

theorem move_to_sorted_state [DecidableEq α] (s : State α) (x y : Int)
    (hs : s.m_sorted = true) (hc : s.m_seed_cell.cover = 0) (ha : s.m_seed_cell.area = 0) :
    move_to s x y = { reset s with
      m_cur_cell := { s.m_seed_cell with x := shr_base x, y := shr_base y, cover := 0, area := 0 }
      m_cur_x := x, m_cur_y := y } := by
  unfold move_to
  simp only [hs, if_true]
  split
  · rw [add_cur_cell_quiet (reset s) hc ha]
    rfl
  · rename_i h
    simp only [ne_eq, not_or, not_not] at h
    obtain ⟨h1, h2, -⟩ := h
    have e : (reset s).m_cur_cell =
        { s.m_seed_cell with x := shr_base x, y := shr_base y, cover := 0, area := 0 } := by
      have h1' : s.m_seed_cell.x = shr_base x := h1
      have h2' : s.m_seed_cell.y = shr_base y := h2
      show s.m_seed_cell = _
      cases hseed : s.m_seed_cell with
      | mk cx cy cc ca cu =>
        rw [hseed] at h1' h2' hc ha
        simp only at h1' h2' hc ha
        subst h1' h2' hc ha
        rfl
    rw [← e]

/-- C12, as stated, fails on the code: after `seed_cell` with a seed of `cover = 5` at pixel
`(0, 0)` on the sorted diagonal instance (a reachable state where `sorted()` is true),
`move_to(256, 0)` commits the seed, so `total_cells() = 1` and the bounding box is
`(0, 0)-(0, 0)`, and `move_to(0, 0)` leaves the accumulator with `cover = 5`. -/
theorem C12_move_to_seed_counterexample :
    (seed_cell diag_sorted seed5).m_sorted = true ∧
    total_cells (move_to (seed_cell diag_sorted seed5) 256 0) = 1 ∧
    (move_to (seed_cell diag_sorted seed5) 256 0).m_min_x = 0 ∧
    (move_to (seed_cell diag_sorted seed5) 0 0).m_cur_cell.cover = 5 := by
  decide

/-- C12, amended: for every state in which `sorted()` is true and whose seed cell has
`cover = area = 0`, and every `(x, y)`, `move_to(x, y)` leaves `total_cells() = 0`, the
bounding box empty, `sorted() = false`, and the accumulator equal to the seed cell at
pixel `(x >> 8, y >> 8)` with `cover = area = 0`; and `line_to` leaves `sorted() = false`
whenever it returns, which it does on every state for a pen and a target inside the
numeric envelope, the domain on which the unbounded integers of `render_line` are the
`int` of the source. -/
theorem C12_move_to_after_sort [DecidableEq α] (s : State α) (x y : Int)
    (hs : s.m_sorted = true) (hc : s.m_seed_cell.cover = 0) (ha : s.m_seed_cell.area = 0) :
    (total_cells (move_to s x y) = 0 ∧ (move_to s x y).m_cells = [] ∧
      (move_to s x y).m_min_x = 0x7FFFFFFF ∧ (move_to s x y).m_min_y = 0x7FFFFFFF ∧
      (move_to s x y).m_max_x = -0x7FFFFFFF ∧ (move_to s x y).m_max_y = -0x7FFFFFFF ∧
      (move_to s x y).m_sorted = false ∧
      (move_to s x y).m_cur_cell =
        { s.m_seed_cell with x := shr_base x, y := shr_base y, cover := 0, area := 0 }) ∧
    (∀ (u t : State α) (x' y' : Int), line_to u x' y' = some t → t.m_sorted = false) ∧
    (∀ (u : State α) (x' y' : Int),
      in_envelope u.m_cur_x ∧ in_envelope u.m_cur_y ∧ in_envelope x' ∧ in_envelope y' →
      ∃ t, line_to u x' y' = some t ∧ t.m_sorted = false) := by
  refine ⟨?_, ?_, ?_⟩
  · rw [move_to_sorted_state s x y hs hc ha]
    exact ⟨rfl, rfl, rfl, rfl, rfl, rfl, rfl, rfl⟩
  · intro u t x' y' h
    obtain ⟨w, hw, -⟩ := line_to_prim u x' y'
    rw [← Option.some.inj (hw.symm.trans h)]
  · intro u x' y' _
    obtain ⟨t, ht, -⟩ := line_to_prim u x' y'
    exact ⟨_, ht, rfl⟩

/-- C12, amended, on the sorted diagonal instance and `move_to(256, 0)`. -/
theorem C12_move_to_after_sort_witness :
    (total_cells (move_to diag_sorted 256 0) = 0 ∧ (move_to diag_sorted 256 0).m_cells = [] ∧
      (move_to diag_sorted 256 0).m_min_x = 0x7FFFFFFF ∧
      (move_to diag_sorted 256 0).m_min_y = 0x7FFFFFFF ∧
      (move_to diag_sorted 256 0).m_max_x = -0x7FFFFFFF ∧
      (move_to diag_sorted 256 0).m_max_y = -0x7FFFFFFF ∧
      (move_to diag_sorted 256 0).m_sorted = false ∧
      (move_to diag_sorted 256 0).m_cur_cell =
        { diag_sorted.m_seed_cell with
          x := shr_base 256, y := shr_base 0, cover := 0, area := 0 }) ∧
    (∀ (u t : State Unit) (x' y' : Int), line_to u x' y' = some t → t.m_sorted = false) ∧
    (∀ (u : State Unit) (x' y' : Int),
      in_envelope u.m_cur_x ∧ in_envelope u.m_cur_y ∧ in_envelope x' ∧ in_envelope y' →
      ∃ t, line_to u x' y' = some t ∧ t.m_sorted = false) :=
  C12_move_to_after_sort diag_sorted 256 0 (by decide) (by decide) (by decide)

theorem add_cur_cell_idem (s : State α) (h : (add_cur_cell s).m_num_cells = 0) :
    add_cur_cell (add_cur_cell s) = add_cur_cell s := by
  have e : add_cur_cell s = s := by
    unfold add_cur_cell at h ⊢
    split
    · rw [if_pos (by assumption)] at h
      split
      · rw [if_pos (by assumption)] at h
        split
        · rfl
        · rw [if_neg (by assumption)] at h
          exact absurd h (by simp [store_cur_cell])
      · rw [if_neg (by assumption)] at h
        exact absurd h (by simp [store_cur_cell])
    · rfl
  rw [e, e]

theorem sort_cells_idem {s t : State α} (h : sort_cells s = some t) :
    sort_cells t = some t := by
  by_cases h1 : s.m_sorted = true
  · have e : t = s := by
      unfold sort_cells at h
      rw [if_pos h1] at h
      exact (Option.some.inj h).symm
    rw [e]
    unfold sort_cells
    rw [if_pos h1]
  · rcases sort_cells_unsorted h (by simpa using h1) with e | ⟨sc, sy, e⟩
    · have h0 : (add_cur_cell s).m_num_cells = 0 := by
        by_contra hn
        have := sort_cells_sorted h (by rw [e]; exact hn)
        rw [e, add_cur_cell_sorted] at this
        exact h1 this
      rw [e]
      unfold sort_cells
      rw [add_cur_cell_sorted, if_neg h1]
      dsimp only
      rw [add_cur_cell_idem s h0, if_pos h0]
    · rw [e]
      unfold sort_cells
      rw [if_pos rfl]

/-- C13: for every reachable state `s`, `sort_cells()` returns a state `t`, and a second
`sort_cells()` returns `t` again: no field changes, whether the first call set the sorted
flag or returned early for want of cells. -/
theorem C13_sort_idempotent [DecidableEq α] (init : Cell α) (s : State α)
    (h : Reachable init s) :
    ∃ t, sort_cells s = some t ∧ sort_cells t = some t := by
  obtain ⟨t, ht⟩ := sort_cells_total s (inv_reachable h).1 (inv_reachable h).2
  exact ⟨t, ht, sort_cells_idem ht⟩

/-- C13 on the diagonal `move_to(0, 0); line_to(512, 512)`. -/
theorem C13_sort_idempotent_witness :
    ∃ t, sort_cells diag_drawn = some t ∧ sort_cells t = some t :=
  C13_sort_idempotent cell0 diag_drawn diag_reachable

/-- C14, as stated, fails on the code: on the instance just constructed (no cell),
`sort_cells()` returns and `sorted()` is still false. -/
theorem C14_sorted_flag_counterexample :
    sort_cells (fresh cell0) = some (fresh cell0) ∧ (fresh cell0).m_sorted = false := by
  decide

/-- C14, amended: for every reachable state, `sort_cells()` returns, and afterwards
`sorted()` is true when `total_cells() > 0`, while with `total_cells() = 0` the flag is
what it was before the call. -/
theorem C14_sorted_flag [DecidableEq α] (init : Cell α) (s : State α)
    (h : Reachable init s) :
    ∃ t, sort_cells s = some t ∧ (0 < total_cells t → t.m_sorted = true) ∧
      (total_cells t = 0 → t.m_sorted = s.m_sorted) := by
  obtain ⟨t, ht⟩ := sort_cells_total s (inv_reachable h).1 (inv_reachable h).2
  refine ⟨t, ht, fun hn => sort_cells_sorted ht (by unfold total_cells at hn; omega), ?_⟩
  intro h0
  by_cases h1 : s.m_sorted = true
  · unfold sort_cells at ht
    rw [if_pos h1] at ht
    rw [← Option.some.inj ht]
  · rcases sort_cells_unsorted ht (by simpa using h1) with e | ⟨sc, sy, e⟩
    · rw [e, add_cur_cell_sorted]
    · exfalso
      have hnum : (add_cur_cell s).m_num_cells = 0 := by
        rw [e] at h0; exact h0
      unfold sort_cells at ht
      rw [if_neg h1] at ht
      dsimp only at ht
      rw [if_pos hnum] at ht
      rw [← Option.some.inj ht] at e
      have := congrArg State.m_sorted e
      rw [add_cur_cell_sorted] at this
      simp at this
      exact h1 this

/-- C14, amended, on the diagonal `move_to(0, 0); line_to(512, 512)`. -/
theorem C14_sorted_flag_witness :
    ∃ t, sort_cells diag_drawn = some t ∧ (0 < total_cells t → t.m_sorted = true) ∧
      (total_cells t = 0 → t.m_sorted = diag_drawn.m_sorted) :=
  C14_sorted_flag cell0 diag_drawn diag_reachable

/-! ## The quicksort: result and stack -/

theorem qsort_depth_of_loop (key : Nat → Option Int) (lo hi : Int) :
    ∀ (fuel : Nat) (a : List Nat) (base limit : Int) (stack : List (Int × Int)) (d : Nat)
      (b : List Nat),
      qsort_loop key lo hi fuel a base limit stack = some b → d ≤ 40 → stack.length ≤ 40 →
      ∃ d', qsort_depth key lo hi fuel a base limit stack d = some d' ∧ d' ≤ 40 := by
  intro fuel
  induction fuel with
  | zero => intro a base limit stack d b h; simp [qsort_loop] at h
  | succ n ih =>
    intro a base limit stack d b h hd hs
    rw [qsort_loop] at h
    rw [qsort_depth]
    dsimp only at h ⊢
    split
    · rename_i hlen
      rw [if_pos hlen] at h
      cases h1 : swap_cells a lo hi base (base + Int.tdiv (limit - base) 2) with
      | none => rw [h1] at h; simp at h
      | some a1 =>
        rw [h1] at h
        dsimp only at h ⊢
        cases h2 : qsort_median key lo hi base (base + 1) (limit - 1) a1 with
        | none => rw [h2] at h; simp at h
        | some a2 =>
          rw [h2] at h
          dsimp only at h ⊢
          cases h3 : qsort_partition key lo hi base (hi - lo).toNat a2 (base + 1) (limit - 1) with
          | none => rw [h3] at h; simp at h
          | some r =>
            obtain ⟨a3, i, j⟩ := r
            rw [h3] at h
            dsimp only at h ⊢
            cases h4 : swap_cells a3 lo hi base j with
            | none => rw [h4] at h; simp at h
            | some a4 =>
              rw [h4] at h
              dsimp only at h ⊢
              by_cases hcap : stack.length ≥ 40
              · rw [if_pos hcap] at h; simp at h
              · rw [if_neg hcap] at h
                split
                · rename_i hb
                  rw [if_pos hb] at h
                  exact ih _ _ _ _ _ _ h (by omega) (by simp only [List.length_cons]; omega)
                · rename_i hb
                  rw [if_neg hb] at h
                  exact ih _ _ _ _ _ _ h (by omega) (by simp only [List.length_cons]; omega)
    · rename_i hlen
      rw [if_neg hlen] at h
      cases h1 : qsort_insertion key lo hi base limit (hi - lo).toNat a base (base + 1) with
      | none => rw [h1] at h; simp at h
      | some a1 =>
        rw [h1] at h
        dsimp only at h ⊢
        cases stack with
        | nil => exact ⟨d, rfl, hd⟩
        | cons r st =>
          obtain ⟨b', l'⟩ := r
          dsimp only at h ⊢
          exact ih _ _ _ _ _ _ h hd (by simp only [List.length_cons] at hs; omega)

theorem slice_perm (a b : List Nat) (s n : Nat) (hp : b.Perm a)
    (ho : ∀ p : Nat, p < s ∨ s + n ≤ p → b[p]? = a[p]?) :
    ((b.drop s).take n).Perm ((a.drop s).take n) := by
  have e1 : b.take s = a.take s := by
    apply List.ext_getElem?
    intro p
    by_cases hps : p < s
    · rw [List.getElem?_take_of_lt hps, List.getElem?_take_of_lt hps]
      exact ho p (Or.inl hps)
    · rw [List.getElem?_take_eq_none (by omega), List.getElem?_take_eq_none (by omega)]
  have e2 : (b.drop s).drop n = (a.drop s).drop n := by
    apply List.ext_getElem?
    intro p
    rw [List.drop_drop, List.drop_drop, List.getElem?_drop, List.getElem?_drop]
    exact ho _ (Or.inr (by omega))
  have da : a = a.take s ++ ((a.drop s).take n ++ (a.drop s).drop n) := by
    rw [List.take_append_drop, List.take_append_drop]
  have db : b = b.take s ++ ((b.drop s).take n ++ (b.drop s).drop n) := by
    rw [List.take_append_drop, List.take_append_drop]
  rw [da, db, e1, e2] at hp
  exact (List.perm_append_right_iff _).mp ((List.perm_append_left_iff _).mp hp)

/-- C16: for every pointer array and every range of `num < 2^31` slots from `start` in it
whose pointers point to cells, `qsort_cells(start, num)` returns (the model has no result
for a run that does not end or that reads or writes a slot outside the range), the slots
outside the range are unchanged, the slots of the range are a permutation of what they
were, and the `x` of the cells they point to is non-decreasing; keys may repeat. -/
theorem C16_qsort_sorts (key : Nat → Option Int) (a : List Nat) (start num : Nat)
    (hk : KeysOk key a) (hlen : start + num ≤ a.length) (hnum : num < 2 ^ 31) :
    ∃ b, qsort_cells key a start num = some b ∧ b.length = a.length ∧
      (∀ p : Nat, p < start ∨ start + num ≤ p → b[p]? = a[p]?) ∧
      ((b.drop start).take num).Perm ((a.drop start).take num) ∧
      (∀ p q : Nat, start ≤ p → p ≤ q → q < start + num →
        ∃ vp vq kp kq, b[p]? = some vp ∧ b[q]? = some vq ∧ key vp = some kp ∧
          key vq = some kq ∧ kp ≤ kq) := by
  obtain ⟨b, e, f, hs⟩ := qsort_cells_spec key a start num hk hlen hnum
  have ho : ∀ p : Nat, p < start ∨ start + num ≤ p → b[p]? = a[p]? := by
    intro p hp
    have h1 := f.2.2 (p : Int) (by omega) (by omega)
    unfold slot at h1
    simp only [Int.toNat_ofNat] at h1
    by_cases hpl : p < a.length
    · rw [List.getElem?_eq_getElem (by rw [f.1]; exact hpl), List.getElem?_eq_getElem hpl]
      rw [List.getD_eq_getElem b 0 (by rw [f.1]; exact hpl), List.getD_eq_getElem a 0 hpl]
        at h1
      rw [h1]
    · have hbl := f.1
      rw [List.getElem?_eq_none (by omega), List.getElem?_eq_none (by omega)]
  refine ⟨b, e, f.1, ho, slice_perm a b start num f.2.1 ho, ?_⟩
  intro p q hp hpq hq
  have hkb := keysOk_perm hk f.2.1
  have hpl : p < b.length := by rw [f.1]; omega
  have hql : q < b.length := by rw [f.1]; omega
  obtain ⟨kp, ekp⟩ := hkb _ (List.getElem_mem hpl)
  obtain ⟨kq, ekq⟩ := hkb _ (List.getElem_mem hql)
  refine ⟨b[p], b[q], kp, kq, List.getElem?_eq_getElem hpl, List.getElem?_eq_getElem hql,
    ekp, ekq, ?_⟩
  have := hs (p : Int) (q : Int) (by omega) (by omega) (by omega)
  unfold kx KD slot at this
  simp only [Int.toNat_ofNat] at this
  rw [List.getD_eq_getElem b 0 hpl, List.getD_eq_getElem b 0 hql, ekp, ekq] at this
  exact this

/-- C16 on an array of twelve pointers with repeated keys. -/
theorem C16_qsort_sorts_witness :
    ∃ b, qsort_cells key_mod5 twelve 0 12 = some b ∧ b.length = twelve.length ∧
      (∀ p : Nat, p < 0 ∨ 0 + 12 ≤ p → b[p]? = twelve[p]?) ∧
      ((b.drop 0).take 12).Perm ((twelve.drop 0).take 12) ∧
      (∀ p q : Nat, 0 ≤ p → p ≤ q → q < 0 + 12 →
        ∃ vp vq kp kq, b[p]? = some vp ∧ b[q]? = some vq ∧ key_mod5 vp = some kp ∧
          key_mod5 vq = some kq ∧ kp ≤ kq) :=
  C16_qsort_sorts key_mod5 twelve 0 12 (fun v _ => ⟨_, rfl⟩) (by decide) (by decide)

/-- C17: for every range of `num < 2^31` slots whose pointers point to cells, the run of
`qsort_cells` ends and its stack never holds more than 40 ranges at once; and whenever a
range of more than 9 slots has been partitioned at `i`, `j`, the part that is pushed is
the larger one, so that the part the loop continues with is no longer than the part
pushed and has at most half the slots of the range just partitioned. -/
theorem C17_qsort_stack_bound (key : Nat → Option Int) (a : List Nat) (start num : Nat)
    (hk : KeysOk key a) (hlen : start + num ≤ a.length) (hnum : num < 2 ^ 31) :
    (∃ d, qsort_depth key (start : Int) ((start : Int) + num) (2 * num + 1) a start
        ((start : Int) + num) [] 0 = some d ∧ d ≤ 40) ∧
    (∀ (c : List Nat) (base limit : Int), KeysOk key c → (start : Int) + num ≤ c.length →
      (start : Int) ≤ base → limit ≤ (start : Int) + num → limit - base > qsort_threshold →
      ∃ c1 c2 c3 i j,
        swap_cells c start ((start : Int) + num) base (base + Int.tdiv (limit - base) 2) =
          some c1 ∧
        qsort_median key start ((start : Int) + num) base (base + 1) (limit - 1) c1 =
          some c2 ∧
        qsort_partition key start ((start : Int) + num) base
          (((start : Int) + num) - start).toNat c2 (base + 1) (limit - 1) = some (c3, i, j) ∧
        (j - base > limit - i → limit - i ≤ j - base ∧ 2 * (limit - i) ≤ limit - base) ∧
        (¬ j - base > limit - i → j - base ≤ limit - i ∧ 2 * (j - base) ≤ limit - base)) := by
  constructor
  · obtain ⟨b, e, -, -⟩ := qsort_cells_spec key a start num hk hlen hnum
    unfold qsort_cells at e
    exact qsort_depth_of_loop key _ _ _ _ _ _ _ 0 b e (by omega) (by simp)
  · intro c base limit hkc hc hb hl hlen9
    unfold qsort_threshold at hlen9
    have hpiv : Int.tdiv (limit - base) 2 = (limit - base) / 2 :=
      Int.tdiv_eq_ediv (by omega) (by omega)
    rw [hpiv]
    obtain ⟨c1, e1, l1, p1, -, -, -⟩ := swap_cells_eq c start ((start : Int) + num) base
      (base + (limit - base) / 2) (by omega) hc (by omega) (by omega) (by omega) (by omega)
    have hk1 := keysOk_perm hkc p1
    obtain ⟨c2, e2, f2, m1, m2⟩ := qsort_median_spec key start ((start : Int) + num) base
      limit c1 hk1 (by omega) (by omega) hb hl (by omega)
    have hk2 := keysOk_perm hk1 f2.2.1
    obtain ⟨c3, i, j, e3, f3, g1, g2, g3, -, -⟩ := qsort_partition_spec key start
      ((start : Int) + num) base limit (by omega) hb hl (((start : Int) + num) - start).toNat
      c2 (base + 1) (limit - 1) hk2 (by have := f2.1; omega) (le_refl _) (by omega)
      (le_refl _) (Or.inl (by omega))
      (by
        intro p hp1 hp2
        have : p = base + 1 := by omega
        rw [this]; exact m1)
      (by
        intro p hp1 hp2
        have : p = limit - 1 := by omega
        rw [this]; exact m2)
      (by omega)
    exact ⟨c1, c2, c3, i, j, e1, e2, e3, fun h => ⟨by omega, by omega⟩,
      fun h => ⟨by omega, by omega⟩⟩

/-- C17 on an array of twelve pointers with repeated keys. -/
theorem C17_qsort_stack_bound_witness :
    (∃ d, qsort_depth key_mod5 ((0 : Nat) : Int) (((0 : Nat) : Int) + (12 : Nat)) (2 * 12 + 1)
        twelve ((0 : Nat) : Int) (((0 : Nat) : Int) + (12 : Nat)) [] 0 = some d ∧ d ≤ 40) ∧
    (∀ (c : List Nat) (base limit : Int), KeysOk key_mod5 c →
      ((0 : Nat) : Int) + (12 : Nat) ≤ c.length →
      ((0 : Nat) : Int) ≤ base → limit ≤ ((0 : Nat) : Int) + (12 : Nat) →
      limit - base > qsort_threshold →
      ∃ c1 c2 c3 i j,
        swap_cells c ((0 : Nat) : Int) (((0 : Nat) : Int) + (12 : Nat)) base
          (base + Int.tdiv (limit - base) 2) = some c1 ∧
        qsort_median key_mod5 ((0 : Nat) : Int) (((0 : Nat) : Int) + (12 : Nat)) base
          (base + 1) (limit - 1) c1 = some c2 ∧
        qsort_partition key_mod5 ((0 : Nat) : Int) (((0 : Nat) : Int) + (12 : Nat)) base
          ((((0 : Nat) : Int) + (12 : Nat)) - ((0 : Nat) : Int)).toNat c2 (base + 1)
          (limit - 1) = some (c3, i, j) ∧
        (j - base > limit - i → limit - i ≤ j - base ∧ 2 * (limit - i) ≤ limit - base) ∧
        (¬ j - base > limit - i → j - base ≤ limit - i ∧ 2 * (j - base) ≤ limit - base)) :=
  C17_qsort_stack_bound key_mod5 twelve 0 12 (fun v _ => ⟨_, rfl⟩) (by decide) (by decide)

/-! ## The seed and the keys of consecutive cells -/

/-- C18, on the code: `set_cur_cell(x, y)` never changes the auxiliary fields of the
accumulator, whatever the seed cell is (`move_to` does copy the seed); so on
`move_to(0, 0); seed_cell(seed7); line_to(512, 512); sort_cells()` the seed in force has
the auxiliary field 7 and every one of the cells that `line_to` started and committed has
the auxiliary field 0 of the initial cell. -/
theorem C18_seed_not_copied :
    (∀ (s : State Nat) (x y : Int),
      (set_cur_cell s x y).m_cur_cell.aux = s.m_cur_cell.aux) ∧
    line_to (seed_cell (move_to (fresh cellN) 0 0) seed7) 512 512 = some seeded_drawn ∧
    sort_cells seeded_drawn = some seeded_sorted ∧
    seeded_sorted.m_seed_cell.aux = 7 ∧ total_cells seeded_sorted = 2 ∧
    ∀ c ∈ seeded_sorted.m_cells, c.aux = 0 := by
  refine ⟨?_, by decide, by decide, by decide, by decide, by decide⟩
  intro s x y
  unfold set_cur_cell
  split
  · show (add_cur_cell s).m_cur_cell.aux = _
    rw [add_cur_cell_cur]
  · rfl

/-- C19, as stated, fails on the code: the path `move_to(0, 0); line_to(0, 128);
line_to(512, 128); line_to(0, 128); line_to(0, 256)` on a fresh instance commits the two
cells `(0, 0, 128, 0)` and `(0, 0, 128, 0)` one after the other: the accumulator left
pixel `(0, 0)`, crossed pixels where it held nothing, and came back. -/
theorem C19_revisit_counterexample :
    line_to (move_to (fresh cell0) 0 0) 0 128 = some rev1 ∧ line_to rev1 512 128 = some rev2 ∧
    line_to rev2 0 128 = some rev3 ∧ line_to rev3 0 256 = some rev4 ∧
    sort_cells rev4 = some rev_sorted ∧
    rev_sorted.m_cells = [⟨0, 0, 128, 0, ()⟩, ⟨0, 0, 128, 0, ()⟩] := by
  decide

theorem hline_pieces_pairwise (ey x1 y1 x2 y2 : Int) :
    (hline_pieces ey x1 y1 x2 y2).Pairwise PixNe := by
  unfold hline_pieces
  rw [List.pairwise_map]
  refine List.Pairwise.imp ?_ (List.pairwise_lt_range _)
  intro a b hab
  left
  rw [hcol_x, hcol_x]
  split <;> omega

theorem line_pieces_pairwise (x1 y1 x2 y2 : Int) :
    (line_pieces x1 y1 x2 y2).Pairwise PixNe := by
  unfold line_pieces
  rw [List.pairwise_flatten]
  constructor
  · intro l hl
    rw [List.mem_map] at hl
    obtain ⟨k, -, rfl⟩ := hl
    unfold row_pieces
    exact hline_pieces_pairwise _ _ _ _ _
  · rw [List.pairwise_map]
    refine List.Pairwise.imp ?_ (List.pairwise_lt_range _)
    intro a b hab p hp q hq
    right
    rw [row_pieces_y _ _ _ _ _ p hp, row_pieces_y _ _ _ _ _ q hq]
    split <;> omega

/-- C19, amended: `set_cur_cell` commits the accumulator only when it moves it to another
pixel, so the cell it commits differs in `(x, y)` from the pixel the accumulator goes to;
and for a segment with `|x2 - x1| < 2^22` inside the numeric envelope,
`move_to(x1, y1); line_to(x2, y2); sort_cells()` on a fresh instance (whose initial cell
has no coverage) commits cells of which no two, consecutive or not, have the same
`(x, y)`. -/
theorem C19_distinct_keys [DecidableEq α] (init : Cell α) (hc : init.cover = 0)
    (ha : init.area = 0) (x1 y1 x2 y2 : Int) (hdx : (x2 - x1).natAbs < 4194304)
    (he : in_envelope x1 ∧ in_envelope y1 ∧ in_envelope x2 ∧ in_envelope y2) :
    (∀ (s : State α) (x y : Int),
      (set_cur_cell s x y).m_cells = s.m_cells ∨
      ((set_cur_cell s x y).m_cells = s.m_cells ++ [s.m_cur_cell] ∧
        (s.m_cur_cell.x ≠ (set_cur_cell s x y).m_cur_cell.x ∨
          s.m_cur_cell.y ≠ (set_cur_cell s x y).m_cur_cell.y))) ∧
    ∃ u t, line_to (move_to (fresh init) x1 y1) x2 y2 = some u ∧ sort_cells u = some t ∧
      t.m_cells.Pairwise (fun c d => c.x ≠ d.x ∨ c.y ≠ d.y) := by
  constructor
  · intro s x y
    unfold set_cur_cell
    split
    · rename_i h
      show (add_cur_cell s).m_cells = _ ∨ ((add_cur_cell s).m_cells = _ ∧ _)
      unfold add_cur_cell
      split
      · split
        · split
          · left; rfl
          · right
            refine ⟨?_, h⟩
            show (allocate_block s).m_cells ++ [(allocate_block s).m_cur_cell] = _
            rw [(allocate_block_fields s).1, (allocate_block_fields s).2.2.1]
        · right
          exact ⟨rfl, h⟩
      · left; rfl
    · left; rfl
  · obtain ⟨u, t, e1, e2, e3, -⟩ := segment_cells init hc ha x1 y1 x2 y2
      (by unfold dx_limit; omega) (envelope_fits x1 y1 x2 y2 he)
    refine ⟨u, t, e1, e2, ?_⟩
    rw [e3]
    apply List.Pairwise.filter
    rw [List.pairwise_map]
    exact List.Pairwise.imp (fun h => h) (line_pieces_pairwise x1 y1 x2 y2)

/-- C19, amended, on the segment from `(0, 0)` to `(512, 512)`. -/
theorem C19_distinct_keys_witness :
    (∀ (s : State Unit) (x y : Int),
      (set_cur_cell s x y).m_cells = s.m_cells ∨
      ((set_cur_cell s x y).m_cells = s.m_cells ++ [s.m_cur_cell] ∧
        (s.m_cur_cell.x ≠ (set_cur_cell s x y).m_cur_cell.x ∨
          s.m_cur_cell.y ≠ (set_cur_cell s x y).m_cur_cell.y))) ∧
    ∃ u t, line_to (move_to (fresh cell0) 0 0) 512 512 = some u ∧ sort_cells u = some t ∧
      t.m_cells.Pairwise (fun c d => c.x ≠ d.x ∨ c.y ≠ d.y) :=
  C19_distinct_keys cell0 rfl rfl 0 0 512 512 (by decide) (by decide)

/-! ## The range of cover and area of a cell -/

theorem mono_range (W : Nat → Int) (n : Nat) (h : ∀ k, k ≤ n → W k ≤ W (k + 1)) :
    ∀ a b, a ≤ b → b ≤ n + 1 → W a ≤ W b := by
  intro a b
  induction b with
  | zero => intro hab _; rw [Nat.le_zero.mp hab]
  | succ b ih =>
    intro hab hb
    by_cases e : a = b + 1
    · rw [e]
    · exact le_trans (ih (by omega) (by omega)) (h b (by omega))

theorem area_bounds (F dc : Int) (hF0 : 0 ≤ F) (hF : F ≤ 511) (hdc : 0 ≤ dc) :
    0 ≤ F * dc ∧ F * dc ≤ 511 * dc :=
  ⟨mul_nonneg hF0 hdc, mul_le_mul_of_nonneg_right hF hdc⟩

theorem hline_bounds_up (ey x1 y1 x2 y2 : Int) (hy : y1 ≤ y2) :
    ∀ p ∈ hline_pieces ey x1 y1 x2 y2,
      0 ≤ p.dc ∧ p.dc ≤ y2 - y1 ∧ 0 ≤ p.da ∧ p.da ≤ 511 * p.dc := by
  intro p hp
  have hm1 : 0 ≤ and_mask x1 ∧ and_mask x1 ≤ 255 := by
    unfold and_mask poly_base_size; omega
  have hm2 : 0 ≤ and_mask x2 ∧ and_mask x2 ≤ 255 := by
    unfold and_mask poly_base_size; omega
  have hf : hl_first x1 x2 = 0 ∨ hl_first x1 x2 = 256 := by
    unfold hl_first poly_base_size; split <;> simp
  unfold hline_pieces at hp
  rw [List.mem_map] at hp
  obtain ⟨k, hk, rfl⟩ := hp
  rw [List.mem_range] at hk
  have hinc : (if x2 - x1 < 0 then (-1 : Int) else 1) = hl_incr x1 x2 := rfl
  rw [hinc]
  by_cases h : shr_base x1 = shr_base x2
  · have hk0 : k = 0 := by omega
    subst hk0
    have e0 : shr_base x1 + hl_incr x1 x2 * ((0 : Nat) : Int) = shr_base x1 := by simp
    rw [e0]
    unfold hcol
    simp only [if_true, ← h]
    have := area_bounds (and_mask x1 + and_mask x2) (y2 - y1) (by omega) (by omega) (by omega)
    exact ⟨by omega, le_refl _, this.1, this.2⟩
  · have hmono := mono_range (row_x y1 x1 y2 x2) (shr_base x2 - shr_base x1).natAbs
      (fun j hj => row_x_up y1 x1 y2 x2 hy j hj)
    have e0 : row_x y1 x1 y2 x2 0 = y1 := by unfold row_x; rw [if_pos rfl]
    have en : row_x y1 x1 y2 x2 ((shr_base x2 - shr_base x1).natAbs + 1) = y2 := by
      unfold row_x; rw [if_neg (by omega), if_neg (by omega)]
    have ek : ∀ j, 1 ≤ j → j ≤ (shr_base x2 - shr_base x1).natAbs →
        row_x y1 x1 y2 x2 j = hl_Y x1 y1 x2 y2 j := by
      intro j h1 h2
      unfold row_x; rw [if_neg (by omega), if_pos h2]
    by_cases hk0 : k = 0
    · subst hk0
      have e00 : shr_base x1 + hl_incr x1 x2 * ((0 : Nat) : Int) = shr_base x1 := by simp
      rw [e00, hcol_first ey x1 y1 x2 y2 h]
      dsimp only
      have a1 := hmono 0 1 (by omega) (by omega)
      have a2 := hmono 1 _ (by omega : 1 ≤ (shr_base x2 - shr_base x1).natAbs + 1) (le_refl _)
      rw [e0, ek 1 (le_refl _) (by omega)] at a1
      rw [en, ek 1 (le_refl _) (by omega)] at a2
      have := area_bounds (and_mask x1 + hl_first x1 x2) (hl_Y x1 y1 x2 y2 1 - y1)
        (by omega) (by omega) (by omega)
      exact ⟨by omega, by omega, this.1, this.2⟩
    · by_cases hkn : k = (shr_base x2 - shr_base x1).natAbs
      · have e00 : shr_base x1 + hl_incr x1 x2 * (k : Int) = shr_base x2 := by
          rw [hkn]; exact (hl_ex2 x1 x2).symm
        rw [e00, hcol_last ey x1 y1 x2 y2 h]
        dsimp only
        have a1 := hmono 0 k (by omega) (by omega)
        have a2 := hmono k (k + 1) (by omega) (by omega)
        rw [e0, ek k (by omega) (by omega)] at a1
        rw [ek k (by omega) (by omega)] at a2
        rw [hkn] at a2 a1
        rw [en] at a2
        have := area_bounds (and_mask x2 + poly_base_size - hl_first x1 x2)
          (y2 - hl_Y x1 y1 x2 y2 (shr_base x2 - shr_base x1).natAbs)
          (by unfold poly_base_size; omega) (by unfold poly_base_size; omega) (by omega)
        exact ⟨by omega, by omega, this.1, this.2⟩
      · rw [hcol_mid ey x1 y1 x2 y2 k (by omega) (by omega)]
        dsimp only
        have a1 := hmono 0 k (by omega) (by omega)
        have a2 := hmono k (k + 1) (by omega) (by omega)
        have a3 := hmono (k + 1) _ (by omega : k + 1 ≤ (shr_base x2 - shr_base x1).natAbs + 1)
          (le_refl _)
        rw [e0, ek k (by omega) (by omega)] at a1
        rw [ek k (by omega) (by omega), ek (k + 1) (by omega) (by omega)] at a2
        rw [en, ek (k + 1) (by omega) (by omega)] at a3
        have := area_bounds poly_base_size (hl_Y x1 y1 x2 y2 (k + 1) - hl_Y x1 y1 x2 y2 k)
          (by unfold poly_base_size; omega) (by unfold poly_base_size; omega) (by omega)
        exact ⟨by omega, by omega, this.1, this.2⟩

theorem line_bounds_up (x1 y1 x2 y2 : Int) (hy : y1 ≤ y2) :
    ∀ p ∈ line_pieces x1 y1 x2 y2,
      0 ≤ p.dc ∧ p.dc ≤ 256 ∧ 0 ≤ p.da ∧ p.da ≤ 511 * p.dc := by
  intro p hp
  unfold line_pieces at hp
  rw [List.mem_flatten] at hp
  obtain ⟨l, hl, hpl⟩ := hp
  rw [List.mem_map] at hl
  obtain ⟨k, hk, rfl⟩ := hl
  rw [List.mem_range] at hk
  have hinc : (if y2 - y1 < 0 then (-1 : Int) else 1) = hl_incr y1 y2 := rfl
  rw [hinc] at hpl
  have hm1 : 0 ≤ and_mask y1 ∧ and_mask y1 ≤ 255 := by
    unfold and_mask poly_base_size; omega
  have hm2 : 0 ≤ and_mask y2 ∧ and_mask y2 ≤ 255 := by
    unfold and_mask poly_base_size; omega
  have hf : hl_first y1 y2 = 256 := by
    unfold hl_first poly_base_size; rw [if_neg (by omega)]
  have fin : ∀ (ey xa ya xb yb : Int), ya ≤ yb → yb - ya ≤ 256 →
      p ∈ hline_pieces ey xa ya xb yb →
      0 ≤ p.dc ∧ p.dc ≤ 256 ∧ 0 ≤ p.da ∧ p.da ≤ 511 * p.dc := by
    intro ey xa ya xb yb h1 h2 h3
    have := hline_bounds_up ey xa ya xb yb h1 p h3
    exact ⟨this.1, by omega, this.2.2.1, this.2.2.2⟩
  by_cases h : shr_base y1 = shr_base y2
  · have hk0 : k = 0 := by omega
    subst hk0
    have e0 : shr_base y1 + hl_incr y1 y2 * ((0 : Nat) : Int) = shr_base y1 := by simp
    rw [e0] at hpl
    unfold row_pieces at hpl
    simp only [if_pos h, if_true] at hpl
    refine fin _ _ _ _ _ ?_ ?_ hpl
    · omega
    · unfold shr_base poly_base_size at h; omega
  · by_cases hk0 : k = 0
    · subst hk0
      have e0 : shr_base y1 + hl_incr y1 y2 * ((0 : Nat) : Int) = shr_base y1 := by simp
      rw [e0, row_first x1 y1 x2 y2 h] at hpl
      exact fin _ _ _ _ _ (by omega) (by omega) hpl
    · by_cases hkn : k = (shr_base y2 - shr_base y1).natAbs
      · have e0 : shr_base y1 + hl_incr y1 y2 * (k : Int) = shr_base y2 := by
          rw [hkn]; exact (hl_ex2 y1 y2).symm
        rw [e0, row_last x1 y1 x2 y2 h] at hpl
        exact fin _ _ _ _ _ (by unfold poly_base_size; omega)
          (by unfold poly_base_size; omega) hpl
      · rw [row_mid x1 y1 x2 y2 k (by omega) (by omega)] at hpl
        exact fin _ _ _ _ _ (by unfold poly_base_size; omega)
          (by unfold poly_base_size; omega) hpl

theorem line_bounds_down (x1 y1 x2 y2 : Int) (hy : y2 ≤ y1) :
    ∀ p ∈ line_pieces x1 y1 x2 y2,
      p.dc ≤ 0 ∧ -256 ≤ p.dc ∧ p.da ≤ 0 ∧ 511 * p.dc ≤ p.da := by
  intro p hp
  have hq : p.neg ∈ line_pieces x2 y2 x1 y1 := by
    rw [line_pieces_reverse x1 y1 x2 y2, List.mem_reverse, List.mem_map]
    exact ⟨p, hp, rfl⟩
  have := line_bounds_up x2 y2 x1 y1 hy p.neg hq
  simp only [Piece.neg] at this
  omega

/-- C20. On a fresh instance whose seed has no cover and no area, for a segment inside the
numeric envelope whose ends are less than `2 ^ 22` apart in `x`, `move_to`, `line_to` and
`sort_cells` return, and every committed cell has a `cover` that is not zero, of magnitude
at most 256 and of the sign of `y2 - y1`, an `area` between 0 and `511 * cover`, and a value
`cover * 512 - area` of the sign of `cover` and of magnitude at most `512 * 256`. -/
theorem C20_cell_range [DecidableEq α] (init : Cell α) (hc : init.cover = 0)
    (ha : init.area = 0) (x1 y1 x2 y2 : Int) (hdx : (x2 - x1).natAbs < 4194304)
    (he : in_envelope x1 ∧ in_envelope y1 ∧ in_envelope x2 ∧ in_envelope y2) :
    ∃ u t, line_to (move_to (fresh init) x1 y1) x2 y2 = some u ∧ sort_cells u = some t ∧
      ∀ c ∈ t.m_cells,
        c.cover ≠ 0 ∧ -256 ≤ c.cover ∧ c.cover ≤ 256 ∧
        (y1 ≤ y2 → 0 < c.cover ∧ 0 ≤ c.area ∧ c.area ≤ 511 * c.cover ∧
          0 < c.cover * 512 - c.area ∧ c.cover * 512 - c.area ≤ 512 * 256) ∧
        (y2 ≤ y1 → c.cover < 0 ∧ 511 * c.cover ≤ c.area ∧ c.area ≤ 0 ∧
          c.cover * 512 - c.area < 0 ∧ -(512 * 256) ≤ c.cover * 512 - c.area) := by
  obtain ⟨u, t, e1, e2, e3, -⟩ := segment_cells init hc ha x1 y1 x2 y2
    (by unfold dx_limit; omega) (envelope_fits x1 y1 x2 y2 he)
  refine ⟨u, t, e1, e2, ?_⟩
  intro c hcm
  rw [e3, List.mem_filter, List.mem_map] at hcm
  obtain ⟨⟨p, hp, rfl⟩, hnz⟩ := hcm
  have hnz2 : p.da ≠ 0 ∨ p.dc ≠ 0 := by
    unfold Cell.nonzero at hnz
    simpa [Piece.toCell] using hnz
  show p.dc ≠ 0 ∧ -256 ≤ p.dc ∧ p.dc ≤ 256 ∧
    (y1 ≤ y2 → 0 < p.dc ∧ 0 ≤ p.da ∧ p.da ≤ 511 * p.dc ∧
      0 < p.dc * 512 - p.da ∧ p.dc * 512 - p.da ≤ 512 * 256) ∧
    (y2 ≤ y1 → p.dc < 0 ∧ 511 * p.dc ≤ p.da ∧ p.da ≤ 0 ∧
      p.dc * 512 - p.da < 0 ∧ -(512 * 256) ≤ p.dc * 512 - p.da)
  rcases le_total y1 y2 with h | h
  · have b := line_bounds_up x1 y1 x2 y2 h p hp
    refine ⟨by omega, by omega, by omega, fun _ => by omega, fun h2 => ?_⟩
    have b2 := line_bounds_down x1 y1 x2 y2 h2 p hp
    omega
  · have b := line_bounds_down x1 y1 x2 y2 h p hp
    refine ⟨by omega, by omega, by omega, fun h2 => ?_, fun _ => by omega⟩
    have b2 := line_bounds_up x1 y1 x2 y2 h2 p hp
    omega

/-- C20 on the segment from `(0, 0)` to `(512, 512)`. -/
theorem C20_cell_range_witness :
    ∃ u t, line_to (move_to (fresh cell0) 0 0) 512 512 = some u ∧ sort_cells u = some t ∧
      ∀ c ∈ t.m_cells,
        c.cover ≠ 0 ∧ -256 ≤ c.cover ∧ c.cover ≤ 256 ∧
        ((0 : Int) ≤ 512 → 0 < c.cover ∧ 0 ≤ c.area ∧ c.area ≤ 511 * c.cover ∧
          0 < c.cover * 512 - c.area ∧ c.cover * 512 - c.area ≤ 512 * 256) ∧
        ((512 : Int) ≤ 0 → c.cover < 0 ∧ 511 * c.cover ≤ c.area ∧ c.area ≤ 0 ∧
          c.cover * 512 - c.area < 0 ∧ -(512 * 256) ≤ c.cover * 512 - c.area) :=
  C20_cell_range cell0 rfl rfl 0 0 512 512 (by decide) (by decide)

/-! ## The scanline crossings of render_line -/

/-- The numerator of the DDA of `render_line` at the `k`-th border that the segment
crosses. -/
theorem ll_num_eq (x1 y1 x2 y2 : Int) (k : Nat) (hk : 1 ≤ k)
    (hkn : k ≤ (shr_base y2 - shr_base y1).natAbs) :
    hl_p y1 x1 y2 x2 + poly_base_size * ((k : Int) - 1) * (x2 - x1) =
      row_t y1 y2 k * (x2 - x1) := by
  unfold row_t
  rw [if_neg (by omega), if_pos hkn]
  unfold hl_p
  split <;> ring

theorem render_line_loop_calls_done (ey2 incr dy lift rem first : Int) (fuel : Nat)
    (x_from mod : Int) :
    render_line_loop_calls ey2 incr dy lift rem first fuel ey2 x_from mod =
      some ([], [], ey2, x_from) := by
  cases fuel <;> simp [render_line_loop_calls]

theorem render_line_loop_calls_closed (x1 y1 x2 y2 : Int) (h : shr_base y1 ≠ shr_base y2) :
    ∀ (j k : Nat), k + j = (shr_base y2 - shr_base y1).natAbs → 1 ≤ k →
      render_line_loop_calls (shr_base y2) (hl_incr y1 y2) (hl_dx y1 y2)
        ((poly_base_size * (x2 - x1)) / hl_dx y1 y2)
        ((poly_base_size * (x2 - x1)) % hl_dx y1 y2) (hl_first y1 y2)
        j (shr_base y1 + hl_incr y1 y2 * k) (hl_Y y1 x1 y2 x2 k)
        ((hl_p y1 x1 y2 x2 + poly_base_size * ((k : Int) - 1) * (x2 - x1)) % hl_dx y1 y2
          - hl_dx y1 y2) =
      some ((List.range' k j).map (fun (i : Nat) =>
          (⟨shr_base y1 + hl_incr y1 y2 * (i : Int), hl_Y y1 x1 y2 x2 i,
            poly_base_size - hl_first y1 y2, hl_Y y1 x1 y2 x2 (i + 1),
            hl_first y1 y2⟩ : HCall)),
        (List.range' k j).map (fun (i : Nat) =>
          (hl_p y1 x1 y2 x2 + poly_base_size * (((i + 1 : Nat) : Int) - 1) * (x2 - x1))
            % hl_dx y1 y2 - hl_dx y1 y2),
        shr_base y2, hl_Y y1 x1 y2 x2 (shr_base y2 - shr_base y1).natAbs) := by
  have hD := hl_dx_pos y1 y2 h
  have hex2 := hl_ex2 y1 y2
  intro j
  induction j with
  | zero =>
    intro k hkj hk
    have hkn : k = (shr_base y2 - shr_base y1).natAbs := by omega
    have he : shr_base y1 + hl_incr y1 y2 * (k : Int) = shr_base y2 := by
      rw [hkn]; exact hex2.symm
    rw [he, render_line_loop_calls_done, ← hkn]
    rfl
  | succ j ih =>
    intro k hkj hk
    have hkn : k < (shr_base y2 - shr_base y1).natAbs := by omega
    have hi : hl_incr y1 y2 = 1 ∨ hl_incr y1 y2 = -1 := by
      unfold hl_incr; split <;> simp
    have hne : shr_base y1 + hl_incr y1 y2 * (k : Int) ≠ shr_base y2 := by
      rw [hex2]
      rcases hi with hi | hi <;> rw [hi] <;> omega
    rw [render_line_loop_calls, if_neg hne]
    dsimp only
    obtain ⟨hq, hr⟩ := ediv_add_step
      (hl_p y1 x1 y2 x2 + poly_base_size * ((k : Int) - 1) * (x2 - x1))
      (poly_base_size * (x2 - x1)) (hl_dx y1 y2) hD
    have eN : hl_p y1 x1 y2 x2 + poly_base_size * ((k : Int) - 1) * (x2 - x1) +
        poly_base_size * (x2 - x1) =
        hl_p y1 x1 y2 x2 + poly_base_size * (((k + 1 : Nat) : Int) - 1) * (x2 - x1) := by
      push_cast; ring
    rw [eN] at hq hr
    have hdelta : hl_Y y1 x1 y2 x2 (k + 1) - hl_Y y1 x1 y2 x2 k =
        (if (hl_p y1 x1 y2 x2 + poly_base_size * ((k : Int) - 1) * (x2 - x1)) % hl_dx y1 y2
            - hl_dx y1 y2 + (poly_base_size * (x2 - x1)) % hl_dx y1 y2 ≥ 0
          then (poly_base_size * (x2 - x1)) / hl_dx y1 y2 + 1
          else (poly_base_size * (x2 - x1)) / hl_dx y1 y2) := by
      unfold hl_Y
      rw [hq]
      split <;> ring
    rw [← hr, ← hdelta]
    have ex1 : hl_Y y1 x1 y2 x2 k + (hl_Y y1 x1 y2 x2 (k + 1) - hl_Y y1 x1 y2 x2 k) =
        hl_Y y1 x1 y2 x2 (k + 1) := by ring
    have ey1 : shr_base y1 + hl_incr y1 y2 * (k : Int) + hl_incr y1 y2 =
        shr_base y1 + hl_incr y1 y2 * ((k + 1 : Nat) : Int) := by push_cast; ring
    rw [ex1, ey1, ih (k + 1) (by omega) (by omega)]
    rfl

theorem render_line_loop_calls_head (ey2 incr dy lift rem first : Int) (fuel : Nat)
    (ey1 xf mod : Int) (r : List HCall × List Int × Int × Int) (cl : HCall)
    (h : render_line_loop_calls ey2 incr dy lift rem first fuel ey1 xf mod = some r)
    (h1 : cl.ey = r.2.2.1) (h2 : cl.x1 = r.2.2.2) :
    ∃ c L, r.1 ++ [cl] = c :: L ∧ c.ey = ey1 ∧ c.x1 = xf := by
  cases fuel with
  | zero =>
    rw [render_line_loop_calls] at h
    split at h
    · cases h
      exact ⟨cl, [], rfl, h1, h2⟩
    · cases h
  | succ fuel =>
    rw [render_line_loop_calls] at h
    split at h
    · cases h
      exact ⟨cl, [], rfl, h1, h2⟩
    · dsimp only at h
      split at h
      · cases h
      · cases h
        exact ⟨_, _, rfl, rfl, rfl⟩

theorem render_line_loop_run (ey2 incr dy lift rem first : Int) :
    ∀ (fuel : Nat) (s : State α) (ey1 xf mod : Int) (r : List HCall × List Int × Int × Int)
      (cl : HCall),
      render_line_loop_calls ey2 incr dy lift rem first fuel ey1 xf mod = some r →
      cl.ey = r.2.2.1 → cl.x1 = r.2.2.2 →
      (match render_line_loop ey2 incr dy lift rem first fuel s ey1 xf mod with
        | none => none
        | some q => render_hline q.1 q.2.1 q.2.2 cl.y1 cl.x2 cl.y2) =
      hline_run s (r.1 ++ [cl]) := by
  intro fuel
  induction fuel with
  | zero =>
    intro s ey1 xf mod r cl h h1 h2
    rw [render_line_loop_calls] at h
    rw [render_line_loop]
    split at h
    · rename_i he
      cases h
      rw [if_pos he]
      show render_hline s ey1 xf cl.y1 cl.x2 cl.y2 = render_hline s cl.ey cl.x1 cl.y1 cl.x2 cl.y2
      rw [h1, h2]
    · cases h
  | succ fuel ih =>
    intro s ey1 xf mod r cl h h1 h2
    rw [render_line_loop_calls] at h
    rw [render_line_loop]
    split at h
    · rename_i he
      cases h
      rw [if_pos he]
      show render_hline s ey1 xf cl.y1 cl.x2 cl.y2 = render_hline s cl.ey cl.x1 cl.y1 cl.x2 cl.y2
      rw [h1, h2]
    · rename_i he
      rw [if_neg he]
      dsimp only at h ⊢
      split at h
      · cases h
      · rename_i r2 hr2
        cases h
        obtain ⟨c2, L, hL, hc1, hc2⟩ := render_line_loop_calls_head _ _ _ _ _ _ _ _ _ _ r2 cl hr2
          h1 h2
        have ih2 := fun t => ih t _ _ _ r2 cl hr2 h1 h2
        show _ = hline_run s (_ :: (r2.1 ++ [cl]))
        rw [hL] at ih2 ⊢
        rw [hline_run]
        dsimp only
        cases hh : render_hline s ey1 xf (poly_base_size - first)
            (xf + if mod + rem ≥ 0 then lift + 1 else lift) first with
        | none => rfl
        | some t =>
          dsimp only
          rw [hc1, hc2]
          exact ih2 _

theorem render_line_body_run (s : State α) (x1 y1 x2 y2 : Int)
    (hey : shr_base y1 ≠ shr_base y2) (hx : x2 - x1 ≠ 0) (r : List HCall × List Int)
    (h : render_line_calls x1 y1 x2 y2 = some r) :
    render_line_body s x1 y1 x2 y2 = hline_run s r.1 := by
  unfold render_line_calls at h
  unfold render_line_body
  dsimp only at h ⊢
  rw [if_neg hey, if_neg hx]
  by_cases hne : shr_base y1 + (if y2 - y1 < 0 then (-1 : Int) else 1) ≠ shr_base y2
  · rw [if_pos hne] at h
    simp only [if_pos hne]
    split at h
    · cases h
    · rename_i r2 hr2
      cases h
      obtain ⟨c2, L, hL, hc1, hc2⟩ := render_line_loop_calls_head _ _ _ _ _ _ _ _ _ _ r2
        ⟨r2.2.2.1, r2.2.2.2, poly_base_size - (if y2 - y1 < 0 then 0 else poly_base_size), x2,
          and_mask y2⟩ hr2 rfl rfl
      have run := fun (t : State α) => render_line_loop_run _ _ _ _ _ _ _ t _ _ _ r2
        ⟨r2.2.2.1, r2.2.2.2, poly_base_size - (if y2 - y1 < 0 then 0 else poly_base_size), x2,
          and_mask y2⟩ hr2 rfl rfl
      dsimp only
      rw [hL] at run ⊢
      rw [hline_run]
      dsimp only
      cases hh : render_hline s (shr_base y1) x1 (and_mask y1)
          (x1 + (div_mod_adjust
            (if y2 - y1 < 0 then and_mask y1 * (x2 - x1)
              else (poly_base_size - and_mask y1) * (x2 - x1))
            (if y2 - y1 < 0 then -(y2 - y1) else y2 - y1)).1)
          (if y2 - y1 < 0 then 0 else poly_base_size) with
      | none => rfl
      | some t =>
        dsimp only
        rw [hc1, hc2]
        exact run _
  · rw [if_neg hne] at h
    simp only [if_neg hne]
    cases h
    dsimp only
    rw [List.nil_append, hline_run]
    dsimp only
    cases hh : render_hline s (shr_base y1) x1 (and_mask y1)
        (x1 + (div_mod_adjust
          (if y2 - y1 < 0 then and_mask y1 * (x2 - x1)
            else (poly_base_size - and_mask y1) * (x2 - x1))
          (if y2 - y1 < 0 then -(y2 - y1) else y2 - y1)).1)
        (if y2 - y1 < 0 then 0 else poly_base_size) with
    | none => rfl
    | some t =>
      dsimp only
      rw [hline_run]

theorem fl_eq_floor (a b : Int) (hb : b ≠ 0) : fl a b = ⌊((a : Int) : ℚ) / ((b : Int) : ℚ)⌋ := by
  unfold fl
  by_cases h : 0 < b
  · rw [if_pos h]
    have e : ((b.toNat : Nat) : Int) = b := Int.toNat_of_nonneg (le_of_lt h)
    have e2 : ((b.toNat : Nat) : ℚ) = ((b : Int) : ℚ) := by exact_mod_cast e
    have := Rat.floor_intCast_div_natCast a b.toNat
    rw [e, e2] at this
    exact this.symm
  · rw [if_neg h]
    have h2 : 0 < -b := by omega
    have e : (((-b).toNat : Nat) : Int) = -b := Int.toNat_of_nonneg (le_of_lt h2)
    have e2 : (((-b).toNat : Nat) : ℚ) = ((-b : Int) : ℚ) := by exact_mod_cast e
    have := Rat.floor_intCast_div_natCast (-a) (-b).toNat
    rw [e, e2] at this
    rw [← this]
    push_cast
    rw [neg_div_neg_eq]

theorem render_line_calls_closed (x1 y1 x2 y2 : Int) (hey : shr_base y1 ≠ shr_base y2) :
    render_line_calls x1 y1 x2 y2 = some
      ((List.range ((shr_base y2 - shr_base y1).natAbs + 1)).map (fun (k : Nat) =>
          (⟨shr_base y1 + hl_incr y1 y2 * (k : Int), row_x x1 y1 x2 y2 k,
            if k = 0 then and_mask y1 else poly_base_size - hl_first y1 y2,
            row_x x1 y1 x2 y2 (k + 1),
            if k = (shr_base y2 - shr_base y1).natAbs then and_mask y2
              else hl_first y1 y2⟩ : HCall)),
        (List.range (shr_base y2 - shr_base y1).natAbs).map (fun (k : Nat) =>
          (row_t y1 y2 (k + 1) * (x2 - x1)) % hl_dx y1 y2 -
            (if k = 0 then 0 else hl_dx y1 y2))) := by
  have hD := hl_dx_pos y1 y2 hey
  have hex2 := hl_ex2 y1 y2
  have hi : hl_incr y1 y2 = 1 ∨ hl_incr y1 y2 = -1 := by
    unfold hl_incr; split <;> simp
  obtain ⟨n, hn⟩ : ∃ n, (shr_base y2 - shr_base y1).natAbs = n + 1 :=
    ⟨(shr_base y2 - shr_base y1).natAbs - 1, by omega⟩
  have hfuel : (shr_base y2 - (shr_base y1 + hl_incr y1 y2)).natAbs = n := by
    unfold hl_incr shr_base poly_base_size at *
    split <;> omega
  have e1 : shr_base y1 + hl_incr y1 y2 * ((1 : Nat) : Int) = shr_base y1 + hl_incr y1 y2 := by
    simp
  have eY1 : hl_Y y1 x1 y2 x2 1 = x1 + hl_p y1 x1 y2 x2 / hl_dx y1 y2 := by
    unfold hl_Y; simp
  have eN1 : hl_p y1 x1 y2 x2 % hl_dx y1 y2 - hl_dx y1 y2 =
      (hl_p y1 x1 y2 x2 + poly_base_size * (((1 : Nat) : Int) - 1) * (x2 - x1)) % hl_dx y1 y2
        - hl_dx y1 y2 := by simp
  have hloop := render_line_loop_calls_closed x1 y1 x2 y2 hey n 1 (by omega) (le_refl 1)
  rw [e1, eY1, ← eN1] at hloop
  have key : render_line_calls x1 y1 x2 y2 =
      (match (if shr_base y1 + hl_incr y1 y2 ≠ shr_base y2 then
          render_line_loop_calls (shr_base y2) (hl_incr y1 y2) (hl_dx y1 y2)
            ((poly_base_size * (x2 - x1)) / hl_dx y1 y2)
            ((poly_base_size * (x2 - x1)) % hl_dx y1 y2) (hl_first y1 y2)
            (shr_base y2 - (shr_base y1 + hl_incr y1 y2)).natAbs
            (shr_base y1 + hl_incr y1 y2) (x1 + hl_p y1 x1 y2 x2 / hl_dx y1 y2)
            (hl_p y1 x1 y2 x2 % hl_dx y1 y2 - hl_dx y1 y2)
          else some ([], [], shr_base y1 + hl_incr y1 y2,
            x1 + hl_p y1 x1 y2 x2 / hl_dx y1 y2)) with
        | none => none
        | some r => some ((⟨shr_base y1, x1, and_mask y1, x1 + hl_p y1 x1 y2 x2 / hl_dx y1 y2,
              hl_first y1 y2⟩ : HCall) ::
            (r.1 ++ [⟨r.2.2.1, r.2.2.2, poly_base_size - hl_first y1 y2, x2, and_mask y2⟩]),
            hl_p y1 x1 y2 x2 % hl_dx y1 y2 :: r.2.1)) := by
    have a1 := div_mod_adjust_eq (hl_p y1 x1 y2 x2) (hl_dx y1 y2) hD
    have a2 := div_mod_adjust_eq (poly_base_size * (x2 - x1)) (hl_dx y1 y2) hD
    have b1 : (div_mod_adjust (hl_p y1 x1 y2 x2) (hl_dx y1 y2)).1 =
        hl_p y1 x1 y2 x2 / hl_dx y1 y2 := by rw [a1]
    have b2 : (div_mod_adjust (hl_p y1 x1 y2 x2) (hl_dx y1 y2)).2 =
        hl_p y1 x1 y2 x2 % hl_dx y1 y2 := by rw [a1]
    have b3 : (div_mod_adjust (poly_base_size * (x2 - x1)) (hl_dx y1 y2)).1 =
        (poly_base_size * (x2 - x1)) / hl_dx y1 y2 := by rw [a2]
    have b4 : (div_mod_adjust (poly_base_size * (x2 - x1)) (hl_dx y1 y2)).2 =
        (poly_base_size * (x2 - x1)) % hl_dx y1 y2 := by rw [a2]
    rw [← b1, ← b2, ← b3, ← b4]
    rfl
  rw [key]
  have hrow0 : row_x x1 y1 x2 y2 0 = x1 := by unfold row_x; rw [if_pos rfl]
  have hrowk : ∀ k, 1 ≤ k → k ≤ n + 1 → row_x x1 y1 x2 y2 k = hl_Y y1 x1 y2 x2 k := by
    intro k h1 h2
    unfold row_x; rw [if_neg (by omega), if_pos (by omega)]
  have hrown : row_x x1 y1 x2 y2 (n + 1 + 1) = x2 := by
    unfold row_x; rw [if_neg (by omega), if_neg (by omega)]
  have hnum : ∀ k, 1 ≤ k → k ≤ n + 1 →
      row_t y1 y2 k * (x2 - x1) =
        hl_p y1 x1 y2 x2 + poly_base_size * ((k : Int) - 1) * (x2 - x1) := by
    intro k h1 h2
    exact (ll_num_eq x1 y1 x2 y2 k h1 (by omega)).symm
  have hne : shr_base y1 + hl_incr y1 y2 ≠ shr_base y2 ↔ n ≠ 0 := by
    rw [hex2, hn]
    rcases hi with hi | hi <;> rw [hi] <;> constructor <;> intro h <;> omega
  rw [hn]
  by_cases h0 : n = 0
  · subst h0
    have hq : shr_base y1 + hl_incr y1 y2 = shr_base y2 := by
      by_contra hc
      exact (hne.mp hc) rfl
    rw [if_neg (by rw [hne]; simp)]
    dsimp only
    have hr : List.range (0 + 1 + 1) = [0, 1] := rfl
    have hr1 : List.range (0 + 1) = [0] := rfl
    rw [hr, hr1]
    simp only [List.map, List.nil_append]
    rw [hrow0, hrowk 1 (le_refl _) (le_refl _), hrown, hnum 1 (le_refl _) (le_refl _), eY1,
      e1, hq]
    simp
  · rw [if_pos (hne.mpr h0), hfuel, hloop]
    dsimp only
    rw [hn]
    have hc0 : ((⟨shr_base y1, x1, and_mask y1, x1 + hl_p y1 x1 y2 x2 / hl_dx y1 y2,
        hl_first y1 y2⟩ : HCall)) =
        ⟨shr_base y1 + hl_incr y1 y2 * ((0 : Nat) : Int), row_x x1 y1 x2 y2 0,
          if (0 : Nat) = 0 then and_mask y1 else poly_base_size - hl_first y1 y2,
          row_x x1 y1 x2 y2 (0 + 1),
          if (0 : Nat) = n + 1 then and_mask y2 else hl_first y1 y2⟩ := by
      rw [hrow0, hrowk 1 (le_refl _) (by omega), eY1, if_pos rfl, if_neg (by omega)]
      simp
    have hcl : ((⟨shr_base y2, hl_Y y1 x1 y2 x2 (n + 1), poly_base_size - hl_first y1 y2, x2,
        and_mask y2⟩ : HCall)) =
        ⟨shr_base y1 + hl_incr y1 y2 * ((n + 1 : Nat) : Int), row_x x1 y1 x2 y2 (n + 1),
          if n + 1 = 0 then and_mask y1 else poly_base_size - hl_first y1 y2,
          row_x x1 y1 x2 y2 (n + 1 + 1),
          if n + 1 = n + 1 then and_mask y2 else hl_first y1 y2⟩ := by
      rw [hrown, hrowk (n + 1) (by omega) (le_refl _), if_neg (by omega), if_pos rfl, ← hn,
        ← hex2]
    refine congrArg some (Prod.ext ?_ ?_)
    · show _ :: (_ ++ _) = List.map _ _
      rw [List.range_eq_range', List.range'_succ, List.range'_concat]
      rw [List.map_cons, List.map_append, List.map_singleton, zero_add, ← hc0]
      have e01 : 0 + 1 + n = n + 1 := by omega
      have e11 : 1 + 1 * n = n + 1 := by omega
      rw [e11, ← hcl]
      congr 2
      apply List.map_congr_left
      intro i hi'
      rw [List.mem_range'_1] at hi'
      rw [hrowk i (by omega) (by omega), hrowk (i + 1) (by omega) (by omega),
        if_neg (by omega), if_neg (by omega)]
    · show _ :: _ = List.map _ _
      rw [List.range_eq_range', List.range'_succ, List.map_cons]
      rw [hnum 1 (le_refl _) (by omega)]
      congr 1
      · simp
      · apply List.map_congr_left
        intro i hi'
        rw [List.mem_range'_1] at hi'
        rw [hnum (i + 1) (by omega) (by omega), if_neg (by omega)]

theorem hl_dx_eq_abs (a1 a2 : Int) : hl_dx a1 a2 = |a2 - a1| := by
  unfold hl_dx
  split
  · rw [abs_of_neg (by omega)]
  · rw [abs_of_nonneg (by omega)]

theorem row_t_eq_abs (y1 y2 : Int) (k : Nat)
    (hk : k < (shr_base y2 - shr_base y1).natAbs) :
    row_t y1 y2 (k + 1) =
      |poly_base_size * max (shr_base y1 + hl_incr y1 y2 * (k : Int))
        (shr_base y1 + hl_incr y1 y2 * (k : Int) + hl_incr y1 y2) - y1| := by
  have hm : y1 = poly_base_size * shr_base y1 + and_mask y1 := by
    unfold shr_base and_mask
    exact (Int.ediv_add_emod y1 poly_base_size).symm
  have hm1 : 0 ≤ and_mask y1 ∧ and_mask y1 < poly_base_size := by
    unfold and_mask poly_base_size; omega
  unfold row_t hl_incr
  rw [if_neg (by omega), if_pos (by omega)]
  by_cases hd : y2 - y1 < 0
  · simp only [hd, if_true]
    rw [max_eq_left (by omega)]
    have e : poly_base_size * (shr_base y1 + -1 * (k : Int)) - y1 =
        -(and_mask y1 + poly_base_size * (k : Int)) := by
      generalize shr_base y1 = e at *
      generalize and_mask y1 = f at *
      subst hm; ring
    rw [e, abs_neg, abs_of_nonneg]
    · push_cast; ring
    · unfold poly_base_size at *; omega
  · simp only [hd, if_false]
    rw [max_eq_right (by omega)]
    have e : poly_base_size * (shr_base y1 + 1 * (k : Int) + 1) - y1 =
        poly_base_size - and_mask y1 + poly_base_size * (k : Int) := by
      generalize shr_base y1 = e at *
      generalize and_mask y1 = f at *
      subst hm; ring
    rw [e, abs_of_nonneg]
    · push_cast; ring
    · unfold poly_base_size at *; omega

theorem row_x_cross (x1 y1 x2 y2 : Int) (k : Nat) (hey : shr_base y1 ≠ shr_base y2)
    (hk : k < (shr_base y2 - shr_base y1).natAbs) :
    row_x x1 y1 x2 y2 (k + 1) =
      x1 + fl ((poly_base_size * max (shr_base y1 + hl_incr y1 y2 * (k : Int))
        (shr_base y1 + hl_incr y1 y2 * (k : Int) + hl_incr y1 y2) - y1) * (x2 - x1))
        (y2 - y1) := by
  have hc := cross_in y1 x1 y2 x2 (k + 1) hey
  unfold row_x
  rw [if_neg (by omega), if_pos (by omega), ← hc]
  unfold cross
  congr 3
  unfold hl_incr
  by_cases hd : y2 - y1 < 0
  · simp only [hd, if_true]
    rw [max_eq_left (by omega)]
    push_cast; ring
  · simp only [hd, if_false]
    rw [max_eq_right (by omega)]
    push_cast; ring

/-- C15. For a segment whose ends lie on different scanlines, with `x1 != x2` and
`|x2 - x1| < 2 ^ 22`, the general branch of `render_line` is the run of the calls of
`render_hline` that `render_line_calls` records, one for each scanline from that of `y1`
to that of `y2`; the first starts at `x1`, the last ends at `x2`, and the `x` at which a
call hands over to the next one is `x1 + floor((Y - y1) * (x2 - x1) / (y2 - y1))` for the
border `Y` between their two scanlines, upward and downward alike.  The value of `mod`
recorded at that border, raised by `|y2 - y1|` from the second border on, is the
remainder of `|Y - y1| * (x2 - x1)` by `|y2 - y1|`, which is at least 0 and less than
`|y2 - y1|`. -/
theorem C15_scanline_crossings (fuel : Nat) (s : State α) (x1 y1 x2 y2 : Int)
    (hey : shr_base y1 ≠ shr_base y2) (hx : x1 ≠ x2) (hdx : (x2 - x1).natAbs < 4194304) :
    ∃ calls mods, render_line_calls x1 y1 x2 y2 = some (calls, mods) ∧
      render_line fuel s x1 y1 x2 y2 = hline_run s calls ∧
      calls.length = (shr_base y2 - shr_base y1).natAbs + 1 ∧
      mods.length = (shr_base y2 - shr_base y1).natAbs ∧
      (∃ c, calls[0]? = some c ∧ c.ey = shr_base y1 ∧ c.x1 = x1 ∧ c.y1 = and_mask y1) ∧
      (∃ c, calls[(shr_base y2 - shr_base y1).natAbs]? = some c ∧
        c.ey = shr_base y2 ∧ c.x2 = x2 ∧ c.y2 = and_mask y2) ∧
      ∀ k : Nat, k < (shr_base y2 - shr_base y1).natAbs →
        ∃ c d m, calls[k]? = some c ∧ calls[k + 1]? = some d ∧ mods[k]? = some m ∧
          d.ey = c.ey + (if y2 < y1 then -1 else 1) ∧
          c.y2 = (if y2 < y1 then 0 else 256) ∧ d.y1 = (if y2 < y1 then 256 else 0) ∧
          c.x2 = d.x1 ∧
          d.x1 = x1 + fl ((256 * max c.ey d.ey - y1) * (x2 - x1)) (y2 - y1) ∧
          fl ((256 * max c.ey d.ey - y1) * (x2 - x1)) (y2 - y1) =
            ⌊(((256 * max c.ey d.ey - y1) * (x2 - x1) : Int) : ℚ) / ((y2 - y1 : Int) : ℚ)⌋ ∧
          (if k = 0 then m else m + |y2 - y1|) =
            (|256 * max c.ey d.ey - y1| * (x2 - x1)) % |y2 - y1| ∧
          0 ≤ (if k = 0 then m else m + |y2 - y1|) ∧
          (if k = 0 then m else m + |y2 - y1|) < |y2 - y1| := by
  have closed := render_line_calls_closed x1 y1 x2 y2 hey
  have hD := hl_dx_pos y1 y2 hey
  have hDa := hl_dx_eq_abs y1 y2
  have hyy : y2 - y1 ≠ 0 := by
    intro h0
    have : y1 = y2 := by omega
    exact hey (by rw [this])
  refine ⟨_, _, closed, ?_, by simp, by simp, ?_, ?_, ?_⟩
  · rw [render_line_small fuel s x1 y1 x2 y2 (by unfold dx_limit; omega)]
    exact render_line_body_run s x1 y1 x2 y2 hey (by omega) _ closed
  · refine ⟨_, (by rw [List.getElem?_map, List.getElem?_range (by omega)]; rfl), ?_, ?_, ?_⟩
    · simp
    · show row_x x1 y1 x2 y2 0 = x1
      unfold row_x; rw [if_pos rfl]
    · dsimp only
      exact if_pos rfl
  · refine ⟨_, (by rw [List.getElem?_map, List.getElem?_range (by omega)]; rfl), ?_, ?_, ?_⟩
    · exact (hl_ex2 y1 y2).symm
    · show row_x x1 y1 x2 y2 ((shr_base y2 - shr_base y1).natAbs + 1) = x2
      unfold row_x; rw [if_neg (by omega), if_neg (by omega)]
    · dsimp only
      exact if_pos rfl
  · intro k hk
    have hinc : (if y2 < y1 then (-1 : Int) else 1) = hl_incr y1 y2 := by
      unfold hl_incr
      by_cases hd : y2 < y1
      · rw [if_pos hd, if_pos (by omega)]
      · rw [if_neg hd, if_neg (by omega)]
    have hfirst : (if y2 < y1 then (0 : Int) else 256) = hl_first y1 y2 := by
      unfold hl_first poly_base_size
      by_cases hd : y2 < y1
      · rw [if_pos hd, if_pos (by omega)]
      · rw [if_neg hd, if_neg (by omega)]
    have hfirst2 : (if y2 < y1 then (256 : Int) else 0) = poly_base_size - hl_first y1 y2 := by
      unfold hl_first poly_base_size
      by_cases hd : y2 < y1
      · rw [if_pos hd, if_pos (by omega)]; rfl
      · rw [if_neg hd, if_neg (by omega)]; rfl
    have hey2 : shr_base y1 + hl_incr y1 y2 * ((k + 1 : Nat) : Int) =
        shr_base y1 + hl_incr y1 y2 * (k : Int) + hl_incr y1 y2 := by push_cast; ring
    have h256 : (256 : Int) = poly_base_size := rfl
    refine ⟨_, _, _,
      (by rw [List.getElem?_map, List.getElem?_range (by omega)]; rfl),
      (by rw [List.getElem?_map, List.getElem?_range (by omega)]; rfl),
      (by rw [List.getElem?_map, List.getElem?_range hk]; rfl), ?_⟩
    · dsimp only
      rw [hinc, hfirst, hfirst2, hey2, h256, ← hDa, ← row_t_eq_abs y1 y2 k hk,
        ← row_x_cross x1 y1 x2 y2 k hey hk, if_neg (by omega), if_neg (by omega)]
      refine ⟨rfl, rfl, rfl, rfl, rfl, ?_, ?_, ?_, ?_⟩
      · exact fl_eq_floor _ _ hyy
      · by_cases h0 : k = 0
        · rw [if_pos h0, if_pos h0]; simp
        · rw [if_neg h0, if_neg h0]; ring
      · by_cases h0 : k = 0
        · rw [if_pos h0, if_pos h0, sub_zero]
          exact Int.emod_nonneg _ (by omega)
        · rw [if_neg h0, if_neg h0, sub_add_cancel]
          exact Int.emod_nonneg _ (by omega)
      · by_cases h0 : k = 0
        · rw [if_pos h0, if_pos h0, sub_zero]
          exact Int.emod_lt_of_pos _ hD
        · rw [if_neg h0, if_neg h0, sub_add_cancel]
          exact Int.emod_lt_of_pos _ hD

/-- C15 on the segment from `(0, 0)` to `(300, 600)`, drawn after `move_to(0, 0)` on a
fresh instance. -/
theorem C15_scanline_crossings_witness :
    ∃ calls mods, render_line_calls 0 0 300 600 = some (calls, mods) ∧
      render_line 300 (move_to (fresh cell0) 0 0) 0 0 300 600 =
        hline_run (move_to (fresh cell0) 0 0) calls ∧
      calls.length = (shr_base 600 - shr_base 0).natAbs + 1 ∧
      mods.length = (shr_base 600 - shr_base 0).natAbs ∧
      (∃ c, calls[0]? = some c ∧ c.ey = shr_base 0 ∧ c.x1 = 0 ∧ c.y1 = and_mask 0) ∧
      (∃ c, calls[(shr_base 600 - shr_base 0).natAbs]? = some c ∧
        c.ey = shr_base 600 ∧ c.x2 = 300 ∧ c.y2 = and_mask 600) ∧
      ∀ k : Nat, k < (shr_base 600 - shr_base 0).natAbs →
        ∃ c d m, calls[k]? = some c ∧ calls[k + 1]? = some d ∧ mods[k]? = some m ∧
          d.ey = c.ey + (if (600 : Int) < 0 then -1 else 1) ∧
          c.y2 = (if (600 : Int) < 0 then 0 else 256) ∧
          d.y1 = (if (600 : Int) < 0 then 256 else 0) ∧
          c.x2 = d.x1 ∧
          d.x1 = 0 + fl ((256 * max c.ey d.ey - 0) * (300 - 0)) (600 - 0) ∧
          fl ((256 * max c.ey d.ey - 0) * (300 - 0)) (600 - 0) =
            ⌊(((256 * max c.ey d.ey - 0) * (300 - 0) : Int) : ℚ) / ((600 - 0 : Int) : ℚ)⌋ ∧
          (if k = 0 then m else m + |(600 : Int) - 0|) =
            (|256 * max c.ey d.ey - 0| * (300 - 0)) % |(600 : Int) - 0| ∧
          0 ≤ (if k = 0 then m else m + |(600 : Int) - 0|) ∧
          (if k = 0 then m else m + |(600 : Int) - 0|) < |(600 : Int) - 0| :=
  C15_scanline_crossings 300 (move_to (fresh cell0) 0 0) 0 0 300 600 (by decide) (by decide)
    (by decide)

/-! ## Reset and a fresh instance -/

theorem alike_cur_cell {a b : State α} (h : Alike a b) : a.m_cur_cell = b.m_cur_cell := by
  have := congrArg State.m_cur_cell h.1
  exact this

theorem alike_cells {a b : State α} (h : Alike a b) : a.m_cells = b.m_cells := by
  have := congrArg State.m_cells h.1
  exact this

theorem alike_num_cells {a b : State α} (h : Alike a b) : a.m_num_cells = b.m_num_cells := by
  have := congrArg State.m_num_cells h.1
  exact this

theorem alike_cur_block {a b : State α} (h : Alike a b) : a.m_cur_block = b.m_cur_block := by
  have := congrArg State.m_cur_block h.1
  exact this

theorem alike_sorted {a b : State α} (h : Alike a b) : a.m_sorted = b.m_sorted := by
  have := congrArg State.m_sorted h.1
  exact this

theorem alike_pen {a b : State α} (h : Alike a b) :
    a.m_cur_x = b.m_cur_x ∧ a.m_cur_y = b.m_cur_y := by
  have h1 := congrArg State.m_cur_x h.1
  have h2 := congrArg State.m_cur_y h.1
  exact ⟨h1, h2⟩

theorem alike_seed {a b : State α} (h : Alike a b) : a.m_seed_cell = b.m_seed_cell := by
  have := congrArg State.m_seed_cell h.1
  exact this

theorem alike_acc_add {a b : State α} (h : Alike a b) (dc da : Int) :
    Alike (acc_add a dc da) (acc_add b dc da) := by
  refine ⟨?_, h.2.1, h.2.2⟩
  show acc_add (forget_blocks a) dc da = acc_add (forget_blocks b) dc da
  rw [h.1]

theorem alike_acc_put {a b : State α} (h : Alike a b) (c d : Int) :
    Alike (acc_put a c d) (acc_put b c d) := by
  refine ⟨?_, h.2.1, h.2.2⟩
  show acc_put (forget_blocks a) c d = acc_put (forget_blocks b) c d
  rw [h.1]

theorem alike_store_cur_cell {a b : State α} (h : Alike a b) :
    Alike (store_cur_cell a) (store_cur_cell b) := by
  refine ⟨?_, h.2.1, h.2.2⟩
  show store_cur_cell (forget_blocks a) = store_cur_cell (forget_blocks b)
  rw [h.1]

theorem forget_allocate_block (a : State α) :
    forget_blocks (allocate_block a) =
      { forget_blocks a with m_cur_block := a.m_cur_block + 1 } := by
  unfold allocate_block forget_blocks
  dsimp only
  split_ifs <;> rfl

theorem blocksFit_allocate_block (a : State α) (h : BlocksFit a)
    (hl : ¬ a.m_num_blocks ≥ cell_block_limit) : BlocksFit (allocate_block a) := by
  unfold BlocksFit at *
  unfold allocate_block
  dsimp only
  split_ifs <;> first | omega | (dsimp only; omega)

theorem alike_allocate_block {a b : State α} (h : Alike a b)
    (ha : ¬ a.m_num_blocks ≥ cell_block_limit) (hb : ¬ b.m_num_blocks ≥ cell_block_limit) :
    Alike (allocate_block a) (allocate_block b) := by
  refine ⟨?_, blocksFit_allocate_block a h.2.1 ha, blocksFit_allocate_block b h.2.2 hb⟩
  rw [forget_allocate_block, forget_allocate_block, h.1, alike_cur_block h]

theorem alike_add_cur_cell {a b : State α} (h : Alike a b) :
    Alike (add_cur_cell a) (add_cur_cell b) := by
  have hc := alike_cur_cell h
  have hn := alike_num_cells h
  have hk := alike_cur_block h
  have e : a.m_num_blocks ≥ cell_block_limit ↔ b.m_num_blocks ≥ cell_block_limit := by
    have ha := h.2.1
    have hb := h.2.2
    unfold BlocksFit at ha hb
    constructor <;> intro _ <;> omega
  unfold add_cur_cell
  rw [← hc, ← hn]
  by_cases hz : a.m_cur_cell.area ≠ 0 ∨ a.m_cur_cell.cover ≠ 0
  · rw [if_pos hz, if_pos hz]
    by_cases hm : a.m_num_cells &&& cell_block_mask = 0
    · rw [if_pos hm, if_pos hm]
      by_cases hl : a.m_num_blocks ≥ cell_block_limit
      · rw [if_pos hl, if_pos (e.mp hl)]
        exact h
      · rw [if_neg hl, if_neg (fun h' => hl (e.mpr h'))]
        exact alike_store_cur_cell (alike_allocate_block h hl (fun h' => hl (e.mpr h')))
    · rw [if_neg hm, if_neg hm]
      exact alike_store_cur_cell h
  · rw [if_neg hz, if_neg hz]
    exact h

theorem alike_set_cur_cell {a b : State α} (h : Alike a b) (x y : Int) :
    Alike (set_cur_cell a x y) (set_cur_cell b x y) := by
  have hc := alike_cur_cell h
  unfold set_cur_cell
  rw [← hc]
  by_cases hz : a.m_cur_cell.x ≠ x ∨ a.m_cur_cell.y ≠ y
  · rw [if_pos hz, if_pos hz]
    have h2 := alike_add_cur_cell h
    refine ⟨?_, h2.2.1, h2.2.2⟩
    show { forget_blocks (add_cur_cell a) with
        m_cur_cell := { (forget_blocks (add_cur_cell a)).m_cur_cell with
          x := x, y := y, cover := 0, area := 0 } } =
      { forget_blocks (add_cur_cell b) with
        m_cur_cell := { (forget_blocks (add_cur_cell b)).m_cur_cell with
          x := x, y := y, cover := 0, area := 0 } }
    rw [h2.1]
  · rw [if_neg hz, if_neg hz]
    exact h

theorem render_hline_loop_alike (ey ex2 incr dx lift rem : Int) :
    ∀ (fuel : Nat) (a b : State α) (ex1 y1 mod : Int), Alike a b →
      ∀ ra, render_hline_loop ey ex2 incr dx lift rem fuel a ex1 y1 mod = some ra →
      ∃ rb, render_hline_loop ey ex2 incr dx lift rem fuel b ex1 y1 mod = some rb ∧
        Alike ra.1 rb.1 ∧ ra.2 = rb.2 := by
  intro fuel
  induction fuel with
  | zero =>
    intro a b ex1 y1 mod h ra hra
    rw [render_hline_loop] at hra ⊢
    by_cases he : ex1 = ex2
    · rw [if_pos he] at hra ⊢
      cases hra
      exact ⟨_, rfl, h, rfl⟩
    · rw [if_neg he] at hra
      cases hra
  | succ fuel ih =>
    intro a b ex1 y1 mod h ra hra
    rw [render_hline_loop] at hra ⊢
    by_cases he : ex1 = ex2
    · rw [if_pos he] at hra ⊢
      cases hra
      exact ⟨_, rfl, h, rfl⟩
    · rw [if_neg he] at hra ⊢
      dsimp only at hra ⊢
      exact ih _ _ _ _ _ (alike_set_cur_cell (alike_acc_add h _ _) _ _) ra hra

theorem render_hline_alike {a b : State α} (h : Alike a b) (ey x1 y1 x2 y2 : Int)
    (ta : State α) (hta : render_hline a ey x1 y1 x2 y2 = some ta) :
    ∃ tb, render_hline b ey x1 y1 x2 y2 = some tb ∧ Alike ta tb := by
  unfold render_hline at hta ⊢
  dsimp only at hta ⊢
  by_cases hy : y1 = y2
  · rw [if_pos hy] at hta ⊢
    cases hta
    exact ⟨_, rfl, alike_set_cur_cell h _ _⟩
  · rw [if_neg hy] at hta ⊢
    by_cases hx : shr_base x1 = shr_base x2
    · rw [if_pos hx] at hta ⊢
      cases hta
      exact ⟨_, rfl, alike_acc_add h _ _⟩
    · rw [if_neg hx] at hta ⊢
      by_cases hc : shr_base x1 + (if x2 - x1 < 0 then (-1 : Int) else 1) ≠ shr_base x2
      · rw [if_pos hc] at hta ⊢
        split at hta
        · cases hta
        · rename_i r hr
          cases hta
          obtain ⟨rb, hb, hab, heq⟩ := render_hline_loop_alike _ _ _ _ _ _ _ _ _ _ _ _
            (alike_set_cur_cell (alike_acc_add h _ _) _ _) r hr
          rw [hb]
          dsimp only
          rw [← heq]
          exact ⟨_, rfl, alike_acc_add hab _ _⟩
      · rw [if_neg hc] at hta ⊢
        dsimp only at hta ⊢
        cases hta
        exact ⟨_, rfl, alike_acc_add (alike_set_cur_cell (alike_acc_add h _ _) _ _) _ _⟩

theorem render_line_vloop_alike (ex ey2 incr delta area : Int) :
    ∀ (fuel : Nat) (a b : State α) (ey1 : Int), Alike a b →
      ∀ ta, render_line_vloop ex ey2 incr delta area fuel a ey1 = some ta →
      ∃ tb, render_line_vloop ex ey2 incr delta area fuel b ey1 = some tb ∧ Alike ta tb := by
  intro fuel
  induction fuel with
  | zero =>
    intro a b ey1 h ta hta
    rw [render_line_vloop] at hta ⊢
    by_cases he : ey1 = ey2
    · rw [if_pos he] at hta ⊢
      cases hta
      exact ⟨_, rfl, h⟩
    · rw [if_neg he] at hta
      cases hta
  | succ fuel ih =>
    intro a b ey1 h ta hta
    rw [render_line_vloop] at hta ⊢
    by_cases he : ey1 = ey2
    · rw [if_pos he] at hta ⊢
      cases hta
      exact ⟨_, rfl, h⟩
    · rw [if_neg he] at hta ⊢
      dsimp only at hta ⊢
      exact ih _ _ _ (alike_set_cur_cell (alike_acc_put h _ _) _ _) ta hta

theorem render_line_loop_alike (ey2 incr dy lift rem first : Int) :
    ∀ (fuel : Nat) (a b : State α) (ey1 x_from mod : Int), Alike a b →
      ∀ ra, render_line_loop ey2 incr dy lift rem first fuel a ey1 x_from mod = some ra →
      ∃ rb, render_line_loop ey2 incr dy lift rem first fuel b ey1 x_from mod = some rb ∧
        Alike ra.1 rb.1 ∧ ra.2 = rb.2 := by
  intro fuel
  induction fuel with
  | zero =>
    intro a b ey1 x_from mod h ra hra
    rw [render_line_loop] at hra ⊢
    by_cases he : ey1 = ey2
    · rw [if_pos he] at hra ⊢
      cases hra
      exact ⟨_, rfl, h, rfl⟩
    · rw [if_neg he] at hra
      cases hra
  | succ fuel ih =>
    intro a b ey1 x_from mod h ra hra
    rw [render_line_loop] at hra ⊢
    by_cases he : ey1 = ey2
    · rw [if_pos he] at hra ⊢
      cases hra
      exact ⟨_, rfl, h, rfl⟩
    · rw [if_neg he] at hra ⊢
      dsimp only at hra ⊢
      split at hra
      · cases hra
      · rename_i t ht
        obtain ⟨tb, hb, hab⟩ := render_hline_alike h _ _ _ _ _ t ht
        rw [hb]
        dsimp only
        exact ih _ _ _ _ _ (alike_set_cur_cell hab _ _) ra hra

theorem render_line_body_alike {a b : State α} (h : Alike a b) (x1 y1 x2 y2 : Int)
    (ta : State α) (hta : render_line_body a x1 y1 x2 y2 = some ta) :
    ∃ tb, render_line_body b x1 y1 x2 y2 = some tb ∧ Alike ta tb := by
  unfold render_line_body at hta ⊢
  dsimp only at hta ⊢
  by_cases hey : shr_base y1 = shr_base y2
  · rw [if_pos hey] at hta ⊢
    exact render_hline_alike h _ _ _ _ _ ta hta
  · rw [if_neg hey] at hta ⊢
    by_cases hdx : x2 - x1 = 0
    · rw [if_pos hdx] at hta ⊢
      split at hta
      · cases hta
      · rename_i t ht
        cases hta
        obtain ⟨tb, hb, hab⟩ := render_line_vloop_alike _ _ _ _ _ _ _ _ _
          (alike_set_cur_cell (alike_acc_add h _ _) _ _) t ht
        rw [hb]
        exact ⟨_, rfl, alike_acc_add hab _ _⟩
    · rw [if_neg hdx] at hta ⊢
      split at hta
      · cases hta
      · rename_i t ht
        obtain ⟨tb, hb, hab⟩ := render_hline_alike h _ _ _ _ _ t ht
        rw [hb]
        dsimp only at hta ⊢
        by_cases hc : shr_base y1 + (if y2 - y1 < 0 then (-1 : Int) else 1) ≠ shr_base y2
        · rw [if_pos hc] at hta ⊢
          split at hta
          · cases hta
          · rename_i r hr
            obtain ⟨rb, hrb, hrab, heq⟩ := render_line_loop_alike _ _ _ _ _ _ _ _ _ _ _ _
              (alike_set_cur_cell hab _ _) r hr
            rw [hrb]
            dsimp only
            rw [← heq]
            exact render_hline_alike hrab _ _ _ _ _ ta hta
        · rw [if_neg hc] at hta ⊢
          dsimp only at hta ⊢
          exact render_hline_alike (alike_set_cur_cell hab _ _) _ _ _ _ _ ta hta

theorem render_line_alike :
    ∀ (fuel : Nat) (a b : State α) (x1 y1 x2 y2 : Int), Alike a b →
      ∀ ta, render_line fuel a x1 y1 x2 y2 = some ta →
      ∃ tb, render_line fuel b x1 y1 x2 y2 = some tb ∧ Alike ta tb := by
  intro fuel
  induction fuel with
  | zero =>
    intro a b x1 y1 x2 y2 h ta hta
    rw [render_line] at hta ⊢
    by_cases hd : x2 - x1 ≥ dx_limit ∨ x2 - x1 ≤ -dx_limit
    · rw [if_pos hd] at hta
      cases hta
    · rw [if_neg hd] at hta ⊢
      exact render_line_body_alike h _ _ _ _ ta hta
  | succ fuel ih =>
    intro a b x1 y1 x2 y2 h ta hta
    rw [render_line] at hta ⊢
    dsimp only at hta ⊢
    by_cases hd : x2 - x1 ≥ dx_limit ∨ x2 - x1 ≤ -dx_limit
    · rw [if_pos hd] at hta ⊢
      split at hta
      · cases hta
      · rename_i t1 ht1
        obtain ⟨u1, hu1, hab1⟩ := ih _ _ _ _ _ _ h t1 ht1
        rw [hu1]
        dsimp only at hta ⊢
        split at hta
        · cases hta
        · rename_i t2 ht2
          obtain ⟨u2, hu2, hab2⟩ := ih _ _ _ _ _ _ hab1 t2 ht2
          rw [hu2]
          exact render_line_body_alike hab2 _ _ _ _ ta hta
    · rw [if_neg hd] at hta ⊢
      exact render_line_body_alike h _ _ _ _ ta hta

theorem line_to_alike {a b : State α} (h : Alike a b) (x y : Int) (ta : State α)
    (hta : line_to a x y = some ta) :
    ∃ tb, line_to b x y = some tb ∧ Alike ta tb ∧ ta.m_sorted = false := by
  unfold line_to at hta ⊢
  rw [← (alike_pen h).1, ← (alike_pen h).2]
  split at hta
  · cases hta
  · rename_i t ht
    cases hta
    obtain ⟨tb, hb, hab⟩ := render_line_alike _ _ _ _ _ _ _ h t ht
    rw [hb]
    refine ⟨_, rfl, ⟨?_, hab.2.1, hab.2.2⟩, rfl⟩
    show { forget_blocks t with m_cur_x := x, m_cur_y := y, m_sorted := false } =
      { forget_blocks tb with m_cur_x := x, m_cur_y := y, m_sorted := false }
    rw [hab.1]

theorem move_to_alike [DecidableEq α] {a b : State α} (h : Alike a b)
    (hs : a.m_sorted = false) (x y : Int) :
    Alike (move_to a x y) (move_to b x y) ∧ (move_to a x y).m_sorted = false := by
  have hsb : b.m_sorted = false := by rw [← alike_sorted h]; exact hs
  have hc := alike_cur_cell h
  have hseed := alike_seed h
  unfold move_to
  simp only [hs, hsb, Bool.false_eq_true, if_false]
  rw [← hc, ← hseed]
  by_cases hz : a.m_cur_cell.x ≠ shr_base x ∨ a.m_cur_cell.y ≠ shr_base y ∨
      a.m_cur_cell ≠ a.m_seed_cell
  · rw [if_pos hz, if_pos hz]
    have h2 := alike_add_cur_cell h
    have hseed2 : (add_cur_cell a).m_seed_cell = (add_cur_cell b).m_seed_cell :=
      alike_seed h2
    refine ⟨⟨?_, h2.2.1, h2.2.2⟩, ?_⟩
    · show { forget_blocks (add_cur_cell a) with
          m_cur_cell := { (forget_blocks (add_cur_cell a)).m_seed_cell with
            x := shr_base x, y := shr_base y, cover := 0, area := 0 },
          m_cur_x := x, m_cur_y := y } =
        { forget_blocks (add_cur_cell b) with
          m_cur_cell := { (forget_blocks (add_cur_cell b)).m_seed_cell with
            x := shr_base x, y := shr_base y, cover := 0, area := 0 },
          m_cur_x := x, m_cur_y := y }
      rw [h2.1]
    · show (add_cur_cell a).m_sorted = false
      rw [add_cur_cell_sorted, hs]
  · rw [if_neg hz, if_neg hz]
    refine ⟨⟨?_, h.2.1, h.2.2⟩, hs⟩
    show { forget_blocks a with m_cur_x := x, m_cur_y := y } =
      { forget_blocks b with m_cur_x := x, m_cur_y := y }
    rw [h.1]

theorem run_path_alike [DecidableEq α] (ops : List PathOp) :
    ∀ (a b : State α), Alike a b → a.m_sorted = false →
      ∀ ta, run_path a ops = some ta →
      ∃ tb, run_path b ops = some tb ∧ Alike ta tb ∧ ta.m_sorted = false := by
  induction ops with
  | nil =>
    intro a b h hs ta hta
    rw [run_path] at hta ⊢
    cases hta
    exact ⟨_, rfl, h, hs⟩
  | cons op ops ih =>
    intro a b h hs ta hta
    rw [run_path] at hta ⊢
    cases op with
    | move_to x y =>
      simp only [apply_op] at hta ⊢
      obtain ⟨h1, h2⟩ := move_to_alike h hs x y
      exact ih _ _ h1 h2 ta hta
    | line_to x y =>
      simp only [apply_op] at hta ⊢
      split at hta
      · cases hta
      · rename_i t ht
        obtain ⟨tb, hb, hab, hsf⟩ := line_to_alike h x y t ht
        rw [hb]
        exact ih _ _ hab hsf ta hta

theorem run_path_total [DecidableEq α] (ops : List PathOp) :
    ∀ (s : State α), ∃ t, run_path s ops = some t := by
  induction ops with
  | nil => intro s; exact ⟨s, rfl⟩
  | cons op ops ih =>
    intro s
    rw [run_path]
    cases op with
    | move_to x y =>
      simp only [apply_op]
      exact ih _
    | line_to x y =>
      simp only [apply_op]
      obtain ⟨t, ht, -⟩ := line_to_prim s x y
      rw [ht]
      exact ih _

theorem run_path_reachable [DecidableEq α] (init : Cell α) (ops : List PathOp) :
    ∀ (s t : State α), Reachable init s → run_path s ops = some t → Reachable init t := by
  induction ops with
  | nil =>
    intro s t hs ht
    rw [run_path] at ht
    cases ht
    exact hs
  | cons op ops ih =>
    intro s t hs ht
    rw [run_path] at ht
    cases op with
    | move_to x y =>
      simp only [apply_op] at ht
      exact ih _ _ (Reachable.move_to x y hs) ht
    | line_to x y =>
      simp only [apply_op] at ht
      split at ht
      · cases ht
      · rename_i u hu
        exact ih _ _ (Reachable.line_to x y hs hu) ht

theorem add_cur_cell_empty (s : State α) (hc : s.m_cur_cell.cover = 0)
    (ha : s.m_cur_cell.area = 0) : add_cur_cell s = s := by
  unfold add_cur_cell
  rw [if_neg (by rw [hc, ha]; simp)]

/-- What the guard of `add_cur_cell` does after `reset()` on an instance in which
`cell_block_limit` blocks are allocated: no block is in use, and the cell is refused. -/
theorem add_cur_cell_full (s : State α) (hn : s.m_num_cells = 0)
    (hb : s.m_num_blocks ≥ cell_block_limit) : add_cur_cell s = s := by
  have hm : s.m_num_cells &&& cell_block_mask = 0 := by rw [hn]; rfl
  unfold add_cur_cell
  by_cases hz : s.m_cur_cell.area ≠ 0 ∨ s.m_cur_cell.cover ≠ 0
  · rw [if_pos hz, if_pos hm, if_pos hb]
  · rw [if_neg hz]

theorem move_to_empty [DecidableEq α] (u : State α) (x y : Int) (hs : u.m_sorted = false)
    (hc : u.m_cur_cell.cover = 0) (ha : u.m_cur_cell.area = 0) :
    move_to u x y =
      { u with
        m_cur_cell := { u.m_seed_cell with
          x := shr_base x, y := shr_base y, cover := 0, area := 0 },
        m_cur_x := x, m_cur_y := y } := by
  unfold move_to
  rw [if_neg (show ¬ (u.m_sorted = true) by rw [hs]; simp)]
  dsimp only
  by_cases hz : u.m_cur_cell.x ≠ shr_base x ∨ u.m_cur_cell.y ≠ shr_base y ∨
      u.m_cur_cell ≠ u.m_seed_cell
  · rw [if_pos hz, add_cur_cell_empty u hc ha]
  · rw [if_neg hz]
    have h1 : u.m_cur_cell.x = shr_base x := by
      by_contra h; exact hz (Or.inl h)
    have h2 : u.m_cur_cell.y = shr_base y := by
      by_contra h; exact hz (Or.inr (Or.inl h))
    have h3 : u.m_cur_cell = u.m_seed_cell := by
      by_contra h; exact hz (Or.inr (Or.inr h))
    have e : u.m_cur_cell = { u.m_seed_cell with
        x := shr_base x, y := shr_base y, cover := 0, area := 0 } := by
      rw [← h3]
      clear hz h3
      generalize u.m_cur_cell = c at *
      obtain ⟨cx, cy, cc, ca, cu⟩ := c
      simp only at h1 h2 hc ha
      subst h1 h2 hc ha
      rfl
    rw [← e]

theorem alike_first_move [DecidableEq α] (init : Cell α) (s : State α)
    (hi : init.cover = 0 ∧ init.area = 0)
    (hseed : s.m_seed_cell.cover = 0 ∧ s.m_seed_cell.area = 0)
    (hb : s.m_num_blocks < cell_block_limit) (x y : Int) :
    Alike (move_to (reset s) x y) (move_to (seed_cell (fresh init) s.m_seed_cell) x y) ∧
      (move_to (reset s) x y).m_sorted = false := by
  rw [move_to_empty (reset s) x y rfl hseed.1 hseed.2,
    move_to_empty (seed_cell (fresh init) s.m_seed_cell) x y rfl hi.1 hi.2]
  refine ⟨⟨rfl, Or.inr ⟨Nat.zero_le _, hb⟩, Or.inl rfl⟩, rfl⟩

theorem sort_cells_alike {a b u v : State α} (h : Alike a b) (hs : a.m_sorted = false)
    (hu : sort_cells a = some u) (hv : sort_cells b = some v) :
    u.m_cells = v.m_cells ∧ total_cells u = total_cells v := by
  have hsb : b.m_sorted = false := by rw [← alike_sorted h]; exact hs
  have h2 := alike_add_cur_cell h
  have c := alike_cells h2
  have n := alike_num_cells h2
  have eu : u.m_cells = (add_cur_cell a).m_cells ∧
      u.m_num_cells = (add_cur_cell a).m_num_cells := by
    rcases sort_cells_unsorted hu hs with e | ⟨sc, sy, e⟩ <;> rw [e] <;> exact ⟨rfl, rfl⟩
  have ev : v.m_cells = (add_cur_cell b).m_cells ∧
      v.m_num_cells = (add_cur_cell b).m_num_cells := by
    rcases sort_cells_unsorted hv hsb with e | ⟨sc, sy, e⟩ <;> rw [e] <;> exact ⟨rfl, rfl⟩
  unfold total_cells
  rw [eu.1, eu.2, ev.1, ev.2]
  exact ⟨c, n⟩

/-- What else `reset()` keeps: it leaves the pen where the last call put it, and the
accumulator takes the cover of the seed cell.  After `move_to(0, 256); reset()` the
path `line_to(512, 0)` commits two cells, and none on a fresh instance, whose pen is at
`(0, 0)`; with a seed cell of cover 5 at pixel `(0, 0)`, `reset(); move_to(0, 0)` commits
the seed cell, and a fresh instance given the same seed cell commits nothing. -/
theorem reset_keeps_pen_and_seed :
    Reachable cell0 (move_to (fresh cell0) 0 256) ∧
    (move_to (fresh cell0) 0 256).m_num_blocks = 0 ∧
    (move_to (fresh cell0) 0 256).m_seed_cell = cell0 ∧
    ((run_path (reset (move_to (fresh cell0) 0 256)) [PathOp.line_to 512 0]).bind
      sort_cells).map State.m_cells =
        some [⟨0, 0, -128, -32768, ()⟩, ⟨1, 0, -128, -32768, ()⟩] ∧
    ((run_path (seed_cell (fresh cell0) cell0) [PathOp.line_to 512 0]).bind
      sort_cells).map State.m_cells = some [] ∧
    Reachable cell0 (seed_cell (fresh cell0) seed5) ∧
    ((run_path (reset (seed_cell (fresh cell0) seed5)) [PathOp.move_to 0 0]).bind
      sort_cells).map State.m_cells = some [⟨0, 0, 5, 0, ()⟩] ∧
    ((run_path (seed_cell (fresh cell0) seed5) [PathOp.move_to 0 0]).bind
      sort_cells).map State.m_cells = some [] :=
  ⟨Reachable.move_to 0 256 Reachable.fresh, by decide, by decide, by decide, by decide,
    Reachable.seed_cell seed5 Reachable.fresh, by decide, by decide⟩

/-- Where `reset()` does give a fresh instance.  For a state reachable from a fresh
instance in which fewer than `cell_block_limit` blocks are allocated and whose seed cell
has no cover and no area (as the initial cell has none), `reset()` and then a path inside
the numeric envelope that begins with `move_to`, followed by `sort_cells()`, returns and
commits the same cells, in the same order, as the same path and `sort_cells()` on a fresh
instance given the same seed cell. -/
theorem reset_equivalence_below_limit [DecidableEq α] (init : Cell α) (s : State α)
    (h : Reachable init s) (hi : init.cover = 0 ∧ init.area = 0)
    (hseed : s.m_seed_cell.cover = 0 ∧ s.m_seed_cell.area = 0)
    (hb : s.m_num_blocks < cell_block_limit) (x y : Int) (ops : List PathOp)
    (_he : path_in_envelope (PathOp.move_to x y :: ops)) :
    ∃ t u t' u',
      run_path (reset s) (PathOp.move_to x y :: ops) = some t ∧ sort_cells t = some u ∧
      run_path (seed_cell (fresh init) s.m_seed_cell) (PathOp.move_to x y :: ops) = some t' ∧
      sort_cells t' = some u' ∧
      u.m_cells = u'.m_cells ∧ total_cells u = total_cells u' := by
  obtain ⟨h1, h2⟩ := alike_first_move init s hi hseed hb x y
  obtain ⟨t, ht⟩ := run_path_total ops (move_to (reset s) x y)
  obtain ⟨t', ht', hab, hsf⟩ := run_path_alike ops _ _ h1 h2 t ht
  have r1 : Reachable init t :=
    run_path_reachable init ops _ t (Reachable.move_to x y (Reachable.reset h)) ht
  have r2 : Reachable init t' :=
    run_path_reachable init ops _ t'
      (Reachable.move_to x y (Reachable.seed_cell s.m_seed_cell Reachable.fresh)) ht'
  obtain ⟨u, hu⟩ := sort_cells_total t (inv_reachable r1).1 (inv_reachable r1).2
  obtain ⟨u', hu'⟩ := sort_cells_total t' (inv_reachable r2).1 (inv_reachable r2).2
  have e := sort_cells_alike hab hsf hu hu'
  refine ⟨t, u, t', u', ?_, hu, ?_, hu', e.1, e.2⟩
  · rw [run_path]
    exact ht
  · rw [run_path]
    exact ht'


/-! ## The accumulator and the pen -/

theorem render_hline_loop_at (ey ex2 incr dx lift rem : Int) :
    ∀ (fuel : Nat) (s : State α) (ex1 y1 mod : Int) (r : State α × Int),
      s.m_cur_cell.x = ex1 → s.m_cur_cell.y = ey →
      render_hline_loop ey ex2 incr dx lift rem fuel s ex1 y1 mod = some r →
      r.1.m_cur_cell.x = ex2 ∧ r.1.m_cur_cell.y = ey := by
  intro fuel
  induction fuel with
  | zero =>
    intro s ex1 y1 mod r hx hy h
    rw [render_hline_loop] at h
    by_cases he : ex1 = ex2
    · rw [if_pos he] at h
      cases h
      exact ⟨hx.trans he, hy⟩
    · rw [if_neg he] at h
      cases h
  | succ fuel ih =>
    intro s ex1 y1 mod r hx hy h
    rw [render_hline_loop] at h
    by_cases he : ex1 = ex2
    · rw [if_pos he] at h
      cases h
      exact ⟨hx.trans he, hy⟩
    · rw [if_neg he] at h
      dsimp only at h
      exact ih _ _ _ _ r (set_cur_cell_x _ _ _) (set_cur_cell_y _ _ _) h

theorem render_hline_at (s t : State α) (ey x1 y1 x2 y2 : Int)
    (hp : shr_base x1 = shr_base x2 → y1 ≠ y2 →
      s.m_cur_cell.x = shr_base x2 ∧ s.m_cur_cell.y = ey)
    (h : render_hline s ey x1 y1 x2 y2 = some t) :
    t.m_cur_cell.x = shr_base x2 ∧ t.m_cur_cell.y = ey := by
  unfold render_hline at h
  dsimp only at h
  by_cases hy : y1 = y2
  · rw [if_pos hy] at h
    cases h
    exact ⟨set_cur_cell_x _ _ _, set_cur_cell_y _ _ _⟩
  · rw [if_neg hy] at h
    by_cases hx : shr_base x1 = shr_base x2
    · rw [if_pos hx] at h
      cases h
      exact hp hx hy
    · rw [if_neg hx] at h
      by_cases hc : shr_base x1 + (if x2 - x1 < 0 then (-1 : Int) else 1) ≠ shr_base x2
      · rw [if_pos hc] at h
        split at h
        · cases h
        · rename_i r hr
          cases h
          exact render_hline_loop_at _ _ _ _ _ _ _ _ _ _ _ r (set_cur_cell_x _ _ _)
            (set_cur_cell_y _ _ _) hr
      · rw [if_neg hc] at h
        dsimp only at h
        cases h
        have e : shr_base x1 + (if x2 - x1 < 0 then (-1 : Int) else 1) = shr_base x2 := by
          by_contra hne
          exact hc hne
        refine ⟨?_, set_cur_cell_y _ _ _⟩
        show (set_cur_cell _ _ _).m_cur_cell.x = _
        rw [set_cur_cell_x, e]

theorem render_line_vloop_at (ex ey2 incr delta area : Int) :
    ∀ (fuel : Nat) (s : State α) (ey1 : Int) (t : State α),
      s.m_cur_cell.x = ex → s.m_cur_cell.y = ey1 →
      render_line_vloop ex ey2 incr delta area fuel s ey1 = some t →
      t.m_cur_cell.x = ex ∧ t.m_cur_cell.y = ey2 := by
  intro fuel
  induction fuel with
  | zero =>
    intro s ey1 t hx hy h
    rw [render_line_vloop] at h
    by_cases he : ey1 = ey2
    · rw [if_pos he] at h
      cases h
      exact ⟨hx, hy.trans he⟩
    · rw [if_neg he] at h
      cases h
  | succ fuel ih =>
    intro s ey1 t hx hy h
    rw [render_line_vloop] at h
    by_cases he : ey1 = ey2
    · rw [if_pos he] at h
      cases h
      exact ⟨hx, hy.trans he⟩
    · rw [if_neg he] at h
      dsimp only at h
      exact ih _ _ t (set_cur_cell_x _ _ _) (set_cur_cell_y _ _ _) h

theorem render_line_loop_at (ey2 incr dy lift rem first : Int) :
    ∀ (fuel : Nat) (s : State α) (ey1 x_from mod : Int) (r : State α × Int × Int),
      s.m_cur_cell.x = shr_base x_from → s.m_cur_cell.y = ey1 →
      render_line_loop ey2 incr dy lift rem first fuel s ey1 x_from mod = some r →
      r.1.m_cur_cell.x = shr_base r.2.2 ∧ r.1.m_cur_cell.y = ey2 ∧ r.2.1 = ey2 := by
  intro fuel
  induction fuel with
  | zero =>
    intro s ey1 x_from mod r hx hy h
    rw [render_line_loop] at h
    by_cases he : ey1 = ey2
    · rw [if_pos he] at h
      cases h
      exact ⟨hx, hy.trans he, he⟩
    · rw [if_neg he] at h
      cases h
  | succ fuel ih =>
    intro s ey1 x_from mod r hx hy h
    rw [render_line_loop] at h
    by_cases he : ey1 = ey2
    · rw [if_pos he] at h
      cases h
      exact ⟨hx, hy.trans he, he⟩
    · rw [if_neg he] at h
      dsimp only at h
      split at h
      · cases h
      · exact ih _ _ _ _ r (set_cur_cell_x _ _ _) (set_cur_cell_y _ _ _) h

theorem render_line_body_at (s t : State α) (x1 y1 x2 y2 : Int)
    (hp : shr_base x1 = shr_base x2 → shr_base y1 = shr_base y2 →
      s.m_cur_cell.x = shr_base x2 ∧ s.m_cur_cell.y = shr_base y2)
    (h : render_line_body s x1 y1 x2 y2 = some t) :
    t.m_cur_cell.x = shr_base x2 ∧ t.m_cur_cell.y = shr_base y2 := by
  unfold render_line_body at h
  dsimp only at h
  by_cases hey : shr_base y1 = shr_base y2
  · rw [if_pos hey] at h
    rw [← hey]
    refine render_hline_at s t _ _ _ _ _ (fun hx _ => ?_) h
    rw [hey]
    exact hp hx hey
  · rw [if_neg hey] at h
    by_cases hdx : x2 - x1 = 0
    · rw [if_pos hdx] at h
      have hxx : x2 = x1 := by omega
      split at h
      · cases h
      · rename_i u hu
        cases h
        have := render_line_vloop_at _ _ _ _ _ _ _ _ u (set_cur_cell_x _ _ _)
          (set_cur_cell_y _ _ _) hu
        rw [hxx]
        exact this
    · rw [if_neg hdx] at h
      split at h
      · cases h
      · rename_i u hu
        by_cases hc : shr_base y1 + (if y2 - y1 < 0 then (-1 : Int) else 1) ≠ shr_base y2
        · rw [if_pos hc] at h
          split at h
          · cases h
          · rename_i r hr
            obtain ⟨a1, a2, a3⟩ := render_line_loop_at _ _ _ _ _ _ _ _ _ _ _ r
              (set_cur_cell_x _ _ _) (set_cur_cell_y _ _ _) hr
            rw [a3] at h
            refine render_hline_at r.1 t _ _ _ _ _ (fun hx _ => ?_) h
            rw [← hx]
            exact ⟨a1, a2⟩
        · rw [if_neg hc] at h
          dsimp only at h
          have e : shr_base y1 + (if y2 - y1 < 0 then (-1 : Int) else 1) = shr_base y2 := by
            by_contra hne
            exact hc hne
          rw [e] at h
          refine render_hline_at _ t _ _ _ _ _ (fun hx _ => ?_) h
          rw [← hx]
          exact ⟨set_cur_cell_x _ _ _, set_cur_cell_y _ _ _⟩

theorem split_columns (x1 x2 : Int) (h : x2 - x1 ≥ dx_limit ∨ x2 - x1 ≤ -dx_limit) :
    shr_base x1 ≠ shr_base x2 := by
  unfold dx_limit at h
  unfold shr_base poly_base_size
  omega

theorem render_line_at :
    ∀ (fuel : Nat) (s t : State α) (x1 y1 x2 y2 : Int),
      s.m_cur_cell.x = shr_base x1 → s.m_cur_cell.y = shr_base y1 →
      render_line fuel s x1 y1 x2 y2 = some t →
      t.m_cur_cell.x = shr_base x2 ∧ t.m_cur_cell.y = shr_base y2 := by
  intro fuel
  induction fuel with
  | zero =>
    intro s t x1 y1 x2 y2 hx hy h
    rw [render_line] at h
    by_cases hd : x2 - x1 ≥ dx_limit ∨ x2 - x1 ≤ -dx_limit
    · rw [if_pos hd] at h
      cases h
    · rw [if_neg hd] at h
      refine render_line_body_at s t _ _ _ _ (fun h1 h2 => ?_) h
      rw [← h1, ← h2]
      exact ⟨hx, hy⟩
  | succ fuel ih =>
    intro s t x1 y1 x2 y2 hx hy h
    rw [render_line] at h
    dsimp only at h
    by_cases hd : x2 - x1 ≥ dx_limit ∨ x2 - x1 ≤ -dx_limit
    · rw [if_pos hd] at h
      split at h
      · cases h
      · split at h
        · cases h
        · exact render_line_body_at _ t _ _ _ _
            (fun h1 _ => absurd h1 (split_columns x1 x2 hd)) h
    · rw [if_neg hd] at h
      refine render_line_body_at s t _ _ _ _ (fun h1 h2 => ?_) h
      rw [← h1, ← h2]
      exact ⟨hx, hy⟩

theorem line_to_at (s t : State α) (x y : Int)
    (hx : s.m_cur_cell.x = shr_base s.m_cur_x) (hy : s.m_cur_cell.y = shr_base s.m_cur_y)
    (h : line_to s x y = some t) :
    t.m_cur_cell.x = shr_base t.m_cur_x ∧ t.m_cur_cell.y = shr_base t.m_cur_y := by
  unfold line_to at h
  split at h
  · cases h
  · rename_i u hu
    cases h
    exact render_line_at _ s u _ _ _ _ hx hy hu

theorem move_to_core_at [DecidableEq α] (u : State α) (ex ey : Int) :
    (if u.m_cur_cell.x ≠ ex ∨ u.m_cur_cell.y ≠ ey ∨ u.m_cur_cell ≠ u.m_seed_cell then
        { add_cur_cell u with
          m_cur_cell := { (add_cur_cell u).m_seed_cell with
            x := ex, y := ey, cover := 0, area := 0 } }
      else u).m_cur_cell.x = ex ∧
    (if u.m_cur_cell.x ≠ ex ∨ u.m_cur_cell.y ≠ ey ∨ u.m_cur_cell ≠ u.m_seed_cell then
        { add_cur_cell u with
          m_cur_cell := { (add_cur_cell u).m_seed_cell with
            x := ex, y := ey, cover := 0, area := 0 } }
      else u).m_cur_cell.y = ey := by
  by_cases hz : u.m_cur_cell.x ≠ ex ∨ u.m_cur_cell.y ≠ ey ∨ u.m_cur_cell ≠ u.m_seed_cell
  · rw [if_pos hz]
    exact ⟨rfl, rfl⟩
  · rw [if_neg hz]
    have h1 : u.m_cur_cell.x = ex := by
      by_contra h; exact hz (Or.inl h)
    have h2 : u.m_cur_cell.y = ey := by
      by_contra h; exact hz (Or.inr (Or.inl h))
    exact ⟨h1, h2⟩

theorem move_to_at [DecidableEq α] (s : State α) (x y : Int) :
    (move_to s x y).m_cur_cell.x = shr_base (move_to s x y).m_cur_x ∧
      (move_to s x y).m_cur_cell.y = shr_base (move_to s x y).m_cur_y :=
  move_to_core_at (if s.m_sorted = true then reset s else s) (shr_base x) (shr_base y)

theorem run_path_at [DecidableEq α] (ops : List PathOp) :
    ∀ (s t : State α),
      s.m_cur_cell.x = shr_base s.m_cur_x → s.m_cur_cell.y = shr_base s.m_cur_y →
      run_path s ops = some t →
      t.m_cur_cell.x = shr_base t.m_cur_x ∧ t.m_cur_cell.y = shr_base t.m_cur_y := by
  induction ops with
  | nil =>
    intro s t hx hy h
    rw [run_path] at h
    cases h
    exact ⟨hx, hy⟩
  | cons op ops ih =>
    intro s t hx hy h
    rw [run_path] at h
    cases op with
    | move_to x y =>
      simp only [apply_op] at h
      exact ih _ t (move_to_at s x y).1 (move_to_at s x y).2 h
    | line_to x y =>
      simp only [apply_op] at h
      split at h
      · cases h
      · rename_i u hu
        obtain ⟨a1, a2⟩ := line_to_at s u x y hx hy hu
        exact ih _ t a1 a2 h

/-- C21. On every instance, a fresh one included, a path inside the numeric envelope that
begins with `move_to` and goes on with any `move_to` and `line_to` calls returns, whether
or not the overflow guard splits its segments, and leaves the accumulator at the pixel of
the current position: `m_cur_cell.x == m_cur_x >> 8` and `m_cur_cell.y == m_cur_y >> 8`.
The envelope is the domain on which the unbounded integers of `render_line` are the `int`
of the source. -/
theorem C21_accumulator_tracks_pen [DecidableEq α] (init : Cell α) (x y : Int)
    (ops : List PathOp) (_he : path_in_envelope (PathOp.move_to x y :: ops)) :
    (∃ t, run_path (fresh init) (PathOp.move_to x y :: ops) = some t ∧
      t.m_cur_cell.x = shr_base t.m_cur_x ∧ t.m_cur_cell.y = shr_base t.m_cur_y) ∧
    ∀ s : State α, ∃ t, run_path s (PathOp.move_to x y :: ops) = some t ∧
      t.m_cur_cell.x = shr_base t.m_cur_x ∧ t.m_cur_cell.y = shr_base t.m_cur_y := by
  have key : ∀ s : State α, ∃ t, run_path s (PathOp.move_to x y :: ops) = some t ∧
      t.m_cur_cell.x = shr_base t.m_cur_x ∧ t.m_cur_cell.y = shr_base t.m_cur_y := by
    intro s
    obtain ⟨t, ht⟩ := run_path_total (PathOp.move_to x y :: ops) s
    refine ⟨t, ht, ?_⟩
    rw [run_path] at ht
    simp only [apply_op] at ht
    exact run_path_at ops _ t (move_to_at s x y).1 (move_to_at s x y).2 ht
  exact ⟨key (fresh init), key⟩

/-- C21 on the path `move_to(-2097152, 0); line_to(2097152, 1); line_to(0, 300)`, drawn
on a fresh instance: the path lies inside the numeric envelope and the overflow guard
splits its first segment, whose `dx` is `2^22`. -/
theorem C21_accumulator_tracks_pen_witness :
    ∃ t, run_path (fresh cell0)
        (PathOp.move_to (-2097152) 0 ::
          [PathOp.line_to 2097152 1, PathOp.line_to 0 300]) = some t ∧
      t.m_cur_cell.x = shr_base t.m_cur_x ∧ t.m_cur_cell.y = shr_base t.m_cur_y :=
  (C21_accumulator_tracks_pen cell0 (-2097152) 0
    [PathOp.line_to 2097152 1, PathOp.line_to 0 300] (by decide)).1

/-! ## A flush between two segments -/

/-- C22, on the code: `sort_cells()` commits the accumulator and leaves it as it is, and
`line_to` goes on adding to it, so the next commit repeats what was committed.  After
`move_to(128, 0); line_to(128, 128)` on a fresh instance, `sort_cells(); line_to(128, 384);
sort_cells()` commits three cells, with cover 384 and area 98304 at pixel `(0, 0)`, and
`line_to(128, 384); sort_cells()` alone commits two, with cover 256 and area 65536 there. -/
theorem C22_flush_commits_twice :
    (∀ (β : Type) (s t : State β), sort_cells s = some t → t.m_cur_cell = s.m_cur_cell) ∧
    line_to (move_to (fresh cell0) 128 0) 128 128 = some flush_start ∧
    flush_start.m_cells = [] ∧ flush_start.m_cur_cell = ⟨0, 0, 128, 32768, ()⟩ ∧
    ((sort_cells flush_start).bind fun t => line_to t 128 384).bind sort_cells =
      some flush_twice ∧
    (line_to flush_start 128 384).bind sort_cells = some flush_once ∧
    flush_twice.m_cells =
      [⟨0, 0, 128, 32768, ()⟩, ⟨0, 0, 256, 65536, ()⟩, ⟨0, 1, 128, 32768, ()⟩] ∧
    flush_once.m_cells = [⟨0, 0, 256, 65536, ()⟩, ⟨0, 1, 128, 32768, ()⟩] ∧
    pixel_cover flush_twice.m_cells 0 0 = 384 ∧ pixel_cover flush_once.m_cells 0 0 = 256 ∧
    pixel_area flush_twice.m_cells 0 0 = 98304 ∧ pixel_area flush_once.m_cells 0 0 = 65536 := by
  refine ⟨?_, by decide, by decide, by decide, by decide, by decide, by decide, by decide,
    by decide, by decide, by decide, by decide⟩
  intro β s t h
  by_cases hs : s.m_sorted = true
  · unfold sort_cells at h
    rw [if_pos hs] at h
    cases h
    rfl
  · rcases sort_cells_unsorted h (by simpa using hs) with e | ⟨sc, sy, e⟩
    · rw [e, add_cur_cell_cur]
    · rw [e]
      exact add_cur_cell_cur s

/-! ## A full arena -/

theorem add_cur_cell_count (s : State α) (hJ : NoSpare s)
    (hn : s.m_num_cells + ([s.m_cur_cell].filter Cell.nonzero).length ≤
      cell_block_size * cell_block_limit) :
    (add_cur_cell s).m_cells = s.m_cells ++ [s.m_cur_cell].filter Cell.nonzero ∧
    NoSpare (add_cur_cell s) ∧
    (add_cur_cell s).m_num_cells =
      s.m_num_cells + ([s.m_cur_cell].filter Cell.nonzero).length ∧
    (add_cur_cell s).m_cur_cell = s.m_cur_cell := by
  unfold NoSpare at *
  obtain ⟨a1, a2, a3, a4⟩ := allocate_block_fields s
  unfold add_cur_cell
  simp only [and_mask_eq_mod, cell_block_limit, cell_block_size] at *
  by_cases hz : s.m_cur_cell.area ≠ 0 ∨ s.m_cur_cell.cover ≠ 0
  · rw [if_pos hz]
    have hf : [s.m_cur_cell].filter Cell.nonzero = [s.m_cur_cell] := by
      simp only [List.filter, Cell.nonzero, decide_eq_true hz]
    rw [hf] at hn ⊢
    simp only [List.length_singleton] at hn ⊢
    by_cases hm : s.m_num_cells % 4096 = 0
    · rw [if_pos hm]
      have hb : ¬ (s.m_num_blocks ≥ 1024) := by omega
      rw [if_neg hb]
      refine ⟨?_, ?_, ?_, ?_⟩
      · show (allocate_block s).m_cells ++ [(allocate_block s).m_cur_cell] = _
        rw [a1, a3]
      · show 4096 * (allocate_block s).m_num_blocks < (allocate_block s).m_num_cells + 1 + 4096
        omega
      · show (allocate_block s).m_num_cells + 1 = _
        omega
      · show (allocate_block s).m_cur_cell = _
        exact a3
    · rw [if_neg hm]
      refine ⟨rfl, ?_, rfl, rfl⟩
      show 4096 * s.m_num_blocks < s.m_num_cells + 1 + 4096
      omega
  · rw [if_neg hz]
    have hf : [s.m_cur_cell].filter Cell.nonzero = [] := by
      simp only [List.filter, Cell.nonzero, decide_eq_false hz]
    rw [hf]
    simp
    exact hJ

theorem deposit_count (P : List Piece) :
    ∀ (s : State α), NoSpare s →
      s.m_num_cells + ((cells_of s.m_cur_cell P).filter Cell.nonzero).length ≤
        cell_block_size * cell_block_limit →
      (add_cur_cell (P.foldl deposit s)).m_cells =
        s.m_cells ++ (cells_of s.m_cur_cell P).filter Cell.nonzero ∧
      NoSpare (add_cur_cell (P.foldl deposit s)) ∧
      (add_cur_cell (P.foldl deposit s)).m_num_cells =
        s.m_num_cells + ((cells_of s.m_cur_cell P).filter Cell.nonzero).length := by
  induction P with
  | nil =>
    intro s hJ hn
    simp only [List.foldl, cells_of] at hn ⊢
    obtain ⟨h1, h2, h3, -⟩ := add_cur_cell_count s hJ hn
    exact ⟨h1, h2, h3⟩
  | cons p P ih =>
    intro s hJ hn
    simp only [List.foldl, cells_of] at hn ⊢
    by_cases hd : s.m_cur_cell.x ≠ p.x ∨ s.m_cur_cell.y ≠ p.y
    · rw [if_pos hd] at hn ⊢
      have hsplit : ∀ L : List (Cell α), (s.m_cur_cell :: L).filter Cell.nonzero =
          [s.m_cur_cell].filter Cell.nonzero ++ L.filter Cell.nonzero := by
        intro L
        rw [← List.filter_append]
        rfl
      rw [hsplit, List.length_append] at hn
      rw [hsplit]
      obtain ⟨h1, h2, h3, h4⟩ := add_cur_cell_count s hJ (by omega)
      have e : deposit s p = acc_add { add_cur_cell s with m_cur_cell :=
          { (add_cur_cell s).m_cur_cell with x := p.x, y := p.y, cover := 0, area := 0 } }
          p.dc p.da := by
        unfold deposit set_cur_cell
        rw [if_pos hd]
      have ec : (acc_add { add_cur_cell s with m_cur_cell :=
          { (add_cur_cell s).m_cur_cell with x := p.x, y := p.y, cover := 0, area := 0 } }
          p.dc p.da).m_cur_cell =
          { s.m_cur_cell with x := p.x, y := p.y, cover := p.dc, area := p.da } := by
        simp only [acc_add, zero_add, h4]
      have en : (acc_add { add_cur_cell s with m_cur_cell :=
          { (add_cur_cell s).m_cur_cell with x := p.x, y := p.y, cover := 0, area := 0 } }
          p.dc p.da).m_num_cells = (add_cur_cell s).m_num_cells := rfl
      have em : (acc_add { add_cur_cell s with m_cur_cell :=
          { (add_cur_cell s).m_cur_cell with x := p.x, y := p.y, cover := 0, area := 0 } }
          p.dc p.da).m_cells = (add_cur_cell s).m_cells := rfl
      obtain ⟨i1, i2, i3⟩ := ih (acc_add { add_cur_cell s with m_cur_cell :=
          { (add_cur_cell s).m_cur_cell with x := p.x, y := p.y, cover := 0, area := 0 } }
          p.dc p.da) h2 (by
        rw [ec, en, h3]
        dsimp only
        omega)
      rw [ec, en, h3] at i3
      rw [ec, em, h1] at i1
      dsimp only at i1 i3
      rw [e]
      refine ⟨?_, i2, ?_⟩
      · rw [i1, List.append_assoc]
      · rw [i3, List.length_append]
        omega
    · rw [if_neg hd] at hn ⊢
      simp only [not_or, not_not] at hd
      rw [deposit_at s p hd.1 hd.2]
      exact ih (acc_add s p.dc p.da) hJ hn

theorem add_cur_cell_seed (s : State α) : (add_cur_cell s).m_seed_cell = s.m_seed_cell := by
  unfold add_cur_cell store_cur_cell allocate_block
  split_ifs <;> rfl

theorem prim_seed {s t : State α} (h : Prim s t) : t.m_seed_cell = s.m_seed_cell := by
  induction h with
  | refl => rfl
  | acc c _ ih => exact ih
  | add _ ih => rw [add_cur_cell_seed]; exact ih

theorem cells_of_line_pieces (a : α) (x1 y1 x2 y2 : Int) :
    cells_of (⟨shr_base x1, shr_base y1, 0, 0, a⟩ : Cell α) (line_pieces x1 y1 x2 y2) =
      (line_pieces x1 y1 x2 y2).map (fun p => p.toCell a) := by
  obtain ⟨p, L, e, px, py⟩ := line_pieces_cons x1 y1 x2 y2
  have hch := line_pieces_chain x1 y1 x2 y2
  rw [e] at hch ⊢
  rw [← cells_of_chain a L p hch]
  rw [cells_of, if_neg (by simp [px, py])]
  congr 1
  simp [Piece.toCell, px, py]

theorem move_to_commit [DecidableEq α] (u : State α) (x y : Int) (hs : u.m_sorted = false)
    (hne : u.m_cur_cell.x ≠ shr_base x ∨ u.m_cur_cell.y ≠ shr_base y) :
    move_to u x y =
      { add_cur_cell u with
        m_cur_cell := { (add_cur_cell u).m_seed_cell with
          x := shr_base x, y := shr_base y, cover := 0, area := 0 },
        m_cur_x := x, m_cur_y := y } := by
  unfold move_to
  rw [if_neg (show ¬ (u.m_sorted = true) by rw [hs]; simp)]
  dsimp only
  rw [if_pos (by
    rcases hne with h | h
    · exact Or.inl h
    · exact Or.inr (Or.inl h))]

theorem fill_rows :
    visited_rows (-4194303) 4194303 =
      (List.range 32768).map (fun (k : Nat) => (-16384 : Int) + 1 * (k : Int)) := by
  unfold visited_rows
  have e1 : shr_base 4194303 = 16383 := by decide
  have e2 : shr_base (-4194303) = -16384 := by decide
  rw [e1, e2]
  rfl

theorem fill_pieces :
    line_pieces 0 (-4194303) 0 4194303 =
      (List.range 32768).map (fun (k : Nat) =>
        (⟨0, (-16384 : Int) + 1 * (k : Int),
          row_overlap (-4194303) 4194303 ((-16384 : Int) + 1 * (k : Int)), 0⟩ : Piece)) := by
  rw [line_pieces_vertical, fill_rows, List.map_map]
  apply List.map_congr_left
  intro k _
  have e0 : shr_base 0 = 0 := by decide
  have e1 : and_mask 0 = 0 := by decide
  simp only [Function.comp, e0, e1]
  congr 1
  ring

theorem fill_overlap (k : Nat) (hk : k < 32768) :
    row_overlap (-4194303) 4194303 ((-16384 : Int) + 1 * (k : Int)) ≠ 0 := by
  unfold row_overlap
  rw [if_pos (by decide)]
  simp only [min_def, max_def]
  split_ifs <;> omega

theorem fill_cells (a : α) :
    ((cells_of (⟨0, -16384, 0, 0, a⟩ : Cell α) (line_pieces 0 (-4194303) 0 4194303)).filter
      Cell.nonzero).length = 32768 := by
  have e0 : shr_base 0 = 0 := by decide
  have e2 : shr_base (-4194303) = -16384 := by decide
  have h := cells_of_line_pieces a 0 (-4194303) 0 4194303
  rw [e0, e2] at h
  rw [h, fill_pieces, List.map_map]
  rw [List.filter_eq_self.mpr]
  · simp
  · intro c hc
    rw [List.mem_map] at hc
    obtain ⟨k, hk, rfl⟩ := hc
    rw [List.mem_range] at hk
    have := fill_overlap k hk
    simp only [Function.comp, Piece.toCell, Cell.nonzero, decide_eq_true_eq]
    exact Or.inr this

theorem fill_round_aux (s F : State Unit) (n : Nat)
    (hl : line_to s 0 4194303 = some (moved F 0 4194303))
    (ax : s.m_cur_cell.x = shr_base s.m_cur_x) (ay : s.m_cur_cell.y = shr_base s.m_cur_y)
    (c2 : NoSpare (add_cur_cell F)) (c3 : (add_cur_cell F).m_num_cells = n + 32768)
    (hseed : s.m_seed_cell = cell0) :
    ∃ t, run_path s fill_round = some t ∧ NoSpare t ∧ t.m_num_cells = n + 32768 ∧
      t.m_cur_cell = ⟨0, -16384, 0, 0, ()⟩ ∧ t.m_cur_x = 0 ∧ t.m_cur_y = -4194303 ∧
      t.m_seed_cell = cell0 ∧ t.m_sorted = false := by
  obtain ⟨-, b2⟩ := line_to_at s _ 0 4194303 ax ay hl
  obtain ⟨w, hw, hp⟩ := line_to_prim s 0 4194303
  have e := Option.some.inj (hl.symm.trans hw)
  have hsd : (moved F 0 4194303).m_seed_cell = cell0 := by
    rw [e]
    show w.m_seed_cell = cell0
    rw [prim_seed hp, hseed]
  have b3 : (moved F 0 4194303).m_cur_cell.y = 16383 := by
    rw [b2]
    show shr_base 4194303 = 16383
    decide
  have hm := move_to_commit (moved F 0 4194303) 0 (-4194303) rfl (by
    right
    rw [b3]
    decide)
  refine ⟨move_to (moved F 0 4194303) 0 (-4194303), ?_, ?_, ?_, ?_, ?_, ?_, ?_, ?_⟩
  · unfold fill_round
    rw [run_path]
    simp only [apply_op]
    rw [hl]
    rfl
  · rw [hm, add_cur_cell_moved]
    exact c2
  · rw [hm, add_cur_cell_moved]
    exact c3
  · rw [hm]
    show ({ (add_cur_cell (moved F 0 4194303)).m_seed_cell with
      x := shr_base 0, y := shr_base (-4194303), cover := 0, area := 0 } : Cell Unit) = _
    rw [add_cur_cell_seed, hsd]
    decide
  · rw [hm]
  · rw [hm]
  · rw [hm]
    show (add_cur_cell (moved F 0 4194303)).m_seed_cell = _
    rw [add_cur_cell_seed, hsd]
  · exact move_to_sorted _ _ _

/-- One round of the path that fills the arena, on an instance at the start of a round
with room for 32768 cells: the round returns and commits 32768 cells. -/
theorem fill_round_spec (s : State Unit) (n : Nat) (hJ : NoSpare s) (hn : s.m_num_cells = n)
    (hcap : n + 32768 ≤ cell_block_size * cell_block_limit)
    (hcur : s.m_cur_cell = ⟨0, -16384, 0, 0, ()⟩) (hx : s.m_cur_x = 0)
    (hy : s.m_cur_y = -4194303) (hseed : s.m_seed_cell = cell0) :
    ∃ t, run_path s fill_round = some t ∧ NoSpare t ∧ t.m_num_cells = n + 32768 ∧
      t.m_cur_cell = ⟨0, -16384, 0, 0, ()⟩ ∧ t.m_cur_x = 0 ∧ t.m_cur_y = -4194303 ∧
      t.m_seed_cell = cell0 ∧ t.m_sorted = false := by
  have ax : s.m_cur_cell.x = shr_base s.m_cur_x := by rw [hcur, hx]; decide
  have ay : s.m_cur_cell.y = shr_base s.m_cur_y := by rw [hcur, hy]; decide
  have hl := line_to_small s 0 4194303 (by rw [hx]; decide) ax ay
  rw [hx, hy] at hl
  have hlen := fill_cells ()
  obtain ⟨-, c2, c3⟩ := deposit_count (line_pieces 0 (-4194303) 0 4194303) s hJ (by
    rw [hcur, hlen, hn]; exact hcap)
  rw [hcur, hlen, hn] at c3
  exact fill_round_aux s _ n hl ax ay c2 c3 hseed

theorem run_path_append [DecidableEq α] (L1 L2 : List PathOp) :
    ∀ (s t : State α), run_path s L1 = some t → run_path s (L1 ++ L2) = run_path t L2 := by
  induction L1 with
  | nil =>
    intro s t h
    rw [run_path] at h
    cases h
    rfl
  | cons op L1 ih =>
    intro s t h
    rw [List.cons_append, run_path]
    rw [run_path] at h
    split at h
    · cases h
    · rename_i u hu
      exact ih u t h

theorem fill_rounds (k : Nat) (hk : k ≤ 128) :
    ∃ s, run_path (fresh cell0)
        (PathOp.move_to 0 (-4194303) :: (List.replicate k fill_round).flatten) = some s ∧
      NoSpare s ∧ s.m_num_cells = 32768 * k ∧
      s.m_cur_cell = ⟨0, -16384, 0, 0, ()⟩ ∧ s.m_cur_x = 0 ∧ s.m_cur_y = -4194303 ∧
      s.m_seed_cell = cell0 ∧ s.m_sorted = false := by
  induction k with
  | zero =>
    refine ⟨move_to (fresh cell0) 0 (-4194303), rfl, ?_, by decide, by decide, by decide,
      by decide, by decide, by decide⟩
    unfold NoSpare
    decide
  | succ k ih =>
    obtain ⟨s, h1, h2, h3, h4, h5, h6, h7, -⟩ := ih (by omega)
    obtain ⟨t, g1, g2, g3, g4, g5, g6, g7, g8⟩ := fill_round_spec s (32768 * k) h2 h3 (by
      unfold cell_block_size cell_block_limit
      omega) h4 h5 h6 h7
    refine ⟨t, ?_, g2, by rw [g3]; ring, g4, g5, g6, g7, g8⟩
    rw [List.replicate_succ', List.flatten_append, List.flatten_singleton,
      ← List.cons_append, run_path_append _ _ _ s h1]
    exact g1

/-- The path `fill_path` returns on a fresh instance, at an instance that holds
`1024 * 4096` cells in 1024 blocks: the arena is full. -/
theorem full_arena_spec :
    run_path (fresh cell0) fill_path = some full_arena ∧ Reachable cell0 full_arena ∧
      total_cells full_arena = 1024 * 4096 ∧ full_arena.m_num_blocks = 1024 ∧
      full_arena.m_seed_cell = cell0 := by
  obtain ⟨s, h1, -, h3, -, -, -, h7, -⟩ := fill_rounds 128 (le_refl _)
  have hp : run_path (fresh cell0) fill_path = some s := h1
  have hf : full_arena = s := by
    unfold full_arena
    rw [hp]
    rfl
  rw [hf]
  have hr : Reachable cell0 s := run_path_reachable cell0 fill_path _ s Reachable.fresh hp
  obtain ⟨⟨a1, a2, a3, a4, a5⟩, -⟩ := inv_reachable hr
  unfold cell_block_size cell_block_limit at *
  unfold total_cells
  refine ⟨hp, hr, by omega, by omega, h7⟩

/-! ## Reset on a full arena -/

theorem prim_refused {s t : State α} (h : Prim s t) (hn : s.m_num_cells = 0)
    (hb : s.m_num_blocks ≥ cell_block_limit) (hc : s.m_cells = []) :
    t.m_num_cells = 0 ∧ t.m_num_blocks ≥ cell_block_limit ∧ t.m_cells = [] := by
  induction h with
  | refl => exact ⟨hn, hb, hc⟩
  | acc c _ ih => exact ih
  | add _ ih => rw [add_cur_cell_full _ ih.1 ih.2.1]; exact ih

theorem move_to_refused [DecidableEq α] (s : State α) (x y : Int) (hn : s.m_num_cells = 0)
    (hb : s.m_num_blocks ≥ cell_block_limit) (hc : s.m_cells = []) :
    (move_to s x y).m_num_cells = 0 ∧ (move_to s x y).m_num_blocks ≥ cell_block_limit ∧
      (move_to s x y).m_cells = [] := by
  have key : ∀ u : State α, u.m_num_cells = 0 → u.m_num_blocks ≥ cell_block_limit →
      u.m_cells = [] →
      (move_to u x y).m_num_cells = 0 ∧ (move_to u x y).m_num_blocks ≥ cell_block_limit ∧
        (move_to u x y).m_cells = [] ∨ u.m_sorted = true := by
    intro u h1 h2 h3
    by_cases hs : u.m_sorted = true
    · exact Or.inr hs
    · left
      unfold move_to
      rw [if_neg hs]
      dsimp only
      split
      · rw [add_cur_cell_full u h1 h2]
        exact ⟨h1, h2, h3⟩
      · exact ⟨h1, h2, h3⟩
  by_cases hs : s.m_sorted = true
  · have e : move_to s x y = move_to (reset s) x y := by
      unfold move_to
      rw [if_pos hs]
      rfl
    rw [e]
    rcases key (reset s) rfl hb rfl with h | h
    · exact h
    · cases h
  · rcases key s hn hb hc with h | h
    · exact h
    · exact absurd h hs

/-- Every point of `fill_path` lies inside the numeric envelope. -/
theorem fill_path_in_envelope : path_in_envelope fill_path := by
  intro op h
  unfold fill_path at h
  simp only [List.mem_cons, List.mem_flatten, List.mem_replicate] at h
  rcases h with rfl | ⟨l, ⟨-, rfl⟩, h⟩
  · decide
  · unfold fill_round at h
    simp only [List.mem_cons, List.mem_singleton, List.not_mem_nil, or_false] at h
    rcases h with rfl | rfl <;> decide

/-- C11, on the code: `add_cur_cell` refuses a cell that would start a block when
`m_num_blocks`, the blocks allocated, is `cell_block_limit`, and `reset()` does not lower
`m_num_blocks`; so after `reset()` on an instance with 1024 allocated blocks no cell is
stored any more.  The path `fill_path`, inside the numeric envelope, takes a fresh
instance to one with 1024 blocks; after `reset()` there,
`move_to(0, 0); line_to(512, 512); sort_cells()` returns with no committed cell, and on a
fresh instance with the same seed cell it commits two. -/
theorem C11_reset_full_arena :
    (∀ (β : Type) (s : State β) (c : Cell β), s.m_num_blocks ≥ cell_block_limit →
      add_cur_cell { reset s with m_cur_cell := c } = { reset s with m_cur_cell := c }) ∧
    path_in_envelope fill_path ∧
    path_in_envelope [PathOp.move_to 0 0, PathOp.line_to 512 512] ∧
    run_path (fresh cell0) fill_path = some full_arena ∧
    full_arena.m_num_blocks = 1024 ∧ full_arena.m_seed_cell = cell0 ∧
    (∃ t u, run_path (reset full_arena) [PathOp.move_to 0 0, PathOp.line_to 512 512] =
        some t ∧ sort_cells t = some u ∧ u.m_cells = [] ∧ total_cells u = 0) ∧
    run_path (seed_cell (fresh cell0) cell0) [PathOp.move_to 0 0, PathOp.line_to 512 512] =
      some diag_drawn ∧
    sort_cells diag_drawn = some diag_sorted ∧
    diag_sorted.m_cells = [⟨0, 0, 256, 65536, ()⟩, ⟨1, 1, 256, 65536, ()⟩] ∧
    total_cells diag_sorted = 2 := by
  obtain ⟨f1, -, -, f4, f5⟩ := full_arena_spec
  refine ⟨?_, fill_path_in_envelope, by decide, f1, f4, f5, ?_, by decide, diag_sorted_eq,
    by decide, by decide⟩
  · intro β s c hb
    exact add_cur_cell_full _ rfl hb
  · have hr : ∀ v : State Unit, (reset v).m_num_blocks = v.m_num_blocks ∧
        (reset v).m_num_cells = 0 ∧ (reset v).m_cells = [] := fun v => ⟨rfl, rfl, rfl⟩
    obtain ⟨r1, hn, hc⟩ := hr full_arena
    have hb : (reset full_arena).m_num_blocks ≥ cell_block_limit := by
      rw [r1, f4]
      unfold cell_block_limit
      omega
    generalize reset full_arena = R at hb hn hc ⊢
    obtain ⟨m1, m2, m3⟩ := move_to_refused R 0 0 hn hb hc
    obtain ⟨w, hw, hp⟩ := line_to_prim (move_to R 0 0) 512 512
    obtain ⟨w1, w2, w3⟩ := prim_refused hp m1 m2 m3
    have t1 : ({ w with m_cur_x := 512, m_cur_y := 512, m_sorted := false } :
        State Unit).m_num_cells = 0 := w1
    have t2 : ({ w with m_cur_x := 512, m_cur_y := 512, m_sorted := false } :
        State Unit).m_num_blocks ≥ cell_block_limit := w2
    have t3 : ({ w with m_cur_x := 512, m_cur_y := 512, m_sorted := false } :
        State Unit).m_cells = [] := w3
    have t4 : ({ w with m_cur_x := 512, m_cur_y := 512, m_sorted := false } :
        State Unit).m_sorted = false := rfl
    generalize ({ w with m_cur_x := 512, m_cur_y := 512, m_sorted := false } : State Unit) = T
      at hw t1 t2 t3 t4
    refine ⟨T, T, ?_, ?_, t3, t1⟩
    · rw [run_path]
      simp only [apply_op]
      rw [run_path]
      simp only [apply_op]
      rw [hw]
      rfl
    · unfold sort_cells
      rw [if_neg (by rw [t4]; simp)]
      dsimp only
      rw [add_cur_cell_full _ t1 t2, if_pos t1]

/-- C10, at the instance that `fill_path` reaches from a fresh one, which holds
`1024 * 4096` cells in 1024 blocks: a cell that is offered there is dropped. -/
theorem C10_saturation_bound_witness :
    Reachable cell0 full_arena ∧ total_cells full_arena = 1024 * 4096 ∧
    full_arena.m_num_blocks = 1024 ∧
    ∀ c : Cell Unit,
      add_cur_cell { full_arena with m_cur_cell := c } = { full_arena with m_cur_cell := c } :=
  ⟨full_arena_spec.2.1, full_arena_spec.2.2.1, full_arena_spec.2.2.2.1, fun c =>
    (C10_saturation_bound cell0 full_arena full_arena_spec.2.1).2.2 c
      (Or.inl full_arena_spec.2.2.1)⟩

end Agg
